import Mathlib

/-!
Baza: a shallow embedding of the SQL front end, the columnar store and the interpreter

The C sources are embedded function by function, each definition keeping the
name of the C function it follows.

Conventions of the embedding

* A C string is the list of its bytes before the terminating NUL (`CStr`);
  every byte is a natural number in `1 .. 255`.
* Heap allocation is assumed to succeed (`malloc`, `realloc`, `strdup` never
  return NULL), and counters of type `size_t` / `uint64_t` that only count rows,
  columns or tables are natural numbers.
* Behaviour the C standard leaves undefined, and the two ways in which the
  program stops without returning, are explicit results of type `Fault`.
* Two properties of the C implementation that the program depends on are
  parameters (`CEnv`): whether `strtoll` reports `EINVAL` when it converts
  nothing, and whether plain `char` is signed.  Integers are stored in
  little-endian order, which is what lets `filter_func_*` read the low half
  of a 64-bit needle through an `int32_t` pointer.
-/

set_option autoImplicit false

namespace Baza

/-! ## Basic C-level notions -/

/-- The bytes of a C string, without the terminating NUL. -/
abbrev CStr := List Nat

/-- The bytes of an ASCII string literal. -/
def cstr (s : String) : CStr := s.toList.map Char.toNat

/-- Implementation-defined behaviour the program is sensitive to. -/
structure CEnv where
  /-- `strtoll` sets `errno` to `EINVAL` when no conversion is performed
      (POSIX allows it, glibc does not do it, musl does). -/
  strtoll_einval : Bool
  /-- Plain `char` is a signed type (x86) rather than an unsigned one (ARM). -/
  char_signed : Bool
deriving DecidableEq, Repr

/-- The ways in which a run ends without a return value. -/
inductive Fault
  /-- A NULL pointer is dereferenced. -/
  | null_deref
  /-- Memory outside the addressed object is read or written. -/
  | out_of_bounds
  /-- A slot that was never written is used as a value. -/
  | uninit_read
  /-- A call through an entry of `filter_func_table` that holds no function. -/
  | bad_call
  /-- The macro `FATAL` ran: a message on stderr, then `exit(1)`. -/
  | fatal_exit
  /-- A loop repeats with an unchanged state. -/
  | hang
deriving DecidableEq, Repr

deriving instance DecidableEq for Except

/-- Result codes of `util/result.h`. -/
inductive BazaResult
  | RESULT_OK
  | RESULT_ERR
  | RESULT_ALLOC
  | RESULT_ERR_SQL_PARSE
  | RESULT_INDEX_OUT_OF_BOUNDS
  | RESULT_COLUMN_NOT_FOUND
  | RESULT_TABLE_NOT_EMPTY
  | RESULT_TABLE_NOT_FOUND
  | RESULT_DUPLICATE_COLUMN_NAME
  | RESULT_INVALID_QUERY
  | RESULT_FILE_NOT_FOUND
  | RESULT_IO_ERROR
  | RESULT_INVALID_CSV
  | RESULT_VALUE_TYPE
  | RESULT_FILTER_VALUE_TYPE
  | RESULT_SERVER_ERROR
deriving DecidableEq, Repr

open BazaResult

/-! ## util/str.c -/

/-- The function `tolower` of the C locale. -/
def tolower (c : Nat) : Nat := if 65 ≤ c ∧ c ≤ 90 then c + 32 else c

/-- The function `isspace` of the C locale. -/
def isspace (c : Nat) : Bool := c = 32 || (9 ≤ c && c ≤ 13)

/-- The function `isdigit`. -/
def isdigit (c : Nat) : Bool := 48 ≤ c && c ≤ 57

/-- Case-insensitive comparison `str_ieq`. -/
def str_ieq : CStr → CStr → Bool
  | [], [] => true
  | a :: s1, b :: s2 => if tolower a ≠ tolower b then false else str_ieq s1 s2
  | _, _ => false

/-- Membership test `str_contains`. -/
def str_contains : CStr → Nat → Bool
  | [], _ => false
  | x :: str, c => if x = c then true else str_contains str c

/-- The libc function `strcmp`: the sign of the first difference, bytes compared as `unsigned char`. -/
def strcmp : CStr → CStr → Int
  | [], [] => 0
  | [], _ :: _ => -1
  | _ :: _, [] => 1
  | a :: s1, b :: s2 => if a = b then strcmp s1 s2 else (a : Int) - (b : Int)

/-- Glyph counter `str_count_utf8_glyphs`.  A lead byte of a multi-byte sequence
    makes the cursor jump 2, 3 or 4 bytes without looking at the bytes jumped over.  The
    loop has no bounds check: when the jump passes the terminating NUL it goes on with the
    memory behind the string, which the string does not determine (the count returned, if
    any, depends on what lies there); that read is the result `out_of_bounds`.  A byte that
    matches none of the four tests leaves the cursor where it is, so the loop never ends. -/
def str_count_utf8_glyphs : CStr → Except Fault Nat
  | [] => pure 0
  | b :: rest =>
    if b ≤ 0x7F then
      (· + 1) <$> str_count_utf8_glyphs rest
    else if b &&& 0xE0 = 0xC0 then
      match rest with
      | _ :: r => (· + 1) <$> str_count_utf8_glyphs r
      | [] => throw Fault.out_of_bounds
    else if b &&& 0xF0 = 0xE0 then
      match rest with
      | _ :: _ :: r => (· + 1) <$> str_count_utf8_glyphs r
      | _ => throw Fault.out_of_bounds
    else if b &&& 0xF8 = 0xF0 then
      match rest with
      | _ :: _ :: _ :: r => (· + 1) <$> str_count_utf8_glyphs r
      | _ => throw Fault.out_of_bounds
    else
      throw Fault.hang

def LLONG_MAX : Int := 2 ^ 63 - 1

def LLONG_MIN : Int := -(2 ^ 63)

/-- Value of the longest run of decimal digits at the head of a string. -/
def strtoll_digits : CStr → Nat → Nat
  | [], acc => acc
  | c :: rest, acc => if isdigit c then strtoll_digits rest (acc * 10 + (c - 48)) else acc

/-- The libc function `strtoll(str, NULL, 10)`: leading white space, an optional
    sign, then the longest run of decimal digits; what follows is ignored.  The
    value saturates at `LLONG_MIN` / `LLONG_MAX` (with `ERANGE`, which the caller
    does not look at).  The second component says that no conversion was performed. -/
def strtoll (str : CStr) : Int × Bool :=
  let s1 := str.dropWhile isspace
  let signed : Bool × CStr :=
    match s1 with
    | 45 :: r => (true, r)
    | 43 :: r => (false, r)
    | _ => (false, s1)
  match signed.2 with
  | [] => (0, true)
  | c :: _ =>
    if isdigit c then
      let m : Int := (strtoll_digits signed.2 0 : Nat)
      (if signed.1 then max (-m) LLONG_MIN else min m LLONG_MAX, false)
    else (0, true)

structure IntConvResult where
  result : BazaResult
  value : Nat
deriving DecidableEq, Repr

/-- Conversion `str_to_int`: the only failure is `errno == EINVAL`; the value is the
    `long long` result converted to `uint64_t`. -/
def str_to_int (env : CEnv) (str : CStr) : IntConvResult :=
  let conv := strtoll str
  if env.strtoll_einval && conv.2 then
    { result := RESULT_ERR, value := 0 }
  else
    { result := RESULT_OK, value := (conv.1 % 2 ^ 64).toNat }

/-- A `StrList`: the strings of its nodes in order.  The list `[]` is the single
    node whose `str` is NULL (what `strlist_empty` returns); a NULL `StrList *` is
    `none` where a pointer can be NULL. -/
abbrev StrList := List CStr

def strlist_empty : StrList := []

def strlist_new (str : CStr) : StrList := [str]

def strlist_push (list : StrList) (value : CStr) : StrList := list ++ [value]

/-- Merge `strlist_merge`: an empty operand is freed and the other one returned. -/
def strlist_merge (l1 l2 : StrList) : StrList :=
  if l1 = [] then l2
  else if l2 = [] then l1
  else l1 ++ l2

/-- Search `strlist_contains`: the loop reads `list->str` of every node, so the node of an
    empty list (whose `str` is NULL) is handed to `strcmp`. -/
def strlist_contains (list : StrList) (str : CStr) : Except Fault Bool :=
  match list with
  | [] => throw Fault.null_deref
  | _ => pure (list.any (fun s => strcmp s str = 0))

/-- The tokens `strtok` cuts out of a string: the maximal runs of bytes that are not delimiters.
    The second argument is the token being read. -/
def strtok_all (delim : CStr) : CStr → CStr → List CStr
  | [], tok => if tok = [] then [] else [tok]
  | c :: rest, tok =>
    if str_contains delim c then
      if tok = [] then strtok_all delim rest [] else tok :: strtok_all delim rest []
    else strtok_all delim rest (tok ++ [c])

/-- Splitter `strlist_from_split`. -/
def strlist_from_split (string delim : CStr) : StrList :=
  strtok_all delim string []

/-- Where `strlist_from_split_quoted` is inside its loop. -/
inductive SplitMode
  /-- At the top of the outer loop. -/
  | scan
  /-- In the inner loop that looks for the closing quote. -/
  | quoted
  /-- In the inner loop that steps over a run of delimiters. -/
  | skip
deriving DecidableEq, Repr

/-- The block `if (start != end) { ... strlist_push(list, start); }`: the bytes between
    `start` and `end` are pushed, without their first and last byte when both are `"`. -/
def split_push (tok : CStr) (list : StrList) : StrList :=
  if tok = [] then list
  else if tok.head? = some 34 ∧ tok.getLast? = some 34 then
    strlist_push list (tok.drop 1).dropLast
  else strlist_push list tok

/-- The loop of `strlist_from_split_quoted`, one byte at `end` per step; `tok` is the
    text between `start` and `end`. -/
def split_quoted_loop (delim : CStr) : SplitMode → CStr → CStr → StrList → StrList
  | _, [], tok, list => split_push tok list
  | SplitMode.scan, c :: rest, tok, list =>
    if c = 34 then split_quoted_loop delim SplitMode.quoted rest (tok ++ [c]) list
    else if str_contains delim c then
      split_quoted_loop delim SplitMode.skip rest [] (split_push tok list)
    else split_quoted_loop delim SplitMode.scan rest (tok ++ [c]) list
  | SplitMode.quoted, c :: rest, tok, list =>
    if c ≠ 34 then split_quoted_loop delim SplitMode.quoted rest (tok ++ [c]) list
    else if str_contains delim c then
      split_quoted_loop delim SplitMode.skip rest [] (split_push tok list)
    else split_quoted_loop delim SplitMode.scan rest (tok ++ [c]) list
  | SplitMode.skip, c :: rest, tok, list =>
    if str_contains delim c then split_quoted_loop delim SplitMode.skip rest tok list
    else if c = 34 then split_quoted_loop delim SplitMode.quoted rest (tok ++ [c]) list
    else split_quoted_loop delim SplitMode.scan rest (tok ++ [c]) list

/-- Splitter `strlist_from_split_quoted`. -/
def strlist_from_split_quoted (string delim : CStr) : StrList :=
  split_quoted_loop delim SplitMode.scan string [] strlist_empty

/-! ## util/intlist.c -/

/-- An `IntList`: the `value` fields of its nodes in order.  The empty list is one
    node holding `INTLIST_NULL`. -/
abbrev IntList := List Int

def INTLIST_NULL : Int := -1

def intlist_empty : IntList := [INTLIST_NULL]

/-- Append `intlist_push`: a root holding `INTLIST_NULL` is overwritten. -/
def intlist_push : IntList → Int → IntList
  | [], value => [value]
  | v :: rest, value => if v = INTLIST_NULL then value :: rest else v :: (rest ++ [value])

/-- Search `intlist_contains`: the walk stops at the first node holding `INTLIST_NULL`. -/
def intlist_contains : IntList → Int → Bool
  | [], _ => false
  | v :: rest, value =>
    if v = INTLIST_NULL then false
    else if v = value then true
    else intlist_contains rest value

/-- The values a loop `while (l && l->value != INTLIST_NULL)` visits. -/
def intlist_values : IntList → List Int
  | [] => []
  | v :: rest => if v = INTLIST_NULL then [] else v :: intlist_values rest

/-- One loop of `intlist_union`: push the values of a list that `new` does not yet hold. -/
def intlist_union_loop : IntList → IntList → IntList
  | new, [] => new
  | new, v :: rest =>
    if v = INTLIST_NULL then new
    else intlist_union_loop (if intlist_contains new v then new else intlist_push new v) rest

/-- Union `intlist_union`; `same_object` says that both arguments are the same pointer. -/
def intlist_union (same_object : Bool) (left right : IntList) : Option IntList :=
  if same_object then none
  else some (intlist_union_loop (intlist_union_loop intlist_empty left) right)

/-- The loop of `intlist_intersection`. -/
def intlist_intersection_loop (right : IntList) : IntList → IntList → IntList
  | new, [] => new
  | new, v :: rest =>
    if v = INTLIST_NULL then new
    else intlist_intersection_loop right
      (if intlist_contains right v && !intlist_contains new v then intlist_push new v else new) rest

/-- Intersection `intlist_intersection`; `same_object` says that both arguments are the same pointer. -/
def intlist_intersection (same_object : Bool) (left right : IntList) : Option IntList :=
  if same_object then none
  else some (intlist_intersection_loop right intlist_empty left)

/-! ## storage.h, storage_internal.c, storage.c -/

inductive BaseType
  | BTYPE_INVALID
  | BTYPE_STRING
  | BTYPE_INT32
  | BTYPE_INT64
deriving DecidableEq, Repr

open BaseType

structure TableMeta where
  id : Nat
  name : CStr
  row_count : Nat
deriving DecidableEq, Repr

structure ColumnMeta where
  id : Nat
  name : CStr
  type : BaseType
deriving DecidableEq, Repr

/-- One slot of a column buffer: the bit pattern of a `uint32_t` / `uint64_t`, an owned
    `char *`, or memory that `malloc` / `realloc` handed out and nobody wrote. -/
inductive Slot
  | bits (v : Nat)
  | ptr (s : CStr)
  | uninit
deriving DecidableEq, Repr

/-- A column: its metadata and its buffer (`[]` while `data` is NULL). -/
structure Column where
  meta : ColumnMeta
  data : List Slot
deriving DecidableEq, Repr

/-- A table: metadata, capacity and the linked list of columns. -/
structure Table where
  meta : TableMeta
  row_capacity : Nat
  columns : List Column
deriving DecidableEq, Repr

/-- The global object `DB` with the two static id counters. -/
structure DataBase where
  tables : List Table
  TABLE_ID : Nat
  COLUMN_ID : Nat
deriving DecidableEq, Repr

def BAZA_DEFAULT_ROW_CAPACITY : Nat := 64

/-- The value a `uint32_t` / 32-bit pattern has when read as `int32_t`. -/
def as_int32 (v : Nat) : Int :=
  if v % 2 ^ 32 < 2 ^ 31 then ((v % 2 ^ 32 : Nat) : Int) else ((v % 2 ^ 32 : Nat) : Int) - 2 ^ 32

/-- The value a `uint64_t` has when read as `int64_t`. -/
def as_int64 (v : Nat) : Int :=
  if v % 2 ^ 64 < 2 ^ 63 then ((v % 2 ^ 64 : Nat) : Int) else ((v % 2 ^ 64 : Nat) : Int) - 2 ^ 64

/-- Decimal digits of a natural number, as printed by `printf`. -/
def nat_to_dec (n : Nat) : CStr := (Nat.toDigits 10 n).map Char.toNat

/-- Decimal form of a signed integer, as printed by `%d` and `%ld`. -/
def int_to_dec (i : Int) : CStr :=
  if i < 0 then 45 :: nat_to_dec i.natAbs else nat_to_dec i.natAbs

def BT_BUFF_SIZE : Nat := 256

/-- Display string `basetype_value_to_str`: `snprintf` into a buffer of `BT_BUFF_SIZE` bytes, so
    at most 255 bytes of a string survive; integers are printed as signed. -/
def basetype_value_to_str (type : BaseType) (data : Except Fault Slot) : Except Fault CStr :=
  match type with
  | BTYPE_INVALID => pure (cstr "INVALID")
  | BTYPE_STRING => do
    match (← data) with
    | Slot.ptr s => pure (s.take (BT_BUFF_SIZE - 1))
    | _ => throw Fault.uninit_read
  | BTYPE_INT32 => do
    match (← data) with
    | Slot.bits v => pure (int_to_dec (as_int32 v))
    | _ => throw Fault.uninit_read
  | BTYPE_INT64 => do
    match (← data) with
    | Slot.bits v => pure (int_to_dec (as_int64 v))
    | _ => throw Fault.uninit_read

/-- Type names `basetype_from_str`. -/
def basetype_from_str (type : CStr) : BaseType :=
  if str_ieq type (cstr "int32") then BTYPE_INT32
  else if str_ieq type (cstr "int64") then BTYPE_INT64
  else if str_ieq type (cstr "string") then BTYPE_STRING
  else BTYPE_INVALID

/-- Constructor `icolumn_new`: the column takes the current value of the static counter
    `COLUMN_ID` (which the caller then increments) and has no buffer yet. -/
def icolumn_new (COLUMN_ID : Nat) (name : CStr) (type : BaseType) : Column :=
  { meta := { id := COLUMN_ID, name := name, type := type }, data := [] }

/-- Buffer growth `icolumn_realloc_data`: the buffer gets `capacity` slots, the old contents
    are kept and the new slots are unwritten. -/
def icolumn_realloc_data (column : Column) (capacity : Nat) : Column :=
  { column with data := (column.data ++ List.replicate capacity Slot.uninit).take capacity }

/-- The slot behind the pointer `icolumn_row_get(column, index)`, that is, what a read through
    that pointer yields; the pointer is NULL for a column of type `BTYPE_INVALID`.  Functions
    that receive the pointer take this result and bind it where they dereference. -/
def icolumn_row_get (column : Column) (index : Nat) : Except Fault Slot :=
  if column.meta.type = BTYPE_INVALID then throw Fault.null_deref
  else
    match column.data.get? index with
    | some s => pure s
    | none => throw Fault.out_of_bounds

/-- Writing one slot of a column buffer. -/
def icolumn_store (column : Column) (index : Nat) (v : Slot) : Except Fault Column :=
  if index < column.data.length then pure { column with data := column.data.set index v }
  else throw Fault.out_of_bounds

/-- Setter `icolumn_row_set_nocopy`: the slot takes the bits (or the pointer) it is given. -/
def icolumn_row_set_nocopy (column : Column) (index : Nat) (data : Except Fault Slot) :
    Except Fault Column :=
  if column.meta.type = BTYPE_INVALID then pure column
  else do icolumn_store column index (← data)

/-- Setter `icolumn_row_set`: as `icolumn_row_set_nocopy`, a string being duplicated first. -/
def icolumn_row_set (column : Column) (index : Nat) (data : Except Fault Slot) :
    Except Fault Column :=
  if column.meta.type = BTYPE_INVALID then pure column
  else do icolumn_store column index (← data)

/-- The shifting loop of `icolumn_row_delete`, `n` iterations starting at `index`. -/
def icolumn_row_delete_loop : Nat → Column → Nat → Except Fault Column
  | 0, column, _ => pure column
  | n + 1, column, index => do
    let next := icolumn_row_get column (index + 1)
    let column ← icolumn_row_set_nocopy column index next
    icolumn_row_delete_loop n column (index + 1)

/-- Deletion `icolumn_row_delete`: a string at `index` is freed, then the slots
    `index + 1 .. size - 1` move one place down. -/
def icolumn_row_delete (column : Column) (index size : Nat) : Except Fault Column := do
  if column.meta.type = BTYPE_STRING then
    match (← icolumn_row_get column index) with
    | Slot.ptr _ => pure ()
    | _ => throw Fault.uninit_read
  icolumn_row_delete_loop (size - 1 - index) column index

/-- The pointer `const void *right` of a `findfunc_t`: the address of a converted `uint64_t`
    for an integer column, the literal itself for a string column. -/
inductive Needle
  | int (v : Nat)
  | str (s : CStr)
deriving DecidableEq, Repr

/-- A comparison function of type `findfunc_t`; `left` is the pointer into the column, given as
    the result of reading through it. -/
abbrev findfunc_t := BaseType → Except Fault Slot → Needle → Except Fault Bool

/-- The loop of `icolumn_find` over the rows `i .. i + n - 1`. -/
def icolumn_find_loop (column : Column) (func : findfunc_t) (value : Needle) :
    Nat → Nat → IntList → Except Fault IntList
  | 0, _, lst => pure lst
  | n + 1, i, lst => do
    let ith := icolumn_row_get column i
    let cmp ← func column.meta.type ith value
    icolumn_find_loop column func value n (i + 1) (if cmp then intlist_push lst (i : Int) else lst)

structure TableFindResult where
  res : BazaResult
  matches_ : IntList
deriving DecidableEq, Repr

/-- Lookup `icolumn_find`: the rows below `size` on which `func` is true, in ascending order. -/
def icolumn_find (column : Column) (size : Nat) (func : findfunc_t) (value : Needle) :
    Except Fault TableFindResult := do
  let lst ← icolumn_find_loop column func value size 0 intlist_empty
  pure { res := RESULT_OK, matches_ := lst }

/-- Constructor `itable_new`, given the current value of the static counter `TABLE_ID`. -/
def itable_new (TABLE_ID : Nat) (name : CStr) : Table :=
  { meta := { id := TABLE_ID, name := name, row_count := 0 },
    row_capacity := BAZA_DEFAULT_ROW_CAPACITY,
    columns := [] }

/-- Growth `itable_realloc`. -/
def itable_realloc (table : Table) (size : Nat) : Table :=
  { table with
    columns := table.columns.map (fun col => icolumn_realloc_data col size),
    row_capacity := size }

/-- Lookup `itable_column_byid`. -/
def itable_column_byid (table : Table) (cid : Nat) : Option Column :=
  table.columns.find? (fun column => column.meta.id = cid)

/-- Lookup `itable_column_find`. -/
def itable_column_find (table : Table) (name : CStr) : Option Column :=
  table.columns.find? (fun cur => strcmp cur.meta.name name = 0)

/-- Column creation `itable_column_new`; the second component is the new value of `COLUMN_ID`. -/
def itable_column_new (COLUMN_ID : Nat) (table : Table) (type : BaseType) (name : CStr) :
    BazaResult × Table × Nat :=
  if table.meta.row_count > 0 then (RESULT_TABLE_NOT_EMPTY, table, COLUMN_ID)
  else if (itable_column_find table name).isSome then (RESULT_DUPLICATE_COLUMN_NAME, table, COLUMN_ID)
  else
    let new := icolumn_realloc_data (icolumn_new COLUMN_ID name type) table.row_capacity
    (RESULT_OK, { table with columns := table.columns ++ [new] }, COLUMN_ID + 1)

/-- The loop of `itable_row_delete` over the columns. -/
def itable_row_delete_columns (index size : Nat) : List Column → Except Fault (List Column)
  | [] => pure []
  | cur :: rest => do
    let cur ← icolumn_row_delete cur index size
    let rest ← itable_row_delete_columns index size rest
    pure (cur :: rest)

/-- Row deletion `itable_row_delete`. -/
def itable_row_delete (table : Table) (index : Nat) : Except Fault (BazaResult × Table) :=
  if index ≥ table.meta.row_count then pure (RESULT_INDEX_OUT_OF_BOUNDS, table)
  else do
    let columns ← itable_row_delete_columns index table.meta.row_count table.columns
    pure (RESULT_OK,
      { table with columns := columns, meta := { table.meta with row_count := table.meta.row_count - 1 } })

def PRINT_ROW_PADDING : Nat := 20

/-- What `printf("%*s", PRINT_ROW_PADDING-slen, " ")` writes: the one blank, padded to the
    absolute value of the width (on the left for a positive width, on the right for a
    negative one). -/
def print_padding (slen : Nat) : CStr :=
  List.replicate (max 1 ((PRINT_ROW_PADDING : Int) - (slen : Int)).natAbs) 32

/-- The part of the loop body of `itable_row_print` that prints the cell of one column: the
    display string, then the padding computed from its glyph count. -/
def itable_row_print_cell (col : Column) (row : Nat) : Except Fault CStr := do
  let value := icolumn_row_get col row
  let as_str ← basetype_value_to_str col.meta.type value
  let slen ← str_count_utf8_glyphs as_str
  pure (as_str ++ print_padding slen)

/-- The loop of `itable_row_print` over the columns; the result is the text written. -/
def itable_row_print_columns (ColumnIDs : Option IntList) (row : Nat) : List Column → Except Fault CStr
  | [] => pure []
  | col :: rest =>
    if (match ColumnIDs with
        | some ids => !intlist_contains ids (col.meta.id : Int)
        | none => false) then
      itable_row_print_columns ColumnIDs row rest
    else do
      let cell ← itable_row_print_cell col row
      let tail ← itable_row_print_columns ColumnIDs row rest
      pure (cell ++ tail)

/-- Printer `itable_row_print`; the result is the text written to stdout. -/
def itable_row_print (table : Table) (ColumnIDs : Option IntList) (row : Nat) : Except Fault CStr :=
  if row > table.meta.row_count then pure []
  else itable_row_print_columns ColumnIDs row table.columns

/-- Lookup `itable_find`; the column pointer is NULL when `itable_column_byid` found nothing. -/
def itable_find (table : Table) (column : Option Column) (func : findfunc_t) (value : Needle) :
    Except Fault TableFindResult :=
  match column with
  | none => if table.meta.row_count = 0 then pure { res := RESULT_OK, matches_ := intlist_empty }
            else throw Fault.null_deref
  | some c => icolumn_find c table.meta.row_count func value

structure TableResult where
  result : BazaResult
  meta : TableMeta
deriving DecidableEq, Repr

/-- The zero-initialised `TableMeta` of a compound literal that only sets `.result`. -/
def TableMeta.zero : TableMeta := { id := 0, name := [], row_count := 0 }

/-- Table creation `idb_table_new`: a new node is always appended to the list. -/
def idb_table_new (db : DataBase) (table_name : CStr) : TableResult × DataBase :=
  let new := itable_new db.TABLE_ID table_name
  ({ result := RESULT_OK, meta := new.meta },
   { db with tables := db.tables ++ [new], TABLE_ID := db.TABLE_ID + 1 })

/-- Lookup `idb_table_get`. -/
def idb_table_get (db : DataBase) (table_name : CStr) : Option Table :=
  db.tables.find? (fun cur => strcmp cur.meta.name table_name = 0)

/-- Lookup `idb_table_get_byid`. -/
def idb_table_get_byid (db : DataBase) (tid : Nat) : Option Table :=
  db.tables.find? (fun cur => cur.meta.id = tid)

/-- Writing through the `Table *` that `idb_table_get_byid` returned: the first table with
    that id is replaced. -/
def idb_table_put (tid : Nat) (new : Table) : List Table → List Table
  | [] => []
  | cur :: rest => if cur.meta.id = tid then new :: rest else cur :: idb_table_put tid new rest

/-- The database after the table behind `idb_table_get_byid(tid)` has been modified in place. -/
def db_store (db : DataBase) (tid : Nat) (new : Table) : DataBase :=
  { db with tables := idb_table_put tid new db.tables }

structure ColumnResult where
  result : BazaResult
  meta : Option ColumnMeta
deriving DecidableEq, Repr

/-- API call `table_column_new`. -/
def table_column_new (db : DataBase) (tid : Nat) (type : BaseType) (name : CStr) :
    BazaResult × DataBase :=
  match idb_table_get_byid db tid with
  | none => (RESULT_TABLE_NOT_FOUND, db)
  | some tptr =>
    let r := itable_column_new db.COLUMN_ID tptr type name
    (r.1, { db_store db tid r.2.1 with COLUMN_ID := r.2.2 })

/-- API call `table_column_get`: the first column with that name. -/
def table_column_get (db : DataBase) (tid : Nat) (column_name : CStr) : ColumnResult :=
  match idb_table_get_byid db tid with
  | none => { result := RESULT_TABLE_NOT_FOUND, meta := none }
  | some tptr =>
    match tptr.columns.find? (fun column => strcmp column.meta.name column_name = 0) with
    | some column => { result := RESULT_OK, meta := some column.meta }
    | none => { result := RESULT_COLUMN_NOT_FOUND, meta := none }

/-- A `ColumnMetaList`: the `meta` of its nodes in order; `[]` is the single node whose
    `meta` is NULL (what `columnlist_empty` returns). -/
abbrev ColumnMetaList := List ColumnMeta

/-- The second loop of `table_column_get_list`: the columns of the table, in the order of the
    table, whose name is in `list`. -/
def table_column_get_list_loop (list : StrList) : List Column → Except Fault ColumnMetaList
  | [] => pure []
  | column :: rest => do
    let hit ← strlist_contains list column.meta.name
    let tail ← table_column_get_list_loop list rest
    pure (if hit then column.meta :: tail else tail)

/-- API call `table_column_get_list`; `none` is the NULL result, `list = none` the NULL argument. -/
def table_column_get_list (db : DataBase) (tid : Nat) (list : Option StrList) :
    Except Fault (Option ColumnMetaList) :=
  match idb_table_get_byid db tid with
  | none => pure none
  | some tptr =>
    match list with
    | none => pure (some (tptr.columns.map (fun column => column.meta)))
    | some l => do
      let cmlst ← table_column_get_list_loop l tptr.columns
      pure (some cmlst)

/-- The address of a slot: what `table_column_get_row` returns when it is not NULL. -/
structure SlotPtr where
  tid : Nat
  cid : Nat
  index : Nat
deriving DecidableEq, Repr

/-- API call `table_column_get_row`; NULL (`none`) when the table or the column is missing or
    `nth > row_count`. -/
def table_column_get_row (db : DataBase) (tid cid nth : Nat) : Option SlotPtr :=
  match idb_table_get_byid db tid with
  | none => none
  | some tptr =>
    if nth > tptr.meta.row_count then none
    else
      match itable_column_byid tptr cid with
      | none => none
      | some column =>
        if column.meta.type = BTYPE_INVALID then none
        else some { tid := tid, cid := cid, index := nth }

/-- Writing a slot of the first column with id `cid` in a column list. -/
def columns_store (cid index : Nat) (v : Slot) : List Column → Except Fault (List Column)
  | [] => throw Fault.null_deref
  | column :: rest =>
    if column.meta.id = cid then do
      let column ← icolumn_store column index v
      pure (column :: rest)
    else do
      let rest ← columns_store cid index v rest
      pure (column :: rest)

/-- The assignment `*slot = v` through a pointer obtained from `table_column_get_row`. -/
def slot_store (db : DataBase) (slot : Option SlotPtr) (v : Slot) : Except Fault DataBase :=
  match slot with
  | none => throw Fault.null_deref
  | some p =>
    match idb_table_get_byid db p.tid with
    | none => throw Fault.null_deref
    | some tptr => do
      let columns ← columns_store p.cid p.index v tptr.columns
      pure (db_store db p.tid { tptr with columns := columns })

/-- The read `*slot` through a pointer obtained from `table_column_get_row`. -/
def slot_load (db : DataBase) (slot : Option SlotPtr) : Except Fault Slot :=
  match slot with
  | none => throw Fault.null_deref
  | some p =>
    match idb_table_get_byid db p.tid with
    | none => throw Fault.null_deref
    | some tptr =>
      match itable_column_byid tptr p.cid with
      | none => throw Fault.null_deref
      | some column => icolumn_row_get column p.index

/-- API call `table_row_add`: the count goes up by one and, when it then equals the capacity,
    every column is reallocated to twice the capacity. -/
def table_row_add (db : DataBase) (table : Nat) : BazaResult × DataBase :=
  match idb_table_get_byid db table with
  | none => (RESULT_TABLE_NOT_FOUND, db)
  | some tptr =>
    let tptr := { tptr with meta := { tptr.meta with row_count := tptr.meta.row_count + 1 } }
    let tptr := if tptr.meta.row_count = tptr.row_capacity
                then itable_realloc tptr (tptr.row_capacity * 2) else tptr
    (RESULT_OK, db_store db table tptr)

/-- API call `table_row_delete`. -/
def table_row_delete (db : DataBase) (table row : Nat) : Except Fault (BazaResult × DataBase) :=
  match idb_table_get_byid db table with
  | none => pure (RESULT_TABLE_NOT_FOUND, db)
  | some tptr => do
    let r ← itable_row_delete tptr row
    pure (r.1, db_store db table r.2)

/-- API call `table_row_print`; the second component is the text written to stdout. -/
def table_row_print (db : DataBase) (table : Nat) (ColumnIDs : Option IntList) (row : Nat) :
    Except Fault (BazaResult × CStr) :=
  match idb_table_get_byid db table with
  | none => pure (RESULT_TABLE_NOT_FOUND, [])
  | some tptr => do
    let text ← itable_row_print tptr ColumnIDs row
    pure (RESULT_OK, text)

/-- API call `table_find`. -/
def table_find (db : DataBase) (tid cid : Nat) (func : findfunc_t) (value : Needle) :
    Except Fault TableFindResult :=
  match idb_table_get_byid db tid with
  | none => pure { res := RESULT_ALLOC, matches_ := [] }
  | some tptr => itable_find tptr (itable_column_byid tptr cid) func value

/-- API call `db_table_get`. -/
def db_table_get (db : DataBase) (table_name : CStr) : TableResult :=
  match idb_table_get db table_name with
  | none => { result := RESULT_TABLE_NOT_FOUND, meta := TableMeta.zero }
  | some tptr => { result := RESULT_OK, meta := tptr.meta }

/-- API call `db_table_new`. -/
def db_table_new (db : DataBase) (table_name : CStr) : TableResult × DataBase :=
  idb_table_new db table_name

/-! ## parser.h, parser.c -/

inductive FilterOp
  | FILTER_INVALID
  | FILTER_NONE
  | FILTER_EQUAL
  | FILTER_NOT_EQUAL
  | FILTER_GREATER
  | FILTER_GREATER_EQUAL
  | FILTER_LESSER
  | FILTER_LESSER_EQUAL
  | FILTER_LIKE
deriving DecidableEq, Repr

open FilterOp

inductive FilterRelation
  | FILTER_REL_INVALID
  | FILTER_REL_NONE
  | FILTER_REL_AND
  | FILTER_REL_OR
deriving DecidableEq, Repr

open FilterRelation

/-- One node of a filter chain; the chain is the list of its nodes (`[]` is a NULL `Filter *`). -/
structure Filter where
  op : FilterOp
  value : CStr
  column : CStr
  next_relation : FilterRelation
deriving DecidableEq, Repr

inductive SortDirection
  | SORT_ASCENDING
  | SORT_DESCENDING
  | SORT_INVALID
deriving DecidableEq, Repr

open SortDirection

/-- The struct `Query`, one constructor per `QueryType`.  Pointer fields that can be NULL in a
    query the parser returns are options. -/
inductive Query
  | QUERY_SELECT (table_name : CStr) (select_filters : List Filter)
      (select_columns : Option StrList) (select_sort_column : Option CStr)
      (select_sort_direction : SortDirection)
  | QUERY_CREATE (table_name : CStr) (create_columns : Option StrList)
      (create_types : Option StrList)
  | QUERY_INSERT (table_name : CStr) (insert_values : StrList)
  | QUERY_DELETE (table_name : CStr) (delete_filters : List Filter)
  | QUERY_UPDATE (table_name : CStr) (update_filters : List Filter)
      (update_columns : StrList) (update_values : StrList)
deriving DecidableEq, Repr

/-- The struct `QueryParseResult`: `RESULT_OK` with a query, or `RESULT_ERR_SQL_PARSE` with a
    message. -/
inductive QueryParseResult
  | ok (query : Query)
  | error (error_msg : String)
deriving DecidableEq, Repr

def QueryParseResult.result : QueryParseResult → BazaResult
  | QueryParseResult.ok _ => RESULT_OK
  | QueryParseResult.error _ => RESULT_ERR_SQL_PARSE

/-- The last byte of a token is `c` (the test `strlen > 0 && str[strlen-1] == c`). -/
def ends_with (str : CStr) (c : Nat) : Bool := str.getLast? = some c

/-- The struct `ListParseResult`. -/
inductive ListParseResult
  | ok (list : StrList) (outer_last : List CStr)
  | error (error_msg : String)
deriving DecidableEq, Repr

/-- The `for (;;)` loop of `extract_sql_list`; `cur = []` is a NULL token pointer. -/
def extract_sql_list_loop (delim : Option (Nat × Nat)) : List CStr → StrList → Except Fault ListParseResult
  | [], _ => throw Fault.null_deref
  | cur :: next, final =>
    let last : Bool :=
      match delim with
      | some d => ends_with cur d.2
      | none => !ends_with cur 44
    let str : CStr :=
      match delim with
      | some _ => if last then cur.dropLast else cur
      | none => cur
    let final := strlist_merge final (strlist_from_split str [44])
    if last then pure (ListParseResult.ok final next)
    else extract_sql_list_loop delim next final

/-- List reader `extract_sql_list`; `delim` holds the two bytes of the delimiter string, or
    is `none` for a NULL `delim`. -/
def extract_sql_list (start : List CStr) (delim : Option (Nat × Nat)) : Except Fault ListParseResult :=
  match delim with
  | some d =>
    match start with
    | [] => throw Fault.null_deref
    | str :: next =>
      if str.head? ≠ some d.1 then
        pure (ListParseResult.error "Expected a list to start with a valid delimiter")
      else
        let bail := ends_with str d.2
        let str := if bail then str.dropLast else str
        let final := strlist_from_split (str.drop 1) [44]
        if bail then pure (ListParseResult.ok final next)
        else extract_sql_list_loop delim next final
  | none => extract_sql_list_loop delim start strlist_empty

def STRFILTER_EQUAL : CStr := cstr "="
def STRFILTER_NOT_EQUAL : CStr := cstr "!="
def STRFILTER_GREATER : CStr := cstr ">"
def STRFILTER_GREATER_EQUAL : CStr := cstr ">="
def STRFILTER_LESSER : CStr := cstr "<"
def STRFILTER_LESSER_EQUAL : CStr := cstr "<="
def STRFILTER_LIKE : CStr := cstr "like"

def filterop_from_str (str : CStr) : FilterOp :=
  if str_ieq str STRFILTER_EQUAL then FILTER_EQUAL
  else if str_ieq str STRFILTER_NOT_EQUAL then FILTER_NOT_EQUAL
  else if str_ieq str STRFILTER_GREATER then FILTER_GREATER
  else if str_ieq str STRFILTER_GREATER_EQUAL then FILTER_GREATER_EQUAL
  else if str_ieq str STRFILTER_LESSER then FILTER_LESSER
  else if str_ieq str STRFILTER_LESSER_EQUAL then FILTER_LESSER_EQUAL
  else if str_ieq str STRFILTER_LIKE then FILTER_LIKE
  else FILTER_INVALID

def STRFILTERREL_AND : CStr := cstr "and"
def STRFILTERREL_OR : CStr := cstr "or"

def filterrel_from_str (str : CStr) : FilterRelation :=
  if str_ieq str STRFILTERREL_AND then FILTER_REL_AND
  else if str_ieq str STRFILTERREL_OR then FILTER_REL_OR
  else FILTER_REL_INVALID

/-- The struct `FilterParseResult`. -/
inductive FilterParseResult
  | ok (filters : List Filter) (last_tok : List CStr)
  | error (err_msg : String)
deriving DecidableEq, Repr

/-- Filter reader `parse_filters`, one predicate per round of its loop; `tok = []` is a NULL token
    pointer.  The operator token is read without a check that it exists. -/
def parse_filters : List CStr → Except Fault FilterParseResult
  | [] => pure (FilterParseResult.error "expected a filter after WHERE")
  | [_] => throw Fault.null_deref
  | column :: optok :: rest =>
    let op := filterop_from_str optok
    if op = FILTER_INVALID then
      pure (FilterParseResult.error "invalid operator in a filter (where clause)")
    else
      match rest with
      | [] => pure (FilterParseResult.error
                "expected a value after an operator in a filter (where clause)")
      | value :: rest =>
        match rest with
        | [] => pure (FilterParseResult.ok
                  [{ op := op, value := value, column := column, next_relation := FILTER_REL_NONE }] [])
        | reltok :: rest2 =>
          let rel := filterrel_from_str reltok
          if rel = FILTER_REL_INVALID then
            pure (FilterParseResult.ok
              [{ op := op, value := value, column := column, next_relation := FILTER_REL_NONE }]
              (reltok :: rest2))
          else
            match rest2 with
            | [] => pure (FilterParseResult.error
                      "expected another filter condition following 'AND' or 'OR'")
            | t :: rest3 => do
              match (← parse_filters (t :: rest3)) with
              | FilterParseResult.error msg => pure (FilterParseResult.error msg)
              | FilterParseResult.ok filters last_tok =>
                pure (FilterParseResult.ok
                  ({ op := op, value := value, column := column, next_relation := rel } :: filters)
                  last_tok)

def sortdirection_from_str (str : CStr) : SortDirection :=
  if str_ieq str (cstr "ASC") then SORT_ASCENDING
  else if str_ieq str (cstr "DESC") then SORT_DESCENDING
  else SORT_INVALID

/-- Clause reader `try_parse_where`: the filters (`[]` for the NULL result) and the new token
    position.  A filter parse error ends the process through `FATAL`. -/
def try_parse_where (split : List CStr) : Except Fault (List Filter × List CStr) :=
  match split with
  | [] => pure ([], split)
  | tok :: next =>
    if !str_ieq tok (cstr "WHERE") then pure ([], split)
    else do
      match (← parse_filters next) with
      | FilterParseResult.error _ => throw Fault.fatal_exit
      | FilterParseResult.ok filters last_tok => pure (filters, last_tok)

structure OrderParseResult where
  result : BazaResult
  direction : SortDirection
  column : Option CStr
deriving DecidableEq, Repr

/-- Clause reader `try_parse_order`: the result and the new token position (unchanged unless the
    result is `RESULT_OK`). -/
def try_parse_order (split : List CStr) : OrderParseResult × List CStr :=
  let ret : OrderParseResult :=
    { result := RESULT_ERR_SQL_PARSE, direction := SORT_INVALID, column := none }
  match split with
  | [] => (ret, split)
  | tok :: next =>
    if !str_ieq tok (cstr "ORDER") then (ret, split)
    else
      match next with
      | [] => (ret, split)
      | tok :: next =>
        if !str_ieq tok (cstr "BY") then (ret, split)
        else
          match next with
          | [] => (ret, split)
          | column :: next =>
            match next with
            | [] => (ret, split)
            | dir :: next =>
              ({ result := RESULT_OK, direction := sortdirection_from_str dir, column := some column },
               next)

/-- The query under construction in `query_parse_select`. -/
structure SelectState where
  table_name : CStr
  select_filters : List Filter
  select_columns : Option StrList
  select_sort_column : Option CStr
  select_sort_direction : SortDirection
deriving DecidableEq, Repr

def SelectState.query (q : SelectState) : Query :=
  Query.QUERY_SELECT q.table_name q.select_filters q.select_columns q.select_sort_column
    q.select_sort_direction

/-- The loop `while (tok)` of `query_parse_select`.  A round in which neither clause reader moves
    `tok` leaves the whole state as it was, so the loop repeats for ever.  Every other round
    consumes tokens; `fuel` bounds the number of rounds and is given as the number of tokens. -/
def query_parse_select_loop : Nat → SelectState → List CStr → Except Fault QueryParseResult
  | _, query, [] => pure (QueryParseResult.ok query.query)
  | 0, _, _ :: _ => throw Fault.hang
  | fuel + 1, query, tok :: next => do
    let w ← try_parse_where (tok :: next)
    let query := if w.1 ≠ [] then { query with select_filters := w.1 } else query
    let o := try_parse_order w.2
    if o.1.result = RESULT_OK then
      if o.1.direction = SORT_INVALID then
        pure (QueryParseResult.error "invalid sort direction, must be one of (ASC/DESC)")
      else
        query_parse_select_loop fuel
          { query with select_sort_column := o.1.column, select_sort_direction := o.1.direction } o.2
    else if w.1 = [] then throw Fault.hang
    else query_parse_select_loop fuel query o.2

/-- The part of `query_parse_select` after the column list: `FROM`, the table name and the
    optional clauses. -/
def query_parse_select_from (select_columns : Option StrList) (tok : List CStr) :
    Except Fault QueryParseResult :=
  match tok with
  | [] => pure (QueryParseResult.error "expected FROM after a column list")
  | kw :: tok =>
    if !str_ieq kw (cstr "from") then
      pure (QueryParseResult.error "expected FROM after a column list")
    else
      match tok with
      | [] => pure (QueryParseResult.error "expected a table name after FROM in a SELECT")
      | table_name :: tok =>
        query_parse_select_loop tok.length
          { table_name := table_name, select_filters := [], select_columns := select_columns,
            select_sort_column := none, select_sort_direction := SORT_ASCENDING } tok

/-- Statement reader `query_parse_select`. -/
def query_parse_select (split : List CStr) : Except Fault QueryParseResult :=
  match split with
  | [] => pure (QueryParseResult.error "Empty SELECT clause, no column names provided")
  | tok :: next =>
    if strcmp tok (cstr "*") = 0 then query_parse_select_from none next
    else do
      match (← extract_sql_list (tok :: next) none) with
      | ListParseResult.ok list outer_last => query_parse_select_from (some list) outer_last
      | ListParseResult.error msg => pure (QueryParseResult.error msg)

/-- The `for (;;)` loop of `query_parse_create`: the lists built so far and the token position;
    the result is the two lists and the token after the last type, or an error message. -/
def query_parse_create_loop :
    List CStr → Option StrList → Option StrList → Except String (Option StrList × Option StrList × List CStr)
  | [], _, _ =>
    Except.error "inside of column definition section of aCREATE statement; expected a column name"
  | [_], _, _ =>
    Except.error ("inside of column definition section of a CREATE statement; expected a column name. "
      ++ "Perhaps you forgot to remove a comma from the last Column-Type pair?")
  | name :: type :: tok, create_columns, create_types =>
    let create_columns : Option StrList :=
      match create_columns with
      | none => some (strlist_new name)
      | some l => some (strlist_push l name)
    let has_comma := ends_with type 44
    let type := if has_comma then type.dropLast else type
    let create_types : Option StrList :=
      match create_types with
      | none => some (strlist_new type)
      | some l => some (strlist_push l type)
    if !has_comma then Except.ok (create_columns, create_types, tok)
    else query_parse_create_loop tok create_columns create_types

/-- Statement reader `query_parse_create`. -/
def query_parse_create (split : List CStr) : Except Fault QueryParseResult :=
  match split with
  | [] => pure (QueryParseResult.error "expected TABLE after CREATE")
  | kw :: tok =>
    if !str_ieq kw (cstr "table") then pure (QueryParseResult.error "expected TABLE after CREATE")
    else
      match tok with
      | [] => pure (QueryParseResult.error "expected a table name after TABLE")
      | table_name :: tok =>
        match tok with
        | [] => pure (QueryParseResult.error "expected a '(' after the table name. Forgot a space?")
        | kw :: tok =>
          if !str_ieq kw (cstr "(") then
            pure (QueryParseResult.error "expected a '(' after the table name. Forgot a space?")
          else
            match query_parse_create_loop tok none none with
            | Except.error msg => pure (QueryParseResult.error msg)
            | Except.ok (create_columns, create_types, tok) =>
              match tok with
              | [] => pure (QueryParseResult.error "expected a ')' after the column definition section")
              | kw :: _ =>
                if !str_ieq kw (cstr ")") then
                  pure (QueryParseResult.error "expected a ')' after the column definition section")
                else pure (QueryParseResult.ok (Query.QUERY_CREATE table_name create_columns create_types))

/-- Statement reader `query_parse_insert`.  The token after `VALUES` is handed to
    `extract_sql_list` without a check that it exists. -/
def query_parse_insert (split : List CStr) : Except Fault QueryParseResult :=
  match split with
  | [] => pure (QueryParseResult.error "expected INTO after INSERT")
  | kw :: tok =>
    if !str_ieq kw (cstr "into") then pure (QueryParseResult.error "expected INTO after INSERT")
    else
      match tok with
      | [] => pure (QueryParseResult.error "expected a table name after INTO in an INSERT statement")
      | table_name :: tok =>
        match tok with
        | [] => pure (QueryParseResult.error "expected VALUES after the table name")
        | kw :: tok =>
          if !str_ieq kw (cstr "values") then
            pure (QueryParseResult.error "expected VALUES after the table name")
          else do
            match (← extract_sql_list tok (some (40, 41))) with
            | ListParseResult.ok list _ => pure (QueryParseResult.ok (Query.QUERY_INSERT table_name list))
            | ListParseResult.error msg => pure (QueryParseResult.error msg)

/-- Statement reader `query_parse_delete`.  What follows the table name and is not a `WHERE`
    clause is not looked at. -/
def query_parse_delete (split : List CStr) : Except Fault QueryParseResult :=
  match split with
  | [] => pure (QueryParseResult.error "expected FROM after DELETE")
  | kw :: tok =>
    if !str_ieq kw (cstr "from") then pure (QueryParseResult.error "expected FROM after DELETE")
    else
      match tok with
      | [] => pure (QueryParseResult.error "expected a table name after FROM in DELETE")
      | table_name :: tok => do
        let w ← try_parse_where tok
        pure (QueryParseResult.ok (Query.QUERY_DELETE table_name w.1))

/-- The `for (;;)` loop of `query_parse_update`: the value token is pushed as it is, its comma
    included; a token that is empty or ends in a comma continues the loop. -/
def query_parse_update_loop :
    List CStr → StrList → StrList → Except String (StrList × StrList × List CStr)
  | [], _, _ => Except.error "expected a column name in a SET assignment"
  | [_], _, _ => Except.error "expected '=' after column name in a SET assignment"
  | column :: eq :: tok, columns, values =>
    let columns := strlist_push columns column
    if !str_ieq eq (cstr "=") then Except.error "expected '=' after column name in a SET assignment"
    else
      match tok with
      | [] => Except.error "expected a column name in a SET assignment"
      | value :: tok =>
        let values := strlist_push values value
        if value ≠ [] ∧ !ends_with value 44 then Except.ok (columns, values, tok)
        else query_parse_update_loop tok columns values

/-- Statement reader `query_parse_update`. -/
def query_parse_update (split : List CStr) : Except Fault QueryParseResult :=
  match split with
  | [] => pure (QueryParseResult.error "expected a table name UPDATE")
  | table_name :: tok =>
    match tok with
    | [] => pure (QueryParseResult.error "expected SET after table name in UPDATE")
    | kw :: tok =>
      if !str_ieq kw (cstr "set") then
        pure (QueryParseResult.error "expected SET after table name in UPDATE")
      else
        match query_parse_update_loop tok strlist_empty strlist_empty with
        | Except.error msg => pure (QueryParseResult.error msg)
        | Except.ok (columns, values, tok) => do
          let w ← try_parse_where tok
          pure (QueryParseResult.ok (Query.QUERY_UPDATE table_name w.1 columns values))

def PARSE_SPLIT_STRING : CStr := [32, 9, 10]

/-- Entry point `query_parse`.  The verb is `split->str`, which is NULL when the input holds no
    token, and `str_ieq` reads through it. -/
def query_parse (query_string : CStr) : Except Fault QueryParseResult :=
  match strlist_from_split_quoted query_string PARSE_SPLIT_STRING with
  | [] => throw Fault.null_deref
  | verb :: next =>
    if str_ieq verb (cstr "select") then query_parse_select next
    else if str_ieq verb (cstr "create") then query_parse_create next
    else if str_ieq verb (cstr "insert") then query_parse_insert next
    else if str_ieq verb (cstr "delete") then query_parse_delete next
    else if str_ieq verb (cstr "update") then query_parse_update next
    else pure (QueryParseResult.error "Unknown SQL command")

/-! ## interpreter.c -/

/-- The two integer cases of a comparison function: both pointers are read at the width of the
    column, the needle being a `uint64_t` of which the low half is read for `int32_t`. -/
def filter_int_operands (type : BaseType) (left : Except Fault Slot) (right : Needle) :
    Except Fault (Int × Int) := do
  match (← left), right with
  | Slot.bits l, Needle.int r =>
    pure (if type = BTYPE_INT32 then (as_int32 l, as_int32 r) else (as_int64 l, as_int64 r))
  | _, _ => throw Fault.uninit_read

/-- The string case of a comparison function: the stored pointer and the literal. -/
def filter_str_operands (left : Except Fault Slot) (right : Needle) : Except Fault (CStr × CStr) := do
  match (← left), right with
  | Slot.ptr l, Needle.str r => pure (l, r)
  | _, _ => throw Fault.uninit_read

def filter_func_equals : findfunc_t := fun type left right =>
  match type with
  | BTYPE_INT32 => do let p ← filter_int_operands type left right; pure (decide (p.1 = p.2))
  | BTYPE_INT64 => do let p ← filter_int_operands type left right; pure (decide (p.1 = p.2))
  | BTYPE_STRING => do let p ← filter_str_operands left right; pure (decide (strcmp p.1 p.2 = 0))
  | BTYPE_INVALID => pure false

def filter_func_greater : findfunc_t := fun type left right =>
  match type with
  | BTYPE_INT32 => do let p ← filter_int_operands type left right; pure (decide (p.1 > p.2))
  | BTYPE_INT64 => do let p ← filter_int_operands type left right; pure (decide (p.1 > p.2))
  | BTYPE_STRING => do let p ← filter_str_operands left right; pure (decide (strcmp p.1 p.2 > 0))
  | BTYPE_INVALID => pure false

def filter_func_greater_equal : findfunc_t := fun type left right => do
  if (← filter_func_equals type left right) then pure true
  else filter_func_greater type left right

def filter_func_lesser : findfunc_t := fun type left right =>
  match type with
  | BTYPE_INT32 => do let p ← filter_int_operands type left right; pure (decide (p.1 < p.2))
  | BTYPE_INT64 => do let p ← filter_int_operands type left right; pure (decide (p.1 < p.2))
  | BTYPE_STRING => do let p ← filter_str_operands left right; pure (decide (strcmp p.1 p.2 < 0))
  | BTYPE_INVALID => pure false

def filter_func_lesser_equal : findfunc_t := fun type left right => do
  if (← filter_func_equals type left right) then pure true
  else filter_func_lesser type left right

/-- The value of a `char` holding the byte `b`, promoted to `int`. -/
def char_value (env : CEnv) (b : Nat) : Int :=
  if env.char_signed && decide (b ≥ 128) then (b : Int) - 256 else (b : Int)

/-- The test after the loop of the string case of `filter_func_like`:
    `if (*str + *pattern > 0 && *pattern != '%') return false; return true;`. -/
def filter_func_like_end (env : CEnv) (str pattern : CStr) : Bool :=
  if char_value env (str.headD 0) + char_value env (pattern.headD 0) > 0 ∧ pattern.headD 0 ≠ 37
  then false else true

/-- The loop `while (*str && *pattern)` of the string case of `filter_func_like`. -/
def filter_func_like_loop (env : CEnv) : CStr → CStr → Bool
  | [], str => filter_func_like_end env str []
  | p :: pattern, str =>
    match str with
    | [] => filter_func_like_end env [] (p :: pattern)
    | s :: rest =>
      if p = 37 then
        match pattern with
        | [] => true
        | q :: pattern =>
          match (s :: rest).dropWhile (fun c => c ≠ q) with
          | [] => false
          | s :: rest =>
            if q = 95 then filter_func_like_loop env pattern rest
            else if s ≠ q then false
            else filter_func_like_loop env pattern rest
      else if p = 95 then filter_func_like_loop env pattern rest
      else if s ≠ p then false
      else filter_func_like_loop env pattern rest

def filter_func_like (env : CEnv) : findfunc_t := fun type left right =>
  match type with
  | BTYPE_INT32 => do let p ← filter_int_operands type left right; pure (decide (p.1 = p.2))
  | BTYPE_INT64 => do let p ← filter_int_operands type left right; pure (decide (p.1 = p.2))
  | BTYPE_STRING => do
    let p ← filter_str_operands left right
    pure (filter_func_like_loop env p.2 p.1)
  | BTYPE_INVALID => pure false

/-- The array `filter_func_table`, indexed by a `FilterOp`.  It has nine entries, of which
    those for `FILTER_INVALID`, `FILTER_NONE` and `FILTER_NOT_EQUAL` are NULL: a call
    through them is a call of no function. -/
def filter_func_table (env : CEnv) : FilterOp → findfunc_t
  | FILTER_EQUAL => filter_func_equals
  | FILTER_GREATER => filter_func_greater
  | FILTER_GREATER_EQUAL => filter_func_greater_equal
  | FILTER_LESSER => filter_func_lesser
  | FILTER_LESSER_EQUAL => filter_func_lesser_equal
  | FILTER_LIKE => filter_func_like env
  | _ => fun _ _ _ => throw Fault.bad_call

/-- The struct `FilterInterpResult`; `rows = []` is the NULL pointer. -/
structure FilterInterpResult where
  res : BazaResult
  rows : IntList
deriving DecidableEq, Repr

/-- The loop of `filter_interpret`: the filters still to do, the row set so far (`[]` while it
    is NULL) and the relation left by the previous filter. -/
def filter_interpret_loop (env : CEnv) (db : DataBase) (table : TableMeta) :
    List Filter → IntList → FilterRelation → Except Fault FilterInterpResult
  | [], rowset, _ => pure { res := RESULT_OK, rows := rowset }
  | filter :: next, rowset, rel =>
    let colres := table_column_get db table.id filter.column
    match colres.result, colres.meta with
    | RESULT_OK, some column => do
      let lookup : Except Fault (Except BazaResult TableFindResult) :=
        match column.type with
        | BTYPE_INT32 | BTYPE_INT64 =>
          let icres := str_to_int env filter.value
          if icres.result ≠ RESULT_OK then pure (Except.error RESULT_FILTER_VALUE_TYPE)
          else Except.ok <$>
            table_find db table.id column.id (filter_func_table env filter.op) (Needle.int icres.value)
        | BTYPE_STRING =>
          Except.ok <$>
            table_find db table.id column.id (filter_func_table env filter.op) (Needle.str filter.value)
        | BTYPE_INVALID => pure (Except.error RESULT_SERVER_ERROR)
      match (← lookup) with
      | Except.error res => pure { res := res, rows := [] }
      | Except.ok tfres =>
        if tfres.res ≠ RESULT_OK then pure { res := tfres.res, rows := [] }
        else if rel ≠ FILTER_REL_NONE then
          let new : Option IntList :=
            if rel = FILTER_REL_AND then intlist_intersection false rowset tfres.matches_
            else if rel = FILTER_REL_OR then intlist_union false rowset tfres.matches_
            else none
          match new with
          | none => pure { res := RESULT_SERVER_ERROR, rows := [] }
          | some new => filter_interpret_loop env db table next new filter.next_relation
        else filter_interpret_loop env db table next tfres.matches_ filter.next_relation
    | _, _ => pure { res := RESULT_COLUMN_NOT_FOUND, rows := [] }

/-- Chain evaluation `filter_interpret`. -/
def filter_interpret (env : CEnv) (db : DataBase) (table : TableMeta) (filter_list : List Filter) :
    Except Fault FilterInterpResult :=
  filter_interpret_loop env db table filter_list [] FILTER_REL_NONE

/-- The string `value->str` of a `StrList *` cursor (`none` is the NULL cursor); the result
    `none` is a NULL string, found in the node of an empty list. -/
def strnode_str : Option StrList → Except Fault (Option CStr)
  | none => throw Fault.null_deref
  | some [] => pure none
  | some (str :: _) => pure (some str)

/-- The cursor `value->next` of a `StrList *` cursor. -/
def strnode_next : Option StrList → Except Fault (Option StrList)
  | none => throw Fault.null_deref
  | some [] => pure none
  | some [_] => pure none
  | some (_ :: next) => pure (some next)

/-- A string handed to a libc function that reads it (`strtoll`, `strdup`). -/
def deref_str : Option CStr → Except Fault CStr
  | none => throw Fault.null_deref
  | some str => pure str

/-- The loop of `validate_value_types`. -/
def validate_value_types_loop (env : CEnv) : List ColumnMeta → Option StrList → Except Fault BazaResult
  | [], _ => pure RESULT_OK
  | col :: next, value => do
    let res : BazaResult ←
      (match col.type with
       | BTYPE_INT32 | BTYPE_INT64 => do
         let str ← deref_str (← strnode_str value)
         pure (str_to_int env str).result
       | _ => pure RESULT_OK)
    if res ≠ RESULT_OK then pure res
    else validate_value_types_loop env next (← strnode_next value)

/-- Check `validate_value_types`.  The loop reads `col->meta->type` of every node, the node of
    an empty column list (whose `meta` is NULL) included. -/
def validate_value_types (env : CEnv) (columns : ColumnMetaList) (values : StrList) :
    Except Fault BazaResult :=
  match columns with
  | [] => throw Fault.null_deref
  | _ => validate_value_types_loop env columns (some values)

/-- The loop of `insert_values`; the database is returned as the writes left it. -/
def insert_values_loop (env : CEnv) (table : TableMeta) (row : Nat) (replace : Bool) :
    List ColumnMeta → Option StrList → DataBase → Except Fault (BazaResult × DataBase)
  | [], _, db => pure (RESULT_OK, db)
  | col :: next, value, db => do
    let step : BazaResult × DataBase ←
      (match col.type with
       | BTYPE_INT32 => do
         let ires := str_to_int env (← deref_str (← strnode_str value))
         if ires.result ≠ RESULT_OK then pure (ires.result, db)
         else do
           let slot := table_column_get_row db table.id col.id row
           pure (RESULT_OK, ← slot_store db slot (Slot.bits (ires.value % 2 ^ 32)))
       | BTYPE_INT64 => do
         let ires := str_to_int env (← deref_str (← strnode_str value))
         if ires.result ≠ RESULT_OK then pure (ires.result, db)
         else do
           let slot := table_column_get_row db table.id col.id row
           pure (RESULT_OK, ← slot_store db slot (Slot.bits ires.value))
       | BTYPE_STRING => do
         let slot := table_column_get_row db table.id col.id row
         if replace then
           match (← slot_load db slot) with
           | Slot.ptr _ => pure ()
           | _ => throw Fault.uninit_read
         let dup ← deref_str (← strnode_str value)
         pure (RESULT_OK, ← slot_store db slot (Slot.ptr dup))
       | BTYPE_INVALID => pure (RESULT_OK, db))
    if step.1 ≠ RESULT_OK then pure step
    else insert_values_loop env table row replace next (← strnode_next value) step.2

/-- Writer `insert_values`: the values go into the columns of `columns`, pairwise in list order,
    at row `row`. -/
def insert_values (env : CEnv) (db : DataBase) (table : TableMeta) (columns : ColumnMetaList)
    (values : StrList) (row : Nat) (replace : Bool) : Except Fault (BazaResult × DataBase) :=
  match columns with
  | [] => throw Fault.null_deref
  | _ => insert_values_loop env table row replace columns (some values) db

/-- The conversion of an `int64_t` to `uint64_t`: a negative value wraps around. -/
def u64_of_i64 (v : Int) : Nat := if v < 0 then (v + 2 ^ 64).toNat else v.toNat

/-- What a statement leaves behind: the result code of the `QueryResponse`, the database and
    the text written to stdout. -/
structure Outcome where
  result : BazaResult
  db : DataBase
  out : CStr
deriving DecidableEq, Repr

/-- The loop of `interpret_select_filter` that collects the ids of the columns. -/
def column_ids_loop : List ColumnMeta → IntList → IntList
  | [], column_ids => column_ids
  | col :: next, column_ids => column_ids_loop next (intlist_push column_ids (col.id : Int))

/-- The printing loop of `interpret_select_filter`: one `table_row_print` and one `puts("")`
    for every row id. -/
def select_print_loop (db : DataBase) (table : TableMeta) (column_ids : Option IntList) :
    List Int → Except Fault CStr
  | [] => pure []
  | row :: next => do
    let r ← table_row_print db table.id column_ids (u64_of_i64 row)
    let tail ← select_print_loop db table column_ids next
    pure (r.2 ++ [10] ++ tail)

def interpret_select_filter (env : CEnv) (db : DataBase) (select_filters : List Filter)
    (table : TableMeta) (columns : ColumnMetaList) : Except Fault Outcome := do
  let fres ← filter_interpret env db table select_filters
  if fres.res ≠ RESULT_OK then pure { result := fres.res, db := db, out := [] }
  else
    match columns with
    | [] => throw Fault.null_deref
    | _ => do
      let column_ids := column_ids_loop columns intlist_empty
      let out ← select_print_loop db table (some column_ids) (intlist_values fres.rows)
      pure { result := RESULT_OK, db := db, out := out }

/-- The function `interpret_select_all`: every row is printed with a NULL column filter; the
    list `columns` is only freed. -/
def interpret_select_all (db : DataBase) (table : TableMeta) (_columns : ColumnMetaList) :
    Except Fault Outcome := do
  let out ← select_print_loop db table none ((List.range table.row_count).map (fun (row : Nat) => (row : Int)))
  pure { result := RESULT_OK, db := db, out := out }

def interpret_select (env : CEnv) (db : DataBase) (table_name : CStr) (select_filters : List Filter)
    (select_columns : Option StrList) : Except Fault Outcome :=
  let tabres := db_table_get db table_name
  if tabres.result ≠ RESULT_OK then pure { result := tabres.result, db := db, out := [] }
  else do
    let table := tabres.meta
    match (← table_column_get_list db table.id select_columns) with
    | none => pure { result := RESULT_COLUMN_NOT_FOUND, db := db, out := [] }
    | some columns =>
      if select_filters ≠ [] then interpret_select_filter env db select_filters table columns
      else interpret_select_all db table columns

/-- The enumerator of `BaseType` with a given integer value. -/
def basetype_of_int : Int → Option BaseType
  | 0 => some BTYPE_INVALID
  | 1 => some BTYPE_STRING
  | 2 => some BTYPE_INT32
  | 3 => some BTYPE_INT64
  | _ => none

def basetype_to_int : BaseType → Int
  | BTYPE_INVALID => 0
  | BTYPE_STRING => 1
  | BTYPE_INT32 => 2
  | BTYPE_INT64 => 3

/-- The first loop of `interpret_create`: the type names are resolved and pushed onto
    `type_list`; `none` is the return of `RESULT_INVALID_QUERY`. -/
def interpret_create_types : List CStr → IntList → Option IntList
  | [], type_list => some type_list
  | strtype :: next, type_list =>
    let btype := basetype_from_str strtype
    if btype = BTYPE_INVALID then none
    else interpret_create_types next (intlist_push type_list (basetype_to_int btype))

/-- The second loop of `interpret_create`: one `table_column_new` per column name, with the type
    found at the cursor `type` (`[]` is a NULL cursor); every failure is `FATAL`.  A value
    that is no enumerator of `BaseType` (the `INTLIST_NULL` of an empty list) reaches
    `basetype_size`, which is `FATAL` as well. -/
def interpret_create_columns (table : TableMeta) : List CStr → List Int → DataBase → Except Fault DataBase
  | [], _, db => pure db
  | _ :: _, [], _ => throw Fault.null_deref
  | column :: next, value :: type, db =>
    match basetype_of_int value with
    | none => throw Fault.fatal_exit
    | some btype =>
      let r := table_column_new db table.id btype column
      if r.1 ≠ RESULT_OK then throw Fault.fatal_exit
      else interpret_create_columns table next type r.2

def interpret_create (db : DataBase) (table_name : CStr) (create_columns create_types : Option StrList) :
    Except Fault Outcome :=
  let r := db_table_new db table_name
  if r.1.result ≠ RESULT_OK then pure { result := r.1.result, db := r.2, out := [] }
  else
    let table := r.1.meta
    let db := r.2
    match interpret_create_types (create_types.getD []) intlist_empty with
    | none => pure { result := RESULT_INVALID_QUERY, db := db, out := [] }
    | some type_list => do
      let db ← interpret_create_columns table (create_columns.getD []) type_list db
      pure { result := RESULT_OK, db := db, out := [] }

/-- The function `interpret_insert`.  The row written is `table.row_count` of the `TableMeta`
    copied before `table_row_add` ran, that is, the old row count. -/
def interpret_insert (env : CEnv) (db : DataBase) (table_name : CStr) (insert_values_ : StrList) :
    Except Fault Outcome :=
  let tabres := db_table_get db table_name
  if tabres.result ≠ RESULT_OK then pure { result := tabres.result, db := db, out := [] }
  else do
    let table := tabres.meta
    match (← table_column_get_list db table.id none) with
    | none => pure { result := RESULT_COLUMN_NOT_FOUND, db := db, out := [] }
    | some columns =>
      let res ← validate_value_types env columns insert_values_
      if res ≠ RESULT_OK then pure { result := res, db := db, out := [] }
      else do
        let db := (table_row_add db table.id).2
        let r ← insert_values env db table columns insert_values_ table.row_count false
        if r.1 ≠ RESULT_OK then pure { result := RESULT_SERVER_ERROR, db := r.2, out := [] }
        else pure { result := RESULT_OK, db := r.2, out := [] }

/-- The loop of `interpret_delete_filtered`: row `row->value - delete_count` (in `uint64_t`
    arithmetic) is deleted for every row id, in list order. -/
def interpret_delete_filtered_loop (table : TableMeta) :
    List Int → Nat → DataBase → Except Fault (BazaResult × DataBase)
  | [], _, db => pure (RESULT_OK, db)
  | row :: next, delete_count, db => do
    let r ← table_row_delete db table.id (u64_of_i64 (row - (delete_count : Int)))
    if r.1 ≠ RESULT_OK then pure r
    else interpret_delete_filtered_loop table next (delete_count + 1) r.2

def interpret_delete_filtered (env : CEnv) (db : DataBase) (delete_filters : List Filter)
    (table : TableMeta) : Except Fault Outcome := do
  let fres ← filter_interpret env db table delete_filters
  if fres.res ≠ RESULT_OK then pure { result := fres.res, db := db, out := [] }
  else do
    let r ← interpret_delete_filtered_loop table (intlist_values fres.rows) 0 db
    pure { result := r.1, db := r.2, out := [] }

/-- The loop of `interpret_delete_all`: row 0 is deleted `n` times. -/
def interpret_delete_all_loop (table : TableMeta) : Nat → DataBase → Except Fault (BazaResult × DataBase)
  | 0, db => pure (RESULT_OK, db)
  | n + 1, db => do
    let r ← table_row_delete db table.id 0
    if r.1 ≠ RESULT_OK then pure r
    else interpret_delete_all_loop table n r.2

def interpret_delete_all (db : DataBase) (table : TableMeta) : Except Fault Outcome := do
  let r ← interpret_delete_all_loop table table.row_count db
  pure { result := r.1, db := r.2, out := [] }

def interpret_delete (env : CEnv) (db : DataBase) (table_name : CStr) (delete_filters : List Filter) :
    Except Fault Outcome :=
  let tabres := db_table_get db table_name
  if tabres.result ≠ RESULT_OK then pure { result := tabres.result, db := db, out := [] }
  else if delete_filters ≠ [] then interpret_delete_filtered env db delete_filters tabres.meta
  else interpret_delete_all db tabres.meta

/-- The row loop shared by `interpret_update_filtered` and `interpret_update_all`: one
    `insert_values` with `replace = true` per row. -/
def interpret_update_rows (env : CEnv) (table : TableMeta) (columns : ColumnMetaList)
    (update_values : StrList) : List Nat → DataBase → Except Fault (BazaResult × DataBase)
  | [], db => pure (RESULT_OK, db)
  | row :: next, db => do
    let r ← insert_values env db table columns update_values row true
    if r.1 ≠ RESULT_OK then pure r
    else interpret_update_rows env table columns update_values next r.2

def interpret_update_filtered (env : CEnv) (db : DataBase) (update_filters : List Filter)
    (update_values : StrList) (table : TableMeta) (columns : ColumnMetaList) :
    Except Fault Outcome := do
  let fres ← filter_interpret env db table update_filters
  if fres.res ≠ RESULT_OK then pure { result := fres.res, db := db, out := [] }
  else do
    let validate_res ← validate_value_types env columns update_values
    if validate_res ≠ RESULT_OK then pure { result := RESULT_VALUE_TYPE, db := db, out := [] }
    else do
      let rows := (intlist_values fres.rows).map u64_of_i64
      let r ← interpret_update_rows env table columns update_values rows db
      pure { result := r.1, db := r.2, out := [] }

def interpret_update_all (env : CEnv) (db : DataBase) (update_values : StrList) (table : TableMeta)
    (columns : ColumnMetaList) : Except Fault Outcome := do
  let validate_res ← validate_value_types env columns update_values
  if validate_res ≠ RESULT_OK then pure { result := RESULT_VALUE_TYPE, db := db, out := [] }
  else do
    let r ← interpret_update_rows env table columns update_values (List.range table.row_count) db
    pure { result := r.1, db := r.2, out := [] }

def interpret_update (env : CEnv) (db : DataBase) (table_name : CStr) (update_filters : List Filter)
    (update_columns update_values : StrList) : Except Fault Outcome :=
  let tabres := db_table_get db table_name
  if tabres.result ≠ RESULT_OK then pure { result := tabres.result, db := db, out := [] }
  else do
    let table := tabres.meta
    match (← table_column_get_list db table.id (some update_columns)) with
    | none => pure { result := RESULT_COLUMN_NOT_FOUND, db := db, out := [] }
    | some columns =>
      if update_filters ≠ [] then
        interpret_update_filtered env db update_filters update_values table columns
      else interpret_update_all env db update_values table columns

/-- Dispatcher `interpret_query`. -/
def interpret_query (env : CEnv) (db : DataBase) : Query → Except Fault Outcome
  | Query.QUERY_SELECT table_name select_filters select_columns _ _ =>
    interpret_select env db table_name select_filters select_columns
  | Query.QUERY_CREATE table_name create_columns create_types =>
    interpret_create db table_name create_columns create_types
  | Query.QUERY_INSERT table_name insert_values_ =>
    interpret_insert env db table_name insert_values_
  | Query.QUERY_DELETE table_name delete_filters =>
    interpret_delete env db table_name delete_filters
  | Query.QUERY_UPDATE table_name update_filters update_columns update_values =>
    interpret_update env db table_name update_filters update_columns update_values

/-! ## The driver loop and the fixtures of the development -/

/-- The function `do_query` of the two `main` programs, without its own printing: the statement
    is parsed and the query interpreted.  After a failed parse `do_query` prints the error and
    still hands `res.query` to `interpret_query`; that union member then holds the pointer to
    the error message, whose first bytes are the text of the message and no value of
    `QueryType`, so the `switch` of `interpret_query` takes no case and the process ends in
    `FATAL("UNIMPLEMENTED")`. -/
def do_query (env : CEnv) (db : DataBase) (q : CStr) : Except Fault Outcome := do
  match (← query_parse q) with
  | QueryParseResult.error _ => throw Fault.fatal_exit
  | QueryParseResult.ok query => interpret_query env db query

/-- The loop of `main` over its statements; the result is the database they leave. -/
def run_queries (env : CEnv) : List CStr → DataBase → Except Fault DataBase
  | [], db => pure db
  | q :: rest, db => do
    let o ← do_query env db q
    run_queries env rest o.db

/-- The database after `storage_init`. -/
def db_init : DataBase := { tables := [], TABLE_ID := 0, COLUMN_ID := 0 }

/-- The C implementation of x86-64 Linux with glibc. -/
def env_glibc : CEnv := { strtoll_einval := false, char_signed := true }

/-- A C implementation whose `strtoll` reports `EINVAL` when it converts nothing (musl). -/
def env_einval : CEnv := { strtoll_einval := true, char_signed := true }

/-- The first `n` slots of every column of every table: the live part of a database whose
    tables all have `n` rows. -/
def live_slots (db : DataBase) (n : Nat) : List (List (List Slot)) :=
  db.tables.map (fun t => t.columns.map (fun c => c.data.take n))

/-! ## Notions used to state the properties -/

/-- The kind of a slot fits the type of its column. -/
def slot_ok : BaseType → Slot → Bool
  | BTYPE_INT32, Slot.bits _ => true
  | BTYPE_INT64, Slot.bits _ => true
  | BTYPE_STRING, Slot.ptr _ => true
  | _, _ => false

/-- The invariant of a table at rest: column ids are distinct, the row count is below the
    capacity, every column has a valid type and a buffer of `row_capacity` slots, and the
    live slots of a column hold values of its type. -/
def table_wf (t : Table) : Prop :=
  (t.columns.map (fun c => c.meta.id)).Nodup ∧
  t.meta.row_count < t.row_capacity ∧
  ∀ c ∈ t.columns, c.meta.type ≠ BTYPE_INVALID ∧ c.data.length = t.row_capacity ∧
    ∀ s ∈ c.data.take t.meta.row_count, slot_ok c.meta.type s = true

instance (t : Table) : Decidable (table_wf t) := by
  unfold table_wf; infer_instance

/-- The list object that holds the values `vs`: the values themselves, or the single node with
    `INTLIST_NULL` when there are none. -/
def intlist_of (vs : List Int) : IntList :=
  match vs with
  | [] => [INTLIST_NULL]
  | _ => vs

/-- The needle `filter_interpret` builds for a predicate on a column of type `type`. -/
def filter_needle (env : CEnv) (type : BaseType) (value : CStr) : Needle :=
  match type with
  | BTYPE_STRING => Needle.str value
  | _ => Needle.int (str_to_int env value).value

/-- Row `i` of table `t` satisfies the predicate `f`: the comparison function of `f.op`, applied
    to the slot of row `i` in the column named `f.column` and to the literal, is true. -/
def pred_holds (env : CEnv) (t : Table) (f : Filter) (i : Nat) : Bool :=
  match itable_column_find t f.column with
  | none => false
  | some c =>
    match filter_func_table env f.op c.meta.type (icolumn_row_get c i)
        (filter_needle env c.meta.type f.value) with
    | Except.ok b => b
    | Except.error _ => false

/-- The set `rows(p)` of the live row indices that satisfy a predicate. -/
def rows_of (env : CEnv) (t : Table) (f : Filter) : Finset Nat :=
  (Finset.range t.meta.row_count).filter (fun i => pred_holds env t f i = true)

/-- The strict left-to-right fold of a chain: `acc` is the set of the predicates folded so
    far and `rel` the relation that joins it to the next predicate (none for the first). -/
def chain_rows (env : CEnv) (t : Table) : List Filter → Finset Nat → FilterRelation → Finset Nat
  | [], acc, _ => acc
  | f :: next, acc, rel =>
    chain_rows env t next
      (match rel with
       | FILTER_REL_AND => acc ∩ rows_of env t f
       | FILTER_REL_OR => acc ∪ rows_of env t f
       | _ => rows_of env t f)
      f.next_relation

/-- The operators that `filter_func_table` holds a function for. -/
def op_wired (op : FilterOp) : Bool :=
  match op with
  | FILTER_EQUAL | FILTER_GREATER | FILTER_GREATER_EQUAL | FILTER_LESSER | FILTER_LESSER_EQUAL
  | FILTER_LIKE => true
  | _ => false

/-- A predicate the claim speaks about: its operator is one of `=`, `>`, `>=`, `<`, `<=`, `LIKE`,
    its column exists in the table, and its literal converts when the column is an integer
    column. -/
def filter_ok (env : CEnv) (t : Table) (f : Filter) : Prop :=
  op_wired f.op = true ∧
  match itable_column_find t f.column with
  | none => False
  | some c => c.meta.type ≠ BTYPE_STRING → (str_to_int env f.value).result = RESULT_OK

instance (env : CEnv) (t : Table) (f : Filter) : Decidable (filter_ok env t f) := by
  unfold filter_ok
  cases itable_column_find t f.column <;> infer_instance

/-- Every predicate but the last is joined to its successor by `AND` or `OR`. -/
def chain_linked : List Filter → Bool
  | [] => true
  | [_] => true
  | f :: g :: rest =>
    (decide (f.next_relation = FILTER_REL_AND) || decide (f.next_relation = FILTER_REL_OR)) &&
      chain_linked (g :: rest)

/-- No value of the list is the sentinel `INTLIST_NULL`. -/
def NoNull (vs : List Int) : Prop := ∀ x ∈ vs, x ≠ INTLIST_NULL

/-- One round of a loop of `intlist_union` on the values. -/
def union_step (acc : List Int) (v : Int) : List Int := if v ∈ acc then acc else acc ++ [v]

/-- One round of the loop of `intlist_intersection` on the values. -/
def inter_step (right : List Int) (acc : List Int) (v : Int) : List Int :=
  if v ∈ right ∧ v ∉ acc then acc ++ [v] else acc

/-- The values of `intlist_union`: those of the left list, then the new ones of the right list,
    each once. -/
def union_values (a b : List Int) : List Int := b.foldl union_step (a.foldl union_step [])

/-- The values of `intlist_intersection`: those of the left list that the right list holds,
    each once. -/
def inter_values (a b : List Int) : List Int := a.foldl (inter_step b) []

/-- The row ids `icolumn_find` collects for a predicate: the live rows that satisfy it, in
    ascending order. -/
def sat_rows (env : CEnv) (t : Table) (f : Filter) : List Int :=
  ((List.range' 0 t.meta.row_count).filter (fun k => pred_holds env t f k)).map (fun (k : Nat) => (k : Int))

/-- The list of row ids `vs` holds exactly the rows of the set `A`, and no sentinel. -/
def holds_rows (vs : List Int) (A : Finset Nat) : Prop :=
  NoNull vs ∧ ∀ x : Int, x ∈ vs ↔ ∃ i : Nat, x = (i : Int) ∧ i ∈ A

/-- The value of a run of decimal digits. -/
def digits_value (ds : CStr) : Nat := ds.foldl (fun acc c => acc * 10 + (c - 48)) 0

/-- The integer a decimal literal denotes: digits, with an optional minus sign in front. -/
def int_literal (s : CStr) : Option Int :=
  match s with
  | 45 :: ds => if ds ≠ [] ∧ ds.all isdigit = true then some (-(digits_value ds : Int)) else none
  | ds => if ds ≠ [] ∧ ds.all isdigit = true then some (digits_value ds : Int) else none

/-- A value is valid for a column type: any string for a String column, an integer literal in
    the range of the type for an integer column. -/
def value_fits (type : BaseType) (v : CStr) : Bool :=
  match type, int_literal v with
  | BTYPE_STRING, _ => true
  | BTYPE_INT32, some z => decide (-(2 ^ 31) ≤ z ∧ z < 2 ^ 31)
  | BTYPE_INT64, some z => decide (-(2 ^ 63) ≤ z ∧ z < 2 ^ 63)
  | _, _ => false

/-- A slot holds the value a literal denotes: the string itself in a String column, a bit
    pattern of the width of the column that reads as the integer in an integer column. -/
def cell_holds (type : BaseType) (s : Slot) (v : CStr) : Bool :=
  match type, s with
  | BTYPE_STRING, Slot.ptr str => decide (str = v)
  | BTYPE_INT32, Slot.bits b => decide (b < 2 ^ 32) && decide (some (as_int32 b) = int_literal v)
  | BTYPE_INT64, Slot.bits b => decide (b < 2 ^ 64) && decide (some (as_int64 b) = int_literal v)
  | _, _ => false

/-- The slot `insert_values` writes for a value in a column of a given type. -/
def value_slot (env : CEnv) (type : BaseType) (v : CStr) : Slot :=
  match type with
  | BTYPE_INT32 => Slot.bits ((str_to_int env v).value % 2 ^ 32)
  | BTYPE_INT64 => Slot.bits (str_to_int env v).value
  | BTYPE_STRING => Slot.ptr v
  | BTYPE_INVALID => Slot.uninit

/-- A column after a value has been written at row `n`. -/
def store_cell (env : CEnv) (n : Nat) (c : Column) (v : CStr) : Column :=
  { c with data := c.data.set n (value_slot env c.meta.type v) }

/-- The columns after one value each has been written at row `n`. -/
def store_row (env : CEnv) (n : Nat) (cols : List Column) (vs : List CStr) : List Column :=
  List.zipWith (store_cell env n) cols vs

/-- A column as `table_row_add` leaves it in a table that had `n` rows and capacity `cap`. -/
def column_added (n cap : Nat) (c : Column) : Column :=
  if n + 1 = cap then icolumn_realloc_data c (cap * 2) else c

/-- The table `table_row_add` leaves: one more row, and twice the capacity in every column when
    the new row count equals the capacity. -/
def row_added (t : Table) : Table :=
  { meta := { t.meta with row_count := t.meta.row_count + 1 },
    row_capacity := if t.meta.row_count + 1 = t.row_capacity then t.row_capacity * 2 else t.row_capacity,
    columns := t.columns.map (column_added t.meta.row_count t.row_capacity) }

/-- The cursor at the head of the remaining values: NULL when none remain. -/
def cursor_of (vs : List CStr) : Option StrList :=
  match vs with
  | [] => none
  | _ => some vs

/-- The table of the end-to-end scenarios after `alice 30`, `bob 25` and `alice 40` have been
    inserted. -/
def scenario_table : Table :=
  { meta := { id := 0, name := cstr "t", row_count := 3 },
    row_capacity := 64,
    columns :=
      [{ meta := { id := 0, name := cstr "name", type := BTYPE_STRING },
         data := [Slot.ptr (cstr "alice"), Slot.ptr (cstr "bob"), Slot.ptr (cstr "alice")] ++
           List.replicate 61 Slot.uninit },
       { meta := { id := 1, name := cstr "age", type := BTYPE_INT32 },
         data := [Slot.bits 30, Slot.bits 25, Slot.bits 40] ++ List.replicate 61 Slot.uninit }] }

/-- The database that holds `scenario_table` and nothing else. -/
def scenario_db : DataBase := { tables := [scenario_table], TABLE_ID := 1, COLUMN_ID := 2 }

/-- The statements that build `scenario_db`. -/
def scenario_script : List CStr :=
  [cstr "CREATE TABLE t ( name string, age int32 )",
   cstr "INSERT INTO t VALUES (alice, 30)",
   cstr "INSERT INTO t VALUES (bob, 25)",
   cstr "INSERT INTO t VALUES (alice, 40)"]

/-- The chain `age = 30 OR age = 25 AND name = alice` of Scenario C. -/
def scenario_chain : List Filter :=
  [{ op := FILTER_EQUAL, value := cstr "30", column := cstr "age", next_relation := FILTER_REL_OR },
   { op := FILTER_EQUAL, value := cstr "25", column := cstr "age", next_relation := FILTER_REL_AND },
   { op := FILTER_EQUAL, value := cstr "alice", column := cstr "name",
     next_relation := FILTER_REL_NONE }]

/-- The first `n` entries of a buffer that has 64 slots; the other slots were never written. -/
def buffer64 (live : List Slot) : List Slot := live ++ List.replicate (64 - live.length) Slot.uninit

/-- A table `t` with the Int32 columns `a` and `b` and the one row `1 2`. -/
def pair_table : Table :=
  { meta := { id := 0, name := cstr "t", row_count := 1 },
    row_capacity := 64,
    columns :=
      [{ meta := { id := 0, name := cstr "a", type := BTYPE_INT32 }, data := buffer64 [Slot.bits 1] },
       { meta := { id := 1, name := cstr "b", type := BTYPE_INT32 }, data := buffer64 [Slot.bits 2] }] }

def pair_db : DataBase := { tables := [pair_table], TABLE_ID := 1, COLUMN_ID := 2 }

def pair_script : List CStr :=
  [cstr "CREATE TABLE t ( a int32, b int32 )", cstr "INSERT INTO t VALUES (1, 2)"]

/-- A table `t` with the one Int32 column `a` holding 0, 0, 0, 1, 0, 2. -/
def six_table : Table :=
  { meta := { id := 0, name := cstr "t", row_count := 6 },
    row_capacity := 64,
    columns :=
      [{ meta := { id := 0, name := cstr "a", type := BTYPE_INT32 },
         data := buffer64 [Slot.bits 0, Slot.bits 0, Slot.bits 0, Slot.bits 1, Slot.bits 0, Slot.bits 2] }] }

def six_db : DataBase := { tables := [six_table], TABLE_ID := 1, COLUMN_ID := 1 }

def six_script : List CStr :=
  [cstr "CREATE TABLE t ( a int32 )", cstr "INSERT INTO t VALUES (0)", cstr "INSERT INTO t VALUES (0)",
   cstr "INSERT INTO t VALUES (0)", cstr "INSERT INTO t VALUES (1)", cstr "INSERT INTO t VALUES (0)",
   cstr "INSERT INTO t VALUES (2)"]

/-- A table `t` with the one Int32 column `a` and no row. -/
def int_table : Table :=
  { meta := { id := 0, name := cstr "t", row_count := 0 },
    row_capacity := 64,
    columns := [{ meta := { id := 0, name := cstr "a", type := BTYPE_INT32 }, data := buffer64 [] }] }

def int_db : DataBase := { tables := [int_table], TABLE_ID := 1, COLUMN_ID := 1 }

/-- The table of the test `main` of interpreter.c after its six INSERT statements. -/
def testing_table : Table :=
  { meta := { id := 0, name := cstr "testing", row_count := 6 },
    row_capacity := 64,
    columns :=
      [{ meta := { id := 0, name := cstr "one", type := BTYPE_STRING },
         data := buffer64 [Slot.ptr (cstr "hello"), Slot.ptr (cstr "different"), Slot.ptr (cstr "hi"),
           Slot.ptr (cstr "between"), Slot.ptr (cstr "hello"), Slot.ptr (cstr "hello")] },
       { meta := { id := 1, name := cstr "two", type := BTYPE_INT32 },
         data := buffer64 [Slot.bits 50, Slot.bits 50, Slot.bits 20, Slot.bits 35, Slot.bits 35,
           Slot.bits 50] },
       { meta := { id := 2, name := cstr "three", type := BTYPE_STRING },
         data := buffer64 [Slot.ptr (cstr "there"), Slot.ptr (cstr "row"), Slot.ptr (cstr "there"),
           Slot.ptr (cstr "values"), Slot.ptr (cstr "values"), Slot.ptr (cstr "lastone")] }] }

def testing_db : DataBase := { tables := [testing_table], TABLE_ID := 1, COLUMN_ID := 3 }

/-- The first seven statements of the test `main` of interpreter.c. -/
def testing_script : List CStr :=
  [cstr "CREATE TABLE testing (    one String,     two int32,     three String )",
   cstr "INSERT INTO testing VALUES (hello, 50, there)",
   cstr "INSERT INTO testing VALUES (different, 50, row)",
   cstr "INSERT INTO testing VALUES (hi, 20, there)",
   cstr "INSERT INTO testing VALUES (between, 35, values)",
   cstr "INSERT INTO testing VALUES (hello, 35, values)",
   cstr "INSERT INTO testing VALUES (hello, 50, lastone)"]

/-- The text `table_row_print` writes for a cell whose display string is ASCII: the string,
    padded with blanks to 20 columns. -/
def padded (s : String) : CStr := cstr s ++ List.replicate (20 - s.length) 32

/-- The frame of a write to a column list: metadata and buffer lengths are as before, and a slot
    differs from before only where `P` allows it. -/
def cols_frame (P : ColumnMeta → Nat → Prop) (l' l : List Column) : Prop :=
  List.Forall₂ (fun c' c => c'.meta = c.meta ∧ c'.data.length = c.data.length ∧
    ∀ i, c'.data.get? i ≠ c.data.get? i → P c.meta i) l' l

/-- The frame of a write to a table: row count, name, id and capacity are as before, and a slot
    differs from before only where `P` allows it. -/
def table_frame (P : ColumnMeta → Nat → Prop) (T' T : Table) : Prop :=
  T'.meta = T.meta ∧ T'.row_capacity = T.row_capacity ∧ cols_frame P T'.columns T.columns

/-- The rows an UPDATE targets: every row without a WHERE clause, otherwise the rows of the
    result of the filter chain. -/
def update_targets (env : CEnv) (db : DataBase) (t : Table) (filters : List Filter) (i : Nat) : Prop :=
  if filters = [] then i < t.meta.row_count
  else ∃ fres, filter_interpret env db t.meta filters = Except.ok fres ∧ fres.res = RESULT_OK ∧
    i ∈ (intlist_values fres.rows).map u64_of_i64

/-- A run that ends with a value. -/
def fault_free {α : Type} (x : Except Fault α) : Bool :=
  match x with
  | Except.ok _ => true
  | Except.error _ => false

/-- The columns a SELECT list resolves to: all columns for `*`, otherwise the columns of the
    table whose name is in the list, in the order of the table. -/
def projected (t : Table) (select_columns : Option StrList) : List Column :=
  match select_columns with
  | none => t.columns
  | some l => t.columns.filter (fun c => decide (c.meta.name ∈ l))

/-- The list of column ids `interpret_select_filter` hands to `table_row_print`. -/
def projected_ids (t : Table) (select_columns : Option StrList) : IntList :=
  intlist_of ((projected t select_columns).map (fun c => (c.meta.id : Int)))

/-- A table with one String column whose only cell is the single byte 0x80. -/
def odd_table : Table :=
  { meta := { id := 0, name := cstr "s", row_count := 1 },
    row_capacity := 64,
    columns :=
      [{ meta := { id := 0, name := cstr "x", type := BTYPE_STRING }, data := buffer64 [Slot.ptr [128]] }] }

def odd_db : DataBase := { tables := [odd_table], TABLE_ID := 1, COLUMN_ID := 1 }

/-- The values of a row-id list are row indices below `n`. -/
def rows_below (n : Nat) (l : IntList) : Prop :=
  ∀ x ∈ intlist_values l, ∃ k : Nat, x = (k : Int) ∧ k < n

/-- The text of a sequence of lines, each followed by a newline. -/
def unlines : List CStr → CStr
  | [] => []
  | line :: rest => line ++ [10] ++ unlines rest

/-- A table with one Int32 column and 63 rows, one below its capacity of 64. -/
def brim_table : Table :=
  { meta := { id := 0, name := cstr "t", row_count := 63 },
    row_capacity := 64,
    columns :=
      [{ meta := { id := 0, name := cstr "a", type := BTYPE_INT32 },
         data := buffer64 (List.replicate 63 (Slot.bits 0)) }] }

def brim_db : DataBase := { tables := [brim_table], TABLE_ID := 1, COLUMN_ID := 1 }

/-- A bare token: not empty, and free of white space and of double quotes. -/
def bare (tok : CStr) : Bool :=
  decide (tok ≠ []) && tok.all (fun c => decide (c ≠ 34) && !str_contains PARSE_SPLIT_STRING c)

/-- A run of the white space `query_parse` splits on. -/
def blank (s : CStr) : Bool := s.all (fun c => str_contains PARSE_SPLIT_STRING c)

/-- The text of a token list: the tokens, separated by one blank each. -/
def spaced : List CStr → CStr
  | [] => []
  | [tok] => tok
  | tok :: rest => tok ++ [32] ++ spaced rest

/-- The tokens of a list `c1, ..., ck`: every element but the last is followed by a comma. -/
def list_tokens : List CStr → List CStr
  | [] => []
  | [c] => [c]
  | c :: rest => (c ++ [44]) :: list_tokens rest

/-- The three tokens of a predicate `x op v`. -/
structure PredText where
  column : CStr
  op : CStr
  value : CStr
deriving DecidableEq, Repr

/-- The tokens of a WHERE chain `x1 op1 v1 rel1 x2 op2 v2 ...`: the first predicate, then the
    others, each behind its relation token. -/
def where_tokens (first : PredText) : List (CStr × PredText) → List CStr
  | [] => [first.column, first.op, first.value]
  | (rel, p) :: more => [first.column, first.op, first.value, rel] ++ where_tokens p more

/-- The filter chain of a WHERE chain: predicate `i` carries the relation that stands behind
    it, the last one `FILTER_REL_NONE`. -/
def where_filters (first : PredText) : List (CStr × PredText) → List Filter
  | [] => [{ op := filterop_from_str first.op, value := first.value, column := first.column,
             next_relation := FILTER_REL_NONE }]
  | (rel, p) :: more =>
    { op := filterop_from_str first.op, value := first.value, column := first.column,
      next_relation := filterrel_from_str rel } :: where_filters p more

/-- The parts of a statement `SELECT c1, ..., ck FROM t WHERE x1 op1 v1 rel1 ... ORDER BY c dir`;
    the keywords are tokens of their own so that their letter case is free. -/
structure SelectText where
  kw_select : CStr
  columns : List CStr
  kw_from : CStr
  table : CStr
  kw_where : CStr
  first : PredText
  more : List (CStr × PredText)
  kw_order : CStr
  kw_by : CStr
  sort_column : CStr
  direction : CStr
deriving DecidableEq, Repr

/-- The tokens of the statement. -/
def SelectText.tokens (s : SelectText) : List CStr :=
  [s.kw_select] ++ list_tokens s.columns ++ [s.kw_from, s.table, s.kw_where] ++
    where_tokens s.first s.more ++ [s.kw_order, s.kw_by, s.sort_column, s.direction]

/-- The query the statement denotes. -/
def SelectText.query (s : SelectText) : Query :=
  Query.QUERY_SELECT s.table (where_filters s.first s.more) (some s.columns) (some s.sort_column)
    (sortdirection_from_str s.direction)

/-- The statement has the form the claim describes: the keywords are the keywords up to letter
    case, there is at least one column and the column list is not the token `*`, every column
    name is non-empty and free of commas, every token is bare, the operator, relation and
    direction tokens are operators, `AND` / `OR` and `ASC` / `DESC`. -/
def SelectText.well_formed (s : SelectText) : Prop :=
  str_ieq s.kw_select (cstr "select") = true ∧ str_ieq s.kw_from (cstr "from") = true ∧
  str_ieq s.kw_where (cstr "WHERE") = true ∧ str_ieq s.kw_order (cstr "ORDER") = true ∧
  str_ieq s.kw_by (cstr "BY") = true ∧
  s.columns ≠ [] ∧ s.columns ≠ [cstr "*"] ∧ (∀ c ∈ s.columns, c ≠ [] ∧ 44 ∉ c) ∧
  (∀ tok ∈ s.tokens, bare tok = true) ∧
  filterop_from_str s.first.op ≠ FILTER_INVALID ∧
  (∀ p ∈ s.more, filterrel_from_str p.1 ≠ FILTER_REL_INVALID ∧
    filterop_from_str p.2.op ≠ FILTER_INVALID) ∧
  sortdirection_from_str s.direction ≠ SORT_INVALID

instance (s : SelectText) : Decidable s.well_formed := by
  unfold SelectText.well_formed; infer_instance

/-- The statement of the test of parser.c:
    `SELECT name, age FROM table WHERE age = 50 AND name like pozdrawia% ORDER BY age DESC`. -/
def test_select : SelectText :=
  { kw_select := cstr "SELECT",
    columns := [cstr "name", cstr "age"],
    kw_from := cstr "FROM",
    table := cstr "table",
    kw_where := cstr "WHERE",
    first := { column := cstr "age", op := cstr "=", value := cstr "50" },
    more := [(cstr "AND", { column := cstr "name", op := cstr "like", value := cstr "pozdrawia%" })],
    kw_order := cstr "ORDER",
    kw_by := cstr "BY",
    sort_column := cstr "age",
    direction := cstr "DESC" }

/-- One token of a text as the tokenizer is meant to see it: a bare run of bytes, or a quoted
    span, of which `text` is what stands between the two quotes. -/
structure Piece where
  quoted : Bool
  text : CStr
deriving DecidableEq, Repr

/-- The bytes of a token in the text: a quoted span stands between two double quotes. -/
def Piece.render (p : Piece) : CStr :=
  if p.quoted then [34] ++ p.text ++ [34] else p.text

/-- A bare token is not empty and free of white space and quotes; a quoted span holds any
    bytes but the quote, white space included, and may be empty. -/
def Piece.valid (p : Piece) : Bool :=
  if p.quoted then decide (34 ∉ p.text) else bare p.text

/-- A text as a sequence of tokens, each with the white space that follows it. -/
def layout : List (Piece × CStr) → CStr
  | [] => []
  | (p, sep) :: rest => p.render ++ sep ++ layout rest

/-- Every token of the sequence is valid, what follows a token is white space, and there is
    white space between two tokens. -/
def layout_ok : List (Piece × CStr) → Bool
  | [] => true
  | (p, sep) :: rest => p.valid && blank sep && (decide (sep ≠ []) || rest.isEmpty) && layout_ok rest

/-- The text ` a "b  c"` + tab + `"" d "e"` as a sequence of tokens. -/
def quoted_sample : List (Piece × CStr) :=
  [({ quoted := false, text := cstr "a" }, cstr " "),
   ({ quoted := true, text := cstr "b  c" }, [9]),
   ({ quoted := true, text := [] }, cstr " "),
   ({ quoted := false, text := cstr "d" }, cstr " "),
   ({ quoted := true, text := cstr "e" }, [])]

/-- The tokens of the column definitions `c1 ty1, ..., cn tyn`: every type but the last is
    followed by a comma. -/
def create_tokens : List (CStr × CStr) → List CStr
  | [] => []
  | [(c, ty)] => [c, ty]
  | (c, ty) :: rest => c :: (ty ++ [44]) :: create_tokens rest

/-- A closing parenthesis attached to the last token of a list. -/
def close_last : List CStr → List CStr
  | [] => []
  | [tok] => [tok ++ [41]]
  | tok :: rest => tok :: close_last rest

/-- A token list in parentheses that are attached to its first and its last token. -/
def attached (toks : List CStr) : List CStr :=
  match toks with
  | [] => []
  | tok :: rest => close_last (([40] ++ tok) :: rest)

/-- The tokens of `CREATE TABLE t ( c1 ty1, ..., cn tyn )`, the parentheses tokens of their
    own. -/
def create_spaced_tokens (t : CStr) (defs : List (CStr × CStr)) : List CStr :=
  [cstr "CREATE", cstr "TABLE", t, cstr "("] ++ create_tokens defs ++ [cstr ")"]

/-- The tokens of `CREATE TABLE t (c1 ty1, ..., cn tyn)`, the parentheses attached to the first
    name and to the last type. -/
def create_attached_tokens (t : CStr) (defs : List (CStr × CStr)) : List CStr :=
  [cstr "CREATE", cstr "TABLE", t] ++ attached (create_tokens defs)

/-- A bare literal of a value list: a bare token without comma and parentheses. -/
def literal (v : CStr) : Bool :=
  bare v && decide (44 ∉ v) && decide (40 ∉ v) && decide (41 ∉ v)

/-- The values joined by commas, without blanks. -/
def comma_joined : List CStr → CStr
  | [] => []
  | [v] => v
  | v :: rest => v ++ [44] ++ comma_joined rest

/-- The tokens of `INSERT INTO t VALUES (v1, ..., vn)`. -/
def insert_attached_tokens (t : CStr) (vs : List CStr) : List CStr :=
  [cstr "INSERT", cstr "INTO", t, cstr "VALUES"] ++ attached (list_tokens vs)

/-- The tokens of `INSERT INTO t VALUES ( v1, ..., vn )`. -/
def insert_spaced_tokens (t : CStr) (vs : List CStr) : List CStr :=
  [cstr "INSERT", cstr "INTO", t, cstr "VALUES", cstr "("] ++ list_tokens vs ++ [cstr ")"]

/-- The tokens of `INSERT INTO t VALUES (v1,...,vn)`: the list is one token. -/
def insert_packed_tokens (t : CStr) (vs : List CStr) : List CStr :=
  [cstr "INSERT", cstr "INTO", t, cstr "VALUES", [40] ++ comma_joined vs ++ [41]]

/-- The tokens of the statement with the ORDER BY clause in front of the WHERE clause. -/
def SelectText.tokens_order_first (s : SelectText) : List CStr :=
  [s.kw_select] ++ list_tokens s.columns ++
    [s.kw_from, s.table, s.kw_order, s.kw_by, s.sort_column, s.direction, s.kw_where] ++
    where_tokens s.first s.more

/-- The column list of the query: none for the single token `*`. -/
def SelectText.select_columns (s : SelectText) : Option StrList :=
  if s.columns = [cstr "*"] then none else some s.columns

/-- The query the statement denotes, `*` allowed as its column list. -/
def SelectText.parsed (s : SelectText) : Query :=
  Query.QUERY_SELECT s.table (where_filters s.first s.more) s.select_columns (some s.sort_column)
    (sortdirection_from_str s.direction)

/-- The clauses of the statement are well formed: as `SelectText.well_formed`, but the column
    list may be the token `*`. -/
def SelectText.clauses_ok (s : SelectText) : Prop :=
  str_ieq s.kw_select (cstr "select") = true ∧ str_ieq s.kw_from (cstr "from") = true ∧
  str_ieq s.kw_where (cstr "WHERE") = true ∧ str_ieq s.kw_order (cstr "ORDER") = true ∧
  str_ieq s.kw_by (cstr "BY") = true ∧
  s.columns ≠ [] ∧ (∀ c ∈ s.columns, c ≠ [] ∧ 44 ∉ c) ∧
  (∀ tok ∈ s.tokens, bare tok = true) ∧
  filterop_from_str s.first.op ≠ FILTER_INVALID ∧
  (∀ p ∈ s.more, filterrel_from_str p.1 ≠ FILTER_REL_INVALID ∧
    filterop_from_str p.2.op ≠ FILTER_INVALID) ∧
  sortdirection_from_str s.direction ≠ SORT_INVALID

instance (s : SelectText) : Decidable s.clauses_ok := by
  unfold SelectText.clauses_ok; infer_instance

/-- The statement `SELECT * FROM t WHERE b = 1 AND c = 2 ORDER BY a DESC`. -/
def star_select : SelectText :=
  { kw_select := cstr "SELECT",
    columns := [cstr "*"],
    kw_from := cstr "FROM",
    table := cstr "t",
    kw_where := cstr "WHERE",
    first := { column := cstr "b", op := cstr "=", value := cstr "1" },
    more := [(cstr "AND", { column := cstr "c", op := cstr "=", value := cstr "2" })],
    kw_order := cstr "ORDER",
    kw_by := cstr "BY",
    sort_column := cstr "a",
    direction := cstr "DESC" }

/-- The LIKE relation as the specification words it: `%` matches any run of zero or more
    bytes, `_` matches exactly one byte, every other pattern byte matches only itself, and the
    pattern has to match the string as a whole. -/
def like_matches_spec : CStr → CStr → Bool
  | [], s => s.isEmpty
  | c :: p, s =>
    if c = 37 then s.tails.any (fun r => like_matches_spec p r)
    else
      match s with
      | [] => false
      | d :: r => (decide (c = 95) || decide (c = d)) && like_matches_spec p r

/-- A C implementation with an unsigned plain `char` (the ARM ABIs). -/
def env_unsigned : CEnv := { strtoll_einval := false, char_signed := false }

/-- The statements that build the table of Scenario A and insert a quoted name. -/
def quoted_script : List CStr :=
  [cstr "CREATE TABLE t ( name string, age int32 )",
   cstr "INSERT INTO t VALUES (\"alicia ann\", 22)"]

/-- A table `w` with one String column `s` holding `abab`, `%%` and `a`. -/
def like_script : List CStr :=
  [cstr "CREATE TABLE w ( s string )",
   cstr "INSERT INTO w VALUES (abab)",
   cstr "INSERT INTO w VALUES (%%)",
   cstr "INSERT INTO w VALUES (a)"]

/-- The statements that build a table `u` whose one String cell holds the three bytes of the
    UTF-8 text `a` + e-acute, 0x61 0xC3 0xA9. -/
def accent_script : List CStr :=
  [cstr "CREATE TABLE u ( s string )", cstr "INSERT INTO u VALUES (" ++ [97, 195, 169] ++ cstr ")"]

/-- The names of the columns of a table, in order. -/
def column_names (t : Table) : List CStr := t.columns.map (fun c => c.meta.name)

/-- The buffer after `m` rounds of the shifting loop of `icolumn_row_delete` that start at
    `idx`: slot `idx + j` takes what slot `idx + j + 1` held. -/
def shift_down : Nat → Nat → List Slot → List Slot
  | 0, _, d => d
  | m + 1, idx, d => shift_down m (idx + 1) (d.set idx (d.getD (idx + 1) Slot.uninit))

/-- The table `table_row_delete` leaves when it deletes row `i` of a table with more than `i`
    rows: in every column the slots `i + 1 .. row_count - 1` have moved one place down, and
    the row count is one less. -/
def row_deleted (t : Table) (i : Nat) : Table :=
  { t with
    columns := t.columns.map
      (fun c => { c with data := shift_down (t.meta.row_count - 1 - i) i c.data }),
    meta := { t.meta with row_count := t.meta.row_count - 1 } }

/-- The table after row 0 has been deleted `n` times. -/
def rows_dropped : Nat → Table → Table
  | 0, t => t
  | n + 1, t => rows_dropped n (row_deleted t 0)

/-- The shape of a table at rest: the row count is below the capacity and every column buffer
    has `row_capacity` slots. -/
def table_shape (t : Table) : Prop :=
  t.meta.row_count < t.row_capacity ∧ ∀ c ∈ t.columns, c.data.length = t.row_capacity

instance (t : Table) : Decidable (table_shape t) := by
  unfold table_shape; infer_instance

/-- Every table of the database has the shape of a table at rest. -/
def db_shape (db : DataBase) : Prop := ∀ t ∈ db.tables, table_shape t

instance (db : DataBase) : Decidable (db_shape db) := by
  unfold db_shape; infer_instance

/-- The table list `l'` continues the table list `l`: the tables of `l` are still there, in
    their places and with their ids, none with a smaller capacity; `l'` may hold more tables
    behind them. -/
inductive tables_grow : List Table → List Table → Prop
  | nil (l' : List Table) : tables_grow [] l'
  | cons (t t' : Table) (l l' : List Table) (hid : t'.meta.id = t.meta.id)
      (hcap : t.row_capacity ≤ t'.row_capacity) (h : tables_grow l l') :
      tables_grow (t :: l) (t' :: l')

/-- One operation on the database: a call of `db_table_new`, `table_column_new`,
    `table_row_add` or `table_row_delete`, or the interpretation of a query, that returns. -/
inductive Step (env : CEnv) : DataBase → DataBase → Prop
  | table_new (db : DataBase) (name : CStr) : Step env db (db_table_new db name).2
  | column_new (db : DataBase) (tid : Nat) (type : BaseType) (name : CStr) :
      Step env db (table_column_new db tid type name).2
  | row_add (db : DataBase) (tid : Nat) : Step env db (table_row_add db tid).2
  | row_delete (db : DataBase) (tid row : Nat) (r : BazaResult × DataBase)
      (h : table_row_delete db tid row = Except.ok r) : Step env db r.2
  | statement (db : DataBase) (q : Query) (o : Outcome)
      (h : interpret_query env db q = Except.ok o) : Step env db o.db

/-- The databases that sequences of operations lead to from the empty database. -/
def Reachable (env : CEnv) (db : DataBase) : Prop :=
  Relation.ReflTransGen (Step env) db_init db

/-- The step from `db` to `db'` keeps the shape of the tables and continues the table list. -/
def grows (db db' : DataBase) : Prop :=
  (db_shape db → db_shape db') ∧ tables_grow db.tables db'.tables

/-- The number of bytes one pass through the body of the loop of `str_count_utf8_glyphs` moves
    the cursor `s` forward when `*s` is the byte `b`: the `if` / `else if` chain has no final
    `else`, so a byte that passes none of the four tests moves it by nothing. -/
def glyph_advance (b : Nat) : Nat :=
  if b ≤ 0x7F then 1
  else if b &&& 0xE0 = 0xC0 then 2
  else if b &&& 0xF0 = 0xE0 then 3
  else if b &&& 0xF8 = 0xF0 then 4
  else 0

/-- The loop `while (*s) { ...; count++; }` of `str_count_utf8_glyphs`, run for at most `n`
    passes from the state `(s, count)`, the cursor given as the bytes from `s` up to the NUL.
    The result is `none` when the loop is still running after `n` passes, the value returned
    when the loop has ended, and `out_of_bounds` when the cursor has passed the NUL. -/
def glyphs_run : Nat → CStr → Nat → Option (Except Fault Nat)
  | _, [], count => some (pure count)
  | 0, _ :: _, _ => none
  | n + 1, b :: rest, count =>
    if glyph_advance b ≤ (b :: rest).length then
      glyphs_run n ((b :: rest).drop (glyph_advance b)) (count + 1)
    else some (throw Fault.out_of_bounds)

/-- The UTF-8 encoding of a code point (RFC 3629): one byte below U+0080, two bytes below
    U+0800, three bytes below U+10000 and four bytes from there on. -/
def utf8_encode (cp : Nat) : CStr :=
  if cp < 0x80 then [cp]
  else if cp < 0x800 then [0xC0 + cp / 64, 0x80 + cp % 64]
  else if cp < 0x10000 then [0xE0 + cp / 4096, 0x80 + cp / 64 % 64, 0x80 + cp % 64]
  else [0xF0 + cp / 262144, 0x80 + cp / 4096 % 64, 0x80 + cp / 64 % 64, 0x80 + cp % 64]

/-- A code point that a C string of well-formed UTF-8 can hold: a Unicode scalar value (up to
    U+10FFFF, no surrogate) other than U+0000. -/
def scalar_value (cp : Nat) : Bool :=
  decide (0 < cp) && decide (cp < 0x110000) && !(decide (0xD800 ≤ cp) && decide (cp < 0xE000))

/-- The well-formed UTF-8 string that holds the code points `cps`. -/
def utf8_string (cps : List Nat) : CStr := (cps.map utf8_encode).flatten

/-- A String column with one live cell, the bytes `s`. -/
def text_column (s : CStr) : Column :=
  { meta := { id := 0, name := cstr "x", type := BTYPE_STRING }, data := buffer64 [Slot.ptr s] }
/-- The column `age` of `scenario_table`. -/
def age_column : Column :=
  { meta := { id := 1, name := cstr "age", type := BTYPE_INT32 },
    data := [Slot.bits 30, Slot.bits 25, Slot.bits 40] ++ List.replicate 61 Slot.uninit }

/-- The predicate `age != 30`. -/
def age_not_30 : Filter :=
  { op := FILTER_NOT_EQUAL, value := cstr "30", column := cstr "age", next_relation := FILTER_REL_NONE }
/-- The integer a slot of an integer column holds: its bits read as a signed integer of the
    width of the column. -/
def stored_int (type : BaseType) (s : Slot) : Option Int :=
  match type, s with
  | BTYPE_INT32, Slot.bits v => some (as_int32 v)
  | BTYPE_INT64, Slot.bits v => some (as_int64 v)
  | _, _ => none

/-- The order relation an operator denotes on the integers. -/
def int_relation (op : FilterOp) (a b : Int) : Bool :=
  match op with
  | FILTER_EQUAL => decide (a = b)
  | FILTER_GREATER => decide (a > b)
  | FILTER_GREATER_EQUAL => decide (a ≥ b)
  | FILTER_LESSER => decide (a < b)
  | FILTER_LESSER_EQUAL => decide (a ≤ b)
  | _ => false

/-- The five operators `=`, `>`, `>=`, `<`, `<=`. -/
def order_op (op : FilterOp) : Bool :=
  match op with
  | FILTER_EQUAL | FILTER_GREATER | FILTER_GREATER_EQUAL | FILTER_LESSER | FILTER_LESSER_EQUAL => true
  | _ => false

/-- Row `i` of a column holds an integer that stands in the relation of `op` to `b`. -/
def int_row_selected (c : Column) (op : FilterOp) (b : Int) (i : Nat) : Bool :=
  match (c.data.get? i).bind (stored_int c.meta.type) with
  | some a => int_relation op a b
  | none => false

/-- A table `t` with the Int32 column `a` holding -1, 0, 5 and the Int64 column `b` holding
    -9000000000, 3, 9000000000. -/
def signed_table : Table :=
  { meta := { id := 0, name := cstr "t", row_count := 3 },
    row_capacity := 64,
    columns :=
      [{ meta := { id := 0, name := cstr "a", type := BTYPE_INT32 },
         data := buffer64 [Slot.bits 4294967295, Slot.bits 0, Slot.bits 5] },
       { meta := { id := 1, name := cstr "b", type := BTYPE_INT64 },
         data := buffer64 [Slot.bits 18446744064709551616, Slot.bits 3, Slot.bits 9000000000] }] }

def signed_db : DataBase := { tables := [signed_table], TABLE_ID := 1, COLUMN_ID := 2 }

/-- The statements that build `signed_db`. -/
def signed_script : List CStr :=
  [cstr "CREATE TABLE t ( a int32, b int64 )",
   cstr "INSERT INTO t VALUES (-1, -9000000000)",
   cstr "INSERT INTO t VALUES (0, 3)",
   cstr "INSERT INTO t VALUES (5, 9000000000)"]

/-- The column `a` of `signed_table`. -/
def signed_column : Column :=
  { meta := { id := 0, name := cstr "a", type := BTYPE_INT32 },
    data := buffer64 [Slot.bits 4294967295, Slot.bits 0, Slot.bits 5] }

/-- The predicate `a < 0`. -/
def below_zero : Filter :=
  { op := FILTER_LESSER, value := cstr "0", column := cstr "a", next_relation := FILTER_REL_NONE }

/-- The lower-case form of a byte: an ASCII capital letter becomes the small letter, every
    other byte stays. -/
def ascii_lower (c : Nat) : Nat := if 65 ≤ c ∧ c ≤ 90 then c + 32 else c

/-- Two tokens are the same word up to letter case. -/
def same_word (a b : CStr) : Bool := decide (a.map ascii_lower = b.map ascii_lower)

/-- A byte of white space between two tokens: blank, tab or newline. -/
def white_byte (c : Nat) : Bool := c = 32 || c = 9 || c = 10

/-- A run of white space. -/
def white_space (s : CStr) : Bool := s.all white_byte

/-- A token of a statement that needs no quoting: not empty, and free of white space and of
    double quotes. -/
def plain_token (tok : CStr) : Bool :=
  decide (tok ≠ []) && tok.all (fun c => decide (c ≠ 34) && !white_byte c)

/-- The spelling of a comparison operator in the grammar of the statements. -/
def operator_word : FilterOp → Option CStr
  | FILTER_EQUAL => some (cstr "=")
  | FILTER_NOT_EQUAL => some (cstr "!=")
  | FILTER_GREATER => some (cstr ">")
  | FILTER_GREATER_EQUAL => some (cstr ">=")
  | FILTER_LESSER => some (cstr "<")
  | FILTER_LESSER_EQUAL => some (cstr "<=")
  | FILTER_LIKE => some (cstr "LIKE")
  | _ => none

/-- The spelling of a relation between two predicates. -/
def relation_word : FilterRelation → Option CStr
  | FILTER_REL_AND => some (cstr "AND")
  | FILTER_REL_OR => some (cstr "OR")
  | _ => none

/-- The spelling of a sort direction. -/
def direction_word : SortDirection → Option CStr
  | SORT_ASCENDING => some (cstr "ASC")
  | SORT_DESCENDING => some (cstr "DESC")
  | SORT_INVALID => none

/-- A token spells the given word, in any letter case. -/
def spells (tok : CStr) (word : Option CStr) : Bool :=
  match word with
  | some w => same_word tok w
  | none => false

/-- One predicate `x op v` of a statement: its three tokens, and the operator the statement
    means by the middle one. -/
structure Predicate where
  column : CStr
  op_token : CStr
  op : FilterOp
  value : CStr
deriving DecidableEq, Repr

/-- A predicate behind the first one: the token of the relation that stands in front of it,
    the relation meant by that token, and the predicate. -/
structure Link where
  rel_token : CStr
  rel : FilterRelation
  pred : Predicate
deriving DecidableEq, Repr

/-- The statement `SELECT c1, ..., ck FROM t WHERE x1 op1 v1 rel1 ... xn opn vn ORDER BY c dir`:
    its tokens, and what the operator, relation and direction tokens mean. -/
structure SelectStatement where
  kw_select : CStr
  columns : List CStr
  kw_from : CStr
  table : CStr
  kw_where : CStr
  first : Predicate
  more : List Link
  kw_order : CStr
  kw_by : CStr
  sort_column : CStr
  dir_token : CStr
  dir : SortDirection
deriving DecidableEq, Repr

/-- The three tokens of a predicate. -/
def Predicate.text (p : Predicate) : PredText :=
  { column := p.column, op := p.op_token, value := p.value }

/-- The tokens of the statement, in the order in which they are written. -/
def SelectStatement.text (s : SelectStatement) : SelectText :=
  { kw_select := s.kw_select, columns := s.columns, kw_from := s.kw_from, table := s.table,
    kw_where := s.kw_where, first := s.first.text,
    more := s.more.map (fun l => (l.rel_token, l.pred.text)),
    kw_order := s.kw_order, kw_by := s.kw_by, sort_column := s.sort_column,
    direction := s.dir_token }

/-- The filter chain the statement denotes: predicate `i` with the relation that stands behind
    it, the last predicate with `FILTER_REL_NONE`. -/
def chain_of (first : Predicate) : List Link → List Filter
  | [] => [{ op := first.op, value := first.value, column := first.column,
             next_relation := FILTER_REL_NONE }]
  | l :: more =>
    { op := first.op, value := first.value, column := first.column, next_relation := l.rel } ::
      chain_of l.pred more

/-- The query the statement denotes: table `t`, columns `c1 .. ck`, the chain of its predicates
    and the order `(c, dir)`. -/
def SelectStatement.denotes (s : SelectStatement) : Query :=
  Query.QUERY_SELECT s.table (chain_of s.first s.more) (some s.columns) (some s.sort_column) s.dir

/-- The statement has the form the grammar gives it: the five keywords are `SELECT`, `FROM`,
    `WHERE`, `ORDER`, `BY` in any letter case, there is at least one column and the column list
    is not the token `*`, every column name is non-empty and free of commas, every token is
    plain, and every operator, relation and direction token spells the operator, relation and
    direction it stands for. -/
def SelectStatement.well_formed (s : SelectStatement) : Prop :=
  same_word s.kw_select (cstr "SELECT") = true ∧ same_word s.kw_from (cstr "FROM") = true ∧
  same_word s.kw_where (cstr "WHERE") = true ∧ same_word s.kw_order (cstr "ORDER") = true ∧
  same_word s.kw_by (cstr "BY") = true ∧
  s.columns ≠ [] ∧ s.columns ≠ [cstr "*"] ∧ (∀ c ∈ s.columns, c ≠ [] ∧ 44 ∉ c) ∧
  (∀ tok ∈ s.text.tokens, plain_token tok = true) ∧
  spells s.first.op_token (operator_word s.first.op) = true ∧
  (∀ l ∈ s.more, spells l.rel_token (relation_word l.rel) = true ∧
    spells l.pred.op_token (operator_word l.pred.op) = true) ∧
  spells s.dir_token (direction_word s.dir) = true

instance (s : SelectStatement) : Decidable s.well_formed := by
  unfold SelectStatement.well_formed; infer_instance

/-- The statement of the test of parser.c:
    `SELECT name, age FROM table WHERE age = 50 AND name like pozdrawia% ORDER BY age DESC`. -/
def test_statement : SelectStatement :=
  { kw_select := cstr "SELECT",
    columns := [cstr "name", cstr "age"],
    kw_from := cstr "FROM",
    table := cstr "table",
    kw_where := cstr "WHERE",
    first := { column := cstr "age", op_token := cstr "=", op := FILTER_EQUAL, value := cstr "50" },
    more := [{ rel_token := cstr "AND", rel := FILTER_REL_AND,
               pred := { column := cstr "name", op_token := cstr "like", op := FILTER_LIKE,
                         value := cstr "pozdrawia%" } }],
    kw_order := cstr "ORDER",
    kw_by := cstr "BY",
    sort_column := cstr "age",
    dir_token := cstr "DESC",
    dir := SORT_DESCENDING }

/-- The statement `select a from t where x >= 1 or y != 2 and z < 3 order by a asc`. -/
def small_statement : SelectStatement :=
  { kw_select := cstr "select",
    columns := [cstr "a"],
    kw_from := cstr "from",
    table := cstr "t",
    kw_where := cstr "where",
    first := { column := cstr "x", op_token := cstr ">=", op := FILTER_GREATER_EQUAL,
               value := cstr "1" },
    more := [{ rel_token := cstr "or", rel := FILTER_REL_OR,
               pred := { column := cstr "y", op_token := cstr "!=", op := FILTER_NOT_EQUAL,
                         value := cstr "2" } },
             { rel_token := cstr "and", rel := FILTER_REL_AND,
               pred := { column := cstr "z", op_token := cstr "<", op := FILTER_LESSER,
                         value := cstr "3" } }],
    kw_order := cstr "order",
    kw_by := cstr "by",
    sort_column := cstr "a",
    dir_token := cstr "asc",
    dir := SORT_ASCENDING }

/-- A continuation byte `10xxxxxx` of a UTF-8 sequence. -/
def utf8_tail (b : Nat) : Bool := decide (0x80 ≤ b ∧ b ≤ 0xBF)

/-- Well-formed UTF-8 as the table of RFC 3629 defines it, for the bytes of a C string (which
    hold no U+0000): one byte `01..7F`; a lead byte `C2..DF` and one continuation byte; a lead
    byte `E0..EF` and two continuation bytes, the first of them from `A0` on behind `E0` and up
    to `9F` behind `ED`; a lead byte `F0..F4` and three continuation bytes, the first of them
    from `90` on behind `F0` and up to `8F` behind `F4`. -/
def utf8_well_formed : CStr → Bool
  | [] => true
  | b :: rest =>
    if b ≤ 0x7F then decide (0 < b) && utf8_well_formed rest
    else if 0xC2 ≤ b ∧ b ≤ 0xDF then
      match rest with
      | b1 :: r => utf8_tail b1 && utf8_well_formed r
      | [] => false
    else if 0xE0 ≤ b ∧ b ≤ 0xEF then
      match rest with
      | b1 :: b2 :: r =>
        utf8_tail b1 && utf8_tail b2 && decide (b = 0xE0 → 0xA0 ≤ b1) &&
          decide (b = 0xED → b1 ≤ 0x9F) && utf8_well_formed r
      | _ => false
    else if 0xF0 ≤ b ∧ b ≤ 0xF4 then
      match rest with
      | b1 :: b2 :: b3 :: r =>
        utf8_tail b1 && utf8_tail b2 && utf8_tail b3 && decide (b = 0xF0 → 0x90 ≤ b1) &&
          decide (b = 0xF4 → b1 ≤ 0x8F) && utf8_well_formed r
      | _ => false
    else false

/-- A slot can be displayed when it holds a string: the string is well-formed UTF-8 of fewer
    than 256 bytes, so that it fits the display buffer of `basetype_value_to_str`. -/
def slot_text_ok (s : Slot) : Bool :=
  match s with
  | Slot.ptr str => utf8_well_formed str && decide (str.length < 256)
  | _ => true

/-- Every live String cell of the table holds well-formed UTF-8 that fits the display buffer. -/
def text_cells_ok (t : Table) : Prop :=
  ∀ c ∈ t.columns, ∀ s ∈ c.data.take t.meta.row_count, slot_text_ok s = true

instance (t : Table) : Decidable (text_cells_ok t) := by
  unfold text_cells_ok; infer_instance

/-- The column list of a SELECT is `*` or a non-empty list of names of columns of the table. -/
def columns_exist (t : Table) (select_columns : Option StrList) : Prop :=
  match select_columns with
  | none => True
  | some l => l ≠ [] ∧ ∀ name ∈ l, ∃ c ∈ t.columns, c.meta.name = name

instance (t : Table) (select_columns : Option StrList) : Decidable (columns_exist t select_columns) := by
  unfold columns_exist
  cases select_columns <;> infer_instance

/-- The predicate `age > 26`. -/
def age_above_26 : Filter :=
  { op := FILTER_GREATER, value := cstr "26", column := cstr "age", next_relation := FILTER_REL_NONE }

/-! # Theorems -/

/-! ## Lemmas: strings and row-id lists -/

theorem strcmp_eq_zero (a b : CStr) : strcmp a b = 0 ↔ a = b := by
  induction a generalizing b with
  | nil => cases b <;> simp [strcmp]
  | cons x xs ih =>
    cases b with
    | nil => simp [strcmp]
    | cons y ys =>
      by_cases h : x = y
      · simp [strcmp, h, ih]
      · have : (x : Int) - (y : Int) ≠ 0 := by omega
        simp [strcmp, h, this]

theorem intlist_values_nonull (l : List Int) (h : NoNull l) : intlist_values l = l := by
  induction l with
  | nil => rfl
  | cons v r ih =>
    have hv : v ≠ INTLIST_NULL := h v (by simp)
    have hr : NoNull r := fun x hx => h x (by simp [hx])
    simp [intlist_values, hv, ih hr]

theorem intlist_values_of (vs : List Int) (h : NoNull vs) : intlist_values (intlist_of vs) = vs := by
  cases vs with
  | nil => simp [intlist_of, intlist_values]
  | cons v r => exact intlist_values_nonull _ h

theorem intlist_contains_eq (l : IntList) (v : Int) :
    intlist_contains l v = decide (v ∈ intlist_values l) := by
  induction l with
  | nil => simp [intlist_contains, intlist_values]
  | cons x r ih =>
    by_cases hx : x = INTLIST_NULL
    · simp [intlist_contains, intlist_values, hx]
    · by_cases hv : x = v
      · simp [intlist_contains, intlist_values, hx, hv]
      · have hv2 : ¬ v = x := fun e => hv e.symm
        simp [intlist_contains, intlist_values, hx, hv, hv2, ih]

theorem intlist_push_of (vs : List Int) (v : Int) (h : NoNull vs) :
    intlist_push (intlist_of vs) v = intlist_of (vs ++ [v]) := by
  cases vs with
  | nil => simp [intlist_of, intlist_push]
  | cons x r =>
    have hx : x ≠ INTLIST_NULL := h x (by simp)
    simp [intlist_of, intlist_push, hx]

theorem NoNull_append_single (vs : List Int) (v : Int) (h : NoNull vs) (hv : v ≠ INTLIST_NULL) :
    NoNull (vs ++ [v]) := by
  intro x hx
  rcases List.mem_append.mp hx with h1 | h1
  · exact h x h1
  · simp at h1; rw [h1]; exact hv

theorem mem_foldl_union_step (l acc : List Int) (x : Int) :
    x ∈ l.foldl union_step acc ↔ x ∈ acc ∨ x ∈ l := by
  induction l generalizing acc with
  | nil => simp
  | cons v r ih =>
    simp only [List.foldl_cons, ih, union_step]
    by_cases hv : v ∈ acc
    · simp only [hv, if_true, List.mem_cons]
      constructor
      · rintro (h | h)
        · exact Or.inl h
        · exact Or.inr (Or.inr h)
      · rintro (h | h | h)
        · exact Or.inl h
        · exact Or.inl (h ▸ hv)
        · exact Or.inr h
    · simp only [hv, if_false, List.mem_append, List.mem_singleton, List.mem_cons]
      tauto

theorem NoNull_foldl_union_step (l acc : List Int) (hl : NoNull l) (hacc : NoNull acc) :
    NoNull (l.foldl union_step acc) := by
  intro x hx
  rcases (mem_foldl_union_step l acc x).mp hx with h | h
  · exact hacc x h
  · exact hl x h

theorem mem_foldl_inter_step (right l acc : List Int) (x : Int) :
    x ∈ l.foldl (inter_step right) acc ↔ x ∈ acc ∨ (x ∈ l ∧ x ∈ right) := by
  induction l generalizing acc with
  | nil => simp
  | cons v r ih =>
    simp only [List.foldl_cons, ih, inter_step]
    by_cases hv : v ∈ right ∧ v ∉ acc
    · rw [if_pos hv]
      have h1 : x ∈ acc ++ [v] ↔ x ∈ acc ∨ x = v := by simp
      have h2 : x ∈ v :: r ↔ x = v ∨ x ∈ r := by simp
      rw [h1, h2]
      constructor
      · rintro ((h | h) | h)
        · exact Or.inl h
        · exact Or.inr ⟨Or.inl h, h ▸ hv.1⟩
        · exact Or.inr ⟨Or.inr h.1, h.2⟩
      · rintro (h | ⟨h | h, h3⟩)
        · exact Or.inl (Or.inl h)
        · exact Or.inl (Or.inr h)
        · exact Or.inr ⟨h, h3⟩
    · rw [if_neg hv]
      have h2 : x ∈ v :: r ↔ x = v ∨ x ∈ r := by simp
      rw [h2]
      constructor
      · rintro (h | h)
        · exact Or.inl h
        · exact Or.inr ⟨Or.inr h.1, h.2⟩
      · rintro (h | ⟨h | h, h3⟩)
        · exact Or.inl h
        · subst h
          by_cases hx : x ∈ acc
          · exact Or.inl hx
          · exact absurd ⟨h3, hx⟩ hv
        · exact Or.inr ⟨h, h3⟩

theorem NoNull_foldl_inter_step (right l acc : List Int) (hl : NoNull l) (hacc : NoNull acc) :
    NoNull (l.foldl (inter_step right) acc) := by
  intro x hx
  rcases (mem_foldl_inter_step right l acc x).mp hx with h | h
  · exact hacc x h
  · exact hl x h.1

theorem intlist_union_loop_nonull (l : List Int) (hl : NoNull l) (acc : List Int) (hacc : NoNull acc) :
    intlist_union_loop (intlist_of acc) l = intlist_of (l.foldl union_step acc) := by
  induction l generalizing acc with
  | nil => simp [intlist_union_loop]
  | cons v r ih =>
    have hv : v ≠ INTLIST_NULL := hl v (by simp)
    have hr : NoNull r := fun x hx => hl x (by simp [hx])
    simp only [intlist_union_loop, hv, if_false, List.foldl_cons, intlist_contains_eq,
      intlist_values_of acc hacc, union_step]
    by_cases hm : v ∈ acc
    · simp only [hm, decide_True, if_true]
      exact ih hr acc hacc
    · simp only [hm, decide_False, if_false, Bool.false_eq_true]
      rw [intlist_push_of acc v hacc]
      exact ih hr _ (NoNull_append_single acc v hacc hv)

theorem intlist_union_loop_of (l : List Int) (hl : NoNull l) (acc : List Int) (hacc : NoNull acc) :
    intlist_union_loop (intlist_of acc) (intlist_of l) = intlist_of (l.foldl union_step acc) := by
  cases l with
  | nil => simp [intlist_of, intlist_union_loop]
  | cons v r => exact intlist_union_loop_nonull (v :: r) hl acc hacc

theorem intlist_union_of (a b : List Int) (ha : NoNull a) (hb : NoNull b) :
    intlist_union false (intlist_of a) (intlist_of b) = some (intlist_of (union_values a b)) := by
  have h0 : intlist_empty = intlist_of [] := rfl
  have hn : NoNull ([] : List Int) := fun x hx => absurd hx (List.not_mem_nil x)
  simp only [intlist_union, Bool.false_eq_true, if_false, h0, union_values]
  rw [intlist_union_loop_of a ha [] hn,
    intlist_union_loop_of b hb _ (NoNull_foldl_union_step a [] ha hn)]

theorem intlist_intersection_loop_nonull (right l : List Int) (hright : NoNull right) (hl : NoNull l)
    (acc : List Int) (hacc : NoNull acc) :
    intlist_intersection_loop (intlist_of right) (intlist_of acc) l =
      intlist_of (l.foldl (inter_step right) acc) := by
  induction l generalizing acc with
  | nil => simp [intlist_intersection_loop]
  | cons v r ih =>
    have hv : v ≠ INTLIST_NULL := hl v (by simp)
    have hr : NoNull r := fun x hx => hl x (by simp [hx])
    simp only [intlist_intersection_loop, hv, if_false, List.foldl_cons, intlist_contains_eq,
      intlist_values_of acc hacc, intlist_values_of right hright, inter_step]
    by_cases hm : v ∈ right ∧ v ∉ acc
    · have h1 : (decide (v ∈ right) && !decide (v ∈ acc)) = true := by simp [hm.1, hm.2]
      simp only [h1, if_true, hm, and_self, not_false_eq_true]
      rw [intlist_push_of acc v hacc]
      exact ih hr _ (NoNull_append_single acc v hacc hv)
    · have h1 : (decide (v ∈ right) && !decide (v ∈ acc)) = false := by
        by_cases h2 : v ∈ right
        · have h3 : v ∈ acc := by
            by_contra h3
            exact hm ⟨h2, h3⟩
          simp [h2, h3]
        · simp [h2]
      simp only [h1, Bool.false_eq_true, if_false, hm]
      exact ih hr acc hacc

theorem intlist_intersection_of (a b : List Int) (ha : NoNull a) (hb : NoNull b) :
    intlist_intersection false (intlist_of a) (intlist_of b) = some (intlist_of (inter_values a b)) := by
  have h0 : intlist_empty = intlist_of [] := rfl
  have hn : NoNull ([] : List Int) := fun x hx => absurd hx (List.not_mem_nil x)
  simp only [intlist_intersection, Bool.false_eq_true, if_false, h0, inter_values]
  cases a with
  | nil => simp [intlist_of, intlist_intersection_loop]
  | cons v r => exact congrArg some (intlist_intersection_loop_nonull b (v :: r) hb ha [] hn)

/-! ## Lemmas: lookups in the store -/

theorem find_id_of_mem (l : List Column) (c : Column) (hc : c ∈ l)
    (hn : (l.map (fun c => c.meta.id)).Nodup) :
    l.find? (fun column => column.meta.id = c.meta.id) = some c := by
  induction l with
  | nil => cases hc
  | cons x r ih =>
    simp only [List.map_cons, List.nodup_cons] at hn
    rcases List.mem_cons.mp hc with h | h
    · subst h; simp
    · have hne : x.meta.id ≠ c.meta.id := by
        intro e
        apply hn.1
        rw [e]
        exact List.mem_map_of_mem (fun c => c.meta.id) h
      simp [List.find?, hne, ih h hn.2]

theorem itable_column_byid_of_mem (t : Table) (c : Column) (hc : c ∈ t.columns)
    (hn : (t.columns.map (fun c => c.meta.id)).Nodup) :
    itable_column_byid t c.meta.id = some c :=
  find_id_of_mem t.columns c hc hn

theorem itable_column_find_mem (t : Table) (name : CStr) (c : Column)
    (h : itable_column_find t name = some c) : c ∈ t.columns :=
  List.mem_of_find?_eq_some h

theorem itable_column_find_name (t : Table) (name : CStr) (c : Column)
    (h : itable_column_find t name = some c) : c.meta.name = name := by
  have := List.find?_some h
  simpa [strcmp_eq_zero] using this

theorem table_column_get_of_find (db : DataBase) (t : Table)
    (hdb : idb_table_get_byid db t.meta.id = some t) (name : CStr) (c : Column)
    (h : itable_column_find t name = some c) :
    table_column_get db t.meta.id name = { result := RESULT_OK, meta := some c.meta } := by
  unfold itable_column_find at h
  simp [table_column_get, hdb, h]

theorem table_column_get_of_find_none (db : DataBase) (t : Table)
    (hdb : idb_table_get_byid db t.meta.id = some t) (name : CStr)
    (h : itable_column_find t name = none) :
    table_column_get db t.meta.id name = { result := RESULT_COLUMN_NOT_FOUND, meta := none } := by
  unfold itable_column_find at h
  simp [table_column_get, hdb, h]

theorem table_wf_slot (t : Table) (hwf : table_wf t) (c : Column) (hc : c ∈ t.columns) (k : Nat)
    (hk : k < t.meta.row_count) :
    ∃ s, icolumn_row_get c k = Except.ok s ∧ slot_ok c.meta.type s = true := by
  obtain ⟨_, hcap, hcols⟩ := hwf
  obtain ⟨hty, hlen, hslots⟩ := hcols c hc
  have hk2 : k < c.data.length := by omega
  refine ⟨c.data[k], ?_, ?_⟩
  · simp [icolumn_row_get, hty, List.getElem?_eq_getElem hk2, pure, Except.pure]
  · apply hslots
    rw [List.mem_take_iff_getElem]
    exact ⟨k, by omega, rfl⟩

theorem filter_func_equals_ok (env : CEnv) (type : BaseType) (s : Slot)
    (hs : slot_ok type s = true) (value : CStr) :
    ∃ b, filter_func_equals type (Except.ok s) (filter_needle env type value) = Except.ok b := by
  cases type <;> cases s <;> simp [slot_ok] at hs <;> exact ⟨_, rfl⟩

theorem filter_func_greater_ok (env : CEnv) (type : BaseType) (s : Slot)
    (hs : slot_ok type s = true) (value : CStr) :
    ∃ b, filter_func_greater type (Except.ok s) (filter_needle env type value) = Except.ok b := by
  cases type <;> cases s <;> simp [slot_ok] at hs <;> exact ⟨_, rfl⟩

theorem filter_func_lesser_ok (env : CEnv) (type : BaseType) (s : Slot)
    (hs : slot_ok type s = true) (value : CStr) :
    ∃ b, filter_func_lesser type (Except.ok s) (filter_needle env type value) = Except.ok b := by
  cases type <;> cases s <;> simp [slot_ok] at hs <;> exact ⟨_, rfl⟩

theorem filter_func_like_ok (env : CEnv) (type : BaseType) (s : Slot)
    (hs : slot_ok type s = true) (value : CStr) :
    ∃ b, filter_func_like env type (Except.ok s) (filter_needle env type value) = Except.ok b := by
  cases type <;> cases s <;> simp [slot_ok] at hs <;> exact ⟨_, rfl⟩

theorem filter_func_table_ok (env : CEnv) (op : FilterOp) (hop : op_wired op = true) (type : BaseType)
    (s : Slot) (hs : slot_ok type s = true) (value : CStr) :
    ∃ b, filter_func_table env op type (Except.ok s) (filter_needle env type value) = Except.ok b := by
  obtain ⟨be, hbe⟩ := filter_func_equals_ok env type s hs value
  obtain ⟨bg, hbg⟩ := filter_func_greater_ok env type s hs value
  obtain ⟨bl, hbl⟩ := filter_func_lesser_ok env type s hs value
  cases op <;> simp [op_wired] at hop
  · exact ⟨be, hbe⟩
  · exact ⟨bg, hbg⟩
  · show ∃ b, filter_func_greater_equal type (Except.ok s) (filter_needle env type value) = Except.ok b
    unfold filter_func_greater_equal
    rw [hbe, hbg]
    cases be
    · exact ⟨bg, rfl⟩
    · exact ⟨true, rfl⟩
  · exact ⟨bl, hbl⟩
  · show ∃ b, filter_func_lesser_equal type (Except.ok s) (filter_needle env type value) = Except.ok b
    unfold filter_func_lesser_equal
    rw [hbe, hbl]
    cases be
    · exact ⟨bl, rfl⟩
    · exact ⟨true, rfl⟩
  · exact filter_func_like_ok env type s hs value

/-! ## Lemmas: the filter evaluator -/

theorem cast_ne_null (k : Nat) : (k : Int) ≠ INTLIST_NULL := by
  unfold INTLIST_NULL; omega

theorem icolumn_find_loop_ok (c : Column) (func : findfunc_t) (value : Needle) (cmp : Nat → Bool)
    (n i : Nat) (vs : List Int) (hvs : NoNull vs)
    (h : ∀ k, i ≤ k → k < i + n → func c.meta.type (icolumn_row_get c k) value = Except.ok (cmp k)) :
    icolumn_find_loop c func value n i (intlist_of vs) =
      Except.ok (intlist_of (vs ++ ((List.range' i n).filter cmp).map (fun (k : Nat) => (k : Int)))) := by
  induction n generalizing i vs with
  | zero => simp [icolumn_find_loop, pure, Except.pure]
  | succ n ih =>
    have h0 := h i (Nat.le_refl i) (by omega)
    have hrest : ∀ k, i + 1 ≤ k → k < i + 1 + n →
        func c.meta.type (icolumn_row_get c k) value = Except.ok (cmp k) :=
      fun k h1 h2 => h k (by omega) (by omega)
    simp only [icolumn_find_loop, h0, bind, Except.bind, List.range'_succ, List.filter_cons]
    cases hc : cmp i
    · simp only [Bool.false_eq_true, if_false]
      exact ih (i + 1) vs hvs hrest
    · simp only [if_true, List.map_cons]
      rw [intlist_push_of vs (i : Int) hvs, ih (i + 1) _ (NoNull_append_single vs _ hvs (cast_ne_null i)) hrest]
      simp

theorem table_find_pred (env : CEnv) (db : DataBase) (t : Table)
    (hdb : idb_table_get_byid db t.meta.id = some t) (hwf : table_wf t) (f : Filter)
    (c : Column) (hc : itable_column_find t f.column = some c) (hop : op_wired f.op = true) :
    table_find db t.meta.id c.meta.id (filter_func_table env f.op)
        (filter_needle env c.meta.type f.value) =
      Except.ok { res := RESULT_OK, matches_ := intlist_of (sat_rows env t f) } := by
  have hmem := itable_column_find_mem t f.column c hc
  have hbyid := itable_column_byid_of_mem t c hmem hwf.1
  have hn : NoNull ([] : List Int) := fun x hx => absurd hx (List.not_mem_nil x)
  have hloop := icolumn_find_loop_ok c (filter_func_table env f.op)
    (filter_needle env c.meta.type f.value) (fun k => pred_holds env t f k) t.meta.row_count 0 [] hn
    (by
      intro k _ hk
      obtain ⟨s, hs1, hs2⟩ := table_wf_slot t hwf c hmem k (by omega)
      obtain ⟨b, hb⟩ := filter_func_table_ok env f.op hop c.meta.type s hs2 f.value
      simp only [pred_holds, hc, hs1, hb])
  have h0 : intlist_empty = intlist_of [] := rfl
  simp only [table_find, hdb, hbyid, itable_find, icolumn_find, h0, hloop, bind, Except.bind, pure,
    Except.pure, List.nil_append, sat_rows]

theorem holds_rows_sat (env : CEnv) (t : Table) (f : Filter) :
    holds_rows (sat_rows env t f) (rows_of env t f) := by
  constructor
  · intro x hx
    simp only [sat_rows, List.mem_map] at hx
    obtain ⟨k, _, rfl⟩ := hx
    exact cast_ne_null k
  · intro x
    simp only [sat_rows, rows_of, List.mem_map, List.mem_filter, List.mem_range', Finset.mem_filter,
      Finset.mem_range]
    constructor
    · rintro ⟨k, ⟨⟨i, hi, rfl⟩, hk⟩, rfl⟩
      exact ⟨0 + 1 * i, rfl, by omega, hk⟩
    · rintro ⟨i, rfl, hi, hp⟩
      exact ⟨i, ⟨⟨i, hi, by omega⟩, hp⟩, rfl⟩

theorem holds_rows_union (a b : List Int) (A B : Finset Nat) (ha : holds_rows a A)
    (hb : holds_rows b B) : holds_rows (union_values a b) (A ∪ B) := by
  have hn : NoNull ([] : List Int) := fun x hx => absurd hx (List.not_mem_nil x)
  constructor
  · exact NoNull_foldl_union_step b _ hb.1 (NoNull_foldl_union_step a [] ha.1 hn)
  · intro x
    simp only [union_values, mem_foldl_union_step, List.not_mem_nil, false_or, ha.2 x, hb.2 x,
      Finset.mem_union]
    constructor
    · rintro (⟨i, h1, h2⟩ | ⟨i, h1, h2⟩)
      · exact ⟨i, h1, Or.inl h2⟩
      · exact ⟨i, h1, Or.inr h2⟩
    · rintro ⟨i, h1, h2 | h2⟩
      · exact Or.inl ⟨i, h1, h2⟩
      · exact Or.inr ⟨i, h1, h2⟩

theorem holds_rows_inter (a b : List Int) (A B : Finset Nat) (ha : holds_rows a A)
    (hb : holds_rows b B) : holds_rows (inter_values a b) (A ∩ B) := by
  have hn : NoNull ([] : List Int) := fun x hx => absurd hx (List.not_mem_nil x)
  constructor
  · exact NoNull_foldl_inter_step b a [] ha.1 hn
  · intro x
    simp only [inter_values, mem_foldl_inter_step, List.not_mem_nil, false_or, ha.2 x, hb.2 x,
      Finset.mem_inter]
    constructor
    · rintro ⟨⟨i, h1, h2⟩, ⟨j, h3, h4⟩⟩
      have : i = j := by omega
      subst this
      exact ⟨i, h1, h2, h4⟩
    · rintro ⟨i, h1, h2, h3⟩
      exact ⟨⟨i, h1, h2⟩, ⟨i, h1, h3⟩⟩

theorem filter_interpret_loop_step (env : CEnv) (db : DataBase) (t : Table)
    (hdb : idb_table_get_byid db t.meta.id = some t) (hwf : table_wf t) (f : Filter)
    (hf : filter_ok env t f) (next : List Filter) (rowset : IntList) (rel : FilterRelation) :
    filter_interpret_loop env db t.meta (f :: next) rowset rel =
      if rel ≠ FILTER_REL_NONE then
        match (if rel = FILTER_REL_AND then intlist_intersection false rowset (intlist_of (sat_rows env t f))
               else if rel = FILTER_REL_OR then intlist_union false rowset (intlist_of (sat_rows env t f))
               else none) with
        | none => pure { res := RESULT_SERVER_ERROR, rows := [] }
        | some new => filter_interpret_loop env db t.meta next new f.next_relation
      else filter_interpret_loop env db t.meta next (intlist_of (sat_rows env t f)) f.next_relation := by
  obtain ⟨hop, hcol⟩ := hf
  cases hc : itable_column_find t f.column with
  | none => simp [hc] at hcol
  | some c =>
  have hlit : c.meta.type ≠ BTYPE_STRING → (str_to_int env f.value).result = RESULT_OK := by
    simpa [hc] using hcol
  have hmem := itable_column_find_mem t f.column c hc
  have hty := (hwf.2.2 c hmem).1
  have hfind := table_find_pred env db t hdb hwf f c hc hop
  rw [filter_interpret_loop, table_column_get_of_find db t hdb f.column c hc]
  cases hct : c.meta.type
  · exact absurd hct hty
  · simp only [hct, filter_needle] at hfind
    simp only [hct, hfind, bind, Except.bind, Functor.map, Except.map, ne_eq, not_true_eq_false, if_false]
  · have hl := hlit (by rw [hct]; decide)
    simp only [hct, filter_needle] at hfind
    simp only [hct, hl, hfind, bind, Except.bind, Functor.map, Except.map, ne_eq, not_true_eq_false, if_false]
  · have hl := hlit (by rw [hct]; decide)
    simp only [hct, filter_needle] at hfind
    simp only [hct, hl, hfind, bind, Except.bind, Functor.map, Except.map, ne_eq, not_true_eq_false, if_false]

theorem filter_interpret_loop_fold (env : CEnv) (db : DataBase) (t : Table)
    (hdb : idb_table_get_byid db t.meta.id = some t) (hwf : table_wf t) :
    ∀ (filters : List Filter) (vs : List Int) (A : Finset Nat) (rel : FilterRelation),
      holds_rows vs A →
      (filters ≠ [] → rel = FILTER_REL_AND ∨ rel = FILTER_REL_OR) →
      (∀ f ∈ filters, filter_ok env t f) → chain_linked filters = true →
      ∃ vs', filter_interpret_loop env db t.meta filters (intlist_of vs) rel =
          Except.ok { res := RESULT_OK, rows := intlist_of vs' } ∧
        holds_rows vs' (chain_rows env t filters A rel) := by
  intro filters
  induction filters with
  | nil =>
    intro vs A rel hvs _ _ _
    exact ⟨vs, rfl, hvs⟩
  | cons f next ih =>
    intro vs A rel hvs hrel hok hlink
    have hf := hok f (by simp)
    have hoknext : ∀ g ∈ next, filter_ok env t g := fun g hg => hok g (by simp [hg])
    have hlinknext : chain_linked next = true := by
      cases next with
      | nil => rfl
      | cons g rest =>
        simp only [chain_linked, Bool.and_eq_true] at hlink
        exact hlink.2
    have hrelnext : next ≠ [] → f.next_relation = FILTER_REL_AND ∨ f.next_relation = FILTER_REL_OR := by
      cases next with
      | nil => intro h; exact absurd rfl h
      | cons g rest =>
        intro _
        simp only [chain_linked, Bool.and_eq_true, Bool.or_eq_true, decide_eq_true_eq] at hlink
        exact hlink.1
    have hsat := holds_rows_sat env t f
    rw [filter_interpret_loop_step env db t hdb hwf f hf]
    rcases hrel (by simp) with h | h
    · subst h
      simp only [ne_eq, reduceCtorEq, not_false_eq_true, if_true,
        intlist_intersection_of vs _ hvs.1 hsat.1, chain_rows]
      exact ih _ _ _ (holds_rows_inter _ _ _ _ hvs hsat) hrelnext hoknext hlinknext
    · subst h
      simp only [ne_eq, reduceCtorEq, not_false_eq_true, if_true, if_false,
        intlist_union_of vs _ hvs.1 hsat.1, chain_rows]
      exact ih _ _ _ (holds_rows_union _ _ _ _ hvs hsat) hrelnext hoknext hlinknext

/-! ## Lemmas: integer literals -/

theorem strtoll_digits_all (ds : CStr) (acc : Nat) (h : ds.all isdigit = true) :
    strtoll_digits ds acc = ds.foldl (fun acc c => acc * 10 + (c - 48)) acc := by
  induction ds generalizing acc with
  | nil => rfl
  | cons d r ih =>
    simp only [List.all_cons, Bool.and_eq_true] at h
    simp [strtoll_digits, h.1, ih _ h.2]

theorem isdigit_not_space (c : Nat) (h : isdigit c = true) : isspace c = false := by
  simp only [isdigit, Bool.and_eq_true, decide_eq_true_eq] at h
  simp only [isspace, Bool.or_eq_false_iff, decide_eq_false_iff_not, Bool.and_eq_false_iff]
  omega

theorem strtoll_literal (s : CStr) (z : Int) (h : int_literal s = some z)
    (hlo : -(2 ^ 63) ≤ z) (hhi : z < 2 ^ 63) : strtoll s = (z, false) := by
  cases s with
  | nil => simp [int_literal] at h
  | cons d0 r0 =>
    by_cases h45 : d0 = 45
    · subst h45
      simp only [int_literal] at h
      split at h
      · rename_i hd
        cases r0 with
        | nil => exact absurd rfl hd.1
        | cons d r =>
          have hall := hd.2
          have hd1 : isdigit d = true := by
            simp only [List.all_cons, Bool.and_eq_true] at hall; exact hall.1
          simp only [Option.some.injEq] at h
          have hm : strtoll_digits (d :: r) 0 = digits_value (d :: r) := strtoll_digits_all _ 0 hall
          have hsp : isspace 45 = false := by decide
          simp only [strtoll, List.dropWhile, hsp, hd1, hm, if_true]
          rw [← h] at hlo
          rw [← h]
          simp only [LLONG_MIN, Prod.mk.injEq, and_true]
          exact max_eq_left hlo
      · cases h
    · have hlit : int_literal (d0 :: r0) =
          if d0 :: r0 ≠ [] ∧ (d0 :: r0).all isdigit = true then some (digits_value (d0 :: r0) : Int)
          else none := by
        unfold int_literal
        split
        · rename_i heq; simp only [List.cons.injEq] at heq; exact absurd heq.1 h45
        · rfl
      rw [hlit] at h
      split at h
      · rename_i hd
        have hall := hd.2
        have hd1 : isdigit d0 = true := by
          simp only [List.all_cons, Bool.and_eq_true] at hall; exact hall.1
        have hsp := isdigit_not_space d0 hd1
        have h43 : d0 ≠ 43 := by
          intro e
          rw [e] at hd1
          exact absurd hd1 (by decide)
        simp only [Option.some.injEq] at h
        have hm : strtoll_digits (d0 :: r0) 0 = digits_value (d0 :: r0) :=
          strtoll_digits_all _ 0 hall
        have hsigned : (match d0 :: r0 with
            | 45 :: r => (true, r)
            | 43 :: r => (false, r)
            | _ => (false, d0 :: r0)) = (false, d0 :: r0) := by
          split
          · rename_i heq; simp only [List.cons.injEq] at heq; exact absurd heq.1 h45
          · rename_i heq; simp only [List.cons.injEq] at heq; exact absurd heq.1 h43
          · rfl
        simp only [strtoll, List.dropWhile, hsp, hsigned, hd1, hm, if_true]
        rw [← h] at hhi
        rw [← h]
        simp only [LLONG_MAX, Bool.false_eq_true, if_false, Prod.mk.injEq, and_true]
        exact min_eq_left (by omega)
      · cases h

theorem str_to_int_literal (env : CEnv) (s : CStr) (z : Int) (h : int_literal s = some z)
    (hlo : -(2 ^ 63) ≤ z) (hhi : z < 2 ^ 63) :
    str_to_int env s = { result := RESULT_OK, value := (z % 2 ^ 64).toNat } := by
  simp [str_to_int, strtoll_literal s z h hlo hhi]

theorem as_int32_literal (z : Int) (hlo : -(2 ^ 31) ≤ z) (hhi : z < 2 ^ 31) :
    as_int32 ((z % 2 ^ 64).toNat % 2 ^ 32) = z := by
  unfold as_int32
  norm_num at hlo hhi ⊢
  split <;> omega

theorem as_int64_literal (z : Int) (hlo : -(2 ^ 63) ≤ z) (hhi : z < 2 ^ 63) :
    as_int64 (z % 2 ^ 64).toNat = z := by
  unfold as_int64
  norm_num at hlo hhi ⊢
  split <;> omega

theorem value_fits_result (env : CEnv) (type : BaseType) (v : CStr) (h : value_fits type v = true) :
    type ≠ BTYPE_INVALID ∧ (type ≠ BTYPE_STRING → (str_to_int env v).result = RESULT_OK) ∧
      cell_holds type (value_slot env type v) v = true := by
  cases type with
  | BTYPE_INVALID => simp [value_fits] at h
  | BTYPE_STRING => simp [cell_holds, value_slot]
  | BTYPE_INT32 =>
    cases hz : int_literal v with
    | none => simp [value_fits, hz] at h
    | some z =>
      simp only [value_fits, hz, decide_eq_true_eq] at h
      have hs := str_to_int_literal env v z hz (by omega) (by omega)
      refine ⟨by decide, fun _ => by rw [hs], ?_⟩
      simp only [cell_holds, value_slot, hs, as_int32_literal z h.1 h.2, hz, decide_True,
        Bool.and_true, decide_eq_true_eq]
      omega
  | BTYPE_INT64 =>
    cases hz : int_literal v with
    | none => simp [value_fits, hz] at h
    | some z =>
      simp only [value_fits, hz, decide_eq_true_eq] at h
      have hs := str_to_int_literal env v z hz h.1 h.2
      refine ⟨by decide, fun _ => by rw [hs], ?_⟩
      simp only [cell_holds, value_slot, hs, as_int64_literal z h.1 h.2, hz, decide_True,
        Bool.and_true, decide_eq_true_eq]
      omega

/-! ## Lemmas: writes to the store -/

theorem idb_table_put_same (tid : Nat) (T : Table) (l : List Table)
    (h : l.find? (fun cur => cur.meta.id = tid) = some T) : idb_table_put tid T l = l := by
  induction l with
  | nil => rfl
  | cons cur rest ih =>
    by_cases hc : cur.meta.id = tid
    · simp only [List.find?, hc, decide_True, Option.some.injEq] at h
      subst h
      simp [idb_table_put, hc]
    · simp only [List.find?, hc, decide_False] at h
      simp [idb_table_put, hc, ih h]

theorem db_store_same (db : DataBase) (tid : Nat) (T : Table)
    (h : idb_table_get_byid db tid = some T) : db_store db tid T = db := by
  unfold db_store
  rw [idb_table_put_same tid T db.tables h]

theorem idb_table_put_put (tid : Nat) (a b : Table) (ha : a.meta.id = tid) (l : List Table) :
    idb_table_put tid b (idb_table_put tid a l) = idb_table_put tid b l := by
  induction l with
  | nil => rfl
  | cons cur rest ih =>
    by_cases hc : cur.meta.id = tid
    · simp [idb_table_put, hc, ha]
    · simp [idb_table_put, hc, ih]

theorem db_store_store (db : DataBase) (tid : Nat) (a b : Table) (ha : a.meta.id = tid) :
    db_store (db_store db tid a) tid b = db_store db tid b := by
  simp [db_store, idb_table_put_put tid a b ha]

theorem find_put (tid : Nat) (a T : Table) (ha : a.meta.id = tid) (l : List Table)
    (h : l.find? (fun cur => cur.meta.id = tid) = some T) :
    (idb_table_put tid a l).find? (fun cur => cur.meta.id = tid) = some a := by
  induction l with
  | nil => simp at h
  | cons cur rest ih =>
    by_cases hc : cur.meta.id = tid
    · simp [idb_table_put, hc, List.find?, ha]
    · simp only [List.find?, hc, decide_False] at h
      simp [idb_table_put, hc, List.find?, ih h]

theorem byid_db_store (db : DataBase) (tid : Nat) (a T : Table) (ha : a.meta.id = tid)
    (h : idb_table_get_byid db tid = some T) : idb_table_get_byid (db_store db tid a) tid = some a :=
  find_put tid a T ha db.tables h

theorem byid_meta_id (db : DataBase) (tid : Nat) (T : Table)
    (h : idb_table_get_byid db tid = some T) : T.meta.id = tid := by
  have := List.find?_some h
  simpa using this

theorem columns_store_at (pre : List Column) (c : Column) (post : List Column) (index : Nat)
    (v : Slot) (hpre : ∀ x ∈ pre, x.meta.id ≠ c.meta.id) (hidx : index < c.data.length) :
    columns_store c.meta.id index v (pre ++ c :: post) =
      Except.ok (pre ++ { c with data := c.data.set index v } :: post) := by
  induction pre with
  | nil => simp [columns_store, icolumn_store, hidx, bind, Except.bind, pure, Except.pure]
  | cons x r ih =>
    have hx : x.meta.id ≠ c.meta.id := hpre x (by simp)
    have hr : ∀ y ∈ r, y.meta.id ≠ c.meta.id := fun y hy => hpre y (by simp [hy])
    simp [columns_store, hx, ih hr, bind, Except.bind, pure, Except.pure]

theorem find_id_at (pre : List Column) (c : Column) (post : List Column)
    (hpre : ∀ x ∈ pre, x.meta.id ≠ c.meta.id) :
    (pre ++ c :: post).find? (fun column => column.meta.id = c.meta.id) = some c := by
  induction pre with
  | nil => simp
  | cons x r ih =>
    have hx : x.meta.id ≠ c.meta.id := hpre x (by simp)
    have hr : ∀ y ∈ r, y.meta.id ≠ c.meta.id := fun y hy => hpre y (by simp [hy])
    simp [List.find?, hx, ih hr]

theorem nodup_ids_pre (pre : List Column) (c : Column) (post : List Column)
    (hn : ((pre ++ c :: post).map (fun c => c.meta.id)).Nodup) :
    ∀ x ∈ pre, x.meta.id ≠ c.meta.id := by
  intro x hx e
  simp only [List.map_append, List.map_cons] at hn
  have := (List.nodup_append.mp hn).2.2
  exact this (List.mem_map_of_mem (fun c => c.meta.id) hx) (by simp [e])

theorem slot_store_at (db : DataBase) (T : Table) (pre : List Column) (c : Column)
    (post : List Column) (index : Nat) (v : Slot)
    (hdb : idb_table_get_byid db T.meta.id = some T) (hcols : T.columns = pre ++ c :: post)
    (hn : (T.columns.map (fun c => c.meta.id)).Nodup) (hty : c.meta.type ≠ BTYPE_INVALID)
    (hrow : index ≤ T.meta.row_count) (hidx : index < c.data.length) :
    slot_store db (table_column_get_row db T.meta.id c.meta.id index) v =
      Except.ok (db_store db T.meta.id
        { T with columns := pre ++ { c with data := c.data.set index v } :: post }) := by
  rw [hcols] at hn
  have hpre := nodup_ids_pre pre c post hn
  have hbyid : itable_column_byid T c.meta.id = some c := by
    unfold itable_column_byid
    rw [hcols]
    exact find_id_at pre c post hpre
  have hnot : ¬ index > T.meta.row_count := by omega
  simp only [table_column_get_row, hdb, hnot, if_false, hbyid, hty, slot_store, hcols,
    columns_store_at pre c post index v hpre hidx, bind, Except.bind, pure, Except.pure]

theorem cursor_str (v : CStr) (vs : List CStr) :
    strnode_str (cursor_of (v :: vs)) = Except.ok (some v) := rfl

theorem cursor_next (v : CStr) (vs : List CStr) :
    strnode_next (cursor_of (v :: vs)) = Except.ok (cursor_of vs) := by
  cases vs <;> rfl

theorem validate_value_types_loop_ok (env : CEnv) :
    ∀ (cols : List Column) (vs : List CStr), vs.length = cols.length →
      (∀ p ∈ cols.zip vs, value_fits p.1.meta.type p.2 = true) →
      validate_value_types_loop env (cols.map (fun c => c.meta)) (cursor_of vs) =
        Except.ok RESULT_OK := by
  intro cols
  induction cols with
  | nil => intro vs _ _; rfl
  | cons c r ih =>
    intro vs hlen hfit
    cases vs with
    | nil => simp at hlen
    | cons v vr =>
      have hv := hfit (c, v) (by simp)
      have hrest : ∀ p ∈ r.zip vr, value_fits p.1.meta.type p.2 = true :=
        fun p hp => hfit p (by simp [hp])
      have hlen2 : vr.length = r.length := by simpa using hlen
      obtain ⟨hty, hres, _⟩ := value_fits_result env c.meta.type v hv
      simp only [List.map_cons, validate_value_types_loop, cursor_str, cursor_next, deref_str, bind,
        Except.bind, pure, Except.pure]
      cases hct : c.meta.type
      · exact absurd hct hty
      · simp only [ne_eq, not_true_eq_false, if_false]
        exact ih vr hlen2 hrest
      · have := hres (by rw [hct]; decide)
        simp only [this, ne_eq, not_true_eq_false, if_false]
        exact ih vr hlen2 hrest
      · have := hres (by rw [hct]; decide)
        simp only [this, ne_eq, not_true_eq_false, if_false]
        exact ih vr hlen2 hrest

theorem insert_values_loop_ok (env : CEnv) (tm : TableMeta) (n : Nat) :
    ∀ (rest pre : List Column) (vs : List CStr) (db : DataBase) (T : Table),
      T.meta.id = tm.id → idb_table_get_byid db tm.id = some T → T.columns = pre ++ rest →
      (T.columns.map (fun c => c.meta.id)).Nodup → n ≤ T.meta.row_count →
      (∀ c ∈ rest, n < c.data.length) → vs.length = rest.length →
      (∀ p ∈ rest.zip vs, value_fits p.1.meta.type p.2 = true) →
      insert_values_loop env tm n false (rest.map (fun c => c.meta)) (cursor_of vs) db =
        Except.ok (RESULT_OK, db_store db tm.id { T with columns := pre ++ store_row env n rest vs }) := by
  intro rest
  induction rest with
  | nil =>
    intro pre vs db T hid hdb hcols _ _ _ _ _
    have hT : { T with columns := pre ++ store_row env n [] vs } = T := by
      cases T
      simp only [store_row, List.zipWith_nil_left, List.append_nil] at hcols ⊢
      simp [hcols]
    rw [hT, db_store_same db tm.id T hdb]
    rfl
  | cons c r ih =>
    intro pre vs db T hid hdb hcols hn hrow hidx hlen hfit
    cases vs with
    | nil => simp at hlen
    | cons v vr =>
      have hv := hfit (c, v) (by simp)
      have hrest : ∀ p ∈ r.zip vr, value_fits p.1.meta.type p.2 = true :=
        fun p hp => hfit p (by simp [hp])
      have hlen2 : vr.length = r.length := by simpa using hlen
      have hic : n < c.data.length := hidx c (by simp)
      have hir : ∀ x ∈ r, n < x.data.length := fun x hx => hidx x (by simp [hx])
      obtain ⟨hty, hres, _⟩ := value_fits_result env c.meta.type v hv
      have hdb2 : idb_table_get_byid db T.meta.id = some T := by rw [hid]; exact hdb
      have hstore := fun s => slot_store_at db T pre c r n s hdb2 hcols hn hty hrow hic
      rw [hid] at hstore
      -- the table after the write of this column
      have key : ∀ s, insert_values_loop env tm n false (r.map (fun c => c.meta)) (cursor_of vr)
            (db_store db tm.id { T with columns := pre ++ { c with data := c.data.set n s } :: r }) =
          Except.ok (RESULT_OK, db_store db tm.id
            { T with columns := pre ++ { c with data := c.data.set n s } ::
              List.zipWith (store_cell env n) r vr }) := by
        intro s
        have h1 := ih (pre ++ [{ c with data := c.data.set n s }]) vr
          (db_store db tm.id { T with columns := pre ++ { c with data := c.data.set n s } :: r })
          { T with columns := pre ++ { c with data := c.data.set n s } :: r }
          hid (byid_db_store db tm.id _ T hid hdb) (by simp)
          (by
            have : (pre ++ { c with data := c.data.set n s } :: r).map (fun c => c.meta.id) =
                T.columns.map (fun c => c.meta.id) := by rw [hcols]; simp
            simp only [this]; exact hn)
          hrow hir hlen2 hrest
        rw [h1, db_store_store db tm.id
          { T with columns := pre ++ { c with data := c.data.set n s } :: r } _ hid]
        simp [store_row]
      simp only [List.map_cons, insert_values_loop, cursor_str, cursor_next, deref_str, bind,
        Except.bind, pure, Except.pure, store_row, List.zipWith_cons_cons, store_cell]
      cases hct : c.meta.type
      · exact absurd hct hty
      · simp only [Bool.false_eq_true, if_false, hstore, ne_eq, not_true_eq_false, value_slot]
        exact key _
      · have := hres (by rw [hct]; decide)
        simp only [this, ne_eq, not_true_eq_false, if_false, hstore, value_slot]
        exact key _
      · have := hres (by rw [hct]; decide)
        simp only [this, ne_eq, not_true_eq_false, if_false, hstore, value_slot]
        exact key _

/-! ## Lemmas: INSERT -/

theorem table_row_add_eq (db : DataBase) (t : Table)
    (hdb : idb_table_get_byid db t.meta.id = some t) :
    table_row_add db t.meta.id = (RESULT_OK, db_store db t.meta.id (row_added t)) := by
  by_cases h : t.meta.row_count + 1 = t.row_capacity
  · have hf : column_added t.meta.row_count t.row_capacity =
        fun col => icolumn_realloc_data col (t.row_capacity * 2) := by
      funext c; simp [column_added, h]
    simp [table_row_add, hdb, row_added, itable_realloc, h, hf]
  · have hf : column_added t.meta.row_count t.row_capacity = fun col => col := by
      funext c; simp [column_added, h]
    simp [table_row_add, hdb, row_added, itable_realloc, h, hf]

theorem column_added_meta (n cap : Nat) (c : Column) : (column_added n cap c).meta = c.meta := by
  unfold column_added icolumn_realloc_data
  split <;> rfl

theorem column_added_length (n cap : Nat) (c : Column) (hlen : c.data.length = cap) :
    (column_added n cap c).data.length = if n + 1 = cap then cap * 2 else cap := by
  unfold column_added icolumn_realloc_data
  split
  · simp
  · exact hlen

theorem column_added_take (n cap : Nat) (c : Column) (hlen : c.data.length = cap) :
    (column_added n cap c).data.take n = c.data.take n := by
  unfold column_added icolumn_realloc_data
  split
  · simp only [List.take_take]
    rw [min_eq_left (by omega), List.take_append_of_le_length (by omega)]
  · rfl

theorem cell_holds_slot_ok (type : BaseType) (s : Slot) (v : CStr) (h : cell_holds type s v = true) :
    slot_ok type s = true := by
  cases type <;> cases s <;> simp [cell_holds] at h <;> rfl

theorem take_set_same (l : List Slot) (n : Nat) (x : Slot) : (l.set n x).take n = l.take n := by
  induction l generalizing n with
  | nil => simp
  | cons a r ih =>
    cases n with
    | zero => simp
    | succ m => simp [ih m]

theorem store_cell_take (env : CEnv) (n : Nat) (c : Column) (v : CStr) :
    (store_cell env n c v).data.take n = c.data.take n := by
  simp [store_cell, take_set_same]

theorem store_cell_get (env : CEnv) (n : Nat) (c : Column) (v : CStr) (h : n < c.data.length) :
    (store_cell env n c v).data.get? n = some (value_slot env c.meta.type v) := by
  simp [store_cell, h]

theorem take_succ_set (l : List Slot) (n : Nat) (x : Slot) (h : n < l.length) :
    (l.set n x).take (n + 1) = l.take n ++ [x] := by
  induction l generalizing n with
  | nil => simp at h
  | cons a r ih =>
    cases n with
    | zero => simp
    | succ m =>
      simp only [List.length_cons, Nat.add_lt_add_iff_right] at h
      simp [ih m h]

theorem zipWith_map_meta (f : Column → CStr → Column) (hf : ∀ c v, (f c v).meta = c.meta) :
    ∀ (l : List Column) (vs : List CStr), vs.length = l.length →
      (List.zipWith f l vs).map (fun c => c.meta) = l.map (fun c => c.meta) := by
  intro l
  induction l with
  | nil => intro vs _; simp
  | cons c r ih =>
    intro vs h
    cases vs with
    | nil => simp at h
    | cons v vr => simp [hf, ih vr (by simpa using h)]

theorem zipWith_forall₂_right (f : Column → CStr → Column) (R : Column → CStr → Prop) :
    ∀ (l : List Column) (vs : List CStr), vs.length = l.length →
      (∀ p ∈ l.zip vs, R (f p.1 p.2) p.2) → List.Forall₂ R (List.zipWith f l vs) vs := by
  intro l
  induction l with
  | nil =>
    intro vs h _
    cases vs with
    | nil => exact List.Forall₂.nil
    | cons v vr => simp at h
  | cons c r ih =>
    intro vs h hp
    cases vs with
    | nil => simp at h
    | cons v vr =>
      simp only [List.zipWith_cons_cons]
      exact List.Forall₂.cons (hp (c, v) (by simp))
        (ih vr (by simpa using h) (fun p hp2 => hp p (by simp [hp2])))

theorem zipWith_forall₂_left (f : Column → CStr → Column) (R : Column → Column → Prop) :
    ∀ (l : List Column) (vs : List CStr), vs.length = l.length →
      (∀ p ∈ l.zip vs, R (f p.1 p.2) p.1) → List.Forall₂ R (List.zipWith f l vs) l := by
  intro l
  induction l with
  | nil => intro vs _ _; exact List.Forall₂.nil
  | cons c r ih =>
    intro vs h hp
    cases vs with
    | nil => simp at h
    | cons v vr =>
      simp only [List.zipWith_cons_cons]
      exact List.Forall₂.cons (hp (c, v) (by simp))
        (ih vr (by simpa using h) (fun p hp2 => hp p (by simp [hp2])))

theorem mem_zipWith_zip (f : Column → CStr → Column) :
    ∀ (l : List Column) (vs : List CStr) (x : Column), x ∈ List.zipWith f l vs →
      ∃ p ∈ l.zip vs, x = f p.1 p.2 := by
  intro l
  induction l with
  | nil => intro vs x hx; simp at hx
  | cons c r ih =>
    intro vs x hx
    cases vs with
    | nil => simp at hx
    | cons v vr =>
      simp only [List.zipWith_cons_cons, List.mem_cons] at hx
      rcases hx with h | h
      · exact ⟨(c, v), by simp, h⟩
      · obtain ⟨p, hp, hx2⟩ := ih vr x h
        exact ⟨p, by simp [hp], hx2⟩

theorem mem_zip_left (l : List Column) (vs : List CStr) (p : Column × CStr) (h : p ∈ l.zip vs) :
    p.1 ∈ l := (List.of_mem_zip h).1

/-! ## C3: INSERT appends one row -/

theorem row_added_columns_meta (t : Table) :
    (row_added t).columns.map (fun c => c.meta) = t.columns.map (fun c => c.meta) := by
  simp [row_added, column_added_meta, Function.comp_def]

theorem interpret_insert_run (env : CEnv) (db : DataBase) (table_name : CStr) (t : Table)
    (values : StrList)
    (hname : idb_table_get db table_name = some t)
    (hdb : idb_table_get_byid db t.meta.id = some t)
    (hwf : table_wf t) (hk : t.columns ≠ [])
    (hlen : values.length = t.columns.length)
    (hfit : ∀ p ∈ t.columns.zip values, value_fits p.1.meta.type p.2 = true) :
    interpret_insert env db table_name values =
      Except.ok { result := RESULT_OK,
                  db := db_store db t.meta.id
                    { row_added t with
                      columns := store_row env t.meta.row_count (row_added t).columns values },
                  out := [] } := by
  obtain ⟨hnodup, hcap, hcols⟩ := hwf
  have hvalid := validate_value_types_loop_ok env t.columns values hlen hfit
  -- the state after `table_row_add`
  have hid : (row_added t).meta.id = t.meta.id := rfl
  have hdb1 := byid_db_store db t.meta.id (row_added t) t hid hdb
  have hfit1 : ∀ p ∈ (row_added t).columns.zip values, value_fits p.1.meta.type p.2 = true := by
    intro p hp
    simp only [row_added, List.zip_map_left, List.mem_map] at hp
    obtain ⟨q, hq, rfl⟩ := hp
    simpa [column_added_meta] using hfit q hq
  have hidx : ∀ c ∈ (row_added t).columns, t.meta.row_count < c.data.length := by
    intro c hc
    simp only [row_added, List.mem_map] at hc
    obtain ⟨c0, hc0, rfl⟩ := hc
    rw [column_added_length _ _ c0 (hcols c0 hc0).2.1]
    split <;> omega
  have hloop := insert_values_loop_ok env t.meta t.meta.row_count (row_added t).columns [] values
    (db_store db t.meta.id (row_added t)) (row_added t) hid hdb1 (by simp)
    (by
      have h1 : (row_added t).columns.map (fun c => c.meta.id) = t.columns.map (fun c => c.meta.id) := by
        simp [row_added, column_added_meta, Function.comp_def]
      rw [h1]; exact hnodup)
    (by simp [row_added]) hidx (by simp [row_added, hlen]) hfit1
  rw [row_added_columns_meta, db_store_store db t.meta.id (row_added t) _ hid] at hloop
  cases hc : t.columns with
  | nil => exact absurd hc hk
  | cons c r =>
    cases hv : values with
    | nil => rw [hv, hc] at hlen; simp at hlen
    | cons v vr =>
      rw [hc, hv] at hvalid hloop
      simp only [List.map_cons, cursor_of] at hvalid hloop
      simp only [interpret_insert, db_table_get, hname, ne_eq, not_true_eq_false, if_false,
        table_column_get_list, hdb, hc, List.map_cons, validate_value_types, hvalid,
        table_row_add_eq db t hdb, insert_values, hloop, bind, Except.bind, pure, Except.pure,
        List.nil_append]


/-- C3: for a table with at least one column whose invariant holds, an INSERT that carries one
    valid value per column returns OK; afterwards the row count is one higher, the capacity has
    doubled exactly when the new count reached it, the columns keep their metadata, slot `n`
    of every column holds the value destined for it, the rows below `n` are as before, slot
    `n` lies inside every buffer, and the invariant holds again. -/
theorem interpret_insert_appends_row (env : CEnv) (db : DataBase) (table_name : CStr) (t : Table)
    (values : StrList)
    (hname : idb_table_get db table_name = some t)
    (hdb : idb_table_get_byid db t.meta.id = some t)
    (hwf : table_wf t) (hk : t.columns ≠ [])
    (hlen : values.length = t.columns.length)
    (hfit : ∀ p ∈ t.columns.zip values, value_fits p.1.meta.type p.2 = true) :
    ∃ t' : Table,
      interpret_insert env db table_name values =
        Except.ok { result := RESULT_OK, db := db_store db t.meta.id t', out := [] } ∧
      t'.meta = { t.meta with row_count := t.meta.row_count + 1 } ∧
      t'.row_capacity =
        (if t.meta.row_count + 1 = t.row_capacity then t.row_capacity * 2 else t.row_capacity) ∧
      t'.columns.map (fun c => c.meta) = t.columns.map (fun c => c.meta) ∧
      List.Forall₂ (fun c' v => ∃ s, c'.data.get? t.meta.row_count = some s ∧
        cell_holds c'.meta.type s v = true) t'.columns values ∧
      List.Forall₂ (fun c' c => c'.data.take t.meta.row_count = c.data.take t.meta.row_count)
        t'.columns t.columns ∧
      (∀ c' ∈ t'.columns, c'.data.length = t'.row_capacity ∧ t.meta.row_count < c'.data.length) ∧
      table_wf t' := by
  have hrun := interpret_insert_run env db table_name t values hname hdb hwf hk hlen hfit
  obtain ⟨hnodup, hcap, hcols⟩ := hwf
  -- the columns of the result, one by one
  have hcolsEq : store_row env t.meta.row_count (row_added t).columns values =
      List.zipWith (fun c v => store_cell env t.meta.row_count
        (column_added t.meta.row_count t.row_capacity c) v) t.columns values := by
    simp [store_row, row_added, List.zipWith_map_left]
  have hmeta : ∀ c v, (store_cell env t.meta.row_count
      (column_added t.meta.row_count t.row_capacity c) v).meta = c.meta := by
    intro c v; simp [store_cell, column_added_meta]
  have hlength : ∀ c ∈ t.columns, ∀ v, (store_cell env t.meta.row_count
      (column_added t.meta.row_count t.row_capacity c) v).data.length =
      (if t.meta.row_count + 1 = t.row_capacity then t.row_capacity * 2 else t.row_capacity) := by
    intro c hc v
    simp only [store_cell, List.length_set]
    exact column_added_length _ _ c (hcols c hc).2.1
  have hcapn : t.meta.row_count + 1 <
      (if t.meta.row_count + 1 = t.row_capacity then t.row_capacity * 2 else t.row_capacity) := by
    split <;> omega
  refine ⟨{ row_added t with
      columns := store_row env t.meta.row_count (row_added t).columns values },
    hrun, rfl, rfl, ?_, ?_, ?_, ?_, ?_⟩
  · simp only [hcolsEq]
    exact zipWith_map_meta _ hmeta t.columns values hlen
  · simp only [hcolsEq]
    apply zipWith_forall₂_right _ _ t.columns values hlen
    intro p hp
    have hpc := mem_zip_left _ _ p hp
    have hl := hlength p.1 hpc p.2
    refine ⟨value_slot env p.1.meta.type p.2, ?_, ?_⟩
    · have h1 : t.meta.row_count <
          (column_added t.meta.row_count t.row_capacity p.1).data.length := by
        rw [column_added_length _ _ p.1 (hcols p.1 hpc).2.1]; omega
      rw [store_cell_get env _ _ _ h1, column_added_meta]
    · rw [hmeta]
      exact (value_fits_result env p.1.meta.type p.2 (hfit p hp)).2.2
  · simp only [hcolsEq]
    apply zipWith_forall₂_left _ _ t.columns values hlen
    intro p hp
    have hpc := mem_zip_left _ _ p hp
    rw [store_cell_take, column_added_take _ _ p.1 (hcols p.1 hpc).2.1]
  · intro c' hc'
    simp only [hcolsEq] at hc'
    obtain ⟨p, hp, rfl⟩ := mem_zipWith_zip _ _ _ _ hc'
    have hpc := mem_zip_left _ _ p hp
    rw [hlength p.1 hpc p.2]
    exact ⟨rfl, by omega⟩
  · refine ⟨?_, hcapn, ?_⟩
    · show ((store_row env t.meta.row_count (row_added t).columns values).map
        (fun c => c.meta.id)).Nodup
      have h1 : (store_row env t.meta.row_count (row_added t).columns values).map
          (fun c => c.meta.id) = t.columns.map (fun c => c.meta.id) := by
        have h2 := zipWith_map_meta _ hmeta t.columns values hlen
        rw [← hcolsEq] at h2
        have h3 := congrArg (List.map (fun (m : ColumnMeta) => m.id)) h2
        simpa [List.map_map, Function.comp_def] using h3
      rw [h1]; exact hnodup
    · intro c' hc'
      change c' ∈ store_row env t.meta.row_count (row_added t).columns values at hc'
      rw [hcolsEq] at hc'
      obtain ⟨p, hp, rfl⟩ := mem_zipWith_zip _ _ _ _ hc'
      have hpc := mem_zip_left _ _ p hp
      obtain ⟨hty, hlen0, hslots⟩ := hcols p.1 hpc
      have hfitp := value_fits_result env p.1.meta.type p.2 (hfit p hp)
      refine ⟨by rw [hmeta]; exact hty, hlength p.1 hpc p.2, ?_⟩
      intro s hs
      have h1 : t.meta.row_count <
          (column_added t.meta.row_count t.row_capacity p.1).data.length := by
        rw [column_added_length _ _ p.1 hlen0]; omega
      change s ∈ List.take (t.meta.row_count + 1) _ at hs
      simp only [store_cell] at hs
      rw [take_succ_set _ _ _ h1, column_added_take _ _ p.1 hlen0, column_added_meta] at hs
      rw [hmeta]
      rcases List.mem_append.mp hs with h | h
      · exact hslots s h
      · simp only [List.mem_singleton] at h
        rw [h]
        exact cell_holds_slot_ok _ _ _ hfitp.2.2

set_option maxRecDepth 100000 in
/-- Witness of C3 at the brim: the table has 63 rows and capacity 64, so the INSERT of `-5`
    makes the row count reach the capacity; the column is reallocated to 128 slots and slot 63
    holds the bit pattern of -5. -/
theorem interpret_insert_appends_row_witness :
    (idb_table_get brim_db (cstr "t") = some brim_table ∧
      idb_table_get_byid brim_db brim_table.meta.id = some brim_table ∧
      table_wf brim_table ∧ brim_table.columns ≠ [] ∧
      [cstr "-5"].length = brim_table.columns.length ∧
      (∀ p ∈ brim_table.columns.zip [cstr "-5"], value_fits p.1.meta.type p.2 = true)) ∧
    (∃ t' : Table,
      interpret_insert env_glibc brim_db (cstr "t") [cstr "-5"] =
        Except.ok { result := RESULT_OK, db := db_store brim_db brim_table.meta.id t', out := [] } ∧
      t'.meta = { brim_table.meta with row_count := brim_table.meta.row_count + 1 } ∧
      t'.row_capacity =
        (if brim_table.meta.row_count + 1 = brim_table.row_capacity
         then brim_table.row_capacity * 2 else brim_table.row_capacity) ∧
      t'.columns.map (fun c => c.meta) = brim_table.columns.map (fun c => c.meta) ∧
      List.Forall₂ (fun c' v => ∃ s, c'.data.get? brim_table.meta.row_count = some s ∧
        cell_holds c'.meta.type s v = true) t'.columns [cstr "-5"] ∧
      List.Forall₂ (fun c' c => c'.data.take brim_table.meta.row_count =
        c.data.take brim_table.meta.row_count) t'.columns brim_table.columns ∧
      (∀ c' ∈ t'.columns, c'.data.length = t'.row_capacity ∧
        brim_table.meta.row_count < c'.data.length) ∧
      table_wf t') ∧
    (interpret_insert env_glibc brim_db (cstr "t") [cstr "-5"]).map
        (fun o => o.db.tables.map (fun t => (t.meta.row_count, t.row_capacity,
          t.columns.map (fun c => (c.data.length, c.data.get? 63))))) =
      Except.ok [(64, 128, [(128, some (Slot.bits 4294967291))])] :=
  ⟨⟨by rfl, by rfl, by decide, by decide, by rfl, by decide⟩,
   interpret_insert_appends_row env_glibc brim_db (cstr "t") brim_table [cstr "-5"] (by rfl) (by rfl)
     (by decide) (by decide) (by rfl) (by decide),
   by rfl⟩

/-! ## The fixtures are reachable -/

set_option maxRecDepth 100000 in
theorem scenario_db_reachable : run_queries env_glibc scenario_script db_init = Except.ok scenario_db := by
  rfl

/-! ## C1: the filter chain is folded strictly from left to right -/

set_option maxRecDepth 100000 in
theorem pair_db_reachable : run_queries env_glibc pair_script db_init = Except.ok pair_db := by rfl

set_option maxRecDepth 100000 in
theorem six_db_reachable : run_queries env_glibc six_script db_init = Except.ok six_db := by rfl

set_option maxRecDepth 100000 in
theorem int_db_reachable :
    run_queries env_glibc [cstr "CREATE TABLE t ( a int32 )"] db_init = Except.ok int_db := by rfl

set_option maxRecDepth 100000 in
theorem testing_db_reachable : run_queries env_glibc testing_script db_init = Except.ok testing_db := by
  rfl

set_option maxRecDepth 100000 in
theorem odd_db_reachable :
    run_queries env_glibc
      [cstr "CREATE TABLE s ( x string )", cstr "INSERT INTO s VALUES (" ++ [128] ++ cstr ")"]
      db_init = Except.ok odd_db := by rfl

set_option maxRecDepth 1000000 in
theorem brim_db_reachable :
    run_queries env_glibc
      (cstr "CREATE TABLE t ( a int32 )" :: List.replicate 63 (cstr "INSERT INTO t VALUES (0)"))
      db_init = Except.ok brim_db := by rfl

/-! ## C2: DELETE with a chain that uses OR -/

set_option maxRecDepth 100000 in
/-- C2, at a failing input: on the rows `a = 0, 0, 0, 1, 0, 2` the chain `a = 2 OR a = 1` yields
    the row ids 5, 3 in that order; `DELETE` removes row 5 and then row `3 - 1 = 2`, returns OK
    and leaves `0, 0, 1, 0`: the matching row `a = 1` is still there and a row that did not
    match is gone.  On the rows `a = 1, 2` the same statement removes row 1, asks for row
    `0 - 1` and returns IndexOutOfBounds with the matching row `a = 1` left. -/
theorem interpret_delete_or_chain :
    (filter_interpret env_glibc six_db six_table.meta
        [{ op := FILTER_EQUAL, value := cstr "2", column := cstr "a", next_relation := FILTER_REL_OR },
         { op := FILTER_EQUAL, value := cstr "1", column := cstr "a",
           next_relation := FILTER_REL_NONE }] =
      Except.ok { res := RESULT_OK, rows := [5, 3] }) ∧
    ((do_query env_glibc six_db (cstr "DELETE FROM t WHERE a = 2 OR a = 1")).map
        (fun o => (o.result, o.db.tables.map (fun t => t.meta.row_count), live_slots o.db 4)) =
      Except.ok (RESULT_OK, [4], [[[Slot.bits 0, Slot.bits 0, Slot.bits 1, Slot.bits 0]]])) ∧
    ((do
        let db ← run_queries env_glibc
          [cstr "CREATE TABLE t ( a int32 )", cstr "INSERT INTO t VALUES (1)",
           cstr "INSERT INTO t VALUES (2)"] db_init
        let o ← do_query env_glibc db (cstr "DELETE FROM t WHERE a = 2 OR a = 1")
        pure (o.result, o.db.tables.map (fun t => t.meta.row_count), live_slots o.db 1)) =
      Except.ok (RESULT_INDEX_OUT_OF_BOUNDS, [1], [[[Slot.bits 1]]])) := by
  refine ⟨by rfl, by rfl, by rfl⟩

/-! ## C4: UPDATE with the assignments in another order than the columns -/

set_option maxRecDepth 100000 in
/-- C4, at a failing input: on the table with the columns `a`, `b` and the row `1 2`, the update
    with the assignments `b = 7, a = 9` returns OK and leaves `a = 7`, `b = 9`: the values are
    paired with the columns in the order of the table, not in the order of the assignments. -/
theorem interpret_update_assignment_order :
    ((interpret_query env_glibc pair_db
        (Query.QUERY_UPDATE (cstr "t") [] [cstr "b", cstr "a"] [cstr "7", cstr "9"])).map
        (fun o => (o.result, live_slots o.db 1)) =
      Except.ok (RESULT_OK, [[[Slot.bits 7], [Slot.bits 9]]])) ∧
    ((do_query env_glibc pair_db (cstr "UPDATE t SET b = 7, a = 9")).map
        (fun o => (o.result, live_slots o.db 1)) =
      Except.ok (RESULT_OK, [[[Slot.bits 7], [Slot.bits 9]]])) ∧
    table_column_get_list pair_db 0 (some [cstr "b", cstr "a"]) =
      Except.ok (some [{ id := 0, name := cstr "a", type := BTYPE_INT32 },
                       { id := 1, name := cstr "b", type := BTYPE_INT32 }]) := by
  refine ⟨by rfl, by rfl, by rfl⟩

/-! ## C6: values that are no integer literals -/

set_option maxRecDepth 100000 in
/-- C6, at failing inputs: `INSERT INTO t VALUES (12abc)` into an Int32 column returns OK and
    stores 12, whatever `strtoll` does when it converts nothing; `INSERT INTO t VALUES (abc)`
    returns the generic `RESULT_ERR` when `strtoll` reports `EINVAL`, and OK with 0 stored when
    it does not; `UPDATE t SET a = abc` returns `RESULT_VALUE_TYPE` in the first case. -/
theorem interpret_insert_invalid_literal :
    (∀ env : CEnv, (do_query env int_db (cstr "INSERT INTO t VALUES (12abc)")).map
        (fun o => (o.result, o.db.tables.map (fun t => t.meta.row_count), live_slots o.db 1)) =
      Except.ok (RESULT_OK, [1], [[[Slot.bits 12]]])) ∧
    ((do_query env_einval int_db (cstr "INSERT INTO t VALUES (abc)")).map
        (fun o => (o.result, o.db)) = Except.ok (RESULT_ERR, int_db)) ∧
    ((do_query env_glibc int_db (cstr "INSERT INTO t VALUES (abc)")).map
        (fun o => (o.result, o.db.tables.map (fun t => t.meta.row_count), live_slots o.db 1)) =
      Except.ok (RESULT_OK, [1], [[[Slot.bits 0]]])) ∧
    ((do_query env_einval pair_db (cstr "UPDATE t SET a = abc")).map
        (fun o => (o.result, o.db)) = Except.ok (RESULT_VALUE_TYPE, pair_db)) := by
  refine ⟨?_, by rfl, by rfl, by rfl⟩
  intro env
  rcases env with ⟨e, c⟩
  cases e <;> cases c <;> rfl

/-! ## C7: the projection of a SELECT without WHERE -/

set_option maxRecDepth 100000 in
/-- C7, at a failing input: on the table with the columns `a`, `b` and the row `1 2`,
    `SELECT a FROM t` prints both cells, while `SELECT a FROM t WHERE b = 2` prints the cell of
    `a` alone. -/
theorem interpret_select_all_ignores_columns :
    ((do_query env_glibc pair_db (cstr "SELECT a FROM t")).map (fun o => (o.result, o.out)) =
      Except.ok (RESULT_OK, padded "1" ++ padded "2" ++ [10])) ∧
    ((do_query env_glibc pair_db (cstr "SELECT a FROM t WHERE b = 2")).map
        (fun o => (o.result, o.out)) =
      Except.ok (RESULT_OK, padded "1" ++ [10])) := by
  refine ⟨by rfl, by rfl⟩

/-! ## C9: inputs on which the parser does not return -/

set_option maxRecDepth 100000 in
/-- C9, at failing inputs: on the empty string and on the truncated statements `SELECT a,`,
    `INSERT INTO t VALUES`, `INSERT INTO t VALUES (a, b` and `SELECT * FROM t WHERE a`,
    `query_parse` reads through a NULL token pointer; on a `WHERE` without a predicate and on a
    predicate with an unknown operator it ends the process through `FATAL`; on a trailing
    token that starts no clause the loop of `query_parse_select` never ends. -/
theorem query_parse_does_not_return :
    query_parse (cstr "") = Except.error Fault.null_deref ∧
    query_parse (cstr "SELECT a,") = Except.error Fault.null_deref ∧
    query_parse (cstr "INSERT INTO t VALUES") = Except.error Fault.null_deref ∧
    query_parse (cstr "INSERT INTO t VALUES (a, b") = Except.error Fault.null_deref ∧
    query_parse (cstr "SELECT * FROM t WHERE a") = Except.error Fault.null_deref ∧
    query_parse (cstr "SELECT * FROM t WHERE") = Except.error Fault.fatal_exit ∧
    query_parse (cstr "DELETE FROM t WHERE a ~ 1") = Except.error Fault.fatal_exit ∧
    query_parse (cstr "SELECT * FROM t foo") = Except.error Fault.hang := by
  refine ⟨by rfl, by rfl, by rfl, by rfl, by rfl, by rfl, by rfl, by rfl⟩

/-! ## Lemmas: the frame of UPDATE -/

theorem except_bind_ok {α β : Type} (x : Except Fault α) (f : α → Except Fault β) (b : β)
    (h : (x >>= f) = Except.ok b) : ∃ a, x = Except.ok a ∧ f a = Except.ok b := by
  cases x with
  | error e => simp [bind, Except.bind] at h
  | ok a => exact ⟨a, rfl, h⟩

theorem cols_frame_refl (P : ColumnMeta → Nat → Prop) (l : List Column) : cols_frame P l l := by
  induction l with
  | nil => exact List.Forall₂.nil
  | cons c r ih => exact List.Forall₂.cons ⟨rfl, rfl, fun i h => absurd rfl h⟩ ih

theorem cols_frame_mono (P Q : ColumnMeta → Nat → Prop) (hPQ : ∀ m i, P m i → Q m i)
    (l' l : List Column) (h : cols_frame P l' l) : cols_frame Q l' l := by
  induction h with
  | nil => exact List.Forall₂.nil
  | cons hc _ ih => exact List.Forall₂.cons ⟨hc.1, hc.2.1, fun i hi => hPQ _ _ (hc.2.2 i hi)⟩ ih

theorem cols_frame_trans (P : ColumnMeta → Nat → Prop) (l'' l' l : List Column)
    (h2 : cols_frame P l'' l') (h1 : cols_frame P l' l) : cols_frame P l'' l := by
  induction h2 generalizing l with
  | nil => cases h1; exact List.Forall₂.nil
  | @cons c2 c1 r2 r1 hc _ ih =>
    cases h1 with
    | @cons _ c0 _ r0 hd htl =>
      refine List.Forall₂.cons ⟨hc.1.trans hd.1, hc.2.1.trans hd.2.1, ?_⟩ (ih _ htl)
      intro i hi
      by_cases h : c2.data.get? i = c1.data.get? i
      · exact hd.2.2 i (fun e => hi (h.trans e))
      · have := hc.2.2 i h
        rw [hd.1] at this
        exact this

theorem table_frame_refl (P : ColumnMeta → Nat → Prop) (T : Table) : table_frame P T T :=
  ⟨rfl, rfl, cols_frame_refl P T.columns⟩

theorem table_frame_trans (P : ColumnMeta → Nat → Prop) (T'' T' T : Table)
    (h2 : table_frame P T'' T') (h1 : table_frame P T' T) : table_frame P T'' T :=
  ⟨h2.1.trans h1.1, h2.2.1.trans h1.2.1, cols_frame_trans P _ _ _ h2.2.2 h1.2.2⟩

theorem table_frame_mono (P Q : ColumnMeta → Nat → Prop) (hPQ : ∀ m i, P m i → Q m i)
    (T' T : Table) (h : table_frame P T' T) : table_frame Q T' T :=
  ⟨h.1, h.2.1, cols_frame_mono P Q hPQ _ _ h.2.2⟩

theorem columns_store_frame (cid index : Nat) (v : Slot) (l l' : List Column)
    (h : columns_store cid index v l = Except.ok l') :
    cols_frame (fun m i => m.id = cid ∧ i = index) l' l := by
  induction l generalizing l' with
  | nil => simp [columns_store] at h
  | cons c r ih =>
    unfold columns_store at h
    by_cases hc : c.meta.id = cid
    · simp only [hc, if_true] at h
      obtain ⟨c', hc', h2⟩ := except_bind_ok _ _ _ h
      simp only [pure, Except.pure, Except.ok.injEq] at h2
      subst h2
      unfold icolumn_store at hc'
      split at hc'
      · simp only [pure, Except.pure, Except.ok.injEq] at hc'
        subst hc'
        refine List.Forall₂.cons ⟨rfl, by simp, ?_⟩
          (cols_frame_refl (fun m i => m.id = cid ∧ i = index) r)
        intro i hi
        refine ⟨hc, ?_⟩
        by_contra hne
        apply hi
        simp only [List.get?_eq_getElem?]
        exact List.getElem?_set_ne (fun e => hne e.symm)
      · cases hc'
    · simp only [hc, if_false] at h
      obtain ⟨r', hr', h2⟩ := except_bind_ok _ _ _ h
      simp only [pure, Except.pure, Except.ok.injEq] at h2
      subst h2
      exact List.Forall₂.cons ⟨rfl, rfl, fun i hi => absurd rfl hi⟩ (ih r' hr')

/-- The databases reachable from `db` by writes to the table `tid` that respect the frame `P`. -/
theorem db_frame_trans (P : ColumnMeta → Nat → Prop) (db : DataBase) (tid : Nat) (T T1 T2 : Table)
    (hdb : idb_table_get_byid db tid = some T) (h1 : table_frame P T1 T)
    (h2 : table_frame P T2 T1) :
    db_store (db_store db tid T1) tid T2 = db_store db tid T2 ∧ table_frame P T2 T ∧
      idb_table_get_byid (db_store db tid T1) tid = some T1 := by
  have hid : T1.meta.id = tid := by rw [h1.1]; exact byid_meta_id db tid T hdb
  exact ⟨db_store_store db tid T1 T2 hid, table_frame_trans P _ _ _ h2 h1,
    byid_db_store db tid T1 T hid hdb⟩

theorem slot_store_frame (db db' : DataBase) (tid cid nth : Nat) (v : Slot) (T : Table)
    (hdb : idb_table_get_byid db tid = some T)
    (h : slot_store db (table_column_get_row db tid cid nth) v = Except.ok db') :
    ∃ T', db' = db_store db tid T' ∧ table_frame (fun m i => m.id = cid ∧ i = nth) T' T := by
  unfold table_column_get_row at h
  simp only [hdb] at h
  split at h
  · simp [slot_store] at h
  · split at h
    · simp [slot_store] at h
    · split at h
      · simp [slot_store] at h
      · simp only [slot_store, hdb] at h
        obtain ⟨cols, hcols, h2⟩ := except_bind_ok _ _ _ h
        simp only [pure, Except.pure, Except.ok.injEq] at h2
        subst h2
        exact ⟨_, rfl, rfl, rfl, columns_store_frame cid nth v _ _ hcols⟩

theorem frame_of_same (P : ColumnMeta → Nat → Prop) (db db' : DataBase) (tid : Nat) (T : Table)
    (hdb : idb_table_get_byid db tid = some T) (h : db' = db) :
    ∃ T', db' = db_store db tid T' ∧ table_frame P T' T :=
  ⟨T, by rw [h, db_store_same db tid T hdb], table_frame_refl P T⟩

theorem insert_values_loop_frame (env : CEnv) (tm : TableMeta) (row : Nat) (replace : Bool) :
    ∀ (cols : List ColumnMeta) (value : Option StrList) (db : DataBase) (r : BazaResult)
      (db' : DataBase) (T : Table),
      insert_values_loop env tm row replace cols value db = Except.ok (r, db') →
      idb_table_get_byid db tm.id = some T →
      ∃ T', db' = db_store db tm.id T' ∧
        table_frame (fun m i => (∃ col ∈ cols, col.id = m.id) ∧ i = row) T' T := by
  intro cols
  induction cols with
  | nil =>
    intro value db r db' T h hdb
    simp only [insert_values_loop, pure, Except.pure, Except.ok.injEq, Prod.mk.injEq] at h
    exact frame_of_same _ db db' tm.id T hdb h.2.symm
  | cons col next ih =>
    intro value db r db' T h hdb
    unfold insert_values_loop at h
    obtain ⟨step, hstep, h⟩ := except_bind_ok _ _ _ h
    -- the write of this column
    have hframe1 : ∃ T1, step.2 = db_store db tm.id T1 ∧
        table_frame (fun m i => m.id = col.id ∧ i = row) T1 T := by
      cases hct : col.type
      · simp only [hct, pure, Except.pure, Except.ok.injEq] at hstep
        exact frame_of_same _ db step.2 tm.id T hdb (by rw [← hstep])
      · simp only [hct] at hstep
        have htail : ∀ pre : Except Fault PUnit, (do
              pre
              let s0 ← strnode_str value
              let dup ← deref_str s0
              let db1 ← slot_store db (table_column_get_row db tm.id col.id row) (Slot.ptr dup)
              pure (RESULT_OK, db1)) = Except.ok step →
            ∃ T1, step.2 = db_store db tm.id T1 ∧
              table_frame (fun m i => m.id = col.id ∧ i = row) T1 T := by
          intro pre hp
          obtain ⟨u, _, hp⟩ := except_bind_ok _ _ _ hp
          obtain ⟨s0, _, hp⟩ := except_bind_ok _ _ _ hp
          obtain ⟨dup, _, hp⟩ := except_bind_ok _ _ _ hp
          obtain ⟨db1, hstore, hp⟩ := except_bind_ok _ _ _ hp
          simp only [pure, Except.pure, Except.ok.injEq] at hp
          rw [← hp]
          exact slot_store_frame db db1 tm.id col.id row _ T hdb hstore
        split at hstep
        · obtain ⟨s1, _, hstep⟩ := except_bind_ok _ _ _ hstep
          split at hstep
          · exact htail _ hstep
          · exact htail _ hstep
        · exact htail _ hstep
      · simp only [hct] at hstep
        obtain ⟨s0, _, hstep⟩ := except_bind_ok _ _ _ hstep
        obtain ⟨str, _, hstep⟩ := except_bind_ok _ _ _ hstep
        split at hstep
        · simp only [pure, Except.pure, Except.ok.injEq] at hstep
          exact frame_of_same _ db step.2 tm.id T hdb (by rw [← hstep])
        · obtain ⟨db1, hstore, hstep⟩ := except_bind_ok _ _ _ hstep
          simp only [pure, Except.pure, Except.ok.injEq] at hstep
          rw [← hstep]
          exact slot_store_frame db db1 tm.id col.id row _ T hdb hstore
      · simp only [hct] at hstep
        obtain ⟨s0, _, hstep⟩ := except_bind_ok _ _ _ hstep
        obtain ⟨str, _, hstep⟩ := except_bind_ok _ _ _ hstep
        split at hstep
        · simp only [pure, Except.pure, Except.ok.injEq] at hstep
          exact frame_of_same _ db step.2 tm.id T hdb (by rw [← hstep])
        · obtain ⟨db1, hstore, hstep⟩ := except_bind_ok _ _ _ hstep
          simp only [pure, Except.pure, Except.ok.injEq] at hstep
          rw [← hstep]
          exact slot_store_frame db db1 tm.id col.id row _ T hdb hstore
    obtain ⟨T1, hT1, hf1⟩ := hframe1
    have hf1' : table_frame (fun m i => (∃ c ∈ col :: next, c.id = m.id) ∧ i = row) T1 T :=
      table_frame_mono _ _ (fun m i hm => ⟨⟨col, by simp, hm.1.symm⟩, hm.2⟩) _ _ hf1
    split at h
    · simp only [pure, Except.pure, Except.ok.injEq] at h
      refine ⟨T1, ?_, hf1'⟩
      rw [← hT1, h]
    · obtain ⟨nv, _, h⟩ := except_bind_ok _ _ _ h
      have hid : T1.meta.id = tm.id := by rw [hf1.1]; exact byid_meta_id db tm.id T hdb
      have hdb1 : idb_table_get_byid step.2 tm.id = some T1 := by
        rw [hT1]; exact byid_db_store db tm.id T1 T hid hdb
      obtain ⟨T2, hT2, hf2⟩ := ih nv step.2 r db' T1 h hdb1
      have hf2' : table_frame (fun m i => (∃ c ∈ col :: next, c.id = m.id) ∧ i = row) T2 T1 :=
        table_frame_mono _ _
          (fun m i hm => ⟨by obtain ⟨c, hc, e⟩ := hm.1; exact ⟨c, by simp [hc], e⟩, hm.2⟩) _ _ hf2
      refine ⟨T2, ?_, table_frame_trans _ _ _ _ hf2' hf1'⟩
      rw [hT2, hT1, db_store_store db tm.id T1 T2 hid]

theorem insert_values_frame (env : CEnv) (db : DataBase) (tm : TableMeta) (cols : ColumnMetaList)
    (values : StrList) (row : Nat) (replace : Bool) (r : BazaResult) (db' : DataBase) (T : Table)
    (h : insert_values env db tm cols values row replace = Except.ok (r, db'))
    (hdb : idb_table_get_byid db tm.id = some T) :
    ∃ T', db' = db_store db tm.id T' ∧
      table_frame (fun m i => (∃ col ∈ cols, col.id = m.id) ∧ i = row) T' T := by
  unfold insert_values at h
  split at h
  · cases h
  · exact insert_values_loop_frame env tm row replace cols _ db r db' T h hdb

theorem interpret_update_rows_frame (env : CEnv) (tm : TableMeta) (cols : ColumnMetaList)
    (values : StrList) :
    ∀ (rows : List Nat) (db : DataBase) (r : BazaResult) (db' : DataBase) (T : Table),
      interpret_update_rows env tm cols values rows db = Except.ok (r, db') →
      idb_table_get_byid db tm.id = some T →
      ∃ T', db' = db_store db tm.id T' ∧
        table_frame (fun m i => (∃ col ∈ cols, col.id = m.id) ∧ i ∈ rows) T' T := by
  intro rows
  induction rows with
  | nil =>
    intro db r db' T h hdb
    simp only [interpret_update_rows, pure, Except.pure, Except.ok.injEq, Prod.mk.injEq] at h
    exact frame_of_same _ db db' tm.id T hdb h.2.symm
  | cons row next ih =>
    intro db r db' T h hdb
    unfold interpret_update_rows at h
    obtain ⟨step, hstep, h⟩ := except_bind_ok _ _ _ h
    obtain ⟨T1, hT1, hf1⟩ := insert_values_frame env db tm cols values row true step.1 step.2 T
      hstep hdb
    have hf1' : table_frame (fun m i => (∃ col ∈ cols, col.id = m.id) ∧ i ∈ row :: next) T1 T :=
      table_frame_mono _ _ (fun m i hm => ⟨hm.1, by simp [hm.2]⟩) _ _ hf1
    split at h
    · simp only [pure, Except.pure, Except.ok.injEq] at h
      refine ⟨T1, ?_, hf1'⟩
      rw [← hT1, h]
    · have hid : T1.meta.id = tm.id := by rw [hf1.1]; exact byid_meta_id db tm.id T hdb
      have hdb1 : idb_table_get_byid step.2 tm.id = some T1 := by
        rw [hT1]; exact byid_db_store db tm.id T1 T hid hdb
      obtain ⟨T2, hT2, hf2⟩ := ih step.2 r db' T1 h hdb1
      have hf2' : table_frame (fun m i => (∃ col ∈ cols, col.id = m.id) ∧ i ∈ row :: next) T2 T1 :=
        table_frame_mono _ _ (fun m i hm => ⟨hm.1, by simp [hm.2]⟩) _ _ hf2
      refine ⟨T2, ?_, table_frame_trans _ _ _ _ hf2' hf1'⟩
      rw [hT2, hT1, db_store_store db tm.id T1 T2 hid]

theorem table_column_get_list_loop_mem (list : StrList) :
    ∀ (cols : List Column) (ms : ColumnMetaList),
      table_column_get_list_loop list cols = Except.ok ms →
      ∀ m ∈ ms, ∃ c ∈ cols, c.meta = m ∧ c.meta.name ∈ list := by
  intro cols
  induction cols with
  | nil =>
    intro ms h m hm
    simp only [table_column_get_list_loop, pure, Except.pure, Except.ok.injEq] at h
    subst h
    cases hm
  | cons c r ih =>
    intro ms h m hm
    unfold table_column_get_list_loop at h
    obtain ⟨hit, hhit, h⟩ := except_bind_ok _ _ _ h
    obtain ⟨tail, htail, h⟩ := except_bind_ok _ _ _ h
    simp only [pure, Except.pure, Except.ok.injEq] at h
    subst h
    have hrec := ih tail htail
    cases hit with
    | false =>
      simp only [Bool.false_eq_true, if_false] at hm
      obtain ⟨c0, hc0, hc1⟩ := hrec m hm
      exact ⟨c0, by simp [hc0], hc1⟩
    | true =>
      simp only [if_true, List.mem_cons] at hm
      rcases hm with hm | hm
      · refine ⟨c, by simp, hm.symm, ?_⟩
        unfold strlist_contains at hhit
        split at hhit
        · cases hhit
        · simp only [pure, Except.pure, Except.ok.injEq, List.any_eq_true, decide_eq_true_eq] at hhit
          obtain ⟨s, hs, hs2⟩ := hhit
          rw [(strcmp_eq_zero _ _).mp hs2] at hs
          exact hs
      · obtain ⟨c0, hc0, hc1⟩ := hrec m hm
        exact ⟨c0, by simp [hc0], hc1⟩

theorem eq_of_id_eq (l : List Column) (hn : (l.map (fun c => c.meta.id)).Nodup) (a b : Column)
    (ha : a ∈ l) (hb : b ∈ l) (h : a.meta.id = b.meta.id) : a = b :=
  List.inj_on_of_nodup_map hn ha hb h

theorem forall₂_imp_mem (R S : Column → Column → Prop) (l' l : List Column)
    (h : List.Forall₂ R l' l) (hRS : ∀ c' c, c ∈ l → R c' c → S c' c) : List.Forall₂ S l' l := by
  induction h with
  | nil => exact List.Forall₂.nil
  | @cons c' c r' r hc _ ih =>
    exact List.Forall₂.cons (hRS c' c (by simp) hc)
      (ih (fun x' x hx => hRS x' x (by simp [hx])))

/-! ## C5: the frame of UPDATE -/

/-- C5: an UPDATE that returns leaves the metadata of the table (its row count included), its
    capacity, and the metadata and length of every column as they were, and a slot differs
    from before only if its column is named in the SET list and its row is targeted: any live
    row when there is no WHERE clause, a row of the chain's result otherwise.  All other
    tables are untouched, since the database is the old one with this table replaced. -/
theorem interpret_update_frame (env : CEnv) (db : DataBase) (table_name : CStr)
    (update_filters : List Filter) (update_columns update_values : StrList) (t : Table) (o : Outcome)
    (hname : idb_table_get db table_name = some t)
    (hdb : idb_table_get_byid db t.meta.id = some t)
    (hnodup : (t.columns.map (fun c => c.meta.id)).Nodup)
    (hrun : interpret_update env db table_name update_filters update_columns update_values =
      Except.ok o)
    (_hok : o.result = RESULT_OK) :
    ∃ t' : Table, o.db = db_store db t.meta.id t' ∧ t'.meta = t.meta ∧
      t'.row_capacity = t.row_capacity ∧
      List.Forall₂ (fun c' c => c'.meta = c.meta ∧ c'.data.length = c.data.length ∧
        ∀ i, c'.data.get? i ≠ c.data.get? i →
          c.meta.name ∈ update_columns ∧ update_targets env db t update_filters i)
        t'.columns t.columns := by
  have hsame : o.db = db → ∃ t' : Table, o.db = db_store db t.meta.id t' ∧ t'.meta = t.meta ∧
      t'.row_capacity = t.row_capacity ∧
      List.Forall₂ (fun c' c => c'.meta = c.meta ∧ c'.data.length = c.data.length ∧
        ∀ i, c'.data.get? i ≠ c.data.get? i →
          c.meta.name ∈ update_columns ∧ update_targets env db t update_filters i)
        t'.columns t.columns := by
    intro h
    refine ⟨t, by rw [h, db_store_same db t.meta.id t hdb], rfl, rfl, ?_⟩
    exact forall₂_imp_mem _ _ _ _ (cols_frame_refl (fun _ _ => False) t.columns)
      (fun c' c _ hc => ⟨hc.1, hc.2.1, fun i hi => absurd (hc.2.2 i hi) id⟩)
  simp only [interpret_update, db_table_get, hname, ne_eq, not_true_eq_false, if_false] at hrun
  obtain ⟨cl, hcl, hrun⟩ := except_bind_ok _ _ _ hrun
  cases cl with
  | none =>
    simp only [pure, Except.pure, Except.ok.injEq] at hrun
    exact hsame (by rw [← hrun])
  | some columns =>
    simp only [table_column_get_list, hdb] at hcl
    obtain ⟨cmlst, hloop, hcl⟩ := except_bind_ok _ _ _ hcl
    simp only [pure, Except.pure, Except.ok.injEq, Option.some.injEq] at hcl
    subst hcl
    have hmem := table_column_get_list_loop_mem update_columns t.columns cmlst hloop
    -- what a frame over the resolved columns and a set of rows gives
    have hfinal : ∀ (rows : List Nat) (T' : Table),
        (∀ i ∈ rows, update_targets env db t update_filters i) →
        table_frame (fun m i => (∃ col ∈ cmlst, col.id = m.id) ∧ i ∈ rows) T' t →
        o.db = db_store db t.meta.id T' →
        ∃ t' : Table, o.db = db_store db t.meta.id t' ∧ t'.meta = t.meta ∧
          t'.row_capacity = t.row_capacity ∧
          List.Forall₂ (fun c' c => c'.meta = c.meta ∧ c'.data.length = c.data.length ∧
            ∀ i, c'.data.get? i ≠ c.data.get? i →
              c.meta.name ∈ update_columns ∧ update_targets env db t update_filters i)
            t'.columns t.columns := by
      intro rows T' hrows hframe hdb'
      refine ⟨T', hdb', hframe.1, hframe.2.1, ?_⟩
      refine forall₂_imp_mem _ _ _ _ hframe.2.2 ?_
      intro c' c hc hcc
      refine ⟨hcc.1, hcc.2.1, fun i hi => ?_⟩
      obtain ⟨⟨col, hcol, hid⟩, hi2⟩ := hcc.2.2 i hi
      obtain ⟨c0, hc0, hc0m, hc0n⟩ := hmem col hcol
      have : c0 = c := eq_of_id_eq t.columns hnodup c0 c hc0 hc (by rw [hc0m]; exact hid)
      rw [← this]
      exact ⟨hc0n, hrows i hi2⟩
    by_cases hf : update_filters = []
    · simp only [hf, ne_eq, not_true_eq_false, if_false, interpret_update_all] at hrun
      obtain ⟨vres, _, hrun⟩ := except_bind_ok _ _ _ hrun
      split at hrun
      · simp only [pure, Except.pure, Except.ok.injEq] at hrun
        exact hsame (by rw [← hrun])
      · obtain ⟨r, hr, hrun⟩ := except_bind_ok _ _ _ hrun
        simp only [pure, Except.pure, Except.ok.injEq] at hrun
        obtain ⟨T', hT', hframe⟩ := interpret_update_rows_frame env t.meta cmlst update_values
          (List.range t.meta.row_count) db r.1 r.2 t hr hdb
        refine hfinal (List.range t.meta.row_count) T' ?_ hframe (by rw [← hrun]; exact hT')
        intro i hi
        simp only [update_targets, hf, if_true]
        exact List.mem_range.mp hi
    · simp only [hf, ne_eq, not_false_eq_true, if_true, interpret_update_filtered] at hrun
      obtain ⟨fres, hfres, hrun⟩ := except_bind_ok _ _ _ hrun
      split at hrun
      · simp only [pure, Except.pure, Except.ok.injEq] at hrun
        exact hsame (by rw [← hrun])
      · rename_i hres
        obtain ⟨vres, _, hrun⟩ := except_bind_ok _ _ _ hrun
        split at hrun
        · simp only [pure, Except.pure, Except.ok.injEq] at hrun
          exact hsame (by rw [← hrun])
        · obtain ⟨r, hr, hrun⟩ := except_bind_ok _ _ _ hrun
          simp only [pure, Except.pure, Except.ok.injEq] at hrun
          obtain ⟨T', hT', hframe⟩ := interpret_update_rows_frame env t.meta cmlst update_values
            _ db r.1 r.2 t hr hdb
          refine hfinal _ T' ?_ hframe (by rw [← hrun]; exact hT')
          intro i hi
          simp only [update_targets, hf, if_false]
          exact ⟨fres, hfres, by simpa using hres, hi⟩

set_option maxRecDepth 100000 in
/-- Witness of C5 on Scenario E: `UPDATE t SET age = 99 WHERE name = bob` on the rows
    `alice 30`, `bob 25`, `alice 40` returns OK and changes the one slot of `age` in row 1. -/
theorem interpret_update_frame_witness :
    (idb_table_get scenario_db (cstr "t") = some scenario_table ∧
      idb_table_get_byid scenario_db scenario_table.meta.id = some scenario_table ∧
      (scenario_table.columns.map (fun c => c.meta.id)).Nodup) ∧
    (∃ o, interpret_update env_glibc scenario_db (cstr "t")
          [{ op := FILTER_EQUAL, value := cstr "bob", column := cstr "name",
             next_relation := FILTER_REL_NONE }] [cstr "age"] [cstr "99"] = Except.ok o ∧
        o.result = RESULT_OK ∧ live_slots o.db 3 =
          [[[Slot.ptr (cstr "alice"), Slot.ptr (cstr "bob"), Slot.ptr (cstr "alice")],
            [Slot.bits 30, Slot.bits 99, Slot.bits 40]]] ∧
        ∃ t' : Table, o.db = db_store scenario_db scenario_table.meta.id t' ∧
          t'.meta = scenario_table.meta ∧ t'.row_capacity = scenario_table.row_capacity ∧
          List.Forall₂ (fun c' c => c'.meta = c.meta ∧ c'.data.length = c.data.length ∧
            ∀ i, c'.data.get? i ≠ c.data.get? i →
              c.meta.name ∈ [cstr "age"] ∧
                update_targets env_glibc scenario_db scenario_table
                  [{ op := FILTER_EQUAL, value := cstr "bob", column := cstr "name",
                     next_relation := FILTER_REL_NONE }] i)
            t'.columns scenario_table.columns) :=
  ⟨⟨by rfl, by rfl, by decide⟩,
   ⟨_, by rfl, by rfl, by rfl,
    interpret_update_frame env_glibc scenario_db (cstr "t") _ [cstr "age"] [cstr "99"]
      scenario_table _ (by rfl) (by rfl) (by decide) (by rfl) (by rfl)⟩⟩

/-! ## Lemmas: the row ids of a filter result -/

theorem intlist_values_nonull_self (l : IntList) : NoNull (intlist_values l) := by
  induction l with
  | nil => intro x hx; cases hx
  | cons v r ih =>
    intro x hx
    by_cases hv : v = INTLIST_NULL
    · simp [intlist_values, hv] at hx
    · simp only [intlist_values, hv, if_false, List.mem_cons] at hx
      rcases hx with h | h
      · rw [h]; exact hv
      · exact ih x h

theorem intlist_union_loop_values (l : IntList) (acc : List Int) (hacc : NoNull acc) :
    intlist_union_loop (intlist_of acc) l =
      intlist_of ((intlist_values l).foldl union_step acc) := by
  induction l generalizing acc with
  | nil => simp [intlist_union_loop, intlist_values]
  | cons v r ih =>
    by_cases hv : v = INTLIST_NULL
    · simp [intlist_union_loop, intlist_values, hv]
    · simp only [intlist_union_loop, hv, if_false, intlist_values, List.foldl_cons,
        intlist_contains_eq, intlist_values_of acc hacc, union_step]
      by_cases hm : v ∈ acc
      · simp only [hm, decide_True, if_true]
        exact ih acc hacc
      · simp only [hm, decide_False, if_false, Bool.false_eq_true]
        rw [intlist_push_of acc v hacc]
        exact ih _ (NoNull_append_single acc v hacc hv)

theorem intlist_union_values (left right : IntList) :
    intlist_union false left right =
      some (intlist_of (union_values (intlist_values left) (intlist_values right))) := by
  have h0 : intlist_empty = intlist_of [] := rfl
  have hn : NoNull ([] : List Int) := fun x hx => absurd hx (List.not_mem_nil x)
  simp only [intlist_union, Bool.false_eq_true, if_false, h0, union_values]
  rw [intlist_union_loop_values left [] hn,
    intlist_union_loop_values right _
      (NoNull_foldl_union_step _ [] (intlist_values_nonull_self left) hn)]

theorem intlist_intersection_loop_values (right l : IntList) (acc : List Int) (hacc : NoNull acc) :
    intlist_intersection_loop right (intlist_of acc) l =
      intlist_of ((intlist_values l).foldl (inter_step (intlist_values right)) acc) := by
  induction l generalizing acc with
  | nil => simp [intlist_intersection_loop, intlist_values]
  | cons v r ih =>
    by_cases hv : v = INTLIST_NULL
    · simp [intlist_intersection_loop, intlist_values, hv]
    · simp only [intlist_intersection_loop, hv, if_false, intlist_values, List.foldl_cons,
        intlist_contains_eq, intlist_values_of acc hacc, inter_step]
      by_cases hm : v ∈ intlist_values right ∧ v ∉ acc
      · have h1 : (decide (v ∈ intlist_values right) && !decide (v ∈ acc)) = true := by
          simp [hm.1, hm.2]
        simp only [h1, if_true, hm, and_self, not_false_eq_true]
        rw [intlist_push_of acc v hacc]
        exact ih _ (NoNull_append_single acc v hacc hv)
      · have h1 : (decide (v ∈ intlist_values right) && !decide (v ∈ acc)) = false := by
          by_cases h2 : v ∈ intlist_values right
          · have h3 : v ∈ acc := by
              by_contra h3
              exact hm ⟨h2, h3⟩
            simp [h2, h3]
          · simp [h2]
        simp only [h1, Bool.false_eq_true, if_false, hm]
        exact ih acc hacc

theorem intlist_intersection_values (left right : IntList) :
    intlist_intersection false left right =
      some (intlist_of (inter_values (intlist_values left) (intlist_values right))) := by
  have h0 : intlist_empty = intlist_of [] := rfl
  have hn : NoNull ([] : List Int) := fun x hx => absurd hx (List.not_mem_nil x)
  simp only [intlist_intersection, Bool.false_eq_true, if_false, h0, inter_values]
  rw [intlist_intersection_loop_values right left [] hn]

theorem icolumn_find_loop_range (c : Column) (func : findfunc_t) (value : Needle) :
    ∀ (n i : Nat) (vs : List Int) (lst : IntList), NoNull vs →
      icolumn_find_loop c func value n i (intlist_of vs) = Except.ok lst →
      ∃ ws, lst = intlist_of (vs ++ ws) ∧ ∀ x ∈ ws, ∃ k : Nat, x = (k : Int) ∧ k < i + n := by
  intro n
  induction n with
  | zero =>
    intro i vs lst _ h
    simp only [icolumn_find_loop, pure, Except.pure, Except.ok.injEq] at h
    exact ⟨[], by simp [h], fun x hx => absurd hx (List.not_mem_nil x)⟩
  | succ n ih =>
    intro i vs lst hvs h
    unfold icolumn_find_loop at h
    obtain ⟨cmp, _, h⟩ := except_bind_ok _ _ _ h
    cases cmp with
    | false =>
      simp only [Bool.false_eq_true, if_false] at h
      obtain ⟨ws, hws, hr⟩ := ih (i + 1) vs lst hvs h
      exact ⟨ws, hws, fun x hx => by obtain ⟨k, hk, hk2⟩ := hr x hx; exact ⟨k, hk, by omega⟩⟩
    | true =>
      simp only [if_true] at h
      rw [intlist_push_of vs (i : Int) hvs] at h
      obtain ⟨ws, hws, hr⟩ := ih (i + 1) _ lst (NoNull_append_single vs _ hvs (cast_ne_null i)) h
      refine ⟨(i : Int) :: ws, by simp [hws], ?_⟩
      intro x hx
      rcases List.mem_cons.mp hx with h1 | h1
      · exact ⟨i, h1, by omega⟩
      · obtain ⟨k, hk, hk2⟩ := hr x h1
        exact ⟨k, hk, by omega⟩

theorem rows_below_of (n : Nat) (vs : List Int) (hn : NoNull vs)
    (h : ∀ x ∈ vs, ∃ k : Nat, x = (k : Int) ∧ k < n) : rows_below n (intlist_of vs) := by
  intro x hx
  rw [intlist_values_of vs hn] at hx
  exact h x hx

theorem table_find_range (db : DataBase) (t : Table)
    (hdb : idb_table_get_byid db t.meta.id = some t) (cid : Nat) (func : findfunc_t)
    (value : Needle) (tfres : TableFindResult)
    (h : table_find db t.meta.id cid func value = Except.ok tfres) :
    rows_below t.meta.row_count tfres.matches_ := by
  have hn : NoNull ([] : List Int) := fun x hx => absurd hx (List.not_mem_nil x)
  simp only [table_find, hdb, itable_find] at h
  split at h
  · split at h
    · simp only [pure, Except.pure, Except.ok.injEq] at h
      rw [← h]
      intro x hx
      simp [intlist_empty, intlist_values] at hx
    · cases h
  · rename_i c _
    unfold icolumn_find at h
    obtain ⟨lst, hlst, h⟩ := except_bind_ok _ _ _ h
    simp only [pure, Except.pure, Except.ok.injEq] at h
    rw [← h]
    have h0 : intlist_empty = intlist_of [] := rfl
    rw [h0] at hlst
    obtain ⟨ws, hws, hr⟩ := icolumn_find_loop_range c func value _ 0 [] lst hn hlst
    rw [hws]
    simp only [List.nil_append]
    apply rows_below_of
    · intro x hx
      obtain ⟨k, hk, _⟩ := hr x hx
      rw [hk]; exact cast_ne_null k
    · intro x hx
      obtain ⟨k, hk, hk2⟩ := hr x hx
      exact ⟨k, hk, by omega⟩

theorem rows_below_union (n : Nat) (a b : IntList) (ha : rows_below n a) (hb : rows_below n b) :
    rows_below n (intlist_of (union_values (intlist_values a) (intlist_values b))) := by
  have hn : NoNull ([] : List Int) := fun x hx => absurd hx (List.not_mem_nil x)
  apply rows_below_of
  · exact NoNull_foldl_union_step _ _ (intlist_values_nonull_self b)
      (NoNull_foldl_union_step _ [] (intlist_values_nonull_self a) hn)
  · intro x hx
    simp only [union_values, mem_foldl_union_step, List.not_mem_nil, false_or] at hx
    rcases hx with h | h
    · exact ha x h
    · exact hb x h

theorem rows_below_inter (n : Nat) (a b : IntList) (ha : rows_below n a) :
    rows_below n (intlist_of (inter_values (intlist_values a) (intlist_values b))) := by
  have hn : NoNull ([] : List Int) := fun x hx => absurd hx (List.not_mem_nil x)
  apply rows_below_of
  · exact NoNull_foldl_inter_step _ _ [] (intlist_values_nonull_self a) hn
  · intro x hx
    simp only [inter_values, mem_foldl_inter_step, List.not_mem_nil, false_or] at hx
    exact ha x hx.1

theorem filter_interpret_loop_range (env : CEnv) (db : DataBase) (t : Table)
    (hdb : idb_table_get_byid db t.meta.id = some t) :
    ∀ (filters : List Filter) (rowset : IntList) (rel : FilterRelation) (fres : FilterInterpResult),
      filter_interpret_loop env db t.meta filters rowset rel = Except.ok fres →
      fres.res = RESULT_OK → rows_below t.meta.row_count rowset →
      rows_below t.meta.row_count fres.rows := by
  intro filters
  induction filters with
  | nil =>
    intro rowset rel fres h _ hrows
    simp only [filter_interpret_loop, pure, Except.pure, Except.ok.injEq] at h
    rw [← h]; exact hrows
  | cons f next ih =>
    intro rowset rel fres h hres hrows
    cases hc : itable_column_find t f.column with
    | none =>
      rw [filter_interpret_loop, table_column_get_of_find_none db t hdb _ hc] at h
      simp only [pure, Except.pure, Except.ok.injEq] at h
      rw [← h] at hres; cases hres
    | some c =>
      rw [filter_interpret_loop, table_column_get_of_find db t hdb _ c hc] at h
      dsimp only at h
      obtain ⟨lk, hlk, h⟩ := except_bind_ok _ _ _ h
      cases lk with
      | error res =>
        simp only [pure, Except.pure, Except.ok.injEq] at h
        have hfind : ∀ (tf : Except Fault TableFindResult),
            (Except.ok <$> tf : Except Fault (Except BazaResult TableFindResult)) ≠
              Except.ok (Except.error res) := by
          intro tf
          cases tf <;> simp [Functor.map, Except.map]
        cases hct : c.meta.type <;> simp only [hct] at hlk
        · simp only [pure, Except.pure, Except.ok.injEq, Except.error.injEq] at hlk
          rw [← h, ← hlk] at hres; cases hres
        · exact absurd hlk (hfind _)
        · split at hlk
          · simp only [pure, Except.pure, Except.ok.injEq, Except.error.injEq] at hlk
            rw [← h, ← hlk] at hres; cases hres
          · exact absurd hlk (hfind _)
        · split at hlk
          · simp only [pure, Except.pure, Except.ok.injEq, Except.error.injEq] at hlk
            rw [← h, ← hlk] at hres; cases hres
          · exact absurd hlk (hfind _)
      | ok tfres =>
        have hmatches : rows_below t.meta.row_count tfres.matches_ := by
          have hfind : ∀ (tf : Except Fault TableFindResult),
              (Except.ok <$> tf : Except Fault (Except BazaResult TableFindResult)) =
                Except.ok (Except.ok tfres) → tf = Except.ok tfres := by
            intro tf htf
            cases tf <;> simp [Functor.map, Except.map] at htf
            rw [htf]
          cases hct : c.meta.type <;> simp only [hct] at hlk
          · simp [pure, Except.pure] at hlk
          · exact table_find_range db t hdb _ _ _ tfres (hfind _ hlk)
          · split at hlk
            · simp [pure, Except.pure] at hlk
            · exact table_find_range db t hdb _ _ _ tfres (hfind _ hlk)
          · split at hlk
            · simp [pure, Except.pure] at hlk
            · exact table_find_range db t hdb _ _ _ tfres (hfind _ hlk)
        dsimp only at h
        by_cases hok : tfres.res = RESULT_OK
        · simp only [hok, ne_eq, not_true_eq_false, if_false] at h
          by_cases hrel : rel = FILTER_REL_NONE
          · simp only [hrel, not_true_eq_false, if_false] at h
            exact ih _ f.next_relation fres h hres hmatches
          · simp only [hrel, not_false_eq_true, if_true] at h
            by_cases hand : rel = FILTER_REL_AND
            · simp only [hand, if_true, intlist_intersection_values] at h
              exact ih _ f.next_relation fres h hres (rows_below_inter _ _ _ hrows)
            · by_cases hor : rel = FILTER_REL_OR
              · simp only [hor, reduceCtorEq, if_false, if_true, intlist_union_values] at h
                exact ih _ f.next_relation fres h hres (rows_below_union _ _ _ hrows hmatches)
              · simp only [hand, hor, if_false, pure, Except.pure, Except.ok.injEq] at h
                rw [← h] at hres; cases hres
        · simp only [hok, ne_eq, not_false_eq_true, if_true, pure, Except.pure,
            Except.ok.injEq] at h
          rw [← h] at hres
          exact absurd hres hok

theorem filter_interpret_range (env : CEnv) (db : DataBase) (t : Table)
    (hdb : idb_table_get_byid db t.meta.id = some t) (filters : List Filter)
    (fres : FilterInterpResult)
    (h : filter_interpret env db t.meta filters = Except.ok fres) (hres : fres.res = RESULT_OK) :
    rows_below t.meta.row_count fres.rows :=
  filter_interpret_loop_range env db t hdb filters [] FILTER_REL_NONE fres h hres
    (fun x hx => by simp [intlist_values] at hx)

theorem filter_interpret_ok_columns (env : CEnv) (db : DataBase) (t : Table)
    (hdb : idb_table_get_byid db t.meta.id = some t) (f : Filter) (next : List Filter)
    (fres : FilterInterpResult)
    (h : filter_interpret env db t.meta (f :: next) = Except.ok fres) (hres : fres.res = RESULT_OK) :
    t.columns ≠ [] := by
  intro hcols
  have hnone : itable_column_find t f.column = none := by
    simp [itable_column_find, hcols]
  simp only [filter_interpret, filter_interpret_loop,
    table_column_get_of_find_none db t hdb f.column hnone, pure, Except.pure,
    Except.ok.injEq] at h
  rw [← h] at hres
  cases hres

/-! ## Lemmas: SELECT with a WHERE clause -/

theorem strlist_contains_eq (l : StrList) (name : CStr) (hl : l ≠ []) :
    strlist_contains l name = Except.ok (decide (name ∈ l)) := by
  cases l with
  | nil => exact absurd rfl hl
  | cons s r =>
    simp only [strlist_contains, pure, Except.pure, Except.ok.injEq]
    rw [Bool.eq_iff_iff]
    simp only [List.any_eq_true, decide_eq_true_eq, strcmp_eq_zero]
    constructor
    · rintro ⟨x, hx, rfl⟩; exact hx
    · intro h; exact ⟨name, h, rfl⟩

theorem table_column_get_list_loop_eq (l : StrList) (hl : l ≠ []) (cols : List Column) :
    table_column_get_list_loop l cols =
      Except.ok ((cols.filter (fun c => decide (c.meta.name ∈ l))).map (fun c => c.meta)) := by
  induction cols with
  | nil => rfl
  | cons c r ih =>
    simp only [table_column_get_list_loop, strlist_contains_eq l c.meta.name hl, ih, bind,
      Except.bind, pure, Except.pure, List.filter_cons]
    by_cases h : c.meta.name ∈ l
    · simp [h]
    · simp [h]

theorem column_ids_loop_eq (ms : List ColumnMeta) (vs : List Int) (hvs : NoNull vs) :
    column_ids_loop ms (intlist_of vs) = intlist_of (vs ++ ms.map (fun m => (m.id : Int))) := by
  induction ms generalizing vs with
  | nil => simp [column_ids_loop]
  | cons m r ih =>
    simp only [column_ids_loop, intlist_push_of vs _ hvs, List.map_cons]
    rw [ih _ (NoNull_append_single vs _ hvs (cast_ne_null m.id))]
    simp

theorem fault_free_ok {α : Type} (x : Except Fault α) (h : fault_free x = true) :
    ∃ a, x = Except.ok a := by
  cases x with
  | error e => simp [fault_free] at h
  | ok a => exact ⟨a, rfl⟩

theorem itable_row_print_columns_ok (ids : Option IntList) (row : Nat) (cols : List Column)
    (h : ∀ c ∈ cols, fault_free (itable_row_print_cell c row) = true) :
    ∃ text, itable_row_print_columns ids row cols = Except.ok text := by
  induction cols with
  | nil => exact ⟨[], rfl⟩
  | cons c r ih =>
    obtain ⟨tail, htail⟩ := ih (fun x hx => h x (by simp [hx]))
    obtain ⟨cell, hcell⟩ := fault_free_ok _ (h c (by simp))
    unfold itable_row_print_columns
    split
    · exact ⟨tail, htail⟩
    · exact ⟨cell ++ tail, by simp [hcell, htail, bind, Except.bind, pure, Except.pure]⟩

theorem u64_of_i64_cast (k : Nat) : u64_of_i64 (k : Int) = k := by
  simp [u64_of_i64]

theorem select_print_loop_ok (db : DataBase) (t : Table)
    (hdb : idb_table_get_byid db t.meta.id = some t) (ids : Option IntList)
    (hprint : ∀ c ∈ t.columns, ∀ i, i < t.meta.row_count →
      fault_free (itable_row_print_cell c i) = true) :
    ∀ xs : List Int, (∀ x ∈ xs, ∃ k : Nat, x = (k : Int) ∧ k < t.meta.row_count) →
      ∃ lines : List CStr, select_print_loop db t.meta ids xs = Except.ok (unlines lines) ∧
        List.Forall₂ (fun line x => ∃ i : Nat, x = (i : Int) ∧ i < t.meta.row_count ∧
          itable_row_print t ids i = Except.ok line) lines xs := by
  intro xs
  induction xs with
  | nil => intro _; exact ⟨[], rfl, List.Forall₂.nil⟩
  | cons x r ih =>
    intro hx
    obtain ⟨lines, hlines, hall⟩ := ih (fun y hy => hx y (by simp [hy]))
    obtain ⟨k, hk, hk2⟩ := hx x (by simp)
    obtain ⟨text, htext⟩ := itable_row_print_columns_ok ids k t.columns
      (fun c hc => hprint c hc k hk2)
    have hrow : itable_row_print t ids k = Except.ok text := by
      have : ¬ k > t.meta.row_count := by omega
      simp [itable_row_print, this, htext]
    refine ⟨text :: lines, ?_, List.Forall₂.cons ⟨k, hk, hk2, hrow⟩ hall⟩
    simp only [select_print_loop, hk, u64_of_i64_cast, table_row_print, hdb, hrow, hlines, bind,
      Except.bind, pure, Except.pure, unlines]

/-! ## C8: the lines of a SELECT with a WHERE clause -/

/-- The lines of a SELECT with a WHERE clause, where it returns: when the resolved column list
    is not empty, the chain evaluates successfully, and the printer returns on every live cell
    of the table, the interpreter returns OK, leaves the database as it was, and writes, for
    each row id of the chain's result in the order of the result, the text `table_row_print`
    produces for that row under the projection, followed by one newline; every such row id is
    the index of a live row. -/
theorem interpret_select_filter_lines (env : CEnv) (db : DataBase) (table_name : CStr) (t : Table)
    (f : Filter) (next : List Filter) (select_columns : Option StrList) (fres : FilterInterpResult)
    (hname : idb_table_get db table_name = some t)
    (hdb : idb_table_get_byid db t.meta.id = some t)
    (hproj : ∀ l, select_columns = some l → ∃ c ∈ t.columns, c.meta.name ∈ l)
    (hfres : filter_interpret env db t.meta (f :: next) = Except.ok fres)
    (hres : fres.res = RESULT_OK)
    (hprint : ∀ c ∈ t.columns, ∀ i, i < t.meta.row_count →
      fault_free (itable_row_print_cell c i) = true) :
    ∃ lines : List CStr,
      interpret_select env db table_name (f :: next) select_columns =
        Except.ok { result := RESULT_OK, db := db, out := unlines lines } ∧
      List.Forall₂ (fun line x => ∃ i : Nat, x = (i : Int) ∧ i < t.meta.row_count ∧
        itable_row_print t (some (projected_ids t select_columns)) i = Except.ok line)
        lines (intlist_values fres.rows) := by
  have hrange := filter_interpret_range env db t hdb (f :: next) fres hfres hres
  have hcolsne := filter_interpret_ok_columns env db t hdb f next fres hfres hres
  have hn : NoNull ([] : List Int) := fun x hx => absurd hx (List.not_mem_nil x)
  obtain ⟨lines, hlines, hall⟩ := select_print_loop_ok db t hdb
    (some (projected_ids t select_columns)) hprint (intlist_values fres.rows) hrange
  refine ⟨lines, ?_, hall⟩
  have h0 : intlist_empty = intlist_of [] := rfl
  -- the resolved column list is not empty
  have hlist : ∃ m ms, table_column_get_list db t.meta.id select_columns =
      Except.ok (some (m :: ms)) ∧
      (m :: ms) = (projected t select_columns).map (fun c => c.meta) := by
    cases hsel : select_columns with
    | none =>
      cases hc : t.columns with
      | nil => exact absurd hc hcolsne
      | cons c r =>
        exact ⟨c.meta, r.map (fun c => c.meta), by simp [table_column_get_list, hdb, hc, pure, Except.pure],
          by simp [projected, hc]⟩
    | some l =>
      obtain ⟨c, hc, hcl⟩ := hproj l hsel
      have hl : l ≠ [] := fun e => by rw [e] at hcl; cases hcl
      have hmem : c.meta ∈ (t.columns.filter (fun c => decide (c.meta.name ∈ l))).map
          (fun c => c.meta) :=
        List.mem_map_of_mem (fun c => c.meta) (List.mem_filter.mpr ⟨hc, by simpa using hcl⟩)
      cases hfl : (t.columns.filter (fun c => decide (c.meta.name ∈ l))).map (fun c => c.meta) with
      | nil => rw [hfl] at hmem; cases hmem
      | cons m ms =>
        exact ⟨m, ms, by simp [table_column_get_list, hdb, table_column_get_list_loop_eq l hl, hfl,
          bind, Except.bind, pure, Except.pure], by simp [projected, hfl]⟩
  obtain ⟨m, ms, hget, hproj2⟩ := hlist
  have hids : column_ids_loop (m :: ms) intlist_empty = projected_ids t select_columns := by
    rw [h0, column_ids_loop_eq _ [] hn, hproj2]
    simp [projected_ids, List.map_map, Function.comp_def]
  simp only [interpret_select, db_table_get, hname, ne_eq, not_true_eq_false, if_false, hget,
    interpret_select_filter, hfres, hres, hids, hlines, bind, Except.bind, pure, Except.pure,
    reduceCtorEq, not_false_eq_true, if_true]

set_option maxRecDepth 100000 in
/-- C8 (refuted, two defects of the code): on the table with the columns `a`, `b` and the row
    `1 2` the chain `b = 2` evaluates successfully to row 0, yet `SELECT zz FROM t WHERE b = 2`
    does not return: `table_column_get_list` hands back the empty node instead of NULL, and the
    NULL `meta` of that node is read.  And on a table whose only cell is the byte 0x80,
    `SELECT * FROM s WHERE x like %` evaluates its chain to row 0 and then never leaves the
    loop of the glyph counter.  Neither statement returns OK with a line for row 0. -/
theorem interpret_select_filter_no_return :
    filter_interpret env_glibc pair_db pair_table.meta
        [{ op := FILTER_EQUAL, value := cstr "2", column := cstr "b",
           next_relation := FILTER_REL_NONE }] =
      Except.ok { res := RESULT_OK, rows := [0] } ∧
    query_parse (cstr "SELECT zz FROM t WHERE b = 2") =
      Except.ok (QueryParseResult.ok (Query.QUERY_SELECT (cstr "t")
        [{ op := FILTER_EQUAL, value := cstr "2", column := cstr "b",
           next_relation := FILTER_REL_NONE }] (some [cstr "zz"]) none SORT_ASCENDING)) ∧
    do_query env_glibc pair_db (cstr "SELECT zz FROM t WHERE b = 2") =
      Except.error Fault.null_deref ∧
    filter_interpret env_glibc odd_db odd_table.meta
        [{ op := FILTER_LIKE, value := cstr "%", column := cstr "x",
           next_relation := FILTER_REL_NONE }] =
      Except.ok { res := RESULT_OK, rows := [0] } ∧
    do_query env_glibc odd_db (cstr "SELECT * FROM s WHERE x like %") =
      Except.error Fault.hang := by
  refine ⟨by rfl, by rfl, by rfl, by rfl, by rfl⟩

set_option maxRecDepth 100000 in
/-- The test of interpreter.c: on the six rows with `two` = 50, 50, 20, 35, 35, 50 the
    statement `SELECT * FROM testing WHERE two = 50` prints the rows 0, 1 and 5, in that
    order. -/
theorem interpret_select_filter_lines_witness :
    (idb_table_get testing_db (cstr "testing") = some testing_table ∧
      idb_table_get_byid testing_db testing_table.meta.id = some testing_table ∧
      (∀ c ∈ testing_table.columns, ∀ i, i < testing_table.meta.row_count →
        fault_free (itable_row_print_cell c i) = true)) ∧
    filter_interpret env_glibc testing_db testing_table.meta
        [{ op := FILTER_EQUAL, value := cstr "50", column := cstr "two",
           next_relation := FILTER_REL_NONE }] =
      Except.ok { res := RESULT_OK, rows := [0, 1, 5] } ∧
    (∃ lines : List CStr,
      interpret_select env_glibc testing_db (cstr "testing")
          [{ op := FILTER_EQUAL, value := cstr "50", column := cstr "two",
             next_relation := FILTER_REL_NONE }] none =
        Except.ok { result := RESULT_OK, db := testing_db, out := unlines lines } ∧
      List.Forall₂ (fun line x => ∃ i : Nat, x = (i : Int) ∧ i < testing_table.meta.row_count ∧
        itable_row_print testing_table (some (projected_ids testing_table none)) i =
          Except.ok line) lines [0, 1, 5]) ∧
    do_query env_glibc testing_db (cstr "SELECT * FROM testing WHERE two = 50") =
      Except.ok { result := RESULT_OK, db := testing_db,
                  out := unlines [padded "hello" ++ padded "50" ++ padded "there",
                                  padded "different" ++ padded "50" ++ padded "row",
                                  padded "hello" ++ padded "50" ++ padded "lastone"] } :=
  ⟨⟨by rfl, by rfl, by decide⟩, by rfl,
   interpret_select_filter_lines env_glibc testing_db (cstr "testing") testing_table _ [] none
     { res := RESULT_OK, rows := [0, 1, 5] } (by rfl) (by rfl) (fun l h => by cases h) (by rfl)
     (by rfl) (by decide),
   by rfl⟩

/-! ## Lemmas: the tokenizer on bare tokens -/

theorem bare_char (tok : CStr) (h : bare tok = true) :
    ∀ c ∈ tok, c ≠ 34 ∧ str_contains PARSE_SPLIT_STRING c = false := by
  intro c hc
  simp only [bare, Bool.and_eq_true, List.all_eq_true, decide_eq_true_eq, Bool.not_eq_true'] at h
  exact h.2 c hc

theorem bare_ne_nil (tok : CStr) (h : bare tok = true) : tok ≠ [] := by
  simp only [bare, Bool.and_eq_true, decide_eq_true_eq] at h
  exact h.1

theorem split_scan_token (delim : CStr) (t rest tok : CStr) (list : StrList)
    (h : ∀ c ∈ t, c ≠ 34 ∧ str_contains delim c = false) :
    split_quoted_loop delim SplitMode.scan (t ++ rest) tok list =
      split_quoted_loop delim SplitMode.scan rest (tok ++ t) list := by
  induction t generalizing tok with
  | nil => simp
  | cons c r ih =>
    have hc := h c (by simp)
    have hr : ∀ x ∈ r, x ≠ 34 ∧ str_contains delim x = false := fun x hx => h x (by simp [hx])
    simp only [List.cons_append, split_quoted_loop, hc.1, hc.2, if_false, Bool.false_eq_true]
    have := ih (tok ++ [c]) hr
    simpa using this

theorem split_skip_blank (delim : CStr) (ws rest : CStr) (list : StrList)
    (h : ∀ c ∈ ws, str_contains delim c = true) :
    split_quoted_loop delim SplitMode.skip (ws ++ rest) [] list =
      split_quoted_loop delim SplitMode.skip rest [] list := by
  induction ws with
  | nil => simp
  | cons c r ih =>
    have hc := h c (by simp)
    have hr : ∀ x ∈ r, str_contains delim x = true := fun x hx => h x (by simp [hx])
    simp only [List.cons_append, split_quoted_loop, hc, if_true]
    exact ih hr

theorem split_skip_token (delim : CStr) (t rest : CStr) (list : StrList) (hne : t ≠ [])
    (h : ∀ c ∈ t, c ≠ 34 ∧ str_contains delim c = false) :
    split_quoted_loop delim SplitMode.skip (t ++ rest) [] list =
      split_quoted_loop delim SplitMode.scan rest t list := by
  cases t with
  | nil => exact absurd rfl hne
  | cons c r =>
    have hc := h c (by simp)
    have hr : ∀ x ∈ r, x ≠ 34 ∧ str_contains delim x = false := fun x hx => h x (by simp [hx])
    simp only [List.cons_append, split_quoted_loop, hc.1, hc.2, if_false, Bool.false_eq_true,
      List.nil_append]
    have := split_scan_token delim r rest [c] list hr
    simpa using this

theorem split_push_bare (tok : CStr) (list : StrList) (hne : tok ≠ [])
    (h : ∀ c ∈ tok, c ≠ 34) : split_push tok list = list ++ [tok] := by
  cases tok with
  | nil => exact absurd rfl hne
  | cons c r =>
    have hc : c ≠ 34 := h c (by simp)
    simp [split_push, strlist_push, hc]

theorem split_scan_eq_skip (delim : CStr) (s : CStr) (list : StrList)
    (hq : str_contains delim 34 = false) :
    split_quoted_loop delim SplitMode.scan s [] list =
      split_quoted_loop delim SplitMode.skip s [] list := by
  cases s with
  | nil => simp [split_quoted_loop]
  | cons c r =>
    simp only [split_quoted_loop, List.nil_append]
    by_cases h34 : c = 34
    · subst h34
      simp [hq]
    · by_cases hd : str_contains delim c = true
      · simp [h34, hd, split_push]
      · simp [h34, hd]

theorem split_spaced (toks : List CStr) (trailing : CStr) (list : StrList)
    (hb : ∀ tok ∈ toks, bare tok = true) (ht : blank trailing = true) :
    split_quoted_loop PARSE_SPLIT_STRING SplitMode.skip (spaced toks ++ trailing) [] list =
      list ++ toks := by
  have hws : ∀ c ∈ trailing, str_contains PARSE_SPLIT_STRING c = true := by
    simpa [blank, List.all_eq_true] using ht
  induction toks generalizing list with
  | nil =>
    have := split_skip_blank PARSE_SPLIT_STRING trailing [] list hws
    simp only [List.append_nil] at this
    simp [spaced, this, split_quoted_loop, split_push]
  | cons t rest ih =>
    have htb := hb t (by simp)
    have hch := bare_char t htb
    have hne := bare_ne_nil t htb
    have hpush : split_push t list = list ++ [t] :=
      split_push_bare t list hne (fun c hc => (hch c hc).1)
    cases rest with
    | nil =>
      simp only [spaced]
      rw [split_skip_token PARSE_SPLIT_STRING t trailing list hne hch]
      cases trailing with
      | nil => simp [split_quoted_loop, hpush]
      | cons d tr =>
        have hd := hws d (by simp)
        have hd34 : d ≠ 34 := by
          intro h; subst h; revert hd; decide
        simp only [split_quoted_loop, hd34, hd, if_true, if_false, hpush]
        have := split_skip_blank PARSE_SPLIT_STRING tr [] (list ++ [t])
          (fun x hx => hws x (by simp [hx]))
        simp only [List.append_nil] at this
        rw [this]
        simp [split_quoted_loop, split_push]
    | cons r rs =>
      simp only [spaced, List.append_assoc]
      rw [split_skip_token PARSE_SPLIT_STRING t _ list hne hch]
      have h32 : str_contains PARSE_SPLIT_STRING 32 = true := by decide
      simp only [List.cons_append, List.nil_append, split_quoted_loop, h32, if_true, hpush,
        show (32 : Nat) ≠ 34 by decide, if_false]
      have := ih (list ++ [t]) (fun tok htok => hb tok (by simp [htok]))
      simpa using this

theorem strlist_from_split_quoted_spaced (toks : List CStr) (trailing : CStr)
    (hb : ∀ tok ∈ toks, bare tok = true) (ht : blank trailing = true) :
    strlist_from_split_quoted (spaced toks ++ trailing) PARSE_SPLIT_STRING = toks := by
  unfold strlist_from_split_quoted
  rw [split_scan_eq_skip _ _ _ (by decide), split_spaced toks trailing _ hb ht]
  simp [strlist_empty]

/-! ## Lemmas: the SELECT parser on its tokens -/

theorem str_ieq_length (a b : CStr) (h : str_ieq a b = true) : a.length = b.length := by
  induction a generalizing b with
  | nil => cases b with
    | nil => rfl
    | cons y ys => simp [str_ieq] at h
  | cons x xs ih => cases b with
    | nil => simp [str_ieq] at h
    | cons y ys =>
      simp only [str_ieq] at h
      split at h
      · exact absurd h (by simp)
      · simp [ih ys h]

theorem strtok_run (delim s rest tok : CStr) (h : ∀ c ∈ s, str_contains delim c = false) :
    strtok_all delim (s ++ rest) tok = strtok_all delim rest (tok ++ s) := by
  induction s generalizing tok with
  | nil => simp
  | cons c r ih =>
    have hc := h c (by simp)
    simp only [List.cons_append, strtok_all, hc, Bool.false_eq_true, if_false]
    have := ih (tok ++ [c]) (fun x hx => h x (by simp [hx]))
    simpa using this

theorem comma_free (c : CStr) (h : 44 ∉ c) : ∀ x ∈ c, str_contains [44] x = false := by
  intro x hx
  have : x ≠ 44 := fun e => h (e ▸ hx)
  simp [str_contains, Ne.symm this]

theorem split_name (c : CStr) (hne : c ≠ []) (h : 44 ∉ c) : strlist_from_split c [44] = [c] := by
  have := strtok_run [44] c [] [] (comma_free c h)
  simp only [List.append_nil, List.nil_append] at this
  simp [strlist_from_split, this, strtok_all, hne]

theorem split_name_comma (c : CStr) (hne : c ≠ []) (h : 44 ∉ c) :
    strlist_from_split (c ++ [44]) [44] = [c] := by
  have := strtok_run [44] c [44] [] (comma_free c h)
  simp only [List.nil_append] at this
  simp [strlist_from_split, this, strtok_all, str_contains, hne]

theorem ends_with_name (c : CStr) (h : 44 ∉ c) : ends_with c 44 = false := by
  simp only [ends_with, decide_eq_false_iff_not]
  intro hl
  exact h (List.mem_of_getLast?_eq_some hl)

theorem extract_sql_list_loop_names (cols : List CStr) (rest : List CStr) (final : StrList)
    (hne : cols ≠ []) (hc : ∀ c ∈ cols, c ≠ [] ∧ 44 ∉ c) :
    extract_sql_list_loop none (list_tokens cols ++ rest) final =
      Except.ok (ListParseResult.ok (final ++ cols) rest) := by
  induction cols generalizing final with
  | nil => exact absurd rfl hne
  | cons c more ih =>
    have hcc := hc c (by simp)
    have hmerge : strlist_merge final [c] = final ++ [c] := by
      unfold strlist_merge
      by_cases hf : final = [] <;> simp [hf]
    cases more with
    | nil =>
      simp [list_tokens, extract_sql_list_loop, ends_with_name c hcc.2,
        split_name c hcc.1 hcc.2, hmerge, pure, Except.pure]
    | cons d ds =>
      have hlast : ends_with (c ++ [44]) 44 = true := by simp [ends_with]
      simp only [list_tokens, List.cons_append, extract_sql_list_loop, hlast,
        split_name_comma c hcc.1 hcc.2, hmerge, Bool.not_true, Bool.false_eq_true, if_false]
      have := ih (final ++ [c]) (by simp) (fun x hx => hc x (by simp [hx]))
      simpa using this

theorem parse_filters_chain (first : PredText) (more : List (CStr × PredText)) (tail : List CStr)
    (hfirst : filterop_from_str first.op ≠ FILTER_INVALID)
    (hmore : ∀ p ∈ more, filterrel_from_str p.1 ≠ FILTER_REL_INVALID ∧
      filterop_from_str p.2.op ≠ FILTER_INVALID)
    (htail : ∀ tok ∈ tail.head?, filterrel_from_str tok = FILTER_REL_INVALID) :
    parse_filters (where_tokens first more ++ tail) =
      Except.ok (FilterParseResult.ok (where_filters first more) tail) := by
  induction more generalizing first with
  | nil =>
    cases tail with
    | nil => simp [where_tokens, where_filters, parse_filters, hfirst, pure, Except.pure]
    | cons t ts =>
      have ht := htail t (by simp)
      simp [where_tokens, where_filters, parse_filters, hfirst, ht, pure, Except.pure]
  | cons p ps ih =>
    obtain ⟨rel, q⟩ := p
    have hp := hmore (rel, q) (by simp)
    have hrec := ih q hp.2 (fun x hx => hmore x (by simp [hx]))
    have hshape : ∃ t rest3, where_tokens q ps ++ tail = t :: rest3 := by
      cases ps with
      | nil => exact ⟨_, _, rfl⟩
      | cons r rs => obtain ⟨r1, r2⟩ := r; exact ⟨_, _, rfl⟩
    obtain ⟨t, rest3, hsh⟩ := hshape
    rw [hsh] at hrec
    simp only [where_tokens, where_filters, List.cons_append, List.nil_append, hsh]
    rw [parse_filters]
    simp [hfirst, hp.1, hrec, pure, Except.pure, bind, Except.bind]

theorem order_not_relation (tok : CStr) (h : str_ieq tok (cstr "ORDER") = true) :
    filterrel_from_str tok = FILTER_REL_INVALID := by
  have hl := str_ieq_length _ _ h
  have h1 : str_ieq tok STRFILTERREL_AND = false := by
    cases hx : str_ieq tok STRFILTERREL_AND
    · rfl
    · have := str_ieq_length _ _ hx
      rw [hl] at this
      revert this; decide
  have h2 : str_ieq tok STRFILTERREL_OR = false := by
    cases hx : str_ieq tok STRFILTERREL_OR
    · rfl
    · have := str_ieq_length _ _ hx
      rw [hl] at this
      revert this; decide
  simp [filterrel_from_str, h1, h2]

theorem list_tokens_head (cols : List CStr) (hne : cols ≠ []) (hstar : cols ≠ [cstr "*"])
    (hc : ∀ c ∈ cols, c ≠ [] ∧ 44 ∉ c) :
    ∃ tok rest, list_tokens cols = tok :: rest ∧ strcmp tok (cstr "*") ≠ 0 := by
  cases cols with
  | nil => exact absurd rfl hne
  | cons c more =>
    cases more with
    | nil =>
      refine ⟨c, [], rfl, ?_⟩
      intro h
      exact hstar (by rw [(strcmp_eq_zero c (cstr "*")).1 h])
    | cons d ds =>
      refine ⟨c ++ [44], list_tokens (d :: ds), rfl, ?_⟩
      intro h
      have he := (strcmp_eq_zero _ _).1 h
      have hl := congrArg List.length he
      have hcne := (hc c (by simp)).1
      cases c with
      | nil => exact hcne rfl
      | cons x xs => simp [cstr] at hl

/-! ## C10: a SELECT with a column list, a WHERE chain and an ORDER BY clause -/

/-- The parser on the tokens of a statement `SELECT c1, ..., ck FROM t WHERE x1 op1 v1 rel1 ...
    xn opn vn ORDER BY c dir`: the result is OK with the query whose operators, relations and
    direction are what the converters of the parser make of the tokens. -/
theorem query_parse_select_tokens (s : SelectText) (trailing : CStr)
    (hs : s.well_formed) (ht : blank trailing = true) :
    query_parse (spaced s.tokens ++ trailing) = Except.ok (QueryParseResult.ok s.query) := by
  obtain ⟨hsel, hfrom, hwhere, horder, hby, hne, hstar, hnames, hbare, hop, hmore, hdir⟩ := hs
  obtain ⟨tok, rest, hlist, htok⟩ := list_tokens_head s.columns hne hstar hnames
  have hcols := extract_sql_list_loop_names s.columns
    ([s.kw_from, s.table, s.kw_where] ++ where_tokens s.first s.more ++
      [s.kw_order, s.kw_by, s.sort_column, s.direction]) [] hne hnames
  have hfilters := parse_filters_chain s.first s.more
    [s.kw_order, s.kw_by, s.sort_column, s.direction] hop hmore
    (by intro x hx; simp at hx; subst hx; exact order_not_relation _ horder)
  unfold query_parse
  rw [strlist_from_split_quoted_spaced s.tokens trailing hbare ht]
  simp only [SelectText.tokens, List.cons_append, List.nil_append, hsel, if_true]
  rw [hlist] at hcols ⊢
  simp only [List.cons_append, List.append_assoc, List.nil_append] at hcols ⊢
  simp only [query_parse_select, htok, if_false, extract_sql_list, strlist_empty, hcols, bind,
    Except.bind]
  simp only [query_parse_select_from, hfrom, Bool.not_true, Bool.false_eq_true, if_false,
    List.length_cons, query_parse_select_loop, try_parse_where, hwhere, hfilters, bind,
    Except.bind, pure, Except.pure]
  have hord : try_parse_order [s.kw_order, s.kw_by, s.sort_column, s.direction] =
      ({ result := RESULT_OK, direction := sortdirection_from_str s.direction,
         column := some s.sort_column }, []) := by
    simp [try_parse_order, horder, hby]
  have hwf : where_filters s.first s.more ≠ [] := by
    cases hm : s.more with
    | nil => simp [where_filters]
    | cons p ps => obtain ⟨r, q⟩ := p; simp [where_filters]
  simp only [hord, hwf, hdir, ne_eq, not_false_eq_true, if_true, if_false]
  cases hlen : (where_tokens s.first s.more ++
      [s.kw_order, s.kw_by, s.sort_column, s.direction]).length <;>
    simp [query_parse_select_loop, SelectState.query, SelectText.query, pure, Except.pure]

theorem str_ieq_lower (a b : CStr) :
    str_ieq a b = decide (a.map ascii_lower = b.map ascii_lower) := by
  induction a generalizing b with
  | nil => cases b <;> simp [str_ieq]
  | cons x a ih =>
    cases b with
    | nil => simp [str_ieq]
    | cons y b =>
      have e : ∀ c, tolower c = ascii_lower c := fun c => rfl
      by_cases h : ascii_lower x = ascii_lower y
      · simp [str_ieq, e, h, ih]
      · simp [str_ieq, e, h]

theorem same_word_ieq (a b : CStr) (h : same_word a b = true) : str_ieq a b = true := by
  rw [str_ieq_lower]; exact h

/-- A token that is one word up to letter case is not another word that differs from it in
    more than letter case. -/
theorem same_word_other (a w v : CStr) (h : same_word a w = true)
    (hne : w.map ascii_lower ≠ v.map ascii_lower) : str_ieq a v = false := by
  rw [str_ieq_lower]
  simp only [same_word, decide_eq_true_eq] at h
  simp only [decide_eq_false_iff_not]
  rw [h]; exact hne

theorem same_word_same (a w v : CStr) (h : same_word a w = true)
    (he : w.map ascii_lower = v.map ascii_lower) : str_ieq a v = true := by
  rw [str_ieq_lower]
  simp only [same_word, decide_eq_true_eq] at h
  simp only [decide_eq_true_eq]
  rw [h]; exact he

/-- The converter of the parser reads an operator token as the operator it spells. -/
theorem filterop_from_str_spelled (tok : CStr) (op : FilterOp)
    (h : spells tok (operator_word op) = true) :
    filterop_from_str tok = op ∧ op ≠ FILTER_INVALID := by
  cases op <;> simp only [operator_word, spells, Bool.false_eq_true] at h <;>
    refine ⟨?_, by decide⟩ <;>
    simp only [filterop_from_str, STRFILTER_EQUAL, STRFILTER_NOT_EQUAL, STRFILTER_GREATER,
      STRFILTER_GREATER_EQUAL, STRFILTER_LESSER, STRFILTER_LESSER_EQUAL, STRFILTER_LIKE]
  · rw [if_pos (same_word_same tok _ _ h (by decide))]
  · rw [if_neg (by rw [same_word_other tok _ _ h (by decide)]; decide),
      if_pos (same_word_same tok _ _ h (by decide))]
  · rw [if_neg (by rw [same_word_other tok _ _ h (by decide)]; decide),
      if_neg (by rw [same_word_other tok _ _ h (by decide)]; decide),
      if_pos (same_word_same tok _ _ h (by decide))]
  · rw [if_neg (by rw [same_word_other tok _ _ h (by decide)]; decide),
      if_neg (by rw [same_word_other tok _ _ h (by decide)]; decide),
      if_neg (by rw [same_word_other tok _ _ h (by decide)]; decide),
      if_pos (same_word_same tok _ _ h (by decide))]
  · rw [if_neg (by rw [same_word_other tok _ _ h (by decide)]; decide),
      if_neg (by rw [same_word_other tok _ _ h (by decide)]; decide),
      if_neg (by rw [same_word_other tok _ _ h (by decide)]; decide),
      if_neg (by rw [same_word_other tok _ _ h (by decide)]; decide),
      if_pos (same_word_same tok _ _ h (by decide))]
  · rw [if_neg (by rw [same_word_other tok _ _ h (by decide)]; decide),
      if_neg (by rw [same_word_other tok _ _ h (by decide)]; decide),
      if_neg (by rw [same_word_other tok _ _ h (by decide)]; decide),
      if_neg (by rw [same_word_other tok _ _ h (by decide)]; decide),
      if_neg (by rw [same_word_other tok _ _ h (by decide)]; decide),
      if_pos (same_word_same tok _ _ h (by decide))]
  · rw [if_neg (by rw [same_word_other tok _ _ h (by decide)]; decide),
      if_neg (by rw [same_word_other tok _ _ h (by decide)]; decide),
      if_neg (by rw [same_word_other tok _ _ h (by decide)]; decide),
      if_neg (by rw [same_word_other tok _ _ h (by decide)]; decide),
      if_neg (by rw [same_word_other tok _ _ h (by decide)]; decide),
      if_neg (by rw [same_word_other tok _ _ h (by decide)]; decide),
      if_pos (same_word_same tok _ _ h (by decide))]

/-- The converter of the parser reads a relation token as the relation it spells. -/
theorem filterrel_from_str_spelled (tok : CStr) (rel : FilterRelation)
    (h : spells tok (relation_word rel) = true) :
    filterrel_from_str tok = rel ∧ rel ≠ FILTER_REL_INVALID := by
  cases rel <;> simp only [relation_word, spells, Bool.false_eq_true] at h <;>
    refine ⟨?_, by decide⟩ <;>
    simp only [filterrel_from_str, STRFILTERREL_AND, STRFILTERREL_OR]
  · rw [if_pos (same_word_same tok _ _ h (by decide))]
  · rw [if_neg (by rw [same_word_other tok _ _ h (by decide)]; decide),
      if_pos (same_word_same tok _ _ h (by decide))]

/-- The converter of the parser reads a direction token as the direction it spells. -/
theorem sortdirection_from_str_spelled (tok : CStr) (dir : SortDirection)
    (h : spells tok (direction_word dir) = true) :
    sortdirection_from_str tok = dir ∧ dir ≠ SORT_INVALID := by
  cases dir <;> simp only [direction_word, spells, Bool.false_eq_true] at h <;>
    refine ⟨?_, by decide⟩ <;>
    simp only [sortdirection_from_str]
  · rw [if_pos (same_word_same tok _ _ h (by decide))]
  · rw [if_neg (by rw [same_word_other tok _ _ h (by decide)]; decide),
      if_pos (same_word_same tok _ _ h (by decide))]

/-- The chain the parser builds from the tokens is the chain the statement denotes. -/
theorem where_filters_chain (first : Predicate) (more : List Link)
    (hfirst : spells first.op_token (operator_word first.op) = true)
    (hmore : ∀ l ∈ more, spells l.rel_token (relation_word l.rel) = true ∧
      spells l.pred.op_token (operator_word l.pred.op) = true) :
    where_filters first.text (more.map (fun l => (l.rel_token, l.pred.text))) =
      chain_of first more := by
  induction more generalizing first with
  | nil =>
    simp only [List.map_nil, where_filters, chain_of, Predicate.text,
      (filterop_from_str_spelled _ _ hfirst).1]
  | cons l more ih =>
    obtain ⟨hrel, hop⟩ := hmore l (List.mem_cons_self _ _)
    have hrest := ih l.pred hop (fun x hx => hmore x (List.mem_cons_of_mem _ hx))
    simp only [List.map_cons, where_filters, chain_of, Predicate.text,
      (filterop_from_str_spelled _ _ hfirst).1, (filterrel_from_str_spelled _ _ hrel).1]
    simp only [Predicate.text] at hrest
    rw [hrest]

theorem white_byte_split (c : Nat) : str_contains PARSE_SPLIT_STRING c = white_byte c := by
  by_cases h1 : c = 32
  · subst h1; rfl
  · by_cases h2 : c = 9
    · subst h2; rfl
    · by_cases h3 : c = 10
      · subst h3; rfl
      · have e1 : ¬ 32 = c := fun e => h1 e.symm
        have e2 : ¬ 9 = c := fun e => h2 e.symm
        have e3 : ¬ 10 = c := fun e => h3 e.symm
        simp [str_contains, PARSE_SPLIT_STRING, white_byte, h1, h2, h3, e1, e2, e3]

theorem plain_token_bare (tok : CStr) : bare tok = plain_token tok := by
  simp only [bare, plain_token, white_byte_split]

theorem white_space_blank (s : CStr) : blank s = white_space s := by
  simp only [blank, white_space, white_byte_split]

theorem select_statement_text (s : SelectStatement) (hs : s.well_formed) :
    s.text.well_formed ∧ s.text.query = s.denotes := by
  obtain ⟨hsel, hfrom, hwhere, horder, hby, hne, hstar, hnames, hbare, hop, hmore, hdir⟩ := hs
  refine ⟨⟨same_word_same _ _ _ hsel (by decide), same_word_same _ _ _ hfrom (by decide),
    same_word_same _ _ _ hwhere (by decide), same_word_same _ _ _ horder (by decide),
    same_word_same _ _ _ hby (by decide), hne, hstar, hnames,
    fun tok htok => (plain_token_bare tok).trans (hbare tok htok),
    ?_, ?_, ?_⟩, ?_⟩
  · exact (filterop_from_str_spelled _ _ hop).1 ▸ (filterop_from_str_spelled _ _ hop).2
  · intro p hp
    simp only [SelectStatement.text, List.mem_map] at hp
    obtain ⟨l, hl, rfl⟩ := hp
    obtain ⟨hrel, hop2⟩ := hmore l hl
    exact ⟨(filterrel_from_str_spelled _ _ hrel).1 ▸ (filterrel_from_str_spelled _ _ hrel).2,
      (filterop_from_str_spelled _ _ hop2).1 ▸ (filterop_from_str_spelled _ _ hop2).2⟩
  · exact (sortdirection_from_str_spelled _ _ hdir).1 ▸ (sortdirection_from_str_spelled _ _ hdir).2
  · simp only [SelectText.query, SelectStatement.denotes, SelectStatement.text,
      where_filters_chain s.first s.more hop hmore, (sortdirection_from_str_spelled _ _ hdir).1]

/-- C10: for every statement `SELECT c1, ..., ck FROM t WHERE x1 op1 v1 rel1 ... xn opn vn
    ORDER BY c dir` of bare tokens separated by one blank each (at least one column and one
    predicate, keywords, `LIKE`, `AND`, `OR`, `ASC`, `DESC` in any letter case, any run of white
    space behind the last token), `query_parse` returns `RESULT_OK` with the SELECT query whose
    table name is `t`, whose column list is `c1 .. ck` in order, whose filter chain has as
    predicate `i` the column `xi`, the operator that `opi` spells and the value `vi`, with the
    relation that `reli` spells for `i < n` and `FILTER_REL_NONE` for the last predicate, whose
    sort column is `c` and whose sort direction is the one that `dir` spells. -/
theorem query_parse_select_where_order (s : SelectStatement) (trailing : CStr)
    (hs : s.well_formed) (ht : white_space trailing = true) :
    query_parse (spaced s.text.tokens ++ trailing) =
      Except.ok (QueryParseResult.ok
        (Query.QUERY_SELECT s.table (chain_of s.first s.more) (some s.columns)
          (some s.sort_column) s.dir)) := by
  obtain ⟨hwf, hq⟩ := select_statement_text s hs
  rw [query_parse_select_tokens s.text trailing hwf ((white_space_blank trailing).trans ht), hq]
  rfl

set_option maxRecDepth 100000 in
/-- Witness of C10, the statement of the parser test with the blank that ends it there: the
    result is the query on `table` with the columns `name`, `age`, the chain `age = 50 AND`,
    `name like pozdrawia%`, and the sort column `age`, descending.  A second statement, in small
    letters and ascending: `select a from t where x >= 1 or y != 2 and z < 3 order by a asc`. -/
theorem query_parse_select_where_order_witness :
    (test_statement.well_formed ∧ white_space (cstr " ") = true) ∧
    query_parse (spaced test_statement.text.tokens ++ cstr " ") =
      Except.ok (QueryParseResult.ok
        (Query.QUERY_SELECT test_statement.table (chain_of test_statement.first test_statement.more)
          (some test_statement.columns) (some test_statement.sort_column) test_statement.dir)) ∧
    spaced test_statement.text.tokens ++ cstr " " =
      cstr "SELECT name, age FROM table WHERE age = 50 AND name like pozdrawia% ORDER BY age DESC " ∧
    query_parse
        (cstr "SELECT name, age FROM table WHERE age = 50 AND name like pozdrawia% ORDER BY age DESC ") =
      Except.ok (QueryParseResult.ok
        (Query.QUERY_SELECT (cstr "table")
          [{ op := FILTER_EQUAL, value := cstr "50", column := cstr "age",
             next_relation := FILTER_REL_AND },
           { op := FILTER_LIKE, value := cstr "pozdrawia%", column := cstr "name",
             next_relation := FILTER_REL_NONE }]
          (some [cstr "name", cstr "age"]) (some (cstr "age")) SORT_DESCENDING)) ∧
    small_statement.well_formed ∧
    query_parse (cstr "select a from t where x >= 1 or y != 2 and z < 3 order by a asc") =
      Except.ok (QueryParseResult.ok
        (Query.QUERY_SELECT (cstr "t")
          [{ op := FILTER_GREATER_EQUAL, value := cstr "1", column := cstr "x",
             next_relation := FILTER_REL_OR },
           { op := FILTER_NOT_EQUAL, value := cstr "2", column := cstr "y",
             next_relation := FILTER_REL_AND },
           { op := FILTER_LESSER, value := cstr "3", column := cstr "z",
             next_relation := FILTER_REL_NONE }]
          (some [cstr "a"]) (some (cstr "a")) SORT_ASCENDING)) :=
  ⟨⟨by decide, by decide⟩,
   query_parse_select_where_order test_statement (cstr " ") (by decide) (by decide),
   by decide, by rfl, by decide,
   query_parse_select_where_order small_statement [] (by decide) (by decide)⟩

/-! ## Lemmas: the tokenizer on quoted spans -/

theorem split_quoted_run (delim : CStr) (t rest tok : CStr) (list : StrList) (h : 34 ∉ t) :
    split_quoted_loop delim SplitMode.quoted (t ++ rest) tok list =
      split_quoted_loop delim SplitMode.quoted rest (tok ++ t) list := by
  induction t generalizing tok with
  | nil => simp
  | cons c r ih =>
    have hc : c ≠ 34 := fun e => h (by simp [e])
    have hr : 34 ∉ r := fun e => h (by simp [e])
    simp only [List.cons_append, split_quoted_loop, hc, ne_eq, not_false_eq_true, if_true]
    have := ih (tok ++ [c]) hr
    simpa using this

theorem split_push_quoted (t : CStr) (list : StrList) :
    split_push ([34] ++ t ++ [34]) list = list ++ [t] := by
  have hl : (34 :: (t ++ [34])).getLast? = some 34 := by
    rw [← List.cons_append, List.getLast?_append]
    simp
  have hd : (t ++ [34]).dropLast = t := by simp
  simp [split_push, strlist_push, hl, hd]

theorem split_skip_piece (p : Piece) (rest : CStr) (list : StrList) (hp : p.valid = true) :
    split_quoted_loop PARSE_SPLIT_STRING SplitMode.skip (p.render ++ rest) [] list =
      split_quoted_loop PARSE_SPLIT_STRING SplitMode.scan rest p.render list := by
  obtain ⟨q, t⟩ := p
  cases q with
  | false =>
    have hb : bare t = true := by simpa [Piece.valid] using hp
    simpa [Piece.render] using
      split_skip_token PARSE_SPLIT_STRING t rest list (bare_ne_nil t hb) (bare_char t hb)
  | true =>
    have hq : 34 ∉ t := by simpa [Piece.valid] using hp
    have h34 : str_contains PARSE_SPLIT_STRING 34 = false := by decide
    simp only [Piece.render, if_true, List.cons_append, List.nil_append, List.append_assoc,
      split_quoted_loop, h34, Bool.false_eq_true, if_false]
    have hrun := split_quoted_run PARSE_SPLIT_STRING t (34 :: rest) [34] list hq
    simp only [List.append_eq, List.nil_append, List.append_assoc, List.singleton_append] at hrun ⊢
    rw [hrun]
    simp [split_quoted_loop, h34]

theorem split_push_piece (p : Piece) (list : StrList) (hp : p.valid = true) :
    split_push p.render list = list ++ [p.text] := by
  obtain ⟨q, t⟩ := p
  cases q with
  | false =>
    have hb : bare t = true := by simpa [Piece.valid] using hp
    simpa [Piece.render] using
      split_push_bare t list (bare_ne_nil t hb) (fun c hc => (bare_char t hb c hc).1)
  | true => simpa [Piece.render] using split_push_quoted t list

theorem split_layout (items : List (Piece × CStr)) (list : StrList)
    (h : layout_ok items = true) :
    split_quoted_loop PARSE_SPLIT_STRING SplitMode.skip (layout items) [] list =
      list ++ items.map (fun x => x.1.text) := by
  induction items generalizing list with
  | nil => simp [layout, split_quoted_loop, split_push]
  | cons x rest ih =>
    obtain ⟨p, sep⟩ := x
    simp only [layout_ok, Bool.and_eq_true, Bool.or_eq_true, decide_eq_true_eq,
      List.isEmpty_iff] at h
    obtain ⟨⟨⟨hp, hsep⟩, hne⟩, hrest⟩ := h
    have hws : ∀ c ∈ sep, str_contains PARSE_SPLIT_STRING c = true := by
      simpa [blank, List.all_eq_true] using hsep
    simp only [layout, List.append_assoc]
    rw [split_skip_piece p _ list hp]
    cases sep with
    | nil =>
      have hr : rest = [] := by
        rcases hne with h | h
        · exact absurd rfl h
        · exact h
      subst hr
      simp [layout, split_quoted_loop, split_push_piece p list hp]
    | cons d tr =>
      have hd := hws d (by simp)
      have hd34 : d ≠ 34 := by
        intro e; subst e; revert hd; decide
      simp only [List.cons_append, split_quoted_loop, hd34, hd, if_true, if_false,
        split_push_piece p list hp]
      have hb := split_skip_blank PARSE_SPLIT_STRING tr (layout rest) (list ++ [p.text])
        (fun c hc => hws c (by simp [hc]))
      simp only [List.append_eq] at hb ⊢
      rw [hb, ih _ hrest]
      simp

theorem split_quoted_plain (delim : CStr) (s : CStr) (hs : 34 ∉ s) :
    (∀ (tok : CStr) (list : StrList), 34 ∉ tok →
      split_quoted_loop delim SplitMode.scan s tok list = list ++ strtok_all delim s tok) ∧
    (∀ list : StrList,
      split_quoted_loop delim SplitMode.skip s [] list = list ++ strtok_all delim s []) := by
  have hpush : ∀ (tok : CStr) (list : StrList), 34 ∉ tok →
      split_push tok list = list ++ (if tok = [] then [] else [tok]) := by
    intro tok list ht
    by_cases he : tok = []
    · simp [he, split_push]
    · have := split_push_bare tok list he (fun c hc e => ht (e ▸ hc))
      simp [he, this]
  induction s with
  | nil =>
    refine ⟨fun tok list ht => ?_, fun list => ?_⟩
    · simp [split_quoted_loop, strtok_all, hpush tok list ht]
    · simp [split_quoted_loop, strtok_all, split_push]
  | cons c r ih =>
    have hc : c ≠ 34 := fun e => hs (by simp [e])
    have hr : 34 ∉ r := fun e => hs (by simp [e])
    obtain ⟨ih1, ih2⟩ := ih hr
    refine ⟨fun tok list ht => ?_, fun list => ?_⟩
    · by_cases hd : str_contains delim c = true
      · simp only [split_quoted_loop, hc, if_false, hd, if_true, strtok_all]
        rw [ih2, hpush tok list ht]
        by_cases he : tok = [] <;> simp [he]
      · simp only [split_quoted_loop, hc, if_false, hd, strtok_all, Bool.false_eq_true]
        exact ih1 _ _ (by simp [ht, Ne.symm hc])
    · by_cases hd : str_contains delim c = true
      · simp only [split_quoted_loop, hd, if_true, strtok_all]
        exact ih2 list
      · simp only [split_quoted_loop, hd, hc, if_false, strtok_all, Bool.false_eq_true]
        exact ih1 _ _ (by simp [Ne.symm hc])

/-! ## C17: the tokenizer on well-placed quotes -/

/-- Claim C17: on a text made of tokens separated by white space (leading and trailing white
    space allowed), each token either bare or a quoted span between two double quotes with no
    quote inside, `strlist_from_split_quoted` with the delimiters space, tab and newline
    returns the tokens in order, a quoted span as one token with its white space kept and its
    two quotes removed; on a text without a double quote it returns what `strlist_from_split`
    returns. -/
theorem strlist_from_split_quoted_tokens (lead : CStr) (items : List (Piece × CStr))
    (plain : CStr) (hlead : blank lead = true) (hitems : layout_ok items = true)
    (hplain : 34 ∉ plain) :
    strlist_from_split_quoted (lead ++ layout items) PARSE_SPLIT_STRING =
        items.map (fun x => x.1.text) ∧
      strlist_from_split_quoted plain PARSE_SPLIT_STRING =
        strlist_from_split plain PARSE_SPLIT_STRING := by
  constructor
  · unfold strlist_from_split_quoted
    rw [split_scan_eq_skip _ _ _ (by decide),
      split_skip_blank PARSE_SPLIT_STRING lead _ _
        (by simpa [blank, List.all_eq_true] using hlead),
      split_layout items _ hitems]
    simp [strlist_empty]
  · unfold strlist_from_split_quoted strlist_from_split
    rw [(split_quoted_plain PARSE_SPLIT_STRING plain hplain).1 [] _ (by simp)]
    simp [strlist_empty]

set_option maxRecDepth 100000 in
/-- The text ` a "b  c"`, tab, `"" d "e"` has the five tokens `a`, `b  c`, the empty string,
    `d` and `e`; the quote-free text `  a b`, tab, newline, `c ` has the tokens `a`, `b`, `c`
    under both splitters. -/
theorem strlist_from_split_quoted_tokens_witness :
    (blank (cstr " ") = true ∧ layout_ok quoted_sample = true ∧ 34 ∉ cstr "  a b\t\nc ") ∧
    strlist_from_split_quoted (cstr " a \"b  c\"\t\"\" d \"e\"") PARSE_SPLIT_STRING =
      [cstr "a", cstr "b  c", [], cstr "d", cstr "e"] ∧
    strlist_from_split_quoted (cstr "  a b\t\nc ") PARSE_SPLIT_STRING =
      strlist_from_split (cstr "  a b\t\nc ") PARSE_SPLIT_STRING ∧
    strlist_from_split (cstr "  a b\t\nc ") PARSE_SPLIT_STRING = [cstr "a", cstr "b", cstr "c"] :=
  ⟨⟨by decide, by decide, by decide⟩,
   (strlist_from_split_quoted_tokens (cstr " ") quoted_sample (cstr "  a b\t\nc ")
      (by decide) (by decide) (by decide)).1,
   (strlist_from_split_quoted_tokens (cstr " ") quoted_sample (cstr "  a b\t\nc ")
      (by decide) (by decide) (by decide)).2,
   by decide⟩

/-! ## Lemmas: the CREATE parser on its tokens -/

theorem bare_append_char (tok : CStr) (c : Nat) (h : bare tok = true) (hc : bare [c] = true) :
    bare (tok ++ [c]) = true := by
  simp only [bare, Bool.and_eq_true, decide_eq_true_eq, List.all_eq_true, Bool.not_eq_true',
    List.mem_append, List.mem_singleton, ne_eq, List.append_eq_nil, List.cons_ne_self,
    and_false, not_false_eq_true, true_and, List.all_cons, List.all_nil, Bool.and_true] at h hc ⊢
  intro x hx
  rcases hx with hx | hx
  · exact h.2 x hx
  · subst hx; exact hc

theorem bare_cons_char (tok : CStr) (c : Nat) (h : bare tok = true) (hc : bare [c] = true) :
    bare ([c] ++ tok) = true := by
  simp only [bare, Bool.and_eq_true, decide_eq_true_eq, List.all_eq_true, Bool.not_eq_true',
    List.mem_append, List.mem_singleton, ne_eq, List.append_eq_nil, List.cons_ne_self,
    false_and, not_false_eq_true, true_and, List.all_cons, List.all_nil, Bool.and_true] at h hc ⊢
  intro x hx
  rcases hx with hx | hx
  · subst hx; exact hc
  · exact h.2 x hx

theorem query_parse_create_loop_defs (defs : List (CStr × CStr)) (rest : List CStr)
    (hne : defs ≠ []) (hty : ∀ d ∈ defs, 44 ∉ d.2) :
    (∀ (c0 t0 : StrList), query_parse_create_loop (create_tokens defs ++ rest) (some c0) (some t0) =
      Except.ok (some (c0 ++ defs.map Prod.fst), some (t0 ++ defs.map Prod.snd), rest)) ∧
    query_parse_create_loop (create_tokens defs ++ rest) none none =
      Except.ok (some (defs.map Prod.fst), some (defs.map Prod.snd), rest) := by
  have hsome : ∀ (defs : List (CStr × CStr)), defs ≠ [] → (∀ d ∈ defs, 44 ∉ d.2) →
      ∀ (c0 t0 : StrList),
      query_parse_create_loop (create_tokens defs ++ rest) (some c0) (some t0) =
        Except.ok (some (c0 ++ defs.map Prod.fst), some (t0 ++ defs.map Prod.snd), rest) := by
    intro defs
    induction defs with
    | nil => intro h; exact absurd rfl h
    | cons d more ih =>
      intro _ hty c0 t0
      obtain ⟨c, ty⟩ := d
      have h44 : 44 ∉ ty := hty (c, ty) (by simp)
      cases more with
      | nil =>
        simp [create_tokens, query_parse_create_loop, ends_with_name ty h44, strlist_push]
      | cons e es =>
        have hlast : ends_with (ty ++ [44]) 44 = true := by simp [ends_with]
        simp only [create_tokens, List.cons_append, query_parse_create_loop, hlast,
          Bool.not_true, Bool.false_eq_true, if_false, if_true, List.dropLast_concat,
          strlist_push]
        have := ih (by simp) (fun x hx => hty x (by simp [hx])) (c0 ++ [c]) (t0 ++ [ty])
        simpa using this
  refine ⟨hsome defs hne hty, ?_⟩
  cases defs with
  | nil => exact absurd rfl hne
  | cons d more =>
    obtain ⟨c, ty⟩ := d
    have h44 : 44 ∉ ty := hty (c, ty) (by simp)
    cases more with
    | nil =>
      simp [create_tokens, query_parse_create_loop, ends_with_name ty h44, strlist_new]
    | cons e es =>
      have hlast : ends_with (ty ++ [44]) 44 = true := by simp [ends_with]
      simp only [create_tokens, List.cons_append, query_parse_create_loop, hlast,
        Bool.not_true, Bool.false_eq_true, if_false, if_true, List.dropLast_concat,
        strlist_new]
      have := hsome (e :: es) (by simp) (fun x hx => hty x (by simp [hx])) [c] [ty]
      simpa using this


theorem create_tokens_bare (defs : List (CStr × CStr))
    (h : ∀ d ∈ defs, bare d.1 = true ∧ bare d.2 = true ∧ 44 ∉ d.2) :
    ∀ tok ∈ create_tokens defs, bare tok = true := by
  induction defs with
  | nil => simp [create_tokens]
  | cons d more ih =>
    obtain ⟨c, ty⟩ := d
    have hd := h (c, ty) (by simp)
    have hm := ih (fun x hx => h x (by simp [hx]))
    cases more with
    | nil =>
      intro tok htok
      simp only [create_tokens, List.mem_cons, List.mem_singleton, List.not_mem_nil,
        or_false] at htok
      rcases htok with e | e <;> subst e
      · exact hd.1
      · exact hd.2.1
    | cons e es =>
      intro tok htok
      simp only [create_tokens, List.mem_cons] at htok
      rcases htok with e1 | e1 | e1
      · subst e1; exact hd.1
      · subst e1; exact bare_append_char ty 44 hd.2.1 (by decide)
      · exact hm tok (by simpa [create_tokens] using e1)

theorem close_last_bare (toks : List CStr) (h : ∀ tok ∈ toks, bare tok = true) :
    ∀ tok ∈ close_last toks, bare tok = true := by
  induction toks with
  | nil => simp [close_last]
  | cons a rest ih =>
    cases rest with
    | nil =>
      intro tok htok
      simp only [close_last, List.mem_singleton] at htok
      subst htok
      exact bare_append_char a 41 (h a (by simp)) (by decide)
    | cons b bs =>
      intro tok htok
      simp only [close_last, List.mem_cons] at htok
      rcases htok with e | e
      · rw [e]; exact h a (by simp)
      · exact ih (fun x hx => h x (by simp [hx])) tok (by simpa [close_last] using e)

theorem attached_bare (toks : List CStr) (h : ∀ tok ∈ toks, bare tok = true) :
    ∀ tok ∈ attached toks, bare tok = true := by
  cases toks with
  | nil => simp [attached]
  | cons a rest =>
    apply close_last_bare
    intro tok htok
    rcases List.mem_cons.1 htok with e | e
    · rw [e]; exact bare_cons_char a 40 (h a (by simp)) (by decide)
    · exact h tok (by simp [e])

theorem split_spaced_tokens (toks : List CStr) (hb : ∀ tok ∈ toks, bare tok = true) :
    strlist_from_split_quoted (spaced toks) PARSE_SPLIT_STRING = toks := by
  have := strlist_from_split_quoted_spaced toks [] hb (by decide)
  simpa using this

/-! ## C11: CREATE with separate and with attached parentheses -/

/-- Claim C11, as amended: for every table name and every non-empty list of bare column names
    and bare, comma-free type names, `CREATE TABLE t ( c1 ty1, ..., cn tyn )` with the
    parentheses as tokens of their own parses to the CREATE query with the names and the types
    in order, and `CREATE TABLE t (c1 ty1, ..., cn tyn)` with the parentheses attached to the
    first name and the last type is rejected with the message of the check for `(`. -/
theorem query_parse_create_forms (t : CStr) (defs : List (CStr × CStr)) (hne : defs ≠ [])
    (ht : bare t = true)
    (hdefs : ∀ d ∈ defs, bare d.1 = true ∧ bare d.2 = true ∧ 44 ∉ d.2) :
    query_parse (spaced (create_spaced_tokens t defs)) =
        Except.ok (QueryParseResult.ok
          (Query.QUERY_CREATE t (some (defs.map Prod.fst)) (some (defs.map Prod.snd)))) ∧
      query_parse (spaced (create_attached_tokens t defs)) =
        Except.ok (QueryParseResult.error "expected a '(' after the table name. Forgot a space?") := by
  have hct := create_tokens_bare defs hdefs
  constructor
  · have hb : ∀ tok ∈ create_spaced_tokens t defs, bare tok = true := by
      intro tok htok
      unfold create_spaced_tokens at htok
      rcases List.mem_append.1 htok with h | h
      · rcases List.mem_append.1 h with h | h
        · simp only [List.mem_cons, List.mem_singleton, List.not_mem_nil, or_false] at h
          rcases h with e | e | e | e
          · rw [e]; decide
          · rw [e]; decide
          · rw [e]; exact ht
          · rw [e]; decide
        · exact hct tok h
      · simp only [List.mem_singleton] at h
        rw [h]; decide
    have hloop := (query_parse_create_loop_defs defs [cstr ")"] hne
      (fun d hd => (hdefs d hd).2.2)).2
    unfold query_parse
    rw [split_spaced_tokens _ hb]
    have h1 : str_ieq (cstr "CREATE") (cstr "select") = false := by decide
    have h2 : str_ieq (cstr "CREATE") (cstr "create") = true := by decide
    have h3 : str_ieq (cstr "TABLE") (cstr "table") = true := by decide
    have h4 : str_ieq (cstr "(") (cstr "(") = true := by decide
    have h5 : str_ieq (cstr ")") (cstr ")") = true := by decide
    simp only [create_spaced_tokens, List.cons_append, List.nil_append, h1, h2, h3, h4,
      Bool.false_eq_true, if_false, if_true, query_parse_create, Bool.not_true, hloop, h5,
      pure, Except.pure]
  · have hb : ∀ tok ∈ create_attached_tokens t defs, bare tok = true := by
      intro tok htok
      unfold create_attached_tokens at htok
      rcases List.mem_append.1 htok with h | h
      · simp only [List.mem_cons, List.mem_singleton, List.not_mem_nil, or_false] at h
        rcases h with e | e | e
        · rw [e]; decide
        · rw [e]; decide
        · rw [e]; exact ht
      · exact attached_bare _ hct tok h
    obtain ⟨c, rest, hshape, hc⟩ : ∃ c rest, attached (create_tokens defs) = ([40] ++ c) :: rest ∧
        c ≠ [] := by
      cases defs with
      | nil => exact absurd rfl hne
      | cons d more =>
        obtain ⟨c, ty⟩ := d
        have hcb := bare_ne_nil c (hdefs (c, ty) (by simp)).1
        cases more with
        | nil => exact ⟨c, _, rfl, hcb⟩
        | cons e es => exact ⟨c, _, rfl, hcb⟩
    have hparen : str_ieq (40 :: c) (cstr "(") = false := by
      cases c with
      | nil => exact absurd rfl hc
      | cons x xs => simp [str_ieq, cstr]
    unfold query_parse
    rw [split_spaced_tokens _ hb]
    have h1 : str_ieq (cstr "CREATE") (cstr "select") = false := by decide
    have h2 : str_ieq (cstr "CREATE") (cstr "create") = true := by decide
    have h3 : str_ieq (cstr "TABLE") (cstr "table") = true := by decide
    simp only [create_attached_tokens, List.cons_append, List.nil_append, h1, h2, h3, hshape,
      Bool.false_eq_true, if_false, if_true, query_parse_create, Bool.not_true, hparen,
      Bool.not_false, pure, Except.pure]

set_option maxRecDepth 100000 in
/-- Counterexample to C11 as stated: the statement of Scenario A, with the parentheses attached,
    is not accepted. -/
theorem query_parse_create_attached_rejected :
    query_parse (cstr "CREATE TABLE t (name string, age int32)") =
      Except.ok (QueryParseResult.error "expected a '(' after the table name. Forgot a space?") ∧
    (QueryParseResult.error "expected a '(' after the table name. Forgot a space?").result =
      RESULT_ERR_SQL_PARSE := by
  refine ⟨by rfl, by rfl⟩

set_option maxRecDepth 100000 in
/-- Witness of C11 on the two columns of Scenario A. -/
theorem query_parse_create_forms_witness :
    ([(cstr "name", cstr "string"), (cstr "age", cstr "int32")] ≠ [] ∧ bare (cstr "t") = true ∧
      ∀ d ∈ [(cstr "name", cstr "string"), (cstr "age", cstr "int32")],
        bare d.1 = true ∧ bare d.2 = true ∧ 44 ∉ d.2) ∧
    query_parse (cstr "CREATE TABLE t ( name string, age int32 )") =
        Except.ok (QueryParseResult.ok
          (Query.QUERY_CREATE (cstr "t") (some [cstr "name", cstr "age"])
            (some [cstr "string", cstr "int32"]))) ∧
      query_parse (cstr "CREATE TABLE t (name string, age int32)") =
        Except.ok (QueryParseResult.error "expected a '(' after the table name. Forgot a space?") :=
  ⟨⟨by decide, by decide, by decide⟩,
   query_parse_create_forms (cstr "t") [(cstr "name", cstr "string"), (cstr "age", cstr "int32")]
    (by decide) (by decide) (by decide)⟩

/-! ## Lemmas: the bracketed value list -/

theorem literal_parts (v : CStr) (h : literal v = true) :
    bare v = true ∧ v ≠ [] ∧ 44 ∉ v ∧ 40 ∉ v ∧ 41 ∉ v := by
  simp only [literal, Bool.and_eq_true, decide_eq_true_eq] at h
  exact ⟨h.1.1.1, bare_ne_nil v h.1.1.1, h.1.1.2, h.1.2, h.2⟩

theorem list_tokens_cons (v : CStr) (ws : List CStr) :
    list_tokens (v :: ws) = (if ws = [] then v else v ++ [44]) :: list_tokens ws := by
  cases ws with
  | nil => simp [list_tokens]
  | cons w ws => simp [list_tokens]

theorem close_last_cons (a : CStr) (l : List CStr) (h : l ≠ []) :
    close_last (a :: l) = a :: close_last l := by
  cases l with
  | nil => exact absurd rfl h
  | cons b bs => simp [close_last]

theorem list_tokens_ne_nil (vs : List CStr) (h : vs ≠ []) : list_tokens vs ≠ [] := by
  cases vs with
  | nil => exact absurd rfl h
  | cons v ws => simp [list_tokens_cons]

theorem ends_with_not_mem (v : CStr) (c : Nat) (h : c ∉ v) : ends_with v c = false := by
  simp only [ends_with, decide_eq_false_iff_not]
  intro hl
  exact h (List.mem_of_getLast?_eq_some hl)

theorem strlist_merge_single (final : StrList) (v : CStr) :
    strlist_merge final [v] = final ++ [v] := by
  unfold strlist_merge
  by_cases hf : final = [] <;> simp [hf]

theorem strlist_merge_nil (final : StrList) : strlist_merge final [] = final := by
  unfold strlist_merge
  by_cases hf : final = [] <;> simp [hf]

theorem extract_sql_list_loop_closed (vs : List CStr) (rest : List CStr) (final : StrList)
    (hne : vs ≠ []) (hvs : ∀ v ∈ vs, literal v = true) :
    extract_sql_list_loop (some (40, 41)) (close_last (list_tokens vs) ++ rest) final =
      Except.ok (ListParseResult.ok (final ++ vs) rest) := by
  induction vs generalizing final with
  | nil => exact absurd rfl hne
  | cons v ws ih =>
    obtain ⟨_, hv0, hv44, _, hv41⟩ := literal_parts v (hvs v (by simp))
    cases ws with
    | nil =>
      have hl : ends_with (v ++ [41]) 41 = true := by simp [ends_with]
      simp [list_tokens, close_last, extract_sql_list_loop, hl, split_name v hv0 hv44,
        strlist_merge_single, pure, Except.pure]
    | cons w ws =>
      have hl : ends_with (v ++ [44]) 41 = false := by simp [ends_with]
      have hcl : close_last (list_tokens (v :: w :: ws)) =
          (v ++ [44]) :: close_last (list_tokens (w :: ws)) := by
        rw [list_tokens_cons, close_last_cons _ _ (list_tokens_ne_nil _ (by simp))]
        simp
      rw [hcl]
      simp only [List.cons_append, extract_sql_list_loop, hl, Bool.false_eq_true, if_false,
        split_name_comma v hv0 hv44, strlist_merge_single]
      have := ih (final ++ [v]) (by simp) (fun x hx => hvs x (by simp [hx]))
      simpa using this

theorem extract_sql_list_loop_open (vs : List CStr) (rest : List CStr) (final : StrList)
    (hvs : ∀ v ∈ vs, literal v = true) :
    extract_sql_list_loop (some (40, 41)) (list_tokens vs ++ ([41] :: rest)) final =
      Except.ok (ListParseResult.ok (final ++ vs) rest) := by
  induction vs generalizing final with
  | nil =>
    have hl : ends_with [41] 41 = true := by decide
    have hs : strlist_from_split [] [44] = [] := by decide
    simp [list_tokens, extract_sql_list_loop, hl, hs, strlist_merge_nil, pure, Except.pure]
  | cons v ws ih =>
    obtain ⟨_, hv0, hv44, _, hv41⟩ := literal_parts v (hvs v (by simp))
    have hrec := ih (final ++ [v]) (fun x hx => hvs x (by simp [hx]))
    rw [list_tokens_cons]
    by_cases hws : ws = []
    · simp only [hws, if_true, List.cons_append, extract_sql_list_loop,
        ends_with_not_mem v 41 hv41, Bool.false_eq_true, if_false, split_name v hv0 hv44,
        strlist_merge_single]
      simpa [hws] using hrec
    · have hl : ends_with (v ++ [44]) 41 = false := by simp [ends_with]
      simp only [hws, if_false, List.cons_append, extract_sql_list_loop, hl,
        Bool.false_eq_true, split_name_comma v hv0 hv44, strlist_merge_single]
      simpa using hrec

theorem strtok_comma_joined (vs : List CStr) (hvs : ∀ v ∈ vs, literal v = true) :
    strlist_from_split (comma_joined vs) [44] = vs := by
  unfold strlist_from_split
  induction vs with
  | nil => simp [comma_joined, strtok_all]
  | cons v ws ih =>
    obtain ⟨_, hv0, hv44, _, _⟩ := literal_parts v (hvs v (by simp))
    cases ws with
    | nil => simpa [comma_joined, strlist_from_split] using split_name v hv0 hv44
    | cons w ws =>
      have hrec := ih (fun x hx => hvs x (by simp [hx]))
      have hrun := strtok_run [44] v (44 :: comma_joined (w :: ws)) [] (comma_free v hv44)
      simp only [List.nil_append] at hrun
      simp only [comma_joined, List.append_assoc, List.singleton_append]
      rw [hrun]
      simp [strtok_all, str_contains, hv0, hrec]

theorem extract_sql_list_attached (vs : List CStr) (rest : List CStr) (hne : vs ≠ [])
    (hvs : ∀ v ∈ vs, literal v = true) :
    extract_sql_list (attached (list_tokens vs) ++ rest) (some (40, 41)) =
      Except.ok (ListParseResult.ok vs rest) := by
  cases vs with
  | nil => exact absurd rfl hne
  | cons v ws =>
    obtain ⟨_, hv0, hv44, _, hv41⟩ := literal_parts v (hvs v (by simp))
    cases ws with
    | nil =>
      have hl : ends_with (40 :: (v ++ [41])) 41 = true := by
        simp only [ends_with, decide_eq_true_eq]
        rw [← List.cons_append, List.getLast?_append]
        simp
      have hd : (40 :: (v ++ [41])).dropLast = 40 :: v := by
        rw [← List.cons_append, List.dropLast_concat]
      simp [list_tokens, attached, close_last, extract_sql_list, hl, hd,
        split_name v hv0 hv44, pure, Except.pure]
    | cons w ws =>
      have hl : ends_with (40 :: (v ++ [44])) 41 = false := by
        simp only [ends_with, decide_eq_false_iff_not]
        rw [← List.cons_append, List.getLast?_append]
        simp
      have hat : attached (list_tokens (v :: w :: ws)) =
          (40 :: (v ++ [44])) :: close_last (list_tokens (w :: ws)) := by
        rw [list_tokens_cons]
        simp only [attached, reduceCtorEq, if_false, List.singleton_append]
        rw [close_last_cons _ _ (list_tokens_ne_nil _ (by simp))]
      have hloop := extract_sql_list_loop_closed (w :: ws) rest [v] (by simp)
        (fun x hx => hvs x (by simp [hx]))
      rw [hat]
      simp only [List.cons_append, extract_sql_list, List.head?_cons, ne_eq, not_true_eq_false,
        if_false, hl, Bool.false_eq_true, List.drop_succ_cons, List.drop_zero,
        split_name_comma v hv0 hv44, hloop]
      simp

theorem extract_sql_list_spaced (vs : List CStr) (rest : List CStr)
    (hvs : ∀ v ∈ vs, literal v = true) :
    extract_sql_list ([40] :: (list_tokens vs ++ ([41] :: rest))) (some (40, 41)) =
      Except.ok (ListParseResult.ok vs rest) := by
  have hl : ends_with [40] 41 = false := by decide
  have hs : strlist_from_split [] [44] = [] := by decide
  have hloop := extract_sql_list_loop_open vs rest [] hvs
  simp only [extract_sql_list, List.head?_cons, ne_eq, not_true_eq_false, if_false, hl,
    Bool.false_eq_true, List.drop_succ_cons, List.drop_zero, hs, hloop]
  simp

theorem extract_sql_list_packed (vs : List CStr) (rest : List CStr)
    (hvs : ∀ v ∈ vs, literal v = true) :
    extract_sql_list (([40] ++ comma_joined vs ++ [41]) :: rest) (some (40, 41)) =
      Except.ok (ListParseResult.ok vs rest) := by
  have hl : ends_with ([40] ++ comma_joined vs ++ [41]) 41 = true := by
    simp only [ends_with, decide_eq_true_eq]
    rw [List.getLast?_append]
    simp
  have hd : ([40] ++ comma_joined vs ++ [41]).dropLast = 40 :: comma_joined vs := by
    rw [List.dropLast_concat]
    simp
  simp only [extract_sql_list, hl, if_true, hd, List.drop_succ_cons, List.drop_zero,
    strtok_comma_joined vs hvs, pure, Except.pure]
  simp

theorem bare_of_chars (tok : CStr) (hne : tok ≠ [])
    (h : ∀ c ∈ tok, c ≠ 34 ∧ str_contains PARSE_SPLIT_STRING c = false) : bare tok = true := by
  simp only [bare, Bool.and_eq_true, decide_eq_true_eq, List.all_eq_true, Bool.not_eq_true']
  exact ⟨hne, fun c hc => ⟨(h c hc).1, (h c hc).2⟩⟩

theorem list_tokens_bare (vs : List CStr) (h : ∀ v ∈ vs, bare v = true) :
    ∀ tok ∈ list_tokens vs, bare tok = true := by
  induction vs with
  | nil => simp [list_tokens]
  | cons v ws ih =>
    intro tok htok
    rw [list_tokens_cons] at htok
    rcases List.mem_cons.1 htok with e | e
    · rw [e]
      by_cases hws : ws = []
      · simpa [hws] using h v (by simp)
      · simpa [hws] using bare_append_char v 44 (h v (by simp)) (by decide)
    · exact ih (fun x hx => h x (by simp [hx])) tok e

theorem comma_joined_chars (vs : List CStr) (h : ∀ v ∈ vs, bare v = true) :
    ∀ c ∈ comma_joined vs, c ≠ 34 ∧ str_contains PARSE_SPLIT_STRING c = false := by
  induction vs with
  | nil => simp [comma_joined]
  | cons v ws ih =>
    have hv := bare_char v (h v (by simp))
    have hr := ih (fun x hx => h x (by simp [hx]))
    cases ws with
    | nil => simpa [comma_joined] using hv
    | cons w ws =>
      intro c hc
      simp only [comma_joined, List.append_assoc, List.mem_append, List.mem_singleton] at hc
      rcases hc with e | e | e
      · exact hv c e
      · subst e; decide
      · exact hr c e

theorem query_parse_insert_tokens (t : CStr) (list : List CStr) (vs : StrList)
    (hb : ∀ tok ∈ [cstr "INSERT", cstr "INTO", t, cstr "VALUES"] ++ list, bare tok = true)
    (hlist : extract_sql_list list (some (40, 41)) = Except.ok (ListParseResult.ok vs [])) :
    query_parse (spaced ([cstr "INSERT", cstr "INTO", t, cstr "VALUES"] ++ list)) =
      Except.ok (QueryParseResult.ok (Query.QUERY_INSERT t vs)) := by
  unfold query_parse
  rw [split_spaced_tokens _ hb]
  have h1 : str_ieq (cstr "INSERT") (cstr "select") = false := by decide
  have h2 : str_ieq (cstr "INSERT") (cstr "create") = false := by decide
  have h3 : str_ieq (cstr "INSERT") (cstr "insert") = true := by decide
  have h4 : str_ieq (cstr "INTO") (cstr "into") = true := by decide
  have h5 : str_ieq (cstr "VALUES") (cstr "values") = true := by decide
  simp only [List.cons_append, List.nil_append, h1, h2, h3, h4, h5, Bool.false_eq_true,
    if_false, if_true, query_parse_insert, Bool.not_true, hlist, bind, Except.bind, pure,
    Except.pure]

/-! ## C13: three spellings of a value list -/

/-- Claim C13: for every table name and every non-empty list of bare literals (no comma, quote,
    parenthesis or white space inside), `INSERT INTO t VALUES (v1, ..., vn)`,
    `INSERT INTO t VALUES ( v1, ..., vn )` and `INSERT INTO t VALUES (v1,...,vn)` are all
    accepted and all parse to the INSERT query on `t` with the values `v1 .. vn` in order. -/
theorem query_parse_insert_spellings (t : CStr) (vs : List CStr) (hne : vs ≠ [])
    (ht : bare t = true) (hvs : ∀ v ∈ vs, literal v = true) :
    query_parse (spaced (insert_attached_tokens t vs)) =
        Except.ok (QueryParseResult.ok (Query.QUERY_INSERT t vs)) ∧
      query_parse (spaced (insert_spaced_tokens t vs)) =
        Except.ok (QueryParseResult.ok (Query.QUERY_INSERT t vs)) ∧
      query_parse (spaced (insert_packed_tokens t vs)) =
        Except.ok (QueryParseResult.ok (Query.QUERY_INSERT t vs)) := by
  have hbv : ∀ v ∈ vs, bare v = true := fun v hv => (literal_parts v (hvs v hv)).1
  have hlt := list_tokens_bare vs hbv
  have hhead : ∀ (list : List CStr), (∀ tok ∈ list, bare tok = true) →
      ∀ tok ∈ [cstr "INSERT", cstr "INTO", t, cstr "VALUES"] ++ list, bare tok = true := by
    intro list hl tok htok
    rcases List.mem_append.1 htok with h | h
    · simp only [List.mem_cons, List.mem_singleton, List.not_mem_nil, or_false] at h
      rcases h with e | e | e | e
      · rw [e]; decide
      · rw [e]; decide
      · rw [e]; exact ht
      · rw [e]; decide
    · exact hl tok h
  refine ⟨?_, ?_, ?_⟩
  · have := extract_sql_list_attached vs [] hne hvs
    rw [List.append_nil] at this
    exact query_parse_insert_tokens t _ vs (hhead _ (attached_bare _ hlt)) this
  · have hl := extract_sql_list_spaced vs [] hvs
    have hshape : insert_spaced_tokens t vs =
        [cstr "INSERT", cstr "INTO", t, cstr "VALUES"] ++ ([40] :: (list_tokens vs ++ [[41]])) := by
      simp [insert_spaced_tokens, cstr]
    rw [hshape]
    refine query_parse_insert_tokens t _ vs (hhead _ ?_) hl
    intro tok htok
    rcases List.mem_cons.1 htok with e | e
    · rw [e]; decide
    · rcases List.mem_append.1 e with e | e
      · exact hlt tok e
      · simp only [List.mem_singleton] at e
        rw [e]; decide
  · have hl := extract_sql_list_packed vs [] hvs
    refine query_parse_insert_tokens t _ vs (hhead _ ?_) hl
    intro tok htok
    simp only [List.mem_singleton] at htok
    rw [htok]
    refine bare_of_chars _ (by simp) ?_
    intro c hc
    simp only [List.append_assoc, List.mem_append, List.mem_singleton] at hc
    rcases hc with e | e | e
    · subst e; decide
    · exact comma_joined_chars vs hbv c e
    · subst e; decide

set_option maxRecDepth 100000 in
/-- Witness of C13 on the values `alice`, `30`. -/
theorem query_parse_insert_spellings_witness :
    ([cstr "alice", cstr "30"] ≠ [] ∧ bare (cstr "t") = true ∧
      ∀ v ∈ [cstr "alice", cstr "30"], literal v = true) ∧
    query_parse (cstr "INSERT INTO t VALUES (alice, 30)") =
        Except.ok (QueryParseResult.ok (Query.QUERY_INSERT (cstr "t") [cstr "alice", cstr "30"])) ∧
      query_parse (cstr "INSERT INTO t VALUES ( alice, 30 )") =
        Except.ok (QueryParseResult.ok (Query.QUERY_INSERT (cstr "t") [cstr "alice", cstr "30"])) ∧
      query_parse (cstr "INSERT INTO t VALUES (alice,30)") =
        Except.ok (QueryParseResult.ok (Query.QUERY_INSERT (cstr "t") [cstr "alice", cstr "30"])) :=
  ⟨⟨by decide, by decide, by decide⟩,
   query_parse_insert_spellings (cstr "t") [cstr "alice", cstr "30"] (by decide) (by decide)
     (by decide)⟩

/-! ## Lemmas: the clauses of a SELECT in both orders -/

theorem str_ieq_common (a b c : CStr) (h1 : str_ieq a b = true) (h2 : str_ieq a c = true) :
    str_ieq b c = true := by
  induction a generalizing b c with
  | nil =>
    cases b with
    | nil => cases c with
      | nil => rfl
      | cons z zs => simp [str_ieq] at h2
    | cons y ys => simp [str_ieq] at h1
  | cons x xs ih =>
    cases b with
    | nil => simp [str_ieq] at h1
    | cons y ys =>
      cases c with
      | nil => simp [str_ieq] at h2
      | cons z zs =>
        simp only [str_ieq, ne_eq, ite_not, Bool.if_false_right, Bool.and_eq_true,
          decide_eq_true_eq] at h1 h2 ⊢
        exact ⟨h1.1.symm.trans h2.1, ih ys zs h1.2 h2.2⟩

theorem order_not_where (tok : CStr) (h : str_ieq tok (cstr "ORDER") = true) :
    str_ieq tok (cstr "WHERE") = false := by
  cases hx : str_ieq tok (cstr "WHERE")
  · rfl
  · have := str_ieq_common _ _ _ h hx
    revert this; decide

theorem where_filters_ne_nil (first : PredText) (more : List (CStr × PredText)) :
    where_filters first more ≠ [] := by
  cases more with
  | nil => simp [where_filters]
  | cons p ps => obtain ⟨r, q⟩ := p; simp [where_filters]

theorem query_parse_select_columns (cols : List CStr) (rest : List CStr) (hne : cols ≠ [])
    (hc : ∀ c ∈ cols, c ≠ [] ∧ 44 ∉ c) :
    query_parse_select (list_tokens cols ++ rest) =
      query_parse_select_from (if cols = [cstr "*"] then none else some cols) rest := by
  by_cases hstar : cols = [cstr "*"]
  · subst hstar
    have h0 : strcmp (cstr "*") (cstr "*") = 0 := by decide
    simp [list_tokens, query_parse_select, h0]
  · obtain ⟨tok, more, hlist, htok⟩ := list_tokens_head cols hne hstar hc
    have hcols := extract_sql_list_loop_names cols rest [] hne hc
    rw [hlist] at hcols ⊢
    simp only [List.cons_append, List.nil_append] at hcols ⊢
    simp only [query_parse_select, htok, if_false, extract_sql_list, strlist_empty, hcols, bind,
      Except.bind, hstar]

theorem select_where_then_order (sel : Option StrList) (s : SelectText) (hs : s.clauses_ok) :
    query_parse_select_from sel
        ([s.kw_from, s.table, s.kw_where] ++ where_tokens s.first s.more ++
          [s.kw_order, s.kw_by, s.sort_column, s.direction]) =
      Except.ok (QueryParseResult.ok
        (Query.QUERY_SELECT s.table (where_filters s.first s.more) sel (some s.sort_column)
          (sortdirection_from_str s.direction))) := by
  obtain ⟨_, hfrom, hwhere, horder, hby, _, _, _, hop, hmore, hdir⟩ := hs
  have hfilters := parse_filters_chain s.first s.more
    [s.kw_order, s.kw_by, s.sort_column, s.direction] hop hmore
    (by intro x hx; simp at hx; subst hx; exact order_not_relation _ horder)
  have hord : try_parse_order [s.kw_order, s.kw_by, s.sort_column, s.direction] =
      ({ result := RESULT_OK, direction := sortdirection_from_str s.direction,
         column := some s.sort_column }, []) := by
    simp [try_parse_order, horder, hby]
  have hwf := where_filters_ne_nil s.first s.more
  simp only [List.cons_append, List.nil_append, query_parse_select_from, hfrom, Bool.not_true,
    Bool.false_eq_true, if_false, List.length_cons, query_parse_select_loop, try_parse_where,
    hwhere, hfilters, bind, Except.bind, pure, Except.pure, hord, hwf, hdir, ne_eq,
    not_false_eq_true, if_true]
  cases hlen : (where_tokens s.first s.more ++
      [s.kw_order, s.kw_by, s.sort_column, s.direction]).length <;>
    simp [query_parse_select_loop, SelectState.query, pure, Except.pure]

theorem select_order_then_where (sel : Option StrList) (s : SelectText) (hs : s.clauses_ok) :
    query_parse_select_from sel
        ([s.kw_from, s.table, s.kw_order, s.kw_by, s.sort_column, s.direction, s.kw_where] ++
          where_tokens s.first s.more) =
      Except.ok (QueryParseResult.ok
        (Query.QUERY_SELECT s.table (where_filters s.first s.more) sel (some s.sort_column)
          (sortdirection_from_str s.direction))) := by
  obtain ⟨_, hfrom, hwhere, horder, hby, _, _, _, hop, hmore, hdir⟩ := hs
  have hfilters := parse_filters_chain s.first s.more [] hop hmore (by simp)
  rw [List.append_nil] at hfilters
  have hnw := order_not_where _ horder
  have hord : try_parse_order
      (s.kw_order :: s.kw_by :: s.sort_column :: s.direction :: s.kw_where ::
        where_tokens s.first s.more) =
      ({ result := RESULT_OK, direction := sortdirection_from_str s.direction,
         column := some s.sort_column }, s.kw_where :: where_tokens s.first s.more) := by
    simp [try_parse_order, horder, hby]
  have hnone : try_parse_order [] =
      ({ result := RESULT_ERR_SQL_PARSE, direction := SORT_INVALID, column := none }, []) := by
    simp [try_parse_order]
  have hwf := where_filters_ne_nil s.first s.more
  simp only [List.cons_append, List.nil_append, query_parse_select_from, hfrom, Bool.not_true,
    Bool.false_eq_true, if_false, List.length_cons, query_parse_select_loop, try_parse_where,
    hwhere, hnw, Bool.not_false, if_true, hfilters, bind, Except.bind, pure, Except.pure, hord,
    hwf, hdir, ne_eq, not_true_eq_false, not_false_eq_true, hnone, reduceCtorEq]
  cases hlen : (where_tokens s.first s.more).length <;>
    simp [query_parse_select_loop, SelectState.query, pure, Except.pure]

/-! ## C16: WHERE and ORDER BY in either order -/

/-- Claim C16: for every table name, every column list (names, or `*`), every well-formed
    filter chain and every well-formed `ORDER BY c dir` clause, `query_parse` accepts the SELECT
    with the WHERE clause first and the SELECT with the ORDER BY clause first, and returns the
    same query for both: the same columns, the same filter chain, the same sort column and
    direction. -/
theorem query_parse_select_either_order (s : SelectText) (hs : s.clauses_ok) :
    query_parse (spaced s.tokens) = Except.ok (QueryParseResult.ok s.parsed) ∧
      query_parse (spaced s.tokens_order_first) = Except.ok (QueryParseResult.ok s.parsed) := by
  have hs0 := hs
  obtain ⟨hsel, _, _, _, _, hne, hnames, hbare, _, _, _⟩ := hs
  have hbare2 : ∀ tok ∈ s.tokens_order_first, bare tok = true := by
    intro tok htok
    apply hbare tok
    simp only [SelectText.tokens_order_first, SelectText.tokens, List.mem_append, List.mem_cons,
      List.mem_singleton, List.not_mem_nil, or_false] at htok ⊢
    tauto
  constructor
  · unfold query_parse
    rw [split_spaced_tokens _ hbare]
    have hcols := query_parse_select_columns s.columns
      ([s.kw_from, s.table, s.kw_where] ++ where_tokens s.first s.more ++
        [s.kw_order, s.kw_by, s.sort_column, s.direction]) hne hnames
    have hrun := select_where_then_order s.select_columns s hs0
    simp only [SelectText.tokens, List.cons_append, List.nil_append, List.append_assoc, hsel,
      if_true] at hcols hrun ⊢
    rw [hcols]
    exact hrun
  · unfold query_parse
    rw [split_spaced_tokens _ hbare2]
    have hcols := query_parse_select_columns s.columns
      ([s.kw_from, s.table, s.kw_order, s.kw_by, s.sort_column, s.direction, s.kw_where] ++
        where_tokens s.first s.more) hne hnames
    have hrun := select_order_then_where s.select_columns s hs0
    simp only [SelectText.tokens_order_first, List.cons_append, List.nil_append,
      List.append_assoc, hsel, if_true] at hcols hrun ⊢
    rw [hcols]
    exact hrun

set_option maxRecDepth 100000 in
/-- Witness of C16: `SELECT * FROM t WHERE b = 1 AND c = 2 ORDER BY a DESC` and
    `SELECT * FROM t ORDER BY a DESC WHERE b = 1 AND c = 2` parse to the same query. -/
theorem query_parse_select_either_order_witness :
    star_select.clauses_ok ∧
    query_parse (cstr "SELECT * FROM t WHERE b = 1 AND c = 2 ORDER BY a DESC") =
        Except.ok (QueryParseResult.ok
          (Query.QUERY_SELECT (cstr "t")
            [{ op := FILTER_EQUAL, value := cstr "1", column := cstr "b",
               next_relation := FILTER_REL_AND },
             { op := FILTER_EQUAL, value := cstr "2", column := cstr "c",
               next_relation := FILTER_REL_NONE }]
            none (some (cstr "a")) SORT_DESCENDING)) ∧
      query_parse (cstr "SELECT * FROM t ORDER BY a DESC WHERE b = 1 AND c = 2") =
        Except.ok (QueryParseResult.ok
          (Query.QUERY_SELECT (cstr "t")
            [{ op := FILTER_EQUAL, value := cstr "1", column := cstr "b",
               next_relation := FILTER_REL_AND },
             { op := FILTER_EQUAL, value := cstr "2", column := cstr "c",
               next_relation := FILTER_REL_NONE }]
            none (some (cstr "a")) SORT_DESCENDING)) :=
  ⟨by decide, query_parse_select_either_order star_select (by decide)⟩

/-! ## C12: a quoted literal inside a bracketed value list -/

set_option maxRecDepth 100000 in
/-- C12, at the failing input: the tokens of `INSERT INTO t VALUES ("alicia ann", 22)` after
    `VALUES` are `("alicia ann",` and `22)`, the quotes are not at the two ends of a token and
    stay; the value list is `"alicia ann"` with its quotes and `22`.  The stored name starts
    with a quote, and `SELECT * FROM t WHERE name like ali%` prints no row.  With blanks around
    the literal, `( "alicia ann" , 22 )`, the quotes are removed. -/
theorem query_parse_insert_quoted_attached :
    strlist_from_split_quoted (cstr "INSERT INTO t VALUES (\"alicia ann\", 22)")
        PARSE_SPLIT_STRING =
      [cstr "INSERT", cstr "INTO", cstr "t", cstr "VALUES", cstr "(\"alicia ann\",", cstr "22)"] ∧
    query_parse (cstr "INSERT INTO t VALUES (\"alicia ann\", 22)") =
      Except.ok (QueryParseResult.ok
        (Query.QUERY_INSERT (cstr "t") [cstr "\"alicia ann\"", cstr "22"])) ∧
    (do
      let db ← run_queries env_glibc quoted_script db_init
      let o ← do_query env_glibc db (cstr "SELECT * FROM t WHERE name like ali%")
      pure (live_slots db 1, o.result, o.out)) =
      Except.ok ([[[Slot.ptr (cstr "\"alicia ann\"")], [Slot.bits 22]]], RESULT_OK, []) ∧
    query_parse (cstr "INSERT INTO t VALUES ( \"alicia ann\" , 22 )") =
      Except.ok (QueryParseResult.ok
        (Query.QUERY_INSERT (cstr "t") [cstr "alicia ann", cstr "22"])) := by
  refine ⟨by rfl, by rfl, by rfl, by rfl⟩

/-! ## C14: the comma between two assignments of an UPDATE -/

set_option maxRecDepth 100000 in
/-- C14, at the failing input: `UPDATE sometable SET a = 5, b = 4 WHERE c = 7 OR d >= 10`
    parses to the columns `a`, `b` and the values `5,` and `4`: the comma that ends the first
    assignment is kept in its value.  Executed on the table of Scenario A,
    `UPDATE t SET name = x, age = 1` stores the name `x,`. -/
theorem query_parse_update_keeps_comma :
    query_parse (cstr "UPDATE sometable SET a = 5, b = 4 WHERE c = 7 OR d >= 10") =
      Except.ok (QueryParseResult.ok
        (Query.QUERY_UPDATE (cstr "sometable")
          [{ op := FILTER_EQUAL, value := cstr "7", column := cstr "c",
             next_relation := FILTER_REL_OR },
           { op := FILTER_GREATER_EQUAL, value := cstr "10", column := cstr "d",
             next_relation := FILTER_REL_NONE }]
          [cstr "a", cstr "b"] [cstr "5,", cstr "4"])) ∧
    (do_query env_glibc scenario_db (cstr "UPDATE t SET name = x, age = 1")).map
        (fun o => (o.result, live_slots o.db 3)) =
      Except.ok (RESULT_OK,
        [[[Slot.ptr (cstr "x,"), Slot.ptr (cstr "x,"), Slot.ptr (cstr "x,")],
          [Slot.bits 1, Slot.bits 1, Slot.bits 1]]]) := by
  refine ⟨by rfl, by rfl⟩

/-! ## C15: a trailing token that starts no clause -/

theorem select_loop_stuck (fuel : Nat) (q : SelectState) (tok : CStr) (rest : List CStr)
    (hw : str_ieq tok (cstr "WHERE") = false) (ho : str_ieq tok (cstr "ORDER") = false) :
    query_parse_select_loop fuel q (tok :: rest) = Except.error Fault.hang := by
  cases fuel with
  | zero => rfl
  | succ n =>
    simp [query_parse_select_loop, try_parse_where, try_parse_order, hw, ho, bind, Except.bind,
      pure, Except.pure, throw, throwThe, MonadExceptOf.throw]

set_option maxRecDepth 100000 in
/-- C15, at failing inputs: on `SELECT * FROM t foo`, on `SELECT * FROM t WHERE a = 1 foo` and
    on `SELECT * FROM t ORDER BY a ASC foo` the loop of `query_parse_select` is entered with
    the token `foo`, which neither clause reader consumes, and never left: `query_parse` does
    not return. -/
theorem query_parse_select_trailing_token :
    query_parse (cstr "SELECT * FROM t foo") = Except.error Fault.hang ∧
    query_parse (cstr "SELECT * FROM t WHERE a = 1 foo") = Except.error Fault.hang ∧
    query_parse (cstr "SELECT * FROM t ORDER BY a ASC foo") = Except.error Fault.hang ∧
    (∀ (q : SelectState) (rest : List CStr),
      try_parse_where (cstr "foo" :: rest) = Except.ok ([], cstr "foo" :: rest) ∧
      (try_parse_order (cstr "foo" :: rest)).1.result = RESULT_ERR_SQL_PARSE ∧
      (try_parse_order (cstr "foo" :: rest)).2 = cstr "foo" :: rest ∧
      query_parse_select_loop (rest.length + 1) q (cstr "foo" :: rest) =
        Except.error Fault.hang) := by
  refine ⟨by rfl, by rfl, by rfl, fun q rest => ⟨by rfl, by rfl, by rfl, ?_⟩⟩
  exact select_loop_stuck _ q _ rest (by decide) (by decide)

/-! ## Lemmas: LIKE -/

theorem like_matches_spec_self (s : CStr) : like_matches_spec s s = true := by
  induction s with
  | nil => rfl
  | cons c r ih =>
    by_cases h : c = 37
    · simp only [like_matches_spec, h, if_true, List.any_eq_true]
      exact ⟨r, by simp [List.tails], ih⟩
    · simp [like_matches_spec, h, ih]

theorem char_value_pos (env : CEnv) (c : Nat) (h0 : c ≠ 0)
    (h : env.char_signed = false ∨ c < 128) : 0 < char_value env c := by
  unfold char_value
  rcases h with h | h
  · simp only [h, Bool.false_and, Bool.false_eq_true, if_false]
    omega
  · have : ¬ c ≥ 128 := by omega
    simp only [this, decide_False, Bool.and_false, Bool.false_eq_true, if_false]
    omega

theorem filter_func_like_loop_prefix (env : CEnv) (s t : CStr)
    (hs : ∀ c ∈ s, c ≠ 37 ∧ c ≠ 95 ∧ c ≠ 0 ∧ (env.char_signed = false ∨ c < 128)) :
    filter_func_like_loop env (s ++ [37]) t = decide (s <+: t) := by
  induction s generalizing t with
  | nil =>
    cases t with
    | nil => simp [filter_func_like_loop, filter_func_like_end, char_value]
    | cons x r => simp [filter_func_like_loop]
  | cons c s ih =>
    obtain ⟨h37, h95, h0, hsg⟩ := hs c (by simp)
    have hrec := fun t => ih t (fun x hx => hs x (by simp [hx]))
    cases t with
    | nil =>
      have hpos := char_value_pos env c h0 hsg
      have hz : char_value env 0 = 0 := by simp [char_value]
      simp [filter_func_like_loop, filter_func_like_end, hz, hpos, h37]
    | cons x r =>
      rw [List.cons_append, filter_func_like_loop.eq_def]
      simp only [h37, h95, if_false]
      by_cases hx : x = c
      · subst hx
        simp [hrec r, List.cons_prefix_cons]
      · have hx2 : ¬ c = x := fun e => hx e.symm
        simp [hx, List.cons_prefix_cons, hx2]

/-! ## C18: LIKE against the wildcard semantics -/

set_option maxRecDepth 100000 in
/-- C18, at failing inputs: `abab` matches `%b` under the wildcard semantics, and
    `filter_func_like` returns false, on every C implementation: after `%` the function moves
    to the first `b` of the string and never tries a later one.  `a` does not match `a%b`, and
    the function returns true.  On the table holding `abab`, `%%` and `a`,
    `SELECT * FROM w WHERE s like %b` prints no row. -/
theorem filter_func_like_not_wildcard :
    like_matches_spec (cstr "%b") (cstr "abab") = true ∧
    (∀ env : CEnv, filter_func_like env BTYPE_STRING (Except.ok (Slot.ptr (cstr "abab")))
        (Needle.str (cstr "%b")) = Except.ok false) ∧
    like_matches_spec (cstr "a%b") (cstr "a") = false ∧
    (∀ env : CEnv, filter_func_like env BTYPE_STRING (Except.ok (Slot.ptr (cstr "a")))
        (Needle.str (cstr "a%b")) = Except.ok true) ∧
    (do
      let db ← run_queries env_glibc like_script db_init
      let o ← do_query env_glibc db (cstr "SELECT * FROM w WHERE s like %b")
      pure (live_slots db 3, o.result, o.out)) =
      Except.ok ([[[Slot.ptr (cstr "abab"), Slot.ptr (cstr "%%"), Slot.ptr (cstr "a")]]],
        RESULT_OK, []) := by
  refine ⟨by decide, ?_, by decide, ?_, by rfl⟩
  · intro env; rcases env with ⟨e, c⟩; cases e <;> cases c <;> rfl
  · intro env; rcases env with ⟨e, c⟩; cases e <;> cases c <;> rfl

/-! ## C19: LIKE with the string itself as the pattern -/

set_option maxRecDepth 100000 in
/-- C19, at the failing input: the string `%%` matches the pattern `%%` under the wildcard
    semantics, and `filter_func_like` returns false on every C implementation: the byte after
    the first `%` is compared as an ordinary byte, and the second `%` of the string is left
    over.  On the table holding `abab`, `%%` and `a`, `SELECT * FROM w WHERE s like %%` prints
    no row. -/
theorem filter_func_like_not_reflexive :
    like_matches_spec (cstr "%%") (cstr "%%") = true ∧
    (∀ env : CEnv, filter_func_like env BTYPE_STRING (Except.ok (Slot.ptr (cstr "%%")))
        (Needle.str (cstr "%%")) = Except.ok false) ∧
    (do
      let db ← run_queries env_glibc like_script db_init
      let o ← do_query env_glibc db (cstr "SELECT * FROM w WHERE s like %%")
      pure (o.result, o.out)) = Except.ok (RESULT_OK, []) := by
  refine ⟨by decide, ?_, by rfl⟩
  intro env; rcases env with ⟨e, c⟩; cases e <;> cases c <;> rfl

/-! ## C20: LIKE with a prefix pattern -/

set_option maxRecDepth 100000 in
/-- C20, at failing inputs: where plain `char` is signed, the string `a` matches the pattern
    made of `a`, the two bytes 0xC3 0xA9 and `%`, though it does not begin with those three
    bytes, and the empty string matches the byte 0x80 followed by `%`: the test after the loop
    adds the two bytes as `char`, and a byte above 0x7F makes the sum negative.  Where plain
    `char` is unsigned both results are false.  On the table holding `abab`, `%%` and `a` the
    SELECT with the first pattern prints the row `a`. -/
theorem filter_func_like_prefix_signed :
    filter_func_like env_glibc BTYPE_STRING (Except.ok (Slot.ptr (cstr "a")))
        (Needle.str [97, 195, 169, 37]) = Except.ok true ∧
    ¬ ([97, 195, 169] <+: cstr "a") ∧
    filter_func_like env_glibc BTYPE_STRING (Except.ok (Slot.ptr []))
        (Needle.str [128, 37]) = Except.ok true ∧
    filter_func_like env_unsigned BTYPE_STRING (Except.ok (Slot.ptr (cstr "a")))
        (Needle.str [97, 195, 169, 37]) = Except.ok false ∧
    filter_func_like env_unsigned BTYPE_STRING (Except.ok (Slot.ptr []))
        (Needle.str [128, 37]) = Except.ok false ∧
    (do
      let db ← run_queries env_glibc like_script db_init
      let o ← do_query env_glibc db (cstr "SELECT * FROM w WHERE s like " ++ [97, 195, 169, 37])
      pure (o.result, o.out)) = Except.ok (RESULT_OK, padded "a" ++ [10]) := by
  refine ⟨by rfl, by decide, by rfl, by rfl, by rfl, by rfl⟩

/-! ## C21: LIKE with a pattern of underscores -/

theorem filter_func_like_loop_underscores (env : CEnv) (n : Nat) (s : CStr)
    (hs : ∀ c ∈ s, c ≠ 0 ∧ (env.char_signed = false ∨ c < 128)) :
    filter_func_like_loop env (List.replicate n 95) s = decide (n = s.length) := by
  have hz : char_value env 0 = 0 := by simp [char_value]
  induction n generalizing s with
  | zero =>
    cases s with
    | nil => simp [filter_func_like_loop, filter_func_like_end, hz]
    | cons c r =>
      have hc := hs c (by simp)
      have hpos := char_value_pos env c hc.1 hc.2
      simp [filter_func_like_loop, filter_func_like_end, hz, hpos]
  | succ n ih =>
    cases s with
    | nil =>
      have h95 : char_value env 95 = 95 := by simp [char_value]
      simp [List.replicate_succ, filter_func_like_loop, filter_func_like_end, hz, h95]
    | cons c r =>
      rw [List.replicate_succ, filter_func_like_loop.eq_def]
      simp [ih r (fun x hx => hs x (by simp [hx]))]

set_option maxRecDepth 100000 in
/-- C21, at the failing input: where plain `char` is signed, the three-byte string
    0x61 0xC3 0xA9 matches the pattern of one underscore: the pattern ends with the string at
    the byte 0xC3, which is negative as a `char`, and the test after the loop lets it pass.
    Where plain `char` is unsigned the result is false, as it is for the two-byte string `ab`
    everywhere.  `SELECT * FROM u WHERE s like _` prints the row of the three-byte string. -/
theorem filter_func_like_underscore_signed :
    filter_func_like env_glibc BTYPE_STRING (Except.ok (Slot.ptr [97, 195, 169]))
        (Needle.str (cstr "_")) = Except.ok true ∧
    filter_func_like env_unsigned BTYPE_STRING (Except.ok (Slot.ptr [97, 195, 169]))
        (Needle.str (cstr "_")) = Except.ok false ∧
    (∀ env : CEnv, filter_func_like env BTYPE_STRING (Except.ok (Slot.ptr (cstr "ab")))
        (Needle.str (cstr "_")) = Except.ok false) ∧
    (do
      let db ← run_queries env_glibc accent_script db_init
      let o ← do_query env_glibc db (cstr "SELECT * FROM u WHERE s like _")
      pure (live_slots db 1, o.result, o.out)) =
      Except.ok ([[[Slot.ptr [97, 195, 169]]]], RESULT_OK,
        [97, 195, 169] ++ List.replicate 18 32 ++ [10]) := by
  refine ⟨by rfl, by rfl, ?_, by rfl⟩
  intro env; rcases env with ⟨e, c⟩; cases e <;> cases c <;> rfl

/-! ## C28: CREATE with an unknown type name -/

set_option maxRecDepth 100000 in
/-- C28, at the failing input: on the empty database `CREATE TABLE t ( a int32, b float )`
    returns `RESULT_INVALID_QUERY`, and the table `t` exists afterwards, without columns:
    `db_table_new` is the first thing `interpret_create` does, the type names are resolved
    after it.  A later `CREATE TABLE t ( a int32 )` returns OK and appends a second table `t`;
    `db_table_get` still finds the first one, and `INSERT INTO t VALUES (1)` reads the NULL
    `meta` of its empty column list. -/
theorem interpret_create_invalid_type_leaves_table :
    do_query env_glibc db_init (cstr "CREATE TABLE t ( a int32, b float )") =
      Except.ok { result := RESULT_INVALID_QUERY,
                  db := { tables := [itable_new 0 (cstr "t")], TABLE_ID := 1, COLUMN_ID := 0 },
                  out := [] } ∧
    db_table_get db_init (cstr "t") = { result := RESULT_TABLE_NOT_FOUND, meta := TableMeta.zero } ∧
    db_table_get { tables := [itable_new 0 (cstr "t")], TABLE_ID := 1, COLUMN_ID := 0 } (cstr "t") =
      { result := RESULT_OK, meta := { id := 0, name := cstr "t", row_count := 0 } } ∧
    (do
      let o ← do_query env_glibc db_init (cstr "CREATE TABLE t ( a int32, b float )")
      let o2 ← do_query env_glibc o.db (cstr "CREATE TABLE t ( a int32 )")
      pure (o2.result, o2.db.tables.map (fun (t : Table) => (t.meta, t.columns.map (fun c => c.meta))),
        db_table_get o2.db (cstr "t"))) =
      Except.ok (RESULT_OK,
        [({ id := 0, name := cstr "t", row_count := 0 }, []),
         ({ id := 1, name := cstr "t", row_count := 0 },
          [{ id := 0, name := cstr "a", type := BTYPE_INT32 }])],
        { result := RESULT_OK, meta := { id := 0, name := cstr "t", row_count := 0 } }) ∧
    (do
      let o ← do_query env_glibc db_init (cstr "CREATE TABLE t ( a int32, b float )")
      let o2 ← do_query env_glibc o.db (cstr "CREATE TABLE t ( a int32 )")
      do_query env_glibc o2.db (cstr "INSERT INTO t VALUES (1)")) =
      Except.error Fault.null_deref := by
  refine ⟨by rfl, by rfl, by rfl, by rfl, by rfl⟩

/-! ## C30: a filter literal that is no integer literal -/

set_option maxRecDepth 100000 in
/-- C30, at failing inputs: on the table of Scenario A (ages 30, 25, 40) the chain
    `age = 30abc` evaluates to OK with row 0 on every C implementation; `age = abc` evaluates
    to OK with no row where `strtoll` does not report `EINVAL`, and to
    `RESULT_FILTER_VALUE_TYPE` where it does.  `DELETE FROM t WHERE age = 30abc` returns OK and
    deletes the row with age 30. -/
theorem filter_interpret_invalid_literal :
    (∀ env : CEnv, filter_interpret env scenario_db scenario_table.meta
        [{ op := FILTER_EQUAL, value := cstr "30abc", column := cstr "age",
           next_relation := FILTER_REL_NONE }] =
      Except.ok { res := RESULT_OK, rows := [0] }) ∧
    filter_interpret env_glibc scenario_db scenario_table.meta
        [{ op := FILTER_EQUAL, value := cstr "abc", column := cstr "age",
           next_relation := FILTER_REL_NONE }] =
      Except.ok { res := RESULT_OK, rows := intlist_empty } ∧
    filter_interpret env_einval scenario_db scenario_table.meta
        [{ op := FILTER_EQUAL, value := cstr "abc", column := cstr "age",
           next_relation := FILTER_REL_NONE }] =
      Except.ok { res := RESULT_FILTER_VALUE_TYPE, rows := [] } ∧
    (do_query env_glibc scenario_db (cstr "SELECT * FROM t WHERE age = abc")).map
        (fun o => (o.result, o.out)) = Except.ok (RESULT_OK, []) ∧
    (do_query env_glibc scenario_db (cstr "DELETE FROM t WHERE age = 30abc")).map
        (fun o => (o.result, o.db.tables.map (fun (t : Table) => t.meta.row_count),
          live_slots o.db 2)) =
      Except.ok (RESULT_OK, [2],
        [[[Slot.ptr (cstr "bob"), Slot.ptr (cstr "alice")], [Slot.bits 25, Slot.bits 40]]]) := by
  refine ⟨?_, by rfl, by rfl, by rfl, by rfl⟩
  intro env; rcases env with ⟨e, c⟩; cases e <;> cases c <;> rfl

/-! ## C22: union and intersection of row-id lists -/

theorem nodup_foldl_union_step (l acc : List Int) (h : acc.Nodup) :
    (l.foldl union_step acc).Nodup := by
  induction l generalizing acc with
  | nil => exact h
  | cons v r ih =>
    simp only [List.foldl_cons, union_step]
    by_cases hv : v ∈ acc
    · simpa [hv] using ih acc h
    · simp only [hv, if_false]
      apply ih
      rw [List.nodup_append]
      refine ⟨h, by simp, ?_⟩
      intro x hx hy
      simp only [List.mem_singleton] at hy
      exact hv (hy ▸ hx)

theorem nodup_foldl_inter_step (right l acc : List Int) (h : acc.Nodup) :
    (l.foldl (inter_step right) acc).Nodup := by
  induction l generalizing acc with
  | nil => exact h
  | cons v r ih =>
    simp only [List.foldl_cons, inter_step]
    by_cases hv : v ∈ right ∧ v ∉ acc
    · rw [if_pos hv]
      apply ih
      rw [List.nodup_append]
      refine ⟨h, by simp, ?_⟩
      intro x hx hy
      simp only [List.mem_singleton] at hy
      exact hv.2 (hy ▸ hx)
    · rw [if_neg hv]
      exact ih acc h

/-- Claim C22: for all lists `a` and `b` of non-negative row ids (duplicates allowed, either
    possibly empty), held in two distinct list objects, `intlist_union` returns a list without
    duplicates whose elements are those of `a` or `b`, and `intlist_intersection` returns a list
    without duplicates whose elements are those of both.  Set-wise commutativity, the neutral
    and the absorbing empty list and `intersection(A, A') = A` are instances of the two
    membership statements. -/
theorem intlist_union_intersection_sets (a b : List Int) (ha : ∀ x ∈ a, 0 ≤ x)
    (hb : ∀ x ∈ b, 0 ≤ x) :
    ∃ u i : List Int,
      intlist_union false (intlist_of a) (intlist_of b) = some (intlist_of u) ∧
      intlist_values (intlist_of u) = u ∧ u.Nodup ∧ (∀ x, x ∈ u ↔ x ∈ a ∨ x ∈ b) ∧
      intlist_intersection false (intlist_of a) (intlist_of b) = some (intlist_of i) ∧
      intlist_values (intlist_of i) = i ∧ i.Nodup ∧ (∀ x, x ∈ i ↔ x ∈ a ∧ x ∈ b) := by
  have hna : NoNull a := by
    intro x hx e
    have := ha x hx
    rw [e] at this
    revert this; decide
  have hnb : NoNull b := by
    intro x hx e
    have := hb x hx
    rw [e] at this
    revert this; decide
  have hn : NoNull ([] : List Int) := fun x hx => absurd hx (List.not_mem_nil x)
  refine ⟨union_values a b, inter_values a b, intlist_union_of a b hna hnb, ?_, ?_, ?_,
    intlist_intersection_of a b hna hnb, ?_, ?_, ?_⟩
  · exact intlist_values_of _
      (NoNull_foldl_union_step b _ hnb (NoNull_foldl_union_step a [] hna hn))
  · exact nodup_foldl_union_step b _ (nodup_foldl_union_step a [] List.nodup_nil)
  · intro x
    simp [union_values, mem_foldl_union_step]
  · exact intlist_values_of _ (NoNull_foldl_inter_step b a [] hna hn)
  · exact nodup_foldl_inter_step b a [] List.nodup_nil
  · intro x
    simp [inter_values, mem_foldl_inter_step]

/-- Witness of C22 on `[1, 2, 2]` and `[2, 3]`: the union holds 1, 2, 3 and the intersection
    holds 2. -/
theorem intlist_union_intersection_sets_witness :
    ((∀ x ∈ [(1 : Int), 2, 2], 0 ≤ x) ∧ (∀ x ∈ [(2 : Int), 3], 0 ≤ x)) ∧
    intlist_union false [1, 2, 2] [2, 3] = some [1, 2, 3] ∧
    intlist_intersection false [1, 2, 2] [2, 3] = some [2] ∧
    intlist_union false [1, 2, 2] intlist_empty = some [1, 2] ∧
    intlist_intersection false [1, 2, 2] intlist_empty = some intlist_empty ∧
    ∃ u i : List Int,
      intlist_union false (intlist_of [1, 2, 2]) (intlist_of [2, 3]) = some (intlist_of u) ∧
      intlist_values (intlist_of u) = u ∧ u.Nodup ∧ (∀ x, x ∈ u ↔ x ∈ [(1 : Int), 2, 2] ∨ x ∈ [(2 : Int), 3]) ∧
      intlist_intersection false (intlist_of [1, 2, 2]) (intlist_of [2, 3]) = some (intlist_of i) ∧
      intlist_values (intlist_of i) = i ∧ i.Nodup ∧ (∀ x, x ∈ i ↔ x ∈ [(1 : Int), 2, 2] ∧ x ∈ [(2 : Int), 3]) :=
  ⟨⟨by decide, by decide⟩, by decide, by decide, by decide, by decide,
   intlist_union_intersection_sets [1, 2, 2] [2, 3] (by decide) (by decide)⟩

/-! ## C23: a second table of the same name -/

/-- The function `db_table_new` does not look at the names of the tables that exist: for every
    name it returns OK and appends a new, empty table with the next table id; a lookup by that
    name then still returns the table it returned before, and the new table only when there
    was none. -/
theorem db_table_new_appends (db : DataBase) (name : CStr) :
    db_table_new db name =
        ({ result := RESULT_OK, meta := { id := db.TABLE_ID, name := name, row_count := 0 } },
         { db with tables := db.tables ++ [itable_new db.TABLE_ID name],
                   TABLE_ID := db.TABLE_ID + 1 }) ∧
      (∀ t, idb_table_get db name = some t →
        idb_table_get (db_table_new db name).2 name = some t) ∧
      (idb_table_get db name = none →
        idb_table_get (db_table_new db name).2 name = some (itable_new db.TABLE_ID name)) := by
  refine ⟨rfl, ?_, ?_⟩
  · intro t ht
    simp only [db_table_new, idb_table_new, idb_table_get] at ht ⊢
    rw [List.find?_append, ht]
    rfl
  · intro ht
    simp only [db_table_new, idb_table_new, idb_table_get] at ht ⊢
    rw [List.find?_append, ht]
    have h0 : strcmp name name = 0 := (strcmp_eq_zero name name).2 rfl
    simp [itable_new, h0]

set_option maxRecDepth 100000 in
/-- C23 (refuted, a defect of the code): the database of Scenario A holds a table `t`;
    `db_table_new` with the name `t` returns OK, and so does `CREATE TABLE t ( x int32 )`, where
    the claim has an error and an unchanged database.  The database then holds two tables
    named `t`, with the ids 0 and 1; `db_table_get` goes on returning the first one, so no
    statement reaches the second: the SELECT after the CREATE prints the three rows of the
    first table.  The sibling `table_column_new` does refuse a name that is taken. -/
theorem db_table_new_duplicate_name :
    (db_table_get scenario_db (cstr "t")).result = RESULT_OK ∧
    (db_table_new scenario_db (cstr "t")).1 =
      { result := RESULT_OK, meta := { id := 1, name := cstr "t", row_count := 0 } } ∧
    (db_table_new scenario_db (cstr "t")).2.tables.map (fun (t : Table) => t.meta) =
      [{ id := 0, name := cstr "t", row_count := 3 }, { id := 1, name := cstr "t", row_count := 0 }] ∧
    (do_query env_glibc scenario_db (cstr "CREATE TABLE t ( x int32 )")).map
        (fun o => (o.result, o.db.tables.map (fun (t : Table) => t.meta))) =
      Except.ok (RESULT_OK,
        [{ id := 0, name := cstr "t", row_count := 3 }, { id := 1, name := cstr "t", row_count := 0 }]) ∧
    (db_table_get (db_table_new scenario_db (cstr "t")).2 (cstr "t")).meta =
      { id := 0, name := cstr "t", row_count := 3 } ∧
    (do
      let o ← do_query env_glibc scenario_db (cstr "CREATE TABLE t ( x int32 )")
      let r ← do_query env_glibc o.db (cstr "SELECT * FROM t")
      pure (r.result, r.out)) =
      Except.ok (RESULT_OK,
        unlines [padded "alice" ++ padded "30", padded "bob" ++ padded "25",
                 padded "alice" ++ padded "40"]) ∧
    table_column_new int_db 0 BTYPE_INT32 (cstr "a") = (RESULT_DUPLICATE_COLUMN_NAME, int_db) := by
  refine ⟨by rfl, by rfl, by rfl, by rfl, by rfl, by rfl, by rfl⟩

set_option maxRecDepth 100000 in
/-- The lookups by name before and after `db_table_new`, on the database of Scenario A and on
    the empty database. -/
theorem db_table_new_appends_witness :
    idb_table_get scenario_db (cstr "t") = some scenario_table ∧
    idb_table_get (db_table_new scenario_db (cstr "t")).2 (cstr "t") = some scenario_table ∧
    idb_table_get db_init (cstr "t") = none ∧
    idb_table_get (db_table_new db_init (cstr "t")).2 (cstr "t") = some (itable_new 0 (cstr "t")) :=
  ⟨by rfl, (db_table_new_appends scenario_db (cstr "t")).2.1 scenario_table (by rfl), by rfl,
   (db_table_new_appends db_init (cstr "t")).2.2 (by rfl)⟩

/-! ## C24: adding a column -/

theorem itable_column_find_isSome (t : Table) (name : CStr) :
    (itable_column_find t name).isSome = true ↔ ∃ c ∈ t.columns, c.meta.name = name := by
  simp only [itable_column_find, List.find?_isSome, decide_eq_true_eq, strcmp_eq_zero]

/-- Claim C24: for every table of the database, `table_column_new` returns
    `RESULT_TABLE_NOT_EMPTY` and changes nothing when the table has rows; returns
    `RESULT_DUPLICATE_COLUMN_NAME` and changes nothing when it has no rows and a column of that
    name; and otherwise returns OK, having appended as the last column one column with that
    name, that type and the next column id, whose buffer has `row_capacity` slots; column
    names that were distinct stay distinct. -/
theorem table_column_new_cases (db : DataBase) (t : Table) (type : BaseType) (name : CStr)
    (hget : idb_table_get_byid db t.meta.id = some t) :
    (0 < t.meta.row_count →
      table_column_new db t.meta.id type name = (RESULT_TABLE_NOT_EMPTY, db)) ∧
    (t.meta.row_count = 0 → name ∈ column_names t →
      table_column_new db t.meta.id type name = (RESULT_DUPLICATE_COLUMN_NAME, db)) ∧
    (t.meta.row_count = 0 → name ∉ column_names t →
      ∃ col : Column,
        table_column_new db t.meta.id type name =
          (RESULT_OK,
           { db_store db t.meta.id { t with columns := t.columns ++ [col] } with
             COLUMN_ID := db.COLUMN_ID + 1 }) ∧
        col.meta = { id := db.COLUMN_ID, name := name, type := type } ∧
        col.data.length = t.row_capacity ∧
        ((column_names t).Nodup →
          (column_names { t with columns := t.columns ++ [col] }).Nodup)) := by
  refine ⟨?_, ?_, ?_⟩
  · intro h
    simp [table_column_new, hget, itable_column_new, h, db_store_same db _ t hget]
  · intro h0 hname
    have hex : (itable_column_find t name).isSome = true := by
      rw [itable_column_find_isSome]
      simpa [column_names] using hname
    simp [table_column_new, hget, itable_column_new, h0, hex, db_store_same db _ t hget]
  · intro h0 hname
    have hex : (itable_column_find t name).isSome = false := by
      cases hx : (itable_column_find t name).isSome
      · rfl
      · rw [itable_column_find_isSome] at hx
        exact absurd (by simpa [column_names] using hx) hname
    refine ⟨icolumn_realloc_data (icolumn_new db.COLUMN_ID name type) t.row_capacity, ?_, rfl,
      ?_, ?_⟩
    · simp [table_column_new, hget, itable_column_new, h0, hex]
    · simp [icolumn_realloc_data, icolumn_new]
    · intro hn
      simp only [column_names, List.map_append, List.map_cons, List.map_nil] at hn hname ⊢
      rw [List.nodup_append]
      refine ⟨hn, by simp, ?_⟩
      intro x hx hy
      simp only [List.mem_singleton] at hy
      exact hname (by simpa [icolumn_realloc_data, icolumn_new, hy] using hx)

set_option maxRecDepth 100000 in
/-- Witness of C24: on the table of Scenario A, which has rows, a new column is refused; on the
    empty table with the column `a`, a second `a` is refused and `b` is appended. -/
theorem table_column_new_cases_witness :
    (idb_table_get_byid scenario_db scenario_table.meta.id = some scenario_table ∧
      0 < scenario_table.meta.row_count) ∧
    table_column_new scenario_db scenario_table.meta.id BTYPE_INT64 (cstr "z") =
      (RESULT_TABLE_NOT_EMPTY, scenario_db) ∧
    (idb_table_get_byid int_db int_table.meta.id = some int_table ∧
      int_table.meta.row_count = 0 ∧ cstr "a" ∈ column_names int_table ∧
      cstr "b" ∉ column_names int_table) ∧
    table_column_new int_db int_table.meta.id BTYPE_INT64 (cstr "a") =
      (RESULT_DUPLICATE_COLUMN_NAME, int_db) ∧
    (∃ col : Column,
      table_column_new int_db int_table.meta.id BTYPE_STRING (cstr "b") =
        (RESULT_OK,
         { db_store int_db int_table.meta.id
             { int_table with columns := int_table.columns ++ [col] } with
           COLUMN_ID := int_db.COLUMN_ID + 1 }) ∧
      col.meta = { id := int_db.COLUMN_ID, name := cstr "b", type := BTYPE_STRING } ∧
      col.data.length = int_table.row_capacity ∧
      ((column_names int_table).Nodup →
        (column_names { int_table with columns := int_table.columns ++ [col] }).Nodup)) :=
  ⟨⟨by rfl, by decide⟩,
   (table_column_new_cases scenario_db scenario_table BTYPE_INT64 (cstr "z") (by rfl)).1
     (by decide),
   ⟨by rfl, by rfl, by decide, by decide⟩,
   (table_column_new_cases int_db int_table BTYPE_INT64 (cstr "a") (by rfl)).2.1
     (by rfl) (by decide),
   (table_column_new_cases int_db int_table BTYPE_STRING (cstr "b") (by rfl)).2.2
     (by rfl) (by decide)⟩

/-! ## Lemmas: deleting a row -/

theorem shift_down_length (m idx : Nat) (d : List Slot) :
    (shift_down m idx d).length = d.length := by
  induction m generalizing idx d with
  | zero => rfl
  | succ m ih => simp [shift_down, ih]

theorem shift_down_get (m idx : Nat) (d : List Slot) (k : Nat) (h : idx + m < d.length) :
    (shift_down m idx d).get? k =
      if idx ≤ k ∧ k < idx + m then d.get? (k + 1) else d.get? k := by
  induction m generalizing idx d with
  | zero =>
    have : ¬ (idx ≤ k ∧ k < idx) := by omega
    simp [shift_down, this]
  | succ m ih =>
    have hlen : (d.set idx (d.getD (idx + 1) Slot.uninit)).length = d.length := by simp
    rw [shift_down, ih (idx + 1) _ (by rw [hlen]; omega)]
    by_cases hk : idx + 1 ≤ k ∧ k < idx + 1 + m
    · have h1 : idx ≤ k ∧ k < idx + (m + 1) := by omega
      have h2 : idx ≠ k + 1 := by omega
      simp only [hk, h1, and_self, if_true, List.get?_eq_getElem?]
      rw [List.getElem?_set_ne h2]
    · by_cases hki : k = idx
      · subst hki
        have h1 : k ≤ k ∧ k < k + (m + 1) := by omega
        have hlt : k < d.length := by omega
        have hlt1 : k + 1 < d.length := by omega
        simp only [hk, h1, and_self, if_true, if_false, List.get?_eq_getElem?]
        rw [List.getElem?_set_self hlt, List.getD_eq_getElem?_getD, List.getElem?_eq_getElem hlt1]
        rfl
      · have h1 : ¬ (idx ≤ k ∧ k < idx + (m + 1)) := by omega
        have h2 : idx ≠ k := fun e => hki e.symm
        simp only [hk, h1, if_false, List.get?_eq_getElem?]
        rw [List.getElem?_set_ne h2]

theorem icolumn_row_delete_loop_ok (m : Nat) (column : Column) (idx : Nat)
    (hty : column.meta.type ≠ BTYPE_INVALID) (h : idx + m < column.data.length) :
    icolumn_row_delete_loop m column idx =
      Except.ok { column with data := shift_down m idx column.data } := by
  induction m generalizing column idx with
  | zero => rfl
  | succ m ih =>
    have h1 : idx + 1 < column.data.length := by omega
    have h0 : idx < column.data.length := by omega
    have hget : column.data.get? (idx + 1) = some (column.data.getD (idx + 1) Slot.uninit) := by
      rw [List.get?_eq_getElem?, List.getD_eq_getElem?_getD, List.getElem?_eq_getElem h1]
      rfl
    simp only [icolumn_row_delete_loop, icolumn_row_get, hty, if_false, hget,
      icolumn_row_set_nocopy, icolumn_store, h0, if_true, bind, Except.bind, pure, Except.pure]
    have hrec := ih { column with data := column.data.set idx (column.data.getD (idx + 1) Slot.uninit) }
      (idx + 1) hty (by simp; omega)
    rw [hrec]
    simp [shift_down]

theorem icolumn_row_delete_ok (column : Column) (index size : Nat)
    (hty : column.meta.type ≠ BTYPE_INVALID) (hi : index < size)
    (hlen : size ≤ column.data.length)
    (hlive : ∀ s ∈ column.data.take size, slot_ok column.meta.type s = true) :
    icolumn_row_delete column index size =
      Except.ok { column with data := shift_down (size - 1 - index) index column.data } := by
  have hloop := icolumn_row_delete_loop_ok (size - 1 - index) column index hty (by omega)
  unfold icolumn_row_delete
  by_cases hs : column.meta.type = BTYPE_STRING
  · have h0 : index < column.data.length := by omega
    have hmem : column.data.getD index Slot.uninit ∈ column.data.take size := by
      rw [List.getD_eq_getElem?_getD, List.getElem?_eq_getElem h0]
      simp only [Option.getD_some]
      rw [List.mem_take_iff_getElem]
      exact ⟨index, by simp; omega, rfl⟩
    have hok := hlive _ hmem
    have hget : column.data.get? index = some (column.data.getD index Slot.uninit) := by
      rw [List.get?_eq_getElem?, List.getD_eq_getElem?_getD, List.getElem?_eq_getElem h0]
      rfl
    rw [hs] at hok
    cases hv : column.data.getD index Slot.uninit with
    | bits v => rw [hv] at hok; simp [slot_ok] at hok
    | uninit => rw [hv] at hok; simp [slot_ok] at hok
    | ptr p =>
      rw [hv] at hget
      simp only [hs, if_true, icolumn_row_get, reduceCtorEq, if_false, hget, bind, Except.bind,
        pure, Except.pure]
      exact hloop
  · simp only [hs, if_false, bind, Except.bind, pure, Except.pure]
    exact hloop

theorem itable_row_delete_columns_ok (index size : Nat) (cols : List Column) (hi : index < size)
    (h : ∀ c ∈ cols, c.meta.type ≠ BTYPE_INVALID ∧ size ≤ c.data.length ∧
      ∀ s ∈ c.data.take size, slot_ok c.meta.type s = true) :
    itable_row_delete_columns index size cols =
      Except.ok (cols.map
        (fun c => { c with data := shift_down (size - 1 - index) index c.data })) := by
  induction cols with
  | nil => rfl
  | cons c rest ih =>
    obtain ⟨hty, hlen, hlive⟩ := h c (by simp)
    simp [itable_row_delete_columns, icolumn_row_delete_ok c index size hty hi hlen hlive,
      ih (fun x hx => h x (by simp [hx])), bind, Except.bind, pure, Except.pure]

theorem table_row_delete_eq (db : DataBase) (t : Table) (i : Nat)
    (hget : idb_table_get_byid db t.meta.id = some t) (hwf : table_wf t)
    (hi : i < t.meta.row_count) :
    table_row_delete db t.meta.id i = Except.ok (RESULT_OK, db_store db t.meta.id (row_deleted t i)) := by
  obtain ⟨_, hcap, hcols⟩ := hwf
  have hc := itable_row_delete_columns_ok i t.meta.row_count t.columns hi
    (fun c hc => ⟨(hcols c hc).1, by rw [(hcols c hc).2.1]; omega, (hcols c hc).2.2⟩)
  have hge : ¬ i ≥ t.meta.row_count := by omega
  simp [table_row_delete, hget, itable_row_delete, hge, hc, row_deleted, bind, Except.bind, pure,
    Except.pure]

theorem table_row_delete_out_of_bounds (db : DataBase) (t : Table) (i : Nat)
    (hget : idb_table_get_byid db t.meta.id = some t) (hi : t.meta.row_count ≤ i) :
    table_row_delete db t.meta.id i = Except.ok (RESULT_INDEX_OUT_OF_BOUNDS, db) := by
  have hge : i ≥ t.meta.row_count := hi
  simp [table_row_delete, hget, itable_row_delete, hge, db_store_same db _ t hget, bind,
    Except.bind, pure, Except.pure]

theorem row_deleted_wf (t : Table) (i : Nat) (hwf : table_wf t) (hi : i < t.meta.row_count) :
    table_wf (row_deleted t i) := by
  obtain ⟨hn, hcap, hcols⟩ := hwf
  refine ⟨?_, ?_, ?_⟩
  · simpa [row_deleted, List.map_map, Function.comp_def] using hn
  · simp only [row_deleted]
    omega
  · intro c hc
    simp only [row_deleted, List.mem_map] at hc
    obtain ⟨c0, hc0, rfl⟩ := hc
    obtain ⟨hty, hlen, hlive⟩ := hcols c0 hc0
    refine ⟨hty, by simp [row_deleted, shift_down_length, hlen], ?_⟩
    intro s hs
    simp only [row_deleted] at hs
    rw [List.mem_take_iff_getElem] at hs
    obtain ⟨k, hk, hks⟩ := hs
    simp only [shift_down_length, lt_min_iff] at hk
    have hg := shift_down_get (t.meta.row_count - 1 - i) i c0.data k (by omega)
    rw [List.get?_eq_getElem?, List.getElem?_eq_getElem (by rw [shift_down_length]; omega),
      hks] at hg
    apply hlive
    rw [List.mem_take_iff_getElem]
    by_cases hr : i ≤ k ∧ k < i + (t.meta.row_count - 1 - i)
    · rw [if_pos hr, List.get?_eq_getElem?, List.getElem?_eq_getElem (by omega)] at hg
      exact ⟨k + 1, by simp; omega, (Option.some.inj hg).symm⟩
    · rw [if_neg hr, List.get?_eq_getElem?, List.getElem?_eq_getElem (by omega)] at hg
      exact ⟨k, by simp; omega, (Option.some.inj hg).symm⟩

theorem forall₂_same (R : Column → Column → Prop) (l : List Column) (h : ∀ c ∈ l, R c c) :
    List.Forall₂ R l l := by
  induction l with
  | nil => exact List.Forall₂.nil
  | cons c r ih =>
    exact List.Forall₂.cons (h c (by simp)) (ih (fun x hx => h x (by simp [hx])))

/-! ## C25: deleting a row -/

/-- Claim C25: for every table of the database that satisfies the invariant of the store and
    has `n` rows, `table_row_delete` with an index `i >= n` returns
    `RESULT_INDEX_OUT_OF_BOUNDS` and leaves the database as it is; with `i < n` it returns OK,
    the row count becomes `n - 1`, name, id, capacity and column metadata stay, and in every
    column the slot of row `k < n - 1` is the old slot of row `k` when `k < i` and the old
    slot of row `k + 1` otherwise. -/
theorem table_row_delete_shifts (db : DataBase) (t : Table) (i : Nat)
    (hget : idb_table_get_byid db t.meta.id = some t) (hwf : table_wf t) :
    (t.meta.row_count ≤ i →
      table_row_delete db t.meta.id i = Except.ok (RESULT_INDEX_OUT_OF_BOUNDS, db)) ∧
    (i < t.meta.row_count →
      ∃ t' : Table,
        table_row_delete db t.meta.id i = Except.ok (RESULT_OK, db_store db t.meta.id t') ∧
        t'.meta = { t.meta with row_count := t.meta.row_count - 1 } ∧
        t'.row_capacity = t.row_capacity ∧
        List.Forall₂ (fun c' c => c'.meta = c.meta ∧
          ∀ k, k < t.meta.row_count - 1 →
            c'.data.get? k = if k < i then c.data.get? k else c.data.get? (k + 1))
          t'.columns t.columns) := by
  refine ⟨table_row_delete_out_of_bounds db t i hget, ?_⟩
  intro hi
  refine ⟨row_deleted t i, table_row_delete_eq db t i hget hwf hi, rfl, rfl, ?_⟩
  simp only [row_deleted]
  rw [List.forall₂_map_left_iff]
  apply forall₂_same
  intro c hc
  refine ⟨rfl, ?_⟩
  intro k hk
  have hlen := (hwf.2.2 c hc).2.1
  have hcap := hwf.2.1
  rw [shift_down_get _ _ _ _ (by omega)]
  by_cases hki : k < i
  · have : ¬ (i ≤ k ∧ k < i + (t.meta.row_count - 1 - i)) := by omega
    simp [this, hki]
  · have : i ≤ k ∧ k < i + (t.meta.row_count - 1 - i) := by omega
    simp [this, hki]

set_option maxRecDepth 100000 in
/-- Witness of C25 on the table of Scenario A (alice 30, bob 25, alice 40): deleting row 3 is
    refused, deleting row 0 leaves bob 25, alice 40. -/
theorem table_row_delete_shifts_witness :
    (idb_table_get_byid scenario_db scenario_table.meta.id = some scenario_table ∧
      table_wf scenario_table) ∧
    table_row_delete scenario_db 0 3 = Except.ok (RESULT_INDEX_OUT_OF_BOUNDS, scenario_db) ∧
    (table_row_delete scenario_db 0 0).map (fun r => (r.1, live_slots r.2 2,
        r.2.tables.map (fun (t : Table) => t.meta.row_count))) =
      Except.ok (RESULT_OK,
        [[[Slot.ptr (cstr "bob"), Slot.ptr (cstr "alice")], [Slot.bits 25, Slot.bits 40]]], [2]) ∧
    (∃ t' : Table,
      table_row_delete scenario_db scenario_table.meta.id 0 =
        Except.ok (RESULT_OK, db_store scenario_db scenario_table.meta.id t') ∧
      t'.meta = { scenario_table.meta with row_count := scenario_table.meta.row_count - 1 } ∧
      t'.row_capacity = scenario_table.row_capacity ∧
      List.Forall₂ (fun c' c => c'.meta = c.meta ∧
        ∀ k, k < scenario_table.meta.row_count - 1 →
          c'.data.get? k = if k < 0 then c.data.get? k else c.data.get? (k + 1))
        t'.columns scenario_table.columns) :=
  ⟨⟨by rfl, by decide⟩,
   (table_row_delete_shifts scenario_db scenario_table 3 (by rfl) (by decide)).1 (by decide),
   by rfl,
   (table_row_delete_shifts scenario_db scenario_table 0 (by rfl) (by decide)).2 (by decide)⟩

/-! ## Lemmas: DELETE without WHERE -/

theorem rows_dropped_props (n : Nat) (t : Table) (hwf : table_wf t) (hn : n ≤ t.meta.row_count) :
    (rows_dropped n t).meta = { t.meta with row_count := t.meta.row_count - n } ∧
    (rows_dropped n t).row_capacity = t.row_capacity ∧
    (rows_dropped n t).columns.map (fun c => c.meta) = t.columns.map (fun c => c.meta) ∧
    table_wf (rows_dropped n t) := by
  induction n generalizing t with
  | zero => exact ⟨rfl, rfl, rfl, hwf⟩
  | succ n ih =>
    have hw1 := row_deleted_wf t 0 hwf (by omega)
    obtain ⟨h1, h2, h3, h4⟩ := ih (row_deleted t 0) hw1 (by simp only [row_deleted]; omega)
    refine ⟨?_, ?_, ?_, h4⟩
    · rw [rows_dropped, h1]
      simp only [row_deleted, TableMeta.mk.injEq, true_and]
      omega
    · rw [rows_dropped, h2]; rfl
    · rw [rows_dropped, h3]
      simp [row_deleted, List.map_map, Function.comp_def]

theorem interpret_delete_all_loop_ok (n : Nat) (db : DataBase) (t : Table)
    (hget : idb_table_get_byid db t.meta.id = some t) (hwf : table_wf t)
    (hn : n ≤ t.meta.row_count) :
    interpret_delete_all_loop t.meta n db =
      Except.ok (RESULT_OK, db_store db t.meta.id (rows_dropped n t)) := by
  induction n generalizing db t with
  | zero => simp [interpret_delete_all_loop, rows_dropped, db_store_same db _ t hget, pure,
      Except.pure]
  | succ n ih =>
    have hdel := table_row_delete_eq db t 0 hget hwf (by omega)
    have hw1 := row_deleted_wf t 0 hwf (by omega)
    have hid : (row_deleted t 0).meta.id = t.meta.id := rfl
    have hget1 : idb_table_get_byid (db_store db t.meta.id (row_deleted t 0))
        (row_deleted t 0).meta.id = some (row_deleted t 0) :=
      byid_db_store db t.meta.id _ t hid hget
    have hrec := ih (db_store db t.meta.id (row_deleted t 0)) (row_deleted t 0) hget1 hw1
      (by simp only [row_deleted]; omega)
    have hloop : ∀ (m : TableMeta) (d : DataBase), m.id = t.meta.id →
        interpret_delete_all_loop m n d = interpret_delete_all_loop t.meta n d := by
      intro m d hm
      clear hrec ih hn
      induction n generalizing d with
      | zero => rfl
      | succ k ihk =>
        simp only [interpret_delete_all_loop, hm]
        cases table_row_delete d t.meta.id 0 with
        | error e => rfl
        | ok r =>
          simp only [bind, Except.bind]
          split
          · rfl
          · exact ihk r.2
    rw [hloop (row_deleted t 0).meta _ hid] at hrec
    simp only [interpret_delete_all_loop, hdel, bind, Except.bind, ne_eq, not_true_eq_false,
      if_false, hrec, rows_dropped]
    rw [hid, db_store_store db t.meta.id (row_deleted t 0) _ hid]

/-! ## C29: DELETE without WHERE -/

/-- Claim C29: for every table of the database that satisfies the invariant of the store, with
    any number of rows, a DELETE without a WHERE clause returns OK and leaves the table with no
    rows; its name and id, the names, types and order of its columns and its capacity stay as
    they were. -/
theorem interpret_delete_all_empties (env : CEnv) (db : DataBase) (name : CStr) (t : Table)
    (hname : idb_table_get db name = some t)
    (hget : idb_table_get_byid db t.meta.id = some t) (hwf : table_wf t) :
    ∃ t' : Table,
      interpret_delete env db name [] =
        Except.ok { result := RESULT_OK, db := db_store db t.meta.id t', out := [] } ∧
      t'.meta = { t.meta with row_count := 0 } ∧
      t'.row_capacity = t.row_capacity ∧
      t'.columns.map (fun c => c.meta) = t.columns.map (fun c => c.meta) ∧
      table_wf t' := by
  obtain ⟨h1, h2, h3, h4⟩ := rows_dropped_props t.meta.row_count t hwf (le_refl _)
  refine ⟨rows_dropped t.meta.row_count t, ?_, ?_, h2, h3, h4⟩
  · simp [interpret_delete, db_table_get, hname, interpret_delete_all,
      interpret_delete_all_loop_ok t.meta.row_count db t hget hwf (le_refl _), bind, Except.bind,
      pure, Except.pure]
  · rw [h1]; simp

set_option maxRecDepth 100000 in
/-- Witness of C29 on the table of Scenario A: `DELETE FROM t` returns OK and leaves no row, the
    two columns and the capacity 64. -/
theorem interpret_delete_all_empties_witness :
    (idb_table_get scenario_db (cstr "t") = some scenario_table ∧
      idb_table_get_byid scenario_db scenario_table.meta.id = some scenario_table ∧
      table_wf scenario_table) ∧
    (do_query env_glibc scenario_db (cstr "DELETE FROM t")).map
        (fun o => (o.result,
          o.db.tables.map (fun (t : Table) => (t.meta, t.row_capacity, t.columns.map (fun c => c.meta))))) =
      Except.ok (RESULT_OK,
        [({ id := 0, name := cstr "t", row_count := 0 }, 64,
          [{ id := 0, name := cstr "name", type := BTYPE_STRING },
           { id := 1, name := cstr "age", type := BTYPE_INT32 }])]) ∧
    (∃ t' : Table,
      interpret_delete env_glibc scenario_db (cstr "t") [] =
        Except.ok { result := RESULT_OK, db := db_store scenario_db scenario_table.meta.id t',
                    out := [] } ∧
      t'.meta = { scenario_table.meta with row_count := 0 } ∧
      t'.row_capacity = scenario_table.row_capacity ∧
      t'.columns.map (fun c => c.meta) = scenario_table.columns.map (fun c => c.meta) ∧
      table_wf t') :=
  ⟨⟨by rfl, by rfl, by decide⟩, by rfl,
   interpret_delete_all_empties env_glibc scenario_db (cstr "t") scenario_table (by rfl) (by rfl)
     (by decide)⟩

/-! ## Lemmas: the shape of the tables under every operation -/

theorem tables_grow_refl (l : List Table) : tables_grow l l := by
  induction l with
  | nil => exact tables_grow.nil _
  | cons t r ih => exact tables_grow.cons t t r r rfl (le_refl _) ih

theorem tables_grow_trans (a b c : List Table) (h1 : tables_grow a b) (h2 : tables_grow b c) :
    tables_grow a c := by
  induction h1 generalizing c with
  | nil l' => exact tables_grow.nil _
  | cons t t' l l' hid hcap _ ih =>
    cases h2 with
    | cons _ t'' _ l'' hid2 hcap2 h3 =>
      exact tables_grow.cons t t'' l l'' (hid2.trans hid) (le_trans hcap hcap2) (ih l'' h3)

theorem tables_grow_append (l extra : List Table) : tables_grow l (l ++ extra) := by
  induction l with
  | nil => exact tables_grow.nil _
  | cons t r ih => exact tables_grow.cons t t r (r ++ extra) rfl (le_refl _) ih

theorem grows_refl (db : DataBase) : grows db db := ⟨id, tables_grow_refl _⟩

theorem grows_trans (a b c : DataBase) (h1 : grows a b) (h2 : grows b c) : grows a c :=
  ⟨fun h => h2.1 (h1.1 h), tables_grow_trans _ _ _ h1.2 h2.2⟩

theorem grows_of_tables_eq (a b c : DataBase) (h : grows a b) (htables : c.tables = b.tables) :
    grows a c := by
  refine ⟨fun hs t ht => h.1 hs t (by rw [← htables]; exact ht), ?_⟩
  rw [htables]
  exact h.2

theorem tables_grow_put (tid : Nat) (t t' : Table) (l : List Table)
    (hfind : l.find? (fun cur => cur.meta.id = tid) = some t) (hid : t'.meta.id = t.meta.id)
    (hcap : t.row_capacity ≤ t'.row_capacity) : tables_grow l (idb_table_put tid t' l) := by
  induction l with
  | nil => exact tables_grow.nil _
  | cons cur rest ih =>
    by_cases hc : cur.meta.id = tid
    · simp only [List.find?, hc, decide_True, Option.some.injEq] at hfind
      subst hfind
      simp only [idb_table_put, hc, if_true]
      exact tables_grow.cons _ _ _ _ hid hcap (tables_grow_refl _)
    · simp only [List.find?, hc, decide_False] at hfind
      simp only [idb_table_put, hc, if_false]
      exact tables_grow.cons _ _ _ _ rfl (le_refl _) (ih hfind)

theorem mem_put (tid : Nat) (t' : Table) (l : List Table) (x : Table)
    (hx : x ∈ idb_table_put tid t' l) : x = t' ∨ x ∈ l := by
  induction l with
  | nil => simp [idb_table_put] at hx
  | cons cur rest ih =>
    by_cases hc : cur.meta.id = tid
    · simp only [idb_table_put, hc, if_true, List.mem_cons] at hx
      rcases hx with h | h
      · exact Or.inl h
      · exact Or.inr (by simp [h])
    · simp only [idb_table_put, hc, if_false, List.mem_cons] at hx
      rcases hx with h | h
      · exact Or.inr (by simp [h])
      · rcases ih h with h2 | h2
        · exact Or.inl h2
        · exact Or.inr (by simp [h2])

theorem grows_store (db : DataBase) (tid : Nat) (t t' : Table)
    (hget : idb_table_get_byid db tid = some t) (hid : t'.meta.id = t.meta.id)
    (hcap : t.row_capacity ≤ t'.row_capacity) (hshape : table_shape t → table_shape t') :
    grows db (db_store db tid t') := by
  refine ⟨?_, tables_grow_put tid t t' db.tables hget hid hcap⟩
  intro hs x hx
  rcases mem_put tid t' db.tables x hx with h | h
  · rw [h]
    exact hshape (hs t (List.mem_of_find?_eq_some hget))
  · exact hs x h

theorem grows_table_new (db : DataBase) (name : CStr) : grows db (db_table_new db name).2 := by
  refine ⟨?_, tables_grow_append _ _⟩
  intro hs x hx
  simp only [db_table_new, idb_table_new, List.mem_append, List.mem_singleton] at hx
  rcases hx with h | h
  · exact hs x h
  · rw [h]
    exact ⟨by simp [itable_new, BAZA_DEFAULT_ROW_CAPACITY], by simp [itable_new]⟩

theorem grows_column_new (db : DataBase) (tid : Nat) (type : BaseType) (name : CStr) :
    grows db (table_column_new db tid type name).2 := by
  unfold table_column_new
  cases hget : idb_table_get_byid db tid with
  | none => exact grows_refl db
  | some t =>
    simp only
    refine grows_of_tables_eq _ (db_store db tid (itable_column_new db.COLUMN_ID t type name).2.1)
      _ ?_ rfl
    apply grows_store db tid t _ hget
    · unfold itable_column_new; split <;> [rfl; (split <;> rfl)]
    · unfold itable_column_new; split <;> [exact le_refl _; (split <;> exact le_refl _)]
    · intro hs
      unfold itable_column_new
      split
      · exact hs
      · split
        · exact hs
        · refine ⟨hs.1, ?_⟩
          intro c hc
          simp only [List.mem_append, List.mem_singleton] at hc
          rcases hc with h | h
          · exact hs.2 c h
          · rw [h]; simp [icolumn_realloc_data, icolumn_new]

theorem grows_row_add (db : DataBase) (tid : Nat) : grows db (table_row_add db tid).2 := by
  unfold table_row_add
  cases hget : idb_table_get_byid db tid with
  | none => exact grows_refl db
  | some t =>
    simp only
    apply grows_store db tid t _ hget
    · split <;> rfl
    · split
      · simp only [itable_realloc]; omega
      · exact le_refl _
    · intro hs
      split
      · rename_i heq
        refine ⟨by simp only [itable_realloc] at heq ⊢; omega, ?_⟩
        intro c hc
        simp only [itable_realloc, List.mem_map] at hc
        obtain ⟨c0, _, rfl⟩ := hc
        simp [icolumn_realloc_data, itable_realloc]
      · rename_i hne
        have h1 := hs.1
        have hne2 : t.meta.row_count + 1 ≠ t.row_capacity := hne
        exact ⟨show t.meta.row_count + 1 < t.row_capacity by omega, hs.2⟩

theorem icolumn_store_length (c c' : Column) (i : Nat) (v : Slot)
    (h : icolumn_store c i v = Except.ok c') : c'.data.length = c.data.length := by
  unfold icolumn_store at h
  split at h
  · simp only [pure, Except.pure, Except.ok.injEq] at h
    rw [← h]; simp
  · simp [throw, throwThe, MonadExceptOf.throw] at h

theorem icolumn_row_set_nocopy_length (c c' : Column) (i : Nat) (data : Except Fault Slot)
    (h : icolumn_row_set_nocopy c i data = Except.ok c') : c'.data.length = c.data.length := by
  unfold icolumn_row_set_nocopy at h
  split at h
  · simp only [pure, Except.pure, Except.ok.injEq] at h
    rw [← h]
  · obtain ⟨s, _, hs⟩ := except_bind_ok _ _ _ h
    exact icolumn_store_length c c' i s hs

theorem icolumn_row_delete_loop_length (n : Nat) (c c' : Column) (idx : Nat)
    (h : icolumn_row_delete_loop n c idx = Except.ok c') : c'.data.length = c.data.length := by
  induction n generalizing c idx with
  | zero =>
    simp only [icolumn_row_delete_loop, pure, Except.pure, Except.ok.injEq] at h
    rw [← h]
  | succ n ih =>
    simp only [icolumn_row_delete_loop] at h
    obtain ⟨c1, h1, h2⟩ := except_bind_ok _ _ _ h
    rw [ih c1 (idx + 1) h2, icolumn_row_set_nocopy_length c c1 idx _ h1]

theorem icolumn_row_delete_length (c c' : Column) (index size : Nat)
    (h : icolumn_row_delete c index size = Except.ok c') : c'.data.length = c.data.length := by
  unfold icolumn_row_delete at h
  by_cases hs : c.meta.type = BTYPE_STRING
  · simp only [hs, if_true] at h
    cases hg : icolumn_row_get c index with
    | error e => simp [hg, bind, Except.bind] at h
    | ok s =>
      cases s with
      | ptr p =>
        simp only [hg, bind, Except.bind, pure, Except.pure] at h
        exact icolumn_row_delete_loop_length _ c c' index h
      | bits b => simp [hg, bind, Except.bind, throw, throwThe, MonadExceptOf.throw] at h
      | uninit => simp [hg, bind, Except.bind, throw, throwThe, MonadExceptOf.throw] at h
  · simp only [hs, if_false, bind, Except.bind, pure, Except.pure] at h
    exact icolumn_row_delete_loop_length _ c c' index h

theorem itable_row_delete_columns_length (index size cap : Nat) (cols cols' : List Column)
    (hlen : ∀ c ∈ cols, c.data.length = cap)
    (h : itable_row_delete_columns index size cols = Except.ok cols') :
    ∀ c ∈ cols', c.data.length = cap := by
  induction cols generalizing cols' with
  | nil =>
    simp only [itable_row_delete_columns, pure, Except.pure, Except.ok.injEq] at h
    rw [← h]; simp
  | cons cur rest ih =>
    simp only [itable_row_delete_columns] at h
    obtain ⟨c1, h1, h2⟩ := except_bind_ok _ _ _ h
    obtain ⟨r1, h3, h4⟩ := except_bind_ok _ _ _ h2
    simp only [pure, Except.pure, Except.ok.injEq] at h4
    rw [← h4]
    intro c hc
    rcases List.mem_cons.1 hc with e | e
    · rw [e, icolumn_row_delete_length cur c1 index size h1]
      exact hlen cur (by simp)
    · exact ih r1 (fun x hx => hlen x (by simp [hx])) h3 c e

theorem grows_row_delete (db : DataBase) (tid row : Nat) (r : BazaResult × DataBase)
    (h : table_row_delete db tid row = Except.ok r) : grows db r.2 := by
  unfold table_row_delete at h
  cases hget : idb_table_get_byid db tid with
  | none =>
    simp only [hget, pure, Except.pure, Except.ok.injEq] at h
    rw [← h]; exact grows_refl db
  | some t =>
    simp only [hget] at h
    obtain ⟨r1, h1, h2⟩ := except_bind_ok _ _ _ h
    simp only [pure, Except.pure, Except.ok.injEq] at h2
    rw [← h2]
    simp only
    unfold itable_row_delete at h1
    split at h1
    · simp only [pure, Except.pure, Except.ok.injEq] at h1
      rw [← h1]
      simp only
      rw [db_store_same db tid t hget]
      exact grows_refl db
    · rename_i hlt
      obtain ⟨cols, h3, h4⟩ := except_bind_ok _ _ _ h1
      simp only [pure, Except.pure, Except.ok.injEq] at h4
      rw [← h4]
      simp only
      refine grows_store db tid t _ hget ?_ ?_ ?_
      · rfl
      · exact le_refl _
      · intro hs
        refine ⟨?_, itable_row_delete_columns_length _ _ _ _ _ hs.2 h3⟩
        have := hs.1
        show t.meta.row_count - 1 < t.row_capacity
        omega

theorem columns_store_length (cid index cap : Nat) (v : Slot) (cols cols' : List Column)
    (hlen : ∀ c ∈ cols, c.data.length = cap)
    (h : columns_store cid index v cols = Except.ok cols') :
    ∀ c ∈ cols', c.data.length = cap := by
  induction cols generalizing cols' with
  | nil => simp [columns_store, throw, throwThe, MonadExceptOf.throw] at h
  | cons cur rest ih =>
    simp only [columns_store] at h
    split at h
    · obtain ⟨c1, h1, h2⟩ := except_bind_ok _ _ _ h
      simp only [pure, Except.pure, Except.ok.injEq] at h2
      rw [← h2]
      intro c hc
      rcases List.mem_cons.1 hc with e | e
      · rw [e, icolumn_store_length cur c1 index v h1]
        exact hlen cur (by simp)
      · exact hlen c (by simp [e])
    · obtain ⟨r1, h1, h2⟩ := except_bind_ok _ _ _ h
      simp only [pure, Except.pure, Except.ok.injEq] at h2
      rw [← h2]
      intro c hc
      rcases List.mem_cons.1 hc with e | e
      · rw [e]; exact hlen cur (by simp)
      · exact ih r1 (fun x hx => hlen x (by simp [hx])) h1 c e

theorem grows_slot_store (db db' : DataBase) (slot : Option SlotPtr) (v : Slot)
    (h : slot_store db slot v = Except.ok db') : grows db db' := by
  unfold slot_store at h
  cases slot with
  | none => simp [throw, throwThe, MonadExceptOf.throw] at h
  | some p =>
    simp only at h
    cases hget : idb_table_get_byid db p.tid with
    | none => simp [hget, throw, throwThe, MonadExceptOf.throw] at h
    | some t =>
      simp only [hget] at h
      obtain ⟨cols, h1, h2⟩ := except_bind_ok _ _ _ h
      simp only [pure, Except.pure, Except.ok.injEq] at h2
      rw [← h2]
      refine grows_store db p.tid t _ hget ?_ ?_ ?_
      · rfl
      · exact le_refl _
      · intro hs
        exact ⟨hs.1, columns_store_length _ _ _ _ _ _ hs.2 h1⟩

theorem grows_insert_values_loop (env : CEnv) (tm : TableMeta) (row : Nat) (replace : Bool) :
    ∀ (cols : List ColumnMeta) (value : Option StrList) (db : DataBase)
      (r : BazaResult × DataBase),
      insert_values_loop env tm row replace cols value db = Except.ok r → grows db r.2 := by
  intro cols
  induction cols with
  | nil =>
    intro value db r h
    simp only [insert_values_loop, pure, Except.pure, Except.ok.injEq] at h
    rw [← h]; exact grows_refl db
  | cons col next ih =>
    intro value db r h
    unfold insert_values_loop at h
    obtain ⟨step, hstep, h⟩ := except_bind_ok _ _ _ h
    have hg1 : grows db step.2 := by
      cases hct : col.type
      · simp only [hct, pure, Except.pure, Except.ok.injEq] at hstep
        rw [← hstep]; exact grows_refl db
      · simp only [hct] at hstep
        have htail : ∀ pre : Except Fault PUnit, (do
              pre
              let s0 ← strnode_str value
              let dup ← deref_str s0
              let db1 ← slot_store db (table_column_get_row db tm.id col.id row) (Slot.ptr dup)
              pure (RESULT_OK, db1)) = Except.ok step → grows db step.2 := by
          intro pre hp
          obtain ⟨u, _, hp⟩ := except_bind_ok _ _ _ hp
          obtain ⟨s0, _, hp⟩ := except_bind_ok _ _ _ hp
          obtain ⟨dup, _, hp⟩ := except_bind_ok _ _ _ hp
          obtain ⟨db1, hstore, hp⟩ := except_bind_ok _ _ _ hp
          simp only [pure, Except.pure, Except.ok.injEq] at hp
          rw [← hp]
          exact grows_slot_store db db1 _ _ hstore
        split at hstep
        · obtain ⟨s1, _, hstep⟩ := except_bind_ok _ _ _ hstep
          split at hstep
          · exact htail _ hstep
          · exact htail _ hstep
        · exact htail _ hstep
      · simp only [hct] at hstep
        obtain ⟨s0, _, hstep⟩ := except_bind_ok _ _ _ hstep
        obtain ⟨str, _, hstep⟩ := except_bind_ok _ _ _ hstep
        split at hstep
        · simp only [pure, Except.pure, Except.ok.injEq] at hstep
          rw [← hstep]; exact grows_refl db
        · obtain ⟨db1, hstore, hstep⟩ := except_bind_ok _ _ _ hstep
          simp only [pure, Except.pure, Except.ok.injEq] at hstep
          rw [← hstep]
          exact grows_slot_store db db1 _ _ hstore
      · simp only [hct] at hstep
        obtain ⟨s0, _, hstep⟩ := except_bind_ok _ _ _ hstep
        obtain ⟨str, _, hstep⟩ := except_bind_ok _ _ _ hstep
        split at hstep
        · simp only [pure, Except.pure, Except.ok.injEq] at hstep
          rw [← hstep]; exact grows_refl db
        · obtain ⟨db1, hstore, hstep⟩ := except_bind_ok _ _ _ hstep
          simp only [pure, Except.pure, Except.ok.injEq] at hstep
          rw [← hstep]
          exact grows_slot_store db db1 _ _ hstore
    split at h
    · simp only [pure, Except.pure, Except.ok.injEq] at h
      rw [← h]; exact hg1
    · obtain ⟨nv, _, h⟩ := except_bind_ok _ _ _ h
      exact grows_trans _ _ _ hg1 (ih nv step.2 r h)

theorem grows_insert_values (env : CEnv) (db : DataBase) (tm : TableMeta) (cols : ColumnMetaList)
    (values : StrList) (row : Nat) (replace : Bool) (r : BazaResult × DataBase)
    (h : insert_values env db tm cols values row replace = Except.ok r) : grows db r.2 := by
  unfold insert_values at h
  cases cols with
  | nil => simp [throw, throwThe, MonadExceptOf.throw] at h
  | cons c cs => exact grows_insert_values_loop env tm row replace _ _ db r h

theorem grows_update_rows (env : CEnv) (tm : TableMeta) (cols : ColumnMetaList)
    (values : StrList) :
    ∀ (rows : List Nat) (db : DataBase) (r : BazaResult × DataBase),
      interpret_update_rows env tm cols values rows db = Except.ok r → grows db r.2 := by
  intro rows
  induction rows with
  | nil =>
    intro db r h
    simp only [interpret_update_rows, pure, Except.pure, Except.ok.injEq] at h
    rw [← h]; exact grows_refl db
  | cons row next ih =>
    intro db r h
    simp only [interpret_update_rows] at h
    obtain ⟨r1, h1, h⟩ := except_bind_ok _ _ _ h
    have hg1 := grows_insert_values env db tm cols values row true r1 h1
    split at h
    · simp only [pure, Except.pure, Except.ok.injEq] at h
      rw [← h]; exact hg1
    · exact grows_trans _ _ _ hg1 (ih r1.2 r h)

theorem grows_delete_filtered_loop (tm : TableMeta) :
    ∀ (rows : List Int) (count : Nat) (db : DataBase) (r : BazaResult × DataBase),
      interpret_delete_filtered_loop tm rows count db = Except.ok r → grows db r.2 := by
  intro rows
  induction rows with
  | nil =>
    intro count db r h
    simp only [interpret_delete_filtered_loop, pure, Except.pure, Except.ok.injEq] at h
    rw [← h]; exact grows_refl db
  | cons row next ih =>
    intro count db r h
    simp only [interpret_delete_filtered_loop] at h
    obtain ⟨r1, h1, h⟩ := except_bind_ok _ _ _ h
    have hg1 := grows_row_delete db _ _ r1 h1
    split at h
    · simp only [pure, Except.pure, Except.ok.injEq] at h
      rw [← h]; exact hg1
    · exact grows_trans _ _ _ hg1 (ih _ r1.2 r h)

theorem grows_delete_all_loop (tm : TableMeta) :
    ∀ (n : Nat) (db : DataBase) (r : BazaResult × DataBase),
      interpret_delete_all_loop tm n db = Except.ok r → grows db r.2 := by
  intro n
  induction n with
  | zero =>
    intro db r h
    simp only [interpret_delete_all_loop, pure, Except.pure, Except.ok.injEq] at h
    rw [← h]; exact grows_refl db
  | succ n ih =>
    intro db r h
    simp only [interpret_delete_all_loop] at h
    obtain ⟨r1, h1, h⟩ := except_bind_ok _ _ _ h
    have hg1 := grows_row_delete db _ _ r1 h1
    split at h
    · simp only [pure, Except.pure, Except.ok.injEq] at h
      rw [← h]; exact hg1
    · exact grows_trans _ _ _ hg1 (ih r1.2 r h)

theorem grows_create_columns (tm : TableMeta) :
    ∀ (names : List CStr) (types : List Int) (db db' : DataBase),
      interpret_create_columns tm names types db = Except.ok db' → grows db db' := by
  intro names
  induction names with
  | nil =>
    intro types db db' h
    simp only [interpret_create_columns, pure, Except.pure, Except.ok.injEq] at h
    rw [← h]; exact grows_refl db
  | cons name next ih =>
    intro types db db' h
    cases types with
    | nil => simp [interpret_create_columns, throw, throwThe, MonadExceptOf.throw] at h
    | cons value type =>
      simp only [interpret_create_columns] at h
      cases hb : basetype_of_int value with
      | none => simp [hb, throw, throwThe, MonadExceptOf.throw] at h
      | some btype =>
        simp only [hb] at h
        split at h
        · simp [throw, throwThe, MonadExceptOf.throw] at h
        · exact grows_trans _ _ _ (grows_column_new db tm.id btype name) (ih type _ db' h)

theorem grows_update (env : CEnv) (db : DataBase) (name : CStr) (filters : List Filter)
    (cols values : StrList) (o : Outcome)
    (h : interpret_update env db name filters cols values = Except.ok o) : grows db o.db := by
  unfold interpret_update at h
  simp only at h
  by_cases hres : (db_table_get db name).result ≠ RESULT_OK
  · rw [if_pos hres] at h
    simp only [pure, Except.pure, Except.ok.injEq] at h
    rw [← h]; exact grows_refl db
  · rw [if_neg hres] at h
    obtain ⟨cl, _, h⟩ := except_bind_ok _ _ _ h
    cases cl with
    | none =>
      simp only [pure, Except.pure, Except.ok.injEq] at h
      rw [← h]; exact grows_refl db
    | some columns =>
      simp only at h
      by_cases hf : filters ≠ []
      · rw [if_pos hf] at h
        unfold interpret_update_filtered at h
        obtain ⟨fres, _, h⟩ := except_bind_ok _ _ _ h
        split at h
        · simp only [pure, Except.pure, Except.ok.injEq] at h
          rw [← h]; exact grows_refl db
        · obtain ⟨vres, _, h⟩ := except_bind_ok _ _ _ h
          split at h
          · simp only [pure, Except.pure, Except.ok.injEq] at h
            rw [← h]; exact grows_refl db
          · obtain ⟨r, hr, h⟩ := except_bind_ok _ _ _ h
            simp only [pure, Except.pure, Except.ok.injEq] at h
            rw [← h]
            exact grows_update_rows env _ _ _ _ db r hr
      · rw [if_neg hf] at h
        unfold interpret_update_all at h
        obtain ⟨vres, _, h⟩ := except_bind_ok _ _ _ h
        split at h
        · simp only [pure, Except.pure, Except.ok.injEq] at h
          rw [← h]; exact grows_refl db
        · obtain ⟨r, hr, h⟩ := except_bind_ok _ _ _ h
          simp only [pure, Except.pure, Except.ok.injEq] at h
          rw [← h]
          exact grows_update_rows env _ _ _ _ db r hr

theorem grows_delete (env : CEnv) (db : DataBase) (name : CStr) (filters : List Filter)
    (o : Outcome) (h : interpret_delete env db name filters = Except.ok o) : grows db o.db := by
  unfold interpret_delete at h
  simp only at h
  by_cases hres : (db_table_get db name).result ≠ RESULT_OK
  · rw [if_pos hres] at h
    simp only [pure, Except.pure, Except.ok.injEq] at h
    rw [← h]; exact grows_refl db
  · rw [if_neg hres] at h
    by_cases hf : filters ≠ []
    · rw [if_pos hf] at h
      unfold interpret_delete_filtered at h
      obtain ⟨fres, _, h⟩ := except_bind_ok _ _ _ h
      split at h
      · simp only [pure, Except.pure, Except.ok.injEq] at h
        rw [← h]; exact grows_refl db
      · obtain ⟨r, hr, h⟩ := except_bind_ok _ _ _ h
        simp only [pure, Except.pure, Except.ok.injEq] at h
        rw [← h]
        exact grows_delete_filtered_loop _ _ _ db r hr
    · rw [if_neg hf] at h
      unfold interpret_delete_all at h
      obtain ⟨r, hr, h⟩ := except_bind_ok _ _ _ h
      simp only [pure, Except.pure, Except.ok.injEq] at h
      rw [← h]
      exact grows_delete_all_loop _ _ db r hr

theorem grows_insert (env : CEnv) (db : DataBase) (name : CStr) (values : StrList)
    (o : Outcome) (h : interpret_insert env db name values = Except.ok o) : grows db o.db := by
  unfold interpret_insert at h
  simp only at h
  by_cases hres : (db_table_get db name).result ≠ RESULT_OK
  · rw [if_pos hres] at h
    simp only [pure, Except.pure, Except.ok.injEq] at h
    rw [← h]; exact grows_refl db
  · rw [if_neg hres] at h
    obtain ⟨cl, _, h⟩ := except_bind_ok _ _ _ h
    cases cl with
    | none =>
      simp only [pure, Except.pure, Except.ok.injEq] at h
      rw [← h]; exact grows_refl db
    | some columns =>
      simp only at h
      obtain ⟨res, _, h⟩ := except_bind_ok _ _ _ h
      split at h
      · simp only [pure, Except.pure, Except.ok.injEq] at h
        rw [← h]; exact grows_refl db
      · obtain ⟨r, hr, h⟩ := except_bind_ok _ _ _ h
        have hg := grows_trans _ _ _ (grows_row_add db _)
          (grows_insert_values env _ _ _ _ _ _ r hr)
        split at h
        · simp only [pure, Except.pure, Except.ok.injEq] at h
          rw [← h]; exact hg
        · simp only [pure, Except.pure, Except.ok.injEq] at h
          rw [← h]; exact hg

theorem grows_create (db : DataBase) (name : CStr) (cols types : Option StrList) (o : Outcome)
    (h : interpret_create db name cols types = Except.ok o) : grows db o.db := by
  unfold interpret_create at h
  simp only at h
  by_cases hres : (db_table_new db name).1.result ≠ RESULT_OK
  · rw [if_pos hres] at h
    simp only [pure, Except.pure, Except.ok.injEq] at h
    rw [← h]; exact grows_table_new db name
  · rw [if_neg hres] at h
    split at h
    · simp only [pure, Except.pure, Except.ok.injEq] at h
      rw [← h]; exact grows_table_new db name
    · obtain ⟨db1, h1, h⟩ := except_bind_ok _ _ _ h
      simp only [pure, Except.pure, Except.ok.injEq] at h
      rw [← h]
      exact grows_trans _ _ _ (grows_table_new db name) (grows_create_columns _ _ _ _ db1 h1)

theorem interpret_select_db (env : CEnv) (db : DataBase) (name : CStr) (filters : List Filter)
    (cols : Option StrList) (o : Outcome)
    (h : interpret_select env db name filters cols = Except.ok o) : o.db = db := by
  unfold interpret_select at h
  simp only at h
  by_cases hres : (db_table_get db name).result ≠ RESULT_OK
  · rw [if_pos hres] at h
    simp only [pure, Except.pure, Except.ok.injEq] at h
    rw [← h]
  · rw [if_neg hres] at h
    obtain ⟨cl, _, h⟩ := except_bind_ok _ _ _ h
    cases cl with
    | none =>
      simp only [pure, Except.pure, Except.ok.injEq] at h
      rw [← h]
    | some columns =>
      simp only at h
      by_cases hf : filters ≠ []
      · rw [if_pos hf] at h
        unfold interpret_select_filter at h
        obtain ⟨fres, _, h⟩ := except_bind_ok _ _ _ h
        split at h
        · simp only [pure, Except.pure, Except.ok.injEq] at h
          rw [← h]
        · cases columns with
          | nil => simp [throw, throwThe, MonadExceptOf.throw] at h
          | cons c cs =>
            simp only at h
            obtain ⟨out, _, h⟩ := except_bind_ok _ _ _ h
            simp only [pure, Except.pure, Except.ok.injEq] at h
            rw [← h]
      · rw [if_neg hf] at h
        unfold interpret_select_all at h
        obtain ⟨out, _, h⟩ := except_bind_ok _ _ _ h
        simp only [pure, Except.pure, Except.ok.injEq] at h
        rw [← h]

theorem grows_query (env : CEnv) (db : DataBase) (q : Query) (o : Outcome)
    (h : interpret_query env db q = Except.ok o) : grows db o.db := by
  cases q with
  | QUERY_SELECT name filters cols sc sd =>
    rw [interpret_select_db env db name filters cols o h]
    exact grows_refl db
  | QUERY_CREATE name cols types => exact grows_create db name cols types o h
  | QUERY_INSERT name values => exact grows_insert env db name values o h
  | QUERY_DELETE name filters => exact grows_delete env db name filters o h
  | QUERY_UPDATE name filters cols values => exact grows_update env db name filters cols values o h

theorem grows_step (env : CEnv) (db db' : DataBase) (h : Step env db db') : grows db db' := by
  cases h with
  | table_new name => exact grows_table_new db name
  | column_new tid type name => exact grows_column_new db tid type name
  | row_add tid => exact grows_row_add db tid
  | row_delete tid row r h => exact grows_row_delete db tid row r h
  | statement q o h => exact grows_query env db q o h

theorem reachable_shape (env : CEnv) (db : DataBase) (h : Reachable env db) : db_shape db := by
  unfold Reachable at h
  induction h with
  | refl => intro t ht; simp [db_init] at ht
  | tail _ hstep ih => exact (grows_step env _ _ hstep).1 ih

theorem do_query_step (env : CEnv) (db : DataBase) (q : CStr) (o : Outcome)
    (h : do_query env db q = Except.ok o) : Step env db o.db := by
  unfold do_query at h
  obtain ⟨p, _, h⟩ := except_bind_ok _ _ _ h
  cases p with
  | error msg => simp [throw, throwThe, MonadExceptOf.throw] at h
  | ok query => exact Step.statement db query o h

theorem run_queries_steps (env : CEnv) (qs : List CStr) (db db' : DataBase)
    (h : run_queries env qs db = Except.ok db') : Relation.ReflTransGen (Step env) db db' := by
  induction qs generalizing db with
  | nil =>
    simp only [run_queries, pure, Except.pure, Except.ok.injEq] at h
    rw [h]
  | cons q rest ih =>
    simp only [run_queries] at h
    obtain ⟨o, ho, h⟩ := except_bind_ok _ _ _ h
    exact Relation.ReflTransGen.head (do_query_step env db q o ho) (ih o.db h)

theorem steps_grow (env : CEnv) (db db' : DataBase)
    (h : Relation.ReflTransGen (Step env) db db') : grows db db' := by
  induction h with
  | refl => exact grows_refl db
  | tail _ hstep ih => exact grows_trans _ _ _ ih (grows_step env _ _ hstep)

theorem tables_grow_get (l l' : List Table) (h : tables_grow l l') (k : Nat) (t : Table)
    (hk : l.get? k = some t) :
    ∃ t', l'.get? k = some t' ∧ t'.meta.id = t.meta.id ∧ t.row_capacity ≤ t'.row_capacity := by
  induction h generalizing k with
  | nil l' => simp at hk
  | cons a a' r r' hid hcap _ ih =>
    cases k with
    | zero =>
      simp only [List.get?_cons_zero, Option.some.injEq] at hk
      subst hk
      exact ⟨a', rfl, hid, hcap⟩
    | succ k => exact ih k (by simpa using hk)

/-! ## C26: row count, capacity and buffer sizes in every reachable state -/

/-- Claim C26: in every database that a sequence of `db_table_new`, `table_column_new`,
    `table_row_add`, `table_row_delete` calls and of interpreted CREATE, INSERT, UPDATE, DELETE
    (and SELECT) queries leads to from the empty database, every table has
    `row_count <= row_capacity` and every column buffer of the table has exactly
    `row_capacity` slots. -/
theorem reachable_tables_shape (env : CEnv) (db : DataBase) (h : Reachable env db) :
    ∀ t ∈ db.tables, t.meta.row_count ≤ t.row_capacity ∧
      ∀ c ∈ t.columns, c.data.length = t.row_capacity := by
  intro t ht
  have hs := reachable_shape env db h t ht
  exact ⟨Nat.le_of_lt hs.1, hs.2⟩

set_option maxRecDepth 1000000 in
/-- Witness of C26: the table with 63 rows built by one CREATE and 63 INSERT statements is
    reachable; it has capacity 64 and one buffer of 64 slots. -/
theorem reachable_tables_shape_witness :
    Reachable env_glibc brim_db ∧
    brim_db.tables.map (fun (t : Table) =>
      (t.meta.row_count, t.row_capacity, t.columns.map (fun c => c.data.length))) =
      [(63, 64, [64])] ∧
    ∀ t ∈ brim_db.tables, t.meta.row_count ≤ t.row_capacity ∧
      ∀ c ∈ t.columns, c.data.length = t.row_capacity :=
  ⟨run_queries_steps env_glibc _ db_init brim_db brim_db_reachable, by rfl,
   reachable_tables_shape env_glibc brim_db
     (run_queries_steps env_glibc _ db_init brim_db brim_db_reachable)⟩

/-! ## C27: the capacity of a table -/

/-- Claim C27: a new table has capacity 64; on a table of the database with `n` rows and
    capacity `c`, whose buffers have `c` slots, `table_row_add` returns OK, sets the row count
    to `n + 1` and the capacity to `2 c` when `n + 1 = c` and leaves it at `c` otherwise, and
    keeps the slots of the rows `0 .. n - 1` in every column; and through any sequence of
    operations every table stays in its place with its id and a capacity that is not smaller
    than before. -/
theorem table_capacity_policy (env : CEnv) (db : DataBase) (t : Table) (name : CStr)
    (hget : idb_table_get_byid db t.meta.id = some t)
    (hlen : ∀ c ∈ t.columns, c.data.length = t.row_capacity) :
    (itable_new db.TABLE_ID name).row_capacity = 64 ∧
    (∃ t' : Table,
      table_row_add db t.meta.id = (RESULT_OK, db_store db t.meta.id t') ∧
      t'.meta = { t.meta with row_count := t.meta.row_count + 1 } ∧
      t'.row_capacity =
        (if t.meta.row_count + 1 = t.row_capacity then 2 * t.row_capacity else t.row_capacity) ∧
      List.Forall₂ (fun c' c => c'.meta = c.meta ∧
        c'.data.take t.meta.row_count = c.data.take t.meta.row_count) t'.columns t.columns) ∧
    (∀ db' : DataBase, Relation.ReflTransGen (Step env) db db' →
      ∀ (k : Nat) (x : Table), db.tables.get? k = some x →
        ∃ x', db'.tables.get? k = some x' ∧ x'.meta.id = x.meta.id ∧
          x.row_capacity ≤ x'.row_capacity) := by
  refine ⟨rfl, ⟨row_added t, table_row_add_eq db t hget, rfl, ?_, ?_⟩, ?_⟩
  · simp only [row_added]
    split <;> omega
  · simp only [row_added]
    rw [List.forall₂_map_left_iff]
    apply forall₂_same
    intro c hc
    exact ⟨column_added_meta _ _ c, column_added_take _ _ c (hlen c hc)⟩
  · intro db' hsteps k x hk
    exact tables_grow_get _ _ (steps_grow env db db' hsteps).2 k x hk

set_option maxRecDepth 1000000 in
/-- Witness of C27 on the table with 63 rows and capacity 64: `table_row_add` makes it 64 rows
    with capacity 128, and `INSERT INTO t VALUES (7)` followed by `DELETE FROM t` leaves the
    capacity at 128. -/
theorem table_capacity_policy_witness :
    (idb_table_get_byid brim_db brim_table.meta.id = some brim_table ∧
      ∀ c ∈ brim_table.columns, c.data.length = brim_table.row_capacity) ∧
    ((table_row_add brim_db 0).1,
      (table_row_add brim_db 0).2.tables.map (fun (t : Table) =>
        (t.meta.row_count, t.row_capacity, t.columns.map (fun c => c.data.length)))) =
      (RESULT_OK, [(64, 128, [128])]) ∧
    (run_queries env_glibc [cstr "INSERT INTO t VALUES (7)", cstr "DELETE FROM t"] brim_db).map
        (fun d => d.tables.map (fun (t : Table) => (t.meta.row_count, t.row_capacity))) =
      Except.ok [(0, 128)] ∧
    ((itable_new brim_db.TABLE_ID (cstr "n")).row_capacity = 64 ∧
    (∃ t' : Table,
      table_row_add brim_db brim_table.meta.id =
        (RESULT_OK, db_store brim_db brim_table.meta.id t') ∧
      t'.meta = { brim_table.meta with row_count := brim_table.meta.row_count + 1 } ∧
      t'.row_capacity =
        (if brim_table.meta.row_count + 1 = brim_table.row_capacity
         then 2 * brim_table.row_capacity else brim_table.row_capacity) ∧
      List.Forall₂ (fun c' c => c'.meta = c.meta ∧
        c'.data.take brim_table.meta.row_count = c.data.take brim_table.meta.row_count)
        t'.columns brim_table.columns) ∧
    (∀ db' : DataBase, Relation.ReflTransGen (Step env_glibc) brim_db db' →
      ∀ (k : Nat) (x : Table), brim_db.tables.get? k = some x →
        ∃ x', db'.tables.get? k = some x' ∧ x'.meta.id = x.meta.id ∧
          x.row_capacity ≤ x'.row_capacity)) :=
  ⟨⟨by rfl, by decide⟩, by rfl, by rfl,
   table_capacity_policy env_glibc brim_db brim_table (cstr "n") (by rfl) (by decide)⟩

/-! ## Lemmas: the glyph counter -/

theorem glyph_advance_ascii (b : Nat) (h : b ≤ 0x7F) : glyph_advance b = 1 := by
  simp [glyph_advance, h]

set_option maxRecDepth 1000000 in
theorem glyph_advance_stuck (b : Nat) (hb : (0x80 ≤ b ∧ b ≤ 0xBF) ∨ (0xF8 ≤ b ∧ b ≤ 0xFF)) :
    glyph_advance b = 0 := by
  have h : ∀ k, k < 256 → ((0x80 ≤ k ∧ k ≤ 0xBF) ∨ (0xF8 ≤ k ∧ k ≤ 0xFF)) → glyph_advance k = 0 := by
    decide
  exact h b (by omega) hb

theorem glyphs_run_succ (n b : Nat) (rest : CStr) (count : Nat) :
    glyphs_run (n + 1) (b :: rest) count =
      if glyph_advance b ≤ (b :: rest).length then
        glyphs_run n ((b :: rest).drop (glyph_advance b)) (count + 1)
      else some (throw Fault.out_of_bounds) := rfl

theorem glyphs_run_stuck (b : Nat) (rest : CStr) (hb : glyph_advance b = 0) :
    ∀ n count, glyphs_run n (b :: rest) count = none := by
  intro n
  induction n with
  | zero => intro count; rfl
  | succ n ih =>
    intro count
    rw [glyphs_run_succ, hb, if_pos (Nat.zero_le _), List.drop_zero]
    exact ih (count + 1)

theorem glyphs_run_behind_ascii (pre : CStr) (hpre : ∀ c ∈ pre, c ≤ 0x7F) (b : Nat) (rest : CStr)
    (hb : glyph_advance b = 0) : ∀ n count, glyphs_run n (pre ++ b :: rest) count = none := by
  induction pre with
  | nil => intro n count; exact glyphs_run_stuck b rest hb n count
  | cons c pre ih =>
    intro n count
    cases n with
    | zero => rfl
    | succ n =>
      have hc : glyph_advance c = 1 := glyph_advance_ascii c (hpre c (List.mem_cons_self _ _))
      rw [List.cons_append, glyphs_run_succ, hc, if_pos (by simp)]
      simp only [List.drop_succ_cons, List.drop_zero]
      exact ih (fun x hx => hpre x (List.mem_cons_of_mem _ hx)) n (count + 1)

theorem str_count_cons (b : Nat) (rest : CStr) :
    str_count_utf8_glyphs (b :: rest) =
      if b ≤ 0x7F then (· + 1) <$> str_count_utf8_glyphs rest
      else if b &&& 0xE0 = 0xC0 then
        match rest with
        | _ :: r => (· + 1) <$> str_count_utf8_glyphs r
        | [] => throw Fault.out_of_bounds
      else if b &&& 0xF0 = 0xE0 then
        match rest with
        | _ :: _ :: r => (· + 1) <$> str_count_utf8_glyphs r
        | _ => throw Fault.out_of_bounds
      else if b &&& 0xF8 = 0xF0 then
        match rest with
        | _ :: _ :: _ :: r => (· + 1) <$> str_count_utf8_glyphs r
        | _ => throw Fault.out_of_bounds
      else throw Fault.hang := by
  rcases rest with _ | ⟨x, _ | ⟨y, _ | ⟨z, r⟩⟩⟩ <;> rfl

theorem str_count_stuck (b : Nat) (rest : CStr) (hb : glyph_advance b = 0) :
    str_count_utf8_glyphs (b :: rest) = Except.error Fault.hang := by
  unfold glyph_advance at hb
  rw [str_count_cons]
  split_ifs at hb ⊢
  rfl

theorem str_count_ascii_cons (c : Nat) (s : CStr) (hc : c ≤ 0x7F) :
    str_count_utf8_glyphs (c :: s) = (· + 1) <$> str_count_utf8_glyphs s := by
  rw [str_count_cons, if_pos hc]

theorem str_count_behind_ascii (pre : CStr) (hpre : ∀ c ∈ pre, c ≤ 0x7F) (b : Nat) (rest : CStr)
    (hb : glyph_advance b = 0) :
    str_count_utf8_glyphs (pre ++ b :: rest) = Except.error Fault.hang := by
  induction pre with
  | nil => exact str_count_stuck b rest hb
  | cons c pre ih =>
    have hc : c ≤ 0x7F := hpre c (List.mem_cons_self _ _)
    rw [List.cons_append, str_count_ascii_cons _ _ hc,
      ih (fun x hx => hpre x (List.mem_cons_of_mem _ hx))]
    rfl

/-- The counter in terms of the step width: no step on a byte that moves the cursor by
    nothing, a fault when the step passes the NUL, one glyph and the rest otherwise. -/
theorem str_count_step (b : Nat) (rest : CStr) :
    str_count_utf8_glyphs (b :: rest) =
      if glyph_advance b = 0 then Except.error Fault.hang
      else if glyph_advance b ≤ (b :: rest).length then
        (· + 1) <$> str_count_utf8_glyphs ((b :: rest).drop (glyph_advance b))
      else Except.error Fault.out_of_bounds := by
  rw [str_count_cons]
  unfold glyph_advance
  rcases rest with _ | ⟨x, _ | ⟨y, _ | ⟨z, r⟩⟩⟩ <;> split_ifs <;> first | rfl | (exfalso; simp at *)

/-- The recursive form of the counter and the loop agree: a count is returned after finitely
    many passes, and where the recursive form reports a loop without progress, no number of
    passes ends the loop. -/
theorem glyphs_run_of_count :
    ∀ (m : Nat) (s : CStr), s.length ≤ m →
      (∀ k, str_count_utf8_glyphs s = Except.ok k →
        ∃ n, ∀ count, glyphs_run n s count = some (Except.ok (count + k))) ∧
      (str_count_utf8_glyphs s = Except.error Fault.hang →
        ∀ n count, glyphs_run n s count = none) := by
  intro m
  induction m with
  | zero =>
    intro s hs
    have : s = [] := List.length_eq_zero.1 (Nat.le_zero.1 hs)
    subst this
    refine ⟨fun k hk => ⟨0, fun count => ?_⟩, fun h => ?_⟩
    · have : k = 0 := by
        have h0 : str_count_utf8_glyphs [] = Except.ok 0 := rfl
        rw [h0] at hk; injection hk with hk; exact hk.symm
      subst this; rfl
    · exact absurd h (by decide)
  | succ m ih =>
    intro s hs
    cases s with
    | nil =>
      refine ⟨fun k hk => ⟨0, fun count => ?_⟩, fun h => ?_⟩
      · have : k = 0 := by
          have h0 : str_count_utf8_glyphs [] = Except.ok 0 := rfl
          rw [h0] at hk; injection hk with hk; exact hk.symm
        subst this; rfl
      · exact absurd h (by decide)
    | cons b rest =>
      rw [str_count_step]
      by_cases h0 : glyph_advance b = 0
      · rw [if_pos h0]
        exact ⟨fun k hk => (by cases hk), fun _ => glyphs_run_stuck b rest h0⟩
      · rw [if_neg h0]
        by_cases hle : glyph_advance b ≤ (b :: rest).length
        · rw [if_pos hle]
          have hlen : ((b :: rest).drop (glyph_advance b)).length ≤ m := by
            rw [List.length_drop]; simp only [List.length_cons] at hs ⊢; omega
          obtain ⟨ih1, ih2⟩ := ih _ hlen
          constructor
          · intro k hk
            cases hr : str_count_utf8_glyphs ((b :: rest).drop (glyph_advance b)) with
            | error e => rw [hr] at hk; cases hk
            | ok k' =>
              rw [hr] at hk
              have hkk : k = k' + 1 := by
                injection hk with hk; exact hk.symm
              obtain ⟨n, hn⟩ := ih1 k' hr
              refine ⟨n + 1, fun count => ?_⟩
              rw [glyphs_run_succ, if_pos hle, hn, hkk]
              congr 2; omega
          · intro hh n count
            have hr : str_count_utf8_glyphs ((b :: rest).drop (glyph_advance b)) =
                Except.error Fault.hang := by
              cases hr : str_count_utf8_glyphs ((b :: rest).drop (glyph_advance b)) with
              | error e => rw [hr] at hh; injection hh with hh; rw [hh]
              | ok k' => rw [hr] at hh; cases hh
            cases n with
            | zero => rfl
            | succ n => rw [glyphs_run_succ, if_pos hle]; exact ih2 hr n (count + 1)
        · rw [if_neg hle]
          exact ⟨fun k hk => (by cases hk), fun h => (by cases h)⟩

theorem lead2_bits : ∀ k, k < 32 → (0xC0 + k) &&& 0xE0 = 0xC0 := by decide

theorem lead3_bits : ∀ k, k < 16 → (0xE0 + k) &&& 0xE0 ≠ 0xC0 ∧ (0xE0 + k) &&& 0xF0 = 0xE0 := by
  decide

theorem lead4_bits : ∀ k, k < 8 →
    (0xF0 + k) &&& 0xE0 ≠ 0xC0 ∧ (0xF0 + k) &&& 0xF0 ≠ 0xE0 ∧ (0xF0 + k) &&& 0xF8 = 0xF0 := by
  decide

/-- The counter steps over the encoding of one code point and counts one glyph. -/
theorem str_count_encode (cp : Nat) (hcp : cp < 0x110000) (s : CStr) :
    str_count_utf8_glyphs (utf8_encode cp ++ s) = (· + 1) <$> str_count_utf8_glyphs s := by
  unfold utf8_encode
  by_cases h1 : cp < 0x80
  · rw [if_pos h1]
    exact str_count_ascii_cons cp s (by omega)
  · rw [if_neg h1]
    by_cases h2 : cp < 0x800
    · rw [if_pos h2, List.cons_append, str_count_cons, if_neg (by omega),
        if_pos (lead2_bits (cp / 64) (by omega))]
      rfl
    · rw [if_neg h2]
      by_cases h3 : cp < 0x10000
      · have hb := lead3_bits (cp / 4096) (by omega)
        rw [if_pos h3, List.cons_append, str_count_cons, if_neg (by omega), if_neg hb.1, if_pos hb.2]
        rfl
      · have hb := lead4_bits (cp / 262144) (by omega)
        rw [if_neg h3, List.cons_append, str_count_cons, if_neg (by omega), if_neg hb.1,
          if_neg hb.2.1, if_pos hb.2.2]
        rfl

theorem scalar_value_lt (cp : Nat) (h : scalar_value cp = true) : cp < 0x110000 := by
  simp only [scalar_value, Bool.and_eq_true, decide_eq_true_eq] at h
  exact h.1.2

theorem str_count_utf8_string (cps : List Nat) (h : ∀ cp ∈ cps, scalar_value cp = true) :
    str_count_utf8_glyphs (utf8_string cps) = Except.ok cps.length := by
  induction cps with
  | nil => rfl
  | cons cp cps ih =>
    have hcp := scalar_value_lt cp (h cp (List.mem_cons_self _ _))
    have e : utf8_string (cp :: cps) = utf8_encode cp ++ utf8_string cps := by
      simp [utf8_string]
    rw [e, str_count_encode cp hcp, ih (fun x hx => h x (List.mem_cons_of_mem _ hx))]
    rfl

theorem str_count_ascii (s : CStr) (h : ∀ c ∈ s, c ≤ 0x7F) :
    str_count_utf8_glyphs s = Except.ok s.length := by
  induction s with
  | nil => rfl
  | cons c s ih =>
    rw [str_count_ascii_cons c s (h c (List.mem_cons_self _ _)),
      ih (fun x hx => h x (List.mem_cons_of_mem _ hx))]
    rfl

/-! ## C37: the glyph count of well-formed UTF-8 -/

/-- C37: on the well-formed UTF-8 string that holds the code points `cps` (Unicode scalar values
    other than U+0000), `str_count_utf8_glyphs` returns, after finitely many passes of its loop,
    the number of code points; when all code points are ASCII that number is the byte length
    of the string; and the cell `itable_row_print` writes for such a string (shorter than
    the display buffer) in a String column is the string followed by the padding computed from
    the number of code points, not from the number of bytes. -/
theorem str_count_utf8_glyphs_code_points (cps : List Nat)
    (h : ∀ cp ∈ cps, scalar_value cp = true) :
    str_count_utf8_glyphs (utf8_string cps) = Except.ok cps.length ∧
    (∃ n, glyphs_run n (utf8_string cps) 0 = some (Except.ok cps.length)) ∧
    ((∀ cp ∈ cps, cp < 0x80) → (utf8_string cps).length = cps.length) ∧
    (∀ (col : Column) (row : Nat), col.meta.type = BTYPE_STRING →
      col.data.get? row = some (Slot.ptr (utf8_string cps)) →
      (utf8_string cps).length < BT_BUFF_SIZE →
      itable_row_print_cell col row =
        Except.ok (utf8_string cps ++ print_padding cps.length)) := by
  have hcount := str_count_utf8_string cps h
  refine ⟨hcount, ?_, ?_, ?_⟩
  · obtain ⟨n, hn⟩ := (glyphs_run_of_count _ (utf8_string cps) (le_refl _)).1 _ hcount
    exact ⟨n, by simpa using hn 0⟩
  · intro hascii
    have e : utf8_string cps = cps := by
      clear h hcount
      induction cps with
      | nil => rfl
      | cons cp cps ih =>
        have h1 : cp < 0x80 := hascii cp (List.mem_cons_self _ _)
        have e1 : utf8_string (cp :: cps) = utf8_encode cp ++ utf8_string cps := by
          simp [utf8_string]
        rw [e1, ih (fun x hx => hascii x (List.mem_cons_of_mem _ hx))]
        simp [utf8_encode, h1]
    rw [e]
  · intro col row hty hget hlen
    have htake : (utf8_string cps).take (BT_BUFF_SIZE - 1) = utf8_string cps :=
      List.take_of_length_le (by omega)
    simp only [itable_row_print_cell, icolumn_row_get, hty, hget, basetype_value_to_str,
      if_false, reduceCtorEq, bind, Except.bind, pure, Except.pure, htake, hcount]

set_option maxRecDepth 100000 in
theorem str_count_utf8_glyphs_code_points_witness :
    (∀ cp ∈ [0x61, 0xE9, 0x20AC, 0x1F600], scalar_value cp = true) ∧
    utf8_string [0x61, 0xE9, 0x20AC, 0x1F600] =
      [0x61, 0xC3, 0xA9, 0xE2, 0x82, 0xAC, 0xF0, 0x9F, 0x98, 0x80] ∧
    (str_count_utf8_glyphs (utf8_string [0x61, 0xE9, 0x20AC, 0x1F600]) =
        Except.ok [0x61, 0xE9, 0x20AC, 0x1F600].length ∧
      (∃ n, glyphs_run n (utf8_string [0x61, 0xE9, 0x20AC, 0x1F600]) 0 =
        some (Except.ok [0x61, 0xE9, 0x20AC, 0x1F600].length)) ∧
      ((∀ cp ∈ [0x61, 0xE9, 0x20AC, 0x1F600], cp < 0x80) →
        (utf8_string [0x61, 0xE9, 0x20AC, 0x1F600]).length = [0x61, 0xE9, 0x20AC, 0x1F600].length) ∧
      (∀ (col : Column) (row : Nat), col.meta.type = BTYPE_STRING →
        col.data.get? row = some (Slot.ptr (utf8_string [0x61, 0xE9, 0x20AC, 0x1F600])) →
        (utf8_string [0x61, 0xE9, 0x20AC, 0x1F600]).length < BT_BUFF_SIZE →
        itable_row_print_cell col row =
          Except.ok (utf8_string [0x61, 0xE9, 0x20AC, 0x1F600] ++
            print_padding [0x61, 0xE9, 0x20AC, 0x1F600].length))) ∧
    itable_row_print_cell (text_column [0x61, 0xC3, 0xA9, 0xE2, 0x82, 0xAC, 0xF0, 0x9F, 0x98, 0x80]) 0 =
      Except.ok ([0x61, 0xC3, 0xA9, 0xE2, 0x82, 0xAC, 0xF0, 0x9F, 0x98, 0x80] ++ List.replicate 16 32) :=
  ⟨by decide, by decide,
   str_count_utf8_glyphs_code_points [0x61, 0xE9, 0x20AC, 0x1F600] (by decide), by decide⟩

/-! ## C40: the glyph counter on bytes that start no sequence -/

set_option maxRecDepth 100000 in
/-- C40 (refuted, a defect of the code): on a byte `b` in `0x80..0xBF` or `0xF8..0xFF` the body
    of the loop of `str_count_utf8_glyphs` moves the cursor by nothing, so on a string that
    holds such a byte behind ASCII bytes the loop is still running after any number of passes:
    the function does not return.  The cell of a String column can hold such a byte (an
    INSERT whose value is the single byte 0x80 stores it), and the SELECT that prints it does not
    return either. -/
theorem str_count_utf8_glyphs_no_progress (pre rest : CStr) (b : Nat)
    (hpre : ∀ c ∈ pre, c ≤ 0x7F)
    (hb : (0x80 ≤ b ∧ b ≤ 0xBF) ∨ (0xF8 ≤ b ∧ b ≤ 0xFF)) :
    glyph_advance b = 0 ∧
    (∀ n count, glyphs_run n (pre ++ b :: rest) count = none) ∧
    str_count_utf8_glyphs (pre ++ b :: rest) = Except.error Fault.hang ∧
    run_queries env_glibc
      [cstr "CREATE TABLE s ( x string )", cstr "INSERT INTO s VALUES (" ++ [128] ++ cstr ")",
       cstr "SELECT * FROM s"] db_init = Except.error Fault.hang := by
  have h0 := glyph_advance_stuck b hb
  exact ⟨h0, glyphs_run_behind_ascii pre hpre b rest h0, str_count_behind_ascii pre hpre b rest h0,
    by rfl⟩

set_option maxRecDepth 100000 in
theorem str_count_utf8_glyphs_no_progress_witness :
    ((∀ c ∈ cstr "ab", c ≤ 0x7F) ∧ ((0x80 ≤ 0x80 ∧ 0x80 ≤ 0xBF) ∨ (0xF8 ≤ 0x80 ∧ 0x80 ≤ 0xFF))) ∧
    (glyph_advance 0x80 = 0 ∧
      (∀ n count, glyphs_run n (cstr "ab" ++ 0x80 :: cstr "c") count = none) ∧
      str_count_utf8_glyphs (cstr "ab" ++ 0x80 :: cstr "c") = Except.error Fault.hang ∧
      run_queries env_glibc
        [cstr "CREATE TABLE s ( x string )", cstr "INSERT INTO s VALUES (" ++ [128] ++ cstr ")",
         cstr "SELECT * FROM s"] db_init = Except.error Fault.hang) :=
  ⟨⟨by decide, by decide⟩,
   str_count_utf8_glyphs_no_progress (cstr "ab") (cstr "c") 0x80 (by decide) (by decide)⟩

/-! ## C38: tokens behind the table name of a DELETE -/

set_option maxRecDepth 100000 in
/-- C38 (refuted, a defect of the code): when the token behind the table name of a DELETE is
    not the keyword `WHERE`, `try_parse_where` returns NULL as it does at the end of the
    statement, and `query_parse_delete` returns OK with a Delete query without filters,
    whatever the tokens are.  `DELETE FROM t WHER a = 1` parses so, and the interpreter then
    removes all three rows of the table; with the keyword spelled right one row goes. -/
theorem query_parse_delete_trailing_tokens (kw table_name tok : CStr) (rest : List CStr)
    (hkw : str_ieq kw (cstr "from") = true) (htok : str_ieq tok (cstr "WHERE") = false) :
    query_parse_delete (kw :: table_name :: tok :: rest) =
      Except.ok (QueryParseResult.ok (Query.QUERY_DELETE table_name [])) ∧
    query_parse (cstr "DELETE FROM t WHER a = 1") =
      Except.ok (QueryParseResult.ok (Query.QUERY_DELETE (cstr "t") [])) ∧
    (do_query env_glibc scenario_db (cstr "DELETE FROM t WHER a = 1")).map
        (fun o => (o.result, o.db.tables.map (fun t => t.meta.row_count))) =
      Except.ok (RESULT_OK, [0]) ∧
    (do_query env_glibc scenario_db (cstr "DELETE FROM t WHERE age = 25")).map
        (fun o => (o.result, o.db.tables.map (fun t => t.meta.row_count))) =
      Except.ok (RESULT_OK, [2]) := by
  refine ⟨?_, by rfl, by rfl, by rfl⟩
  simp [query_parse_delete, try_parse_where, hkw, htok, bind, Except.bind, pure, Except.pure]

set_option maxRecDepth 100000 in
theorem query_parse_delete_trailing_tokens_witness :
    (str_ieq (cstr "from") (cstr "from") = true ∧ str_ieq (cstr "WHER") (cstr "WHERE") = false) ∧
    (query_parse_delete [cstr "from", cstr "t", cstr "WHER", cstr "a", cstr "=", cstr "1"] =
        Except.ok (QueryParseResult.ok (Query.QUERY_DELETE (cstr "t") [])) ∧
      query_parse (cstr "DELETE FROM t WHER a = 1") =
        Except.ok (QueryParseResult.ok (Query.QUERY_DELETE (cstr "t") [])) ∧
      (do_query env_glibc scenario_db (cstr "DELETE FROM t WHER a = 1")).map
          (fun o => (o.result, o.db.tables.map (fun t => t.meta.row_count))) =
        Except.ok (RESULT_OK, [0]) ∧
      (do_query env_glibc scenario_db (cstr "DELETE FROM t WHERE age = 25")).map
          (fun o => (o.result, o.db.tables.map (fun t => t.meta.row_count))) =
        Except.ok (RESULT_OK, [2])) :=
  ⟨⟨by decide, by decide⟩,
   query_parse_delete_trailing_tokens (cstr "from") (cstr "t") (cstr "WHER")
     [cstr "a", cstr "=", cstr "1"] (by decide) (by decide)⟩

/-! ## C32: a predicate with the operator `!=` -/

theorem icolumn_find_bad_call (c : Column) (value : Needle) (n : Nat) (lst : IntList) :
    icolumn_find_loop c (fun _ _ _ => throw Fault.bad_call) value (n + 1) 0 lst =
      Except.error Fault.bad_call := rfl

set_option maxRecDepth 100000 in
/-- C32 (refuted, a defect of the code): `filter_func_table` has no entry for
    `FILTER_NOT_EQUAL`, and `filter_interpret` hands the entry to `table_find` unchecked.  For
    every table with at least one row and every chain whose first predicate applies `!=` to
    an existing column (with a literal that converts), the first comparison of `icolumn_find`
    is a call through that empty entry: no typed error and no row list is returned.  The
    parser produces such chains: `SELECT * FROM t WHERE age != 30` ends this way, and only on a
    table without rows does the chain return (OK, no row). -/
theorem filter_interpret_not_equal (env : CEnv) (db : DataBase) (t : Table) (f : Filter)
    (next : List Filter) (c : Column)
    (hdb : idb_table_get_byid db t.meta.id = some t) (hwf : table_wf t)
    (hrows : 0 < t.meta.row_count)
    (hc : itable_column_find t f.column = some c) (hop : f.op = FILTER_NOT_EQUAL)
    (hlit : c.meta.type ≠ BTYPE_STRING → (str_to_int env f.value).result = RESULT_OK) :
    filter_interpret env db t.meta (f :: next) = Except.error Fault.bad_call ∧
    filterop_from_str (cstr "!=") = FILTER_NOT_EQUAL ∧
    query_parse (cstr "SELECT * FROM t WHERE age != 30") =
      Except.ok (QueryParseResult.ok (Query.QUERY_SELECT (cstr "t")
        [{ op := FILTER_NOT_EQUAL, value := cstr "30", column := cstr "age",
           next_relation := FILTER_REL_NONE }] none none SORT_ASCENDING)) ∧
    do_query env_glibc scenario_db (cstr "SELECT * FROM t WHERE age != 30") =
      Except.error Fault.bad_call ∧
    do_query env_glibc int_db (cstr "SELECT * FROM t WHERE a != 30") =
      Except.ok { result := RESULT_OK, db := int_db, out := [] } := by
  refine ⟨?_, by rfl, by rfl, by rfl, by rfl⟩
  have hmem := itable_column_find_mem t f.column c hc
  have hbyid := itable_column_byid_of_mem t c hmem hwf.1
  have hty := (hwf.2.2 c hmem).1
  obtain ⟨n, hn⟩ : ∃ n, t.meta.row_count = n + 1 := ⟨t.meta.row_count - 1, by omega⟩
  have hfind : ∀ value, table_find db t.meta.id c.meta.id (filter_func_table env f.op) value =
      Except.error Fault.bad_call := by
    intro value
    simp only [table_find, hdb, itable_find, hbyid, icolumn_find, hn, hop, filter_func_table,
      icolumn_find_bad_call, bind, Except.bind]
  unfold filter_interpret
  rw [filter_interpret_loop]
  simp only [table_column_get_of_find db t hdb f.column c hc]
  cases hct : c.meta.type with
  | BTYPE_INVALID => exact absurd hct hty
  | BTYPE_STRING =>
    simp only [hfind, Functor.map, Except.map, bind, Except.bind]
  | BTYPE_INT32 =>
    have hl := hlit (by rw [hct]; decide)
    simp only [hl, hfind, ne_eq, not_true_eq_false, if_false, Functor.map, Except.map, bind,
      Except.bind]
  | BTYPE_INT64 =>
    have hl := hlit (by rw [hct]; decide)
    simp only [hl, hfind, ne_eq, not_true_eq_false, if_false, Functor.map, Except.map, bind,
      Except.bind]

set_option maxRecDepth 100000 in
theorem filter_interpret_not_equal_witness :
    (idb_table_get_byid scenario_db scenario_table.meta.id = some scenario_table ∧
      table_wf scenario_table ∧ 0 < scenario_table.meta.row_count ∧
      itable_column_find scenario_table age_not_30.column = some age_column ∧
      age_not_30.op = FILTER_NOT_EQUAL ∧
      (age_column.meta.type ≠ BTYPE_STRING →
        (str_to_int env_glibc age_not_30.value).result = RESULT_OK)) ∧
    (filter_interpret env_glibc scenario_db scenario_table.meta (age_not_30 :: []) =
        Except.error Fault.bad_call ∧
      filterop_from_str (cstr "!=") = FILTER_NOT_EQUAL ∧
      query_parse (cstr "SELECT * FROM t WHERE age != 30") =
        Except.ok (QueryParseResult.ok (Query.QUERY_SELECT (cstr "t")
          [{ op := FILTER_NOT_EQUAL, value := cstr "30", column := cstr "age",
             next_relation := FILTER_REL_NONE }] none none SORT_ASCENDING)) ∧
      do_query env_glibc scenario_db (cstr "SELECT * FROM t WHERE age != 30") =
        Except.error Fault.bad_call ∧
      do_query env_glibc int_db (cstr "SELECT * FROM t WHERE a != 30") =
        Except.ok { result := RESULT_OK, db := int_db, out := [] }) :=
  ⟨⟨by decide, by decide, by decide, by decide, rfl, fun _ => by decide⟩,
   filter_interpret_not_equal env_glibc scenario_db scenario_table age_not_30 [] age_column
     (by decide) (by decide) (by decide) (by decide) rfl (fun _ => by decide)⟩

/-! ## C33: a column list that names a column the table does not have -/

set_option maxRecDepth 100000 in
/-- C33 (refuted, a defect of the code): for every table and every list of names,
    `table_column_get_list` returns a list and never NULL: the metadata of the columns whose
    name is in the list, in the order of the table, the names without a column being passed
    over (the empty list when no name has a column); only for the NULL list the result is as
    claimed, the metadata of all columns in declared order.  So on the table `t(name, age)`
    `SELECT nosuch FROM t` returns OK and prints every row, the SELECT with `name, nosuch` and
    a WHERE clause prints the column `name`, `UPDATE t SET age = 1, nosuch = 2` returns OK and
    sets every `age` to 1, and `UPDATE t SET nosuch = 1` reads the NULL `meta` of the empty
    list; none returns `RESULT_COLUMN_NOT_FOUND`. -/
theorem table_column_get_list_unmatched (db : DataBase) (tid : Nat) (t : Table) (l : StrList)
    (hdb : idb_table_get_byid db tid = some t) (hl : l ≠ []) :
    table_column_get_list db tid (some l) =
      Except.ok (some ((t.columns.filter (fun c => decide (c.meta.name ∈ l))).map
        (fun c => c.meta))) ∧
    table_column_get_list db tid (some l) ≠ Except.ok none ∧
    table_column_get_list db tid none = Except.ok (some (t.columns.map (fun c => c.meta))) ∧
    table_column_get_list scenario_db 0 (some [cstr "nosuch"]) = Except.ok (some []) ∧
    table_column_get_list scenario_db 0 (some [cstr "name", cstr "nosuch"]) =
      Except.ok (some [{ id := 0, name := cstr "name", type := BTYPE_STRING }]) ∧
    (do_query env_glibc scenario_db (cstr "SELECT nosuch FROM t")).map
        (fun o => (o.result, o.out)) =
      Except.ok (RESULT_OK, padded "alice" ++ padded "30" ++ [10] ++ padded "bob" ++ padded "25" ++
        [10] ++ padded "alice" ++ padded "40" ++ [10]) ∧
    (do_query env_glibc scenario_db (cstr "SELECT name, nosuch FROM t WHERE age = 25")).map
        (fun o => (o.result, o.out)) =
      Except.ok (RESULT_OK, padded "bob" ++ [10]) ∧
    (do_query env_glibc scenario_db (cstr "UPDATE t SET age = 1, nosuch = 2")).map
        (fun o => (o.result, live_slots o.db 3)) =
      Except.ok (RESULT_OK,
        [[[Slot.ptr (cstr "alice"), Slot.ptr (cstr "bob"), Slot.ptr (cstr "alice")],
          [Slot.bits 1, Slot.bits 1, Slot.bits 1]]]) ∧
    do_query env_glibc scenario_db (cstr "UPDATE t SET nosuch = 1") =
      Except.error Fault.null_deref := by
  have h1 : table_column_get_list db tid (some l) =
      Except.ok (some ((t.columns.filter (fun c => decide (c.meta.name ∈ l))).map
        (fun c => c.meta))) := by
    simp only [table_column_get_list, hdb, table_column_get_list_loop_eq l hl, bind, Except.bind,
      pure, Except.pure]
  refine ⟨h1, ?_, ?_, by rfl, by rfl, by rfl, by rfl, by rfl, by rfl⟩
  · rw [h1]; intro h; cases h
  · simp only [table_column_get_list, hdb, pure, Except.pure]

set_option maxRecDepth 100000 in
theorem table_column_get_list_unmatched_witness :
    (idb_table_get_byid scenario_db 0 = some scenario_table ∧ [cstr "nosuch"] ≠ []) ∧
    table_column_get_list scenario_db 0 (some [cstr "nosuch"]) ≠ Except.ok none :=
  ⟨⟨by decide, by decide⟩,
   (table_column_get_list_unmatched scenario_db 0 scenario_table [cstr "nosuch"] (by decide)
     (by decide)).2.1⟩

/-! ## C34: the bounds check of `table_column_get_row` -/

set_option maxRecDepth 100000 in
/-- C34 (refuted, a defect of the code): `table_column_get_row` rejects `nth > row_count`, not
    `nth >= row_count`.  For every table with `n` rows and every column of it the call with
    `nth = n` returns the pointer to slot `n`, one behind the last row; for `nth < n` it returns
    the pointer to slot `nth` and for `nth > n` NULL, as claimed.  On the table with the three
    rows 30, 25, 40 the call with `nth = 3` yields a slot that was never written, and after
    the row 40 has been deleted the call with `nth = 2` yields the deleted 40;
    `table_row_delete`, whose check is `index >= row_count`, rejects the same index. -/
theorem table_column_get_row_at_row_count (db : DataBase) (tid : Nat) (t : Table) (c : Column)
    (hdb : idb_table_get_byid db tid = some t)
    (hc : itable_column_byid t c.meta.id = some c) (hty : c.meta.type ≠ BTYPE_INVALID) :
    table_column_get_row db tid c.meta.id t.meta.row_count =
      some { tid := tid, cid := c.meta.id, index := t.meta.row_count } ∧
    (∀ nth, nth < t.meta.row_count →
      table_column_get_row db tid c.meta.id nth = some { tid := tid, cid := c.meta.id, index := nth }) ∧
    (∀ nth, t.meta.row_count < nth → table_column_get_row db tid c.meta.id nth = none) ∧
    table_column_get_row scenario_db 0 1 3 = some { tid := 0, cid := 1, index := 3 } ∧
    slot_load scenario_db (table_column_get_row scenario_db 0 1 3) = Except.ok Slot.uninit ∧
    table_row_delete scenario_db 0 3 = Except.ok (RESULT_INDEX_OUT_OF_BOUNDS, scenario_db) ∧
    (do
      let o ← do_query env_glibc scenario_db (cstr "DELETE FROM t WHERE age = 40")
      let s ← slot_load o.db (table_column_get_row o.db 0 1 2)
      pure (o.result, o.db.tables.map (fun t => t.meta.row_count), s)) =
      Except.ok (RESULT_OK, [2], Slot.bits 40) := by
  have hget : ∀ nth, nth ≤ t.meta.row_count →
      table_column_get_row db tid c.meta.id nth =
        some { tid := tid, cid := c.meta.id, index := nth } := by
    intro nth hn
    simp only [table_column_get_row, hdb, hc, if_neg (Nat.not_lt.2 hn), if_neg hty]
  refine ⟨hget _ (le_refl _), fun nth hn => hget nth (le_of_lt hn), ?_, by rfl, by rfl, by rfl,
    by rfl⟩
  intro nth hn
  simp only [table_column_get_row, hdb, if_pos hn]

set_option maxRecDepth 100000 in
theorem table_column_get_row_at_row_count_witness :
    (idb_table_get_byid scenario_db 0 = some scenario_table ∧
      itable_column_byid scenario_table age_column.meta.id = some age_column ∧
      age_column.meta.type ≠ BTYPE_INVALID) ∧
    table_column_get_row scenario_db 0 age_column.meta.id scenario_table.meta.row_count =
      some { tid := 0, cid := age_column.meta.id, index := scenario_table.meta.row_count } :=
  ⟨⟨by decide, by decide, by decide⟩,
   (table_column_get_row_at_row_count scenario_db 0 scenario_table age_column (by decide)
     (by decide) (by decide)).1⟩

/-! ## C35: the order of a row-id list -/

theorem foldl_union_step_nodup (b : List Int) (hb : b.Nodup) (acc : List Int) :
    b.foldl union_step acc = acc ++ b.filter (fun v => decide (v ∉ acc)) := by
  induction b generalizing acc with
  | nil => simp
  | cons v b ih =>
    have hv : v ∉ b := (List.nodup_cons.1 hb).1
    have hb' : b.Nodup := (List.nodup_cons.1 hb).2
    rw [List.foldl_cons, ih hb']
    by_cases h : v ∈ acc
    · simp [union_step, h]
    · have e : b.filter (fun w => decide (w ∉ acc ++ [v])) = b.filter (fun w => decide (w ∉ acc)) := by
        apply List.filter_congr
        intro w hw
        have : w ≠ v := fun e => hv (e ▸ hw)
        simp [this]
      rw [show union_step acc v = acc ++ [v] by simp [union_step, h], e,
        List.filter_cons_of_pos (by simpa using h)]
      simp

/-- The values of `intlist_union` on lists without duplicates: those of the left list in their
    order, then those of the right list that the left one does not hold, in their order. -/
theorem union_values_nodup (a b : List Int) (ha : a.Nodup) (hb : b.Nodup) :
    union_values a b = a ++ b.filter (fun v => decide (v ∉ a)) := by
  unfold union_values
  rw [foldl_union_step_nodup a ha [], foldl_union_step_nodup b hb]
  simp

set_option maxRecDepth 100000 in
/-- C35 (refuted, a defect of the code): `intlist_union` does not merge.  For strictly ascending
    lists `a` and `b` its result holds the ids of `a`, then the ids of `b` that `a` does not
    hold: it is free of duplicates, but ascending only when every new id of `b` exceeds the
    ids of `a`.  The union of `[2]` and `[0]` is `[2, 0]`, that of `[0, 2, 5]` and `[1, 3, 5]` is
    `[0, 2, 5, 1, 3]`; on the rows 30, 25, 40 the chain `age = 40 OR age = 30` evaluates
    successfully to `[2, 0]`, and the SELECT with that chain prints row 2 before row 0. -/
theorem intlist_union_not_ascending (a b : List Int)
    (ha : a.Pairwise (fun x y => x < y)) (hb : b.Pairwise (fun x y => x < y))
    (hna : NoNull a) (hnb : NoNull b) :
    intlist_union false (intlist_of a) (intlist_of b) =
      some (intlist_of (a ++ b.filter (fun v => decide (v ∉ a)))) ∧
    intlist_union false [2] [0] = some [2, 0] ∧
    intlist_union false [0, 2, 5] [1, 3, 5] = some [0, 2, 5, 1, 3] ∧
    filter_interpret env_glibc scenario_db scenario_table.meta
        [{ op := FILTER_EQUAL, value := cstr "40", column := cstr "age",
           next_relation := FILTER_REL_OR },
         { op := FILTER_EQUAL, value := cstr "30", column := cstr "age",
           next_relation := FILTER_REL_NONE }] =
      Except.ok { res := RESULT_OK, rows := [2, 0] } ∧
    (do_query env_glibc scenario_db (cstr "SELECT * FROM t WHERE age = 40 OR age = 30")).map
        (fun o => (o.result, o.out)) =
      Except.ok (RESULT_OK, padded "alice" ++ padded "40" ++ [10] ++ padded "alice" ++
        padded "30" ++ [10]) := by
  refine ⟨?_, by rfl, by rfl, by rfl, by rfl⟩
  have hnd : ∀ l : List Int, l.Pairwise (fun x y => x < y) → l.Nodup := fun l hl =>
    hl.imp (fun h => ne_of_lt h)
  rw [intlist_union_of a b hna hnb, union_values_nodup a b (hnd a ha) (hnd b hb)]

set_option maxRecDepth 100000 in
theorem intlist_union_not_ascending_witness :
    (([2] : List Int).Pairwise (fun x y => x < y) ∧ ([0] : List Int).Pairwise (fun x y => x < y) ∧
      NoNull [2] ∧ NoNull [0]) ∧
    intlist_union false (intlist_of [2]) (intlist_of [0]) =
      some (intlist_of ([2] ++ ([0] : List Int).filter (fun v => decide (v ∉ ([2] : List Int))))) ∧
    intlist_of ([2] ++ ([0] : List Int).filter (fun v => decide (v ∉ ([2] : List Int)))) = [2, 0] ∧
    ¬ ([2, 0] : List Int).Pairwise (fun x y => x < y) :=
  ⟨⟨by decide, by decide, by unfold NoNull; decide, by unfold NoNull; decide⟩,
   (intlist_union_not_ascending [2] [0] (by decide) (by decide) (by unfold NoNull; decide)
     (by unfold NoNull; decide)).1,
   by decide, by decide⟩

/-! ## Lemmas: integer comparison -/

theorem as_int32_mod (v : Nat) : as_int32 (v % 2 ^ 32) = as_int32 v := by
  unfold as_int32
  rw [Nat.mod_mod]

theorem value_fits_int (type : BaseType) (v : CStr) (b : Int) (hb : int_literal v = some b)
    (hty : type = BTYPE_INT32 ∨ type = BTYPE_INT64) (hfit : value_fits type v = true) :
    -(2 ^ 63) ≤ b ∧ b < 2 ^ 63 ∧ (type = BTYPE_INT32 → -(2 ^ 31) ≤ b ∧ b < 2 ^ 31) := by
  rcases hty with h | h
  · subst h
    simp only [value_fits, hb, decide_eq_true_eq] at hfit
    refine ⟨by omega, by omega, fun _ => hfit⟩
  · subst h
    simp only [value_fits, hb, decide_eq_true_eq] at hfit
    exact ⟨hfit.1, hfit.2, fun h => by cases h⟩

/-- The operands an integer comparison reads: the stored integer and the value of the literal. -/
theorem filter_int_operands_literal (env : CEnv) (type : BaseType) (v : Nat) (value : CStr) (b : Int)
    (hty : type = BTYPE_INT32 ∨ type = BTYPE_INT64)
    (hb : int_literal value = some b) (hfit : value_fits type value = true) :
    ∃ a, stored_int type (Slot.bits v) = some a ∧
      filter_int_operands type (Except.ok (Slot.bits v)) (filter_needle env type value) =
        Except.ok (a, b) := by
  obtain ⟨hlo, hhi, h32⟩ := value_fits_int type value b hb hty hfit
  have hconv := str_to_int_literal env value b hb hlo hhi
  rcases hty with h | h
  · subst h
    refine ⟨as_int32 v, rfl, ?_⟩
    have e : as_int32 (b % 2 ^ 64).toNat = b := by
      rw [← as_int32_mod]; exact as_int32_literal b (h32 rfl).1 (h32 rfl).2
    simp only [filter_int_operands, filter_needle, hconv, bind, Except.bind, pure, Except.pure,
      if_true, e]
  · subst h
    refine ⟨as_int64 v, rfl, ?_⟩
    have e : as_int64 (b % 2 ^ 64).toNat = b := as_int64_literal b hlo hhi
    simp only [filter_int_operands, filter_needle, hconv, bind, Except.bind, pure, Except.pure,
      reduceCtorEq, if_false, e]

/-- Every comparison function of the five order operators decides the order relation of the
    operator between the stored integer and the value of the literal. -/
theorem filter_func_table_int (env : CEnv) (op : FilterOp) (hop : order_op op = true)
    (type : BaseType) (v : Nat) (value : CStr) (b : Int)
    (hty : type = BTYPE_INT32 ∨ type = BTYPE_INT64)
    (hb : int_literal value = some b) (hfit : value_fits type value = true) :
    ∃ a, stored_int type (Slot.bits v) = some a ∧
      filter_func_table env op type (Except.ok (Slot.bits v)) (filter_needle env type value) =
        Except.ok (int_relation op a b) := by
  obtain ⟨a, ha, hops⟩ := filter_int_operands_literal env type v value b hty hb hfit
  refine ⟨a, ha, ?_⟩
  have heq : filter_func_equals type (Except.ok (Slot.bits v)) (filter_needle env type value) =
      Except.ok (decide (a = b)) := by
    rcases hty with h | h <;> subst h <;>
      simp only [filter_func_equals, hops, bind, Except.bind, pure, Except.pure]
  have hgt : filter_func_greater type (Except.ok (Slot.bits v)) (filter_needle env type value) =
      Except.ok (decide (a > b)) := by
    rcases hty with h | h <;> subst h <;>
      simp only [filter_func_greater, hops, bind, Except.bind, pure, Except.pure]
  have hlt : filter_func_lesser type (Except.ok (Slot.bits v)) (filter_needle env type value) =
      Except.ok (decide (a < b)) := by
    rcases hty with h | h <;> subst h <;>
      simp only [filter_func_lesser, hops, bind, Except.bind, pure, Except.pure]
  cases op <;> simp only [order_op, Bool.false_eq_true] at hop
  · exact heq
  · exact hgt
  · show filter_func_greater_equal type _ _ = _
    unfold filter_func_greater_equal
    simp only [heq, hgt, bind, Except.bind, pure, Except.pure, int_relation]
    by_cases h1 : a = b
    · simp [h1]
    · have : (a ≥ b) ↔ (a > b) := by omega
      simp [h1, this]
  · exact hlt
  · show filter_func_lesser_equal type _ _ = _
    unfold filter_func_lesser_equal
    simp only [heq, hlt, bind, Except.bind, pure, Except.pure, int_relation]
    by_cases h1 : a = b
    · simp [h1]
    · have : (a ≤ b) ↔ (a < b) := by omega
      simp [h1, this]

theorem order_op_wired (op : FilterOp) (h : order_op op = true) : op_wired op = true := by
  cases op <;> simp [order_op] at h <;> rfl

/-- On a live row of an integer column a predicate with an order operator and a literal in
    range holds iff the stored integer stands in that relation to the value of the literal. -/
theorem pred_holds_int (env : CEnv) (t : Table) (hwf : table_wf t) (f : Filter) (c : Column)
    (hc : itable_column_find t f.column = some c)
    (hty : c.meta.type = BTYPE_INT32 ∨ c.meta.type = BTYPE_INT64)
    (hop : order_op f.op = true) (b : Int) (hb : int_literal f.value = some b)
    (hfit : value_fits c.meta.type f.value = true) (i : Nat) (hi : i < t.meta.row_count) :
    (∃ a, (c.data.get? i).bind (stored_int c.meta.type) = some a) ∧
    pred_holds env t f i = int_row_selected c f.op b i := by
  have hmem := itable_column_find_mem t f.column c hc
  obtain ⟨_, hcap, hcols⟩ := hwf
  obtain ⟨htyv, hlen, hslots⟩ := hcols c hmem
  have hi2 : i < c.data.length := by omega
  have hslot : slot_ok c.meta.type c.data[i] = true :=
    hslots _ (by rw [List.mem_take_iff_getElem]; exact ⟨i, by omega, rfl⟩)
  have hget : c.data.get? i = some c.data[i] := by
    simp [List.getElem?_eq_getElem hi2]
  obtain ⟨v, hv⟩ : ∃ v, c.data[i] = Slot.bits v := by
    rcases hty with h | h <;> rw [h] at hslot <;> cases hd : c.data[i] <;>
      simp [hd, slot_ok] at hslot <;> exact ⟨_, rfl⟩
  obtain ⟨a, ha, hfun⟩ := filter_func_table_int env f.op hop c.meta.type v f.value b hty hb hfit
  have hrow : icolumn_row_get c i = Except.ok (Slot.bits v) := by
    simp [icolumn_row_get, htyv, List.getElem?_eq_getElem hi2, hv, pure, Except.pure]
  constructor
  · exact ⟨a, by rw [hget, hv]; exact ha⟩
  · simp only [pred_holds, hc, hrow, hfun, int_row_selected, hget, hv, Option.bind, ha]

/-! ## C36: integer predicates compare as signed integers -/

/-- C36: for every table at rest, every Int32 or Int64 column `c` of it, every operator among
    `=`, `>`, `>=`, `<`, `<=` and every literal whose integer value `b` lies in the signed range
    of the column type, `filter_interpret` returns OK with the ascending list of the live rows
    whose stored integer `a`, read as a signed integer of the width of the column, stands in
    the relation of the operator to `b`; every live row holds such an integer; and on every
    live row `>=` holds iff `=` or `>` holds, `<=` iff `=` or `<` holds. -/
theorem filter_interpret_signed_order (env : CEnv) (db : DataBase) (t : Table) (f : Filter)
    (c : Column) (b : Int)
    (hdb : idb_table_get_byid db t.meta.id = some t) (hwf : table_wf t)
    (hc : itable_column_find t f.column = some c)
    (hty : c.meta.type = BTYPE_INT32 ∨ c.meta.type = BTYPE_INT64)
    (hop : order_op f.op = true) (hb : int_literal f.value = some b)
    (hfit : value_fits c.meta.type f.value = true) :
    filter_interpret env db t.meta [f] =
      Except.ok { res := RESULT_OK,
                  rows := intlist_of (((List.range' 0 t.meta.row_count).filter
                    (int_row_selected c f.op b)).map (fun (k : Nat) => (k : Int))) } ∧
    (∀ i, i < t.meta.row_count →
      ∃ a, (c.data.get? i).bind (stored_int c.meta.type) = some a ∧
        (((i : Int) ∈ ((List.range' 0 t.meta.row_count).filter
            (int_row_selected c f.op b)).map (fun (k : Nat) => (k : Int))) ↔
          int_relation f.op a b = true)) ∧
    (∀ i, i < t.meta.row_count →
      pred_holds env t { f with op := FILTER_GREATER_EQUAL } i =
        (pred_holds env t { f with op := FILTER_EQUAL } i ||
          pred_holds env t { f with op := FILTER_GREATER } i) ∧
      pred_holds env t { f with op := FILTER_LESSER_EQUAL } i =
        (pred_holds env t { f with op := FILTER_EQUAL } i ||
          pred_holds env t { f with op := FILTER_LESSER } i)) := by
  have hfok : filter_ok env t f := by
    refine ⟨order_op_wired f.op hop, ?_⟩
    rw [hc]
    intro _
    obtain ⟨hlo, hhi, _⟩ := value_fits_int c.meta.type f.value b hb hty hfit
    rw [str_to_int_literal env f.value b hb hlo hhi]
  have hsat : sat_rows env t f = ((List.range' 0 t.meta.row_count).filter
      (int_row_selected c f.op b)).map (fun (k : Nat) => (k : Int)) := by
    unfold sat_rows
    congr 1
    apply List.filter_congr
    intro i hi
    have hi2 : i < t.meta.row_count := by
      have := (List.mem_range'_1.1 hi).2; omega
    exact (pred_holds_int env t hwf f c hc hty hop b hb hfit i hi2).2
  refine ⟨?_, ?_, ?_⟩
  · unfold filter_interpret
    rw [filter_interpret_loop_step env db t hdb hwf f hfok [] [] FILTER_REL_NONE, hsat]
    simp only [ne_eq, not_true_eq_false, if_false, filter_interpret_loop]
    rfl
  · intro i hi
    obtain ⟨⟨a, ha⟩, _⟩ := pred_holds_int env t hwf f c hc hty hop b hb hfit i hi
    refine ⟨a, ha, ?_⟩
    have hsel : int_row_selected c f.op b i = int_relation f.op a b := by
      simp only [int_row_selected, ha]
    simp only [List.mem_map, List.mem_filter, List.mem_range'_1, Nat.cast_inj, exists_eq_right,
      hsel, zero_le, true_and, zero_add, hi]
  · intro i hi
    have hp : ∀ op, order_op op = true →
        (∃ a, (c.data.get? i).bind (stored_int c.meta.type) = some a) ∧
        pred_holds env t { f with op := op } i = int_row_selected c op b i := fun op hop' =>
      pred_holds_int env t hwf { f with op := op } c hc hty hop' b hb hfit i hi
    obtain ⟨⟨a, ha⟩, hge⟩ := hp FILTER_GREATER_EQUAL rfl
    rw [hge, (hp FILTER_EQUAL rfl).2, (hp FILTER_GREATER rfl).2, (hp FILTER_LESSER_EQUAL rfl).2,
      (hp FILTER_LESSER rfl).2]
    simp only [int_row_selected, ha, int_relation]
    constructor
    · by_cases h1 : a = b
      · simp [h1]
      · have : (a ≥ b) ↔ (a > b) := by omega
        simp [h1, this]
    · by_cases h1 : a = b
      · simp [h1]
      · have : (a ≤ b) ↔ (a < b) := by omega
        simp [h1, this]

theorem signed_db_reachable : run_queries env_glibc signed_script db_init = Except.ok signed_db := by
  rfl

set_option maxRecDepth 100000 in
/-- Witness of C36: in the Int32 column holding -1, 0, 5 the predicate `a < 0` selects row 0, the
    row of the stored -1, and `SELECT * FROM t WHERE a < 0` prints that row; in the Int64 column
    holding -9000000000, 3, 9000000000 the predicate `b >= 3` selects the rows 1 and 2. -/
theorem filter_interpret_signed_order_witness :
    (idb_table_get_byid signed_db signed_table.meta.id = some signed_table ∧
      table_wf signed_table ∧
      itable_column_find signed_table below_zero.column = some signed_column ∧
      (signed_column.meta.type = BTYPE_INT32 ∨ signed_column.meta.type = BTYPE_INT64) ∧
      order_op below_zero.op = true ∧ int_literal below_zero.value = some 0 ∧
      value_fits signed_column.meta.type below_zero.value = true) ∧
    filter_interpret env_glibc signed_db signed_table.meta [below_zero] =
      Except.ok { res := RESULT_OK,
                  rows := intlist_of (((List.range' 0 signed_table.meta.row_count).filter
                    (int_row_selected signed_column below_zero.op 0)).map
                      (fun (k : Nat) => (k : Int))) } ∧
    filter_interpret env_glibc signed_db signed_table.meta [below_zero] =
      Except.ok { res := RESULT_OK, rows := [0] } ∧
    (do_query env_glibc signed_db (cstr "SELECT * FROM t WHERE a < 0")).map
        (fun o => (o.result, o.out)) =
      Except.ok (RESULT_OK, padded "-1" ++ padded "-9000000000" ++ [10]) ∧
    filter_interpret env_glibc signed_db signed_table.meta
        [{ op := FILTER_GREATER_EQUAL, value := cstr "3", column := cstr "b",
           next_relation := FILTER_REL_NONE }] =
      Except.ok { res := RESULT_OK, rows := [1, 2] } :=
  ⟨⟨by decide, by decide, by decide, by decide, by decide, by decide, by decide⟩,
   (filter_interpret_signed_order env_glibc signed_db signed_table below_zero signed_column 0
     (by decide) (by decide) (by decide) (by decide) (by decide) (by decide) (by decide)).1,
   by rfl, by rfl, by rfl⟩

/-! ## Lemmas: an INSERT whose value count differs from the column count -/

theorem cursor_of_append (v : CStr) (vs extra : List CStr) :
    cursor_of (v :: vs ++ extra) = cursor_of (v :: (vs ++ extra)) := rfl

/-- The check stops at the last column: values behind it are not looked at. -/
theorem validate_value_types_loop_surplus (env : CEnv) (extra : List CStr) :
    ∀ (cols : List ColumnMeta) (vs : List CStr), vs.length = cols.length →
      validate_value_types_loop env cols (cursor_of (vs ++ extra)) =
        validate_value_types_loop env cols (cursor_of vs) := by
  intro cols
  induction cols with
  | nil => intro vs _; rfl
  | cons c r ih =>
    intro vs hlen
    cases vs with
    | nil => simp at hlen
    | cons v vr =>
      have hlen2 : vr.length = r.length := by simpa using hlen
      rw [List.cons_append]
      simp only [validate_value_types_loop, cursor_str, cursor_next, bind, Except.bind,
        ih vr hlen2]

/-- The writer stops at the last column: values behind it are not written. -/
theorem insert_values_loop_surplus (env : CEnv) (tm : TableMeta) (row : Nat) (replace : Bool)
    (extra : List CStr) :
    ∀ (cols : List ColumnMeta) (vs : List CStr) (db : DataBase), vs.length = cols.length →
      insert_values_loop env tm row replace cols (cursor_of (vs ++ extra)) db =
        insert_values_loop env tm row replace cols (cursor_of vs) db := by
  intro cols
  induction cols with
  | nil => intro vs db _; rfl
  | cons c r ih =>
    intro vs db hlen
    cases vs with
    | nil => simp at hlen
    | cons v vr =>
      have hlen2 : vr.length = r.length := by simpa using hlen
      rw [List.cons_append]
      simp only [insert_values_loop, cursor_str, cursor_next, bind, Except.bind]
      split
      · rfl
      · rename_i step _
        split
        · rfl
        · exact ih vr step.2 hlen2

/-- With fewer values than columns the check reads through the NULL cursor that the end of
    the value list leaves. -/
theorem validate_value_types_loop_short (env : CEnv) :
    ∀ (cols : List ColumnMeta) (vs : List CStr), vs.length < cols.length →
      (∀ v ∈ vs, (str_to_int env v).result = RESULT_OK) →
      validate_value_types_loop env cols (cursor_of vs) = Except.error Fault.null_deref := by
  intro cols
  induction cols with
  | nil => intro vs hlen _; simp at hlen
  | cons c r ih =>
    intro vs hlen hconv
    cases vs with
    | nil =>
      cases hct : c.type <;>
        simp [validate_value_types_loop, cursor_of, strnode_str, strnode_next, hct, bind,
          Except.bind, pure, Except.pure, throw, throwThe, MonadExceptOf.throw]
    | cons v vr =>
      have hlen2 : vr.length < r.length := by simpa using hlen
      have hv := hconv v (List.mem_cons_self _ _)
      have hrest := ih vr hlen2 (fun x hx => hconv x (List.mem_cons_of_mem _ hx))
      cases hct : c.type <;>
        simp [validate_value_types_loop, cursor_str, cursor_next, deref_str, hct, hv, hrest, bind,
          Except.bind, pure, Except.pure]

/-! ## C39: an INSERT whose value count differs from the column count -/

set_option maxRecDepth 100000 in
/-- C39 (refuted, a defect of the code): `interpret_insert` does not compare the number of
    values with the number of columns.  For every table, an INSERT with fewer values than
    columns (each a literal that converts) walks the value list past its end and reads through
    the NULL cursor in `validate_value_types`: no error is returned.  An INSERT with one value
    per column and further values behind them does exactly what the INSERT without the
    further values does: on the table `t(name, age)`, `INSERT INTO t VALUES (carol, 50, 7)`
    returns OK and adds the row `carol 50`. -/
theorem interpret_insert_value_count (env : CEnv) (db : DataBase) (table_name : CStr) (t : Table)
    (vs extra : List CStr)
    (hname : idb_table_get db table_name = some t)
    (hdb : idb_table_get_byid db t.meta.id = some t) (hvs : vs ≠ []) :
    (vs.length < t.columns.length → (∀ v ∈ vs, (str_to_int env v).result = RESULT_OK) →
      interpret_insert env db table_name vs = Except.error Fault.null_deref) ∧
    (vs.length = t.columns.length →
      interpret_insert env db table_name (vs ++ extra) = interpret_insert env db table_name vs) ∧
    do_query env_glibc scenario_db (cstr "INSERT INTO t VALUES (carol)") =
      Except.error Fault.null_deref ∧
    (do_query env_glibc scenario_db (cstr "INSERT INTO t VALUES (carol, 50, 7)")).map
        (fun o => (o.result, o.db.tables.map (fun t => t.meta.row_count), live_slots o.db 4)) =
      Except.ok (RESULT_OK, [4],
        [[[Slot.ptr (cstr "alice"), Slot.ptr (cstr "bob"), Slot.ptr (cstr "alice"),
           Slot.ptr (cstr "carol")],
          [Slot.bits 30, Slot.bits 25, Slot.bits 40, Slot.bits 50]]]) := by
  obtain ⟨v, vr, rfl⟩ : ∃ v vr, vs = v :: vr := by
    cases vs with
    | nil => exact absurd rfl hvs
    | cons v vr => exact ⟨v, vr, rfl⟩
  refine ⟨?_, ?_, by rfl, by rfl⟩
  · intro hlen hconv
    cases hc : t.columns with
    | nil => rw [hc] at hlen; simp at hlen
    | cons c r =>
      rw [hc] at hlen
      have hshort := validate_value_types_loop_short env ((c :: r).map (fun c => c.meta)) (v :: vr)
        (by simpa using hlen) hconv
      simp only [List.map_cons, cursor_of] at hshort
      simp only [interpret_insert, db_table_get, hname, ne_eq, not_true_eq_false, if_false,
        table_column_get_list, hdb, hc, List.map_cons, validate_value_types, hshort, bind,
        Except.bind, pure, Except.pure]
  · intro hlen
    cases hc : t.columns with
    | nil => rw [hc] at hlen; simp at hlen
    | cons c r =>
      rw [hc] at hlen
      have hl : (v :: vr).length = ((c :: r).map (fun c => c.meta)).length := by simpa using hlen
      have h1 := validate_value_types_loop_surplus env extra _ (v :: vr) hl
      have h2 := fun db' => insert_values_loop_surplus env t.meta t.meta.row_count false extra _
        (v :: vr) db' hl
      simp only [List.map_cons, List.cons_append, cursor_of] at h1 h2
      simp only [interpret_insert, db_table_get, hname, ne_eq, not_true_eq_false, if_false,
        table_column_get_list, hdb, hc, List.map_cons, validate_value_types, insert_values,
        List.cons_append, h1, h2, bind, Except.bind, pure, Except.pure]

set_option maxRecDepth 100000 in
theorem interpret_insert_value_count_witness :
    (idb_table_get scenario_db (cstr "t") = some scenario_table ∧
      idb_table_get_byid scenario_db scenario_table.meta.id = some scenario_table ∧
      [cstr "carol"] ≠ [] ∧ [cstr "carol"].length < scenario_table.columns.length ∧
      (∀ v ∈ [cstr "carol"], (str_to_int env_glibc v).result = RESULT_OK)) ∧
    interpret_insert env_glibc scenario_db (cstr "t") [cstr "carol"] =
      Except.error Fault.null_deref :=
  ⟨⟨by decide, by decide, by decide, by decide, by decide⟩,
   (interpret_insert_value_count env_glibc scenario_db (cstr "t") scenario_table [cstr "carol"] []
     (by decide) (by decide) (by decide)).1 (by decide) (by decide)⟩

/-! ## C31: the ORDER BY clause of a SELECT -/

theorem forall₂_range_map (R : CStr → Nat → Prop) (lines : List CStr) (l : List Nat)
    (n : Nat) (hl : ∀ i ∈ l, i < n)
    (h : List.Forall₂ (fun line (x : Int) => ∃ i : Nat, x = (i : Int) ∧ i < n ∧ R line i) lines
      (l.map (fun (row : Nat) => (row : Int)))) :
    List.Forall₂ R lines l := by
  induction l generalizing lines with
  | nil =>
    cases h
    exact List.Forall₂.nil
  | cons k r ih =>
    rw [List.map_cons] at h
    cases h with
    | cons hhead htail =>
      obtain ⟨i, hi, _, hR⟩ := hhead
      have : k = i := by exact_mod_cast hi
      subst this
      exact List.Forall₂.cons hR (ih _ (fun j hj => hl j (List.mem_cons_of_mem _ hj)) htail)

/-! ## Lemmas: cells that can be displayed -/

theorem utf8_well_formed_cons (b : Nat) (rest : CStr) :
    utf8_well_formed (b :: rest) =
      if b ≤ 0x7F then decide (0 < b) && utf8_well_formed rest
      else if 0xC2 ≤ b ∧ b ≤ 0xDF then
        match rest with
        | b1 :: r => utf8_tail b1 && utf8_well_formed r
        | [] => false
      else if 0xE0 ≤ b ∧ b ≤ 0xEF then
        match rest with
        | b1 :: b2 :: r =>
          utf8_tail b1 && utf8_tail b2 && decide (b = 0xE0 → 0xA0 ≤ b1) &&
            decide (b = 0xED → b1 ≤ 0x9F) && utf8_well_formed r
        | _ => false
      else if 0xF0 ≤ b ∧ b ≤ 0xF4 then
        match rest with
        | b1 :: b2 :: b3 :: r =>
          utf8_tail b1 && utf8_tail b2 && utf8_tail b3 && decide (b = 0xF0 → 0x90 ≤ b1) &&
            decide (b = 0xF4 → b1 ≤ 0x8F) && utf8_well_formed r
        | _ => false
      else false := by
  rcases rest with _ | ⟨x, _ | ⟨y, _ | ⟨z, r⟩⟩⟩ <;> rfl

set_option maxRecDepth 1000000 in
theorem glyph_advance_lead (b : Nat) :
    (0xC2 ≤ b ∧ b ≤ 0xDF → glyph_advance b = 2) ∧ (0xE0 ≤ b ∧ b ≤ 0xEF → glyph_advance b = 3) ∧
    (0xF0 ≤ b ∧ b ≤ 0xF4 → glyph_advance b = 4) := by
  have h : ∀ k, k < 256 →
      (0xC2 ≤ k ∧ k ≤ 0xDF → glyph_advance k = 2) ∧ (0xE0 ≤ k ∧ k ≤ 0xEF → glyph_advance k = 3) ∧
      (0xF0 ≤ k ∧ k ≤ 0xF4 → glyph_advance k = 4) := by decide
  by_cases hb : b < 256
  · exact h b hb
  · exact ⟨fun h1 => by omega, fun h1 => by omega, fun h1 => by omega⟩

/-- On a well-formed string the loop of the counter steps from the start of one sequence to
    the start of the next. -/
theorem utf8_well_formed_step (b : Nat) (rest : CStr) (h : utf8_well_formed (b :: rest) = true) :
    glyph_advance b ≠ 0 ∧ glyph_advance b ≤ (b :: rest).length ∧
      utf8_well_formed ((b :: rest).drop (glyph_advance b)) = true := by
  rw [utf8_well_formed_cons] at h
  obtain ⟨h2, h3, h4⟩ := glyph_advance_lead b
  by_cases c1 : b ≤ 0x7F
  · rw [if_pos c1] at h
    rw [glyph_advance_ascii b c1]
    simp only [Bool.and_eq_true] at h
    exact ⟨by decide, by simp, by simpa using h.2⟩
  · rw [if_neg c1] at h
    by_cases c2 : 0xC2 ≤ b ∧ b ≤ 0xDF
    · rw [if_pos c2] at h
      rw [h2 c2]
      cases rest with
      | nil => simp at h
      | cons b1 r =>
        simp only [Bool.and_eq_true] at h
        exact ⟨by decide, by simp, by simpa using h.2⟩
    · rw [if_neg c2] at h
      by_cases c3 : 0xE0 ≤ b ∧ b ≤ 0xEF
      · rw [if_pos c3] at h
        rw [h3 c3]
        rcases rest with _ | ⟨b1, _ | ⟨b2, r⟩⟩
        · simp at h
        · simp at h
        · simp only [Bool.and_eq_true] at h
          exact ⟨by decide, by simp, by simpa using h.2⟩
      · rw [if_neg c3] at h
        by_cases c4 : 0xF0 ≤ b ∧ b ≤ 0xF4
        · rw [if_pos c4] at h
          rw [h4 c4]
          rcases rest with _ | ⟨b1, _ | ⟨b2, _ | ⟨b3, r⟩⟩⟩
          · simp at h
          · simp at h
          · simp at h
          · simp only [Bool.and_eq_true] at h
            exact ⟨by decide, by simp, by simpa using h.2⟩
        · rw [if_neg c4] at h
          exact absurd h (by decide)

/-- The glyph counter returns on every well-formed UTF-8 string. -/
theorem str_count_well_formed :
    ∀ (m : Nat) (s : CStr), s.length ≤ m → utf8_well_formed s = true →
      ∃ k, str_count_utf8_glyphs s = Except.ok k := by
  intro m
  induction m with
  | zero =>
    intro s hs _
    have : s = [] := List.length_eq_zero.1 (Nat.le_zero.1 hs)
    subst this
    exact ⟨0, rfl⟩
  | succ m ih =>
    intro s hs hwf
    cases s with
    | nil => exact ⟨0, rfl⟩
    | cons b rest =>
      obtain ⟨h0, hle, hrest⟩ := utf8_well_formed_step b rest hwf
      have hlen : ((b :: rest).drop (glyph_advance b)).length ≤ m := by
        rw [List.length_drop]; simp only [List.length_cons] at hs ⊢; omega
      obtain ⟨k, hk⟩ := ih _ hlen hrest
      rw [str_count_step, if_neg h0, if_pos hle, hk]
      exact ⟨k + 1, rfl⟩

theorem digitChar_ascii (d : Nat) (hd : d < 10) : (Nat.digitChar d).toNat ≤ 0x7F := by
  interval_cases d <;> decide

theorem toDigitsCore_ascii :
    ∀ (fuel n : Nat) (ds : List Char), (∀ c ∈ ds, c.toNat ≤ 0x7F) →
      ∀ c ∈ Nat.toDigitsCore 10 fuel n ds, c.toNat ≤ 0x7F := by
  intro fuel
  induction fuel with
  | zero => intro n ds hds; simpa [Nat.toDigitsCore] using hds
  | succ fuel ih =>
    intro n ds hds
    have hds2 : ∀ c ∈ Nat.digitChar (n % 10) :: ds, c.toNat ≤ 0x7F := by
      intro c hc
      rcases List.mem_cons.1 hc with rfl | hc
      · exact digitChar_ascii _ (Nat.mod_lt _ (by decide))
      · exact hds c hc
    simp only [Nat.toDigitsCore]
    split
    · exact hds2
    · exact ih _ _ hds2

/-- The decimal form of an integer is ASCII. -/
theorem int_to_dec_ascii (i : Int) : ∀ c ∈ int_to_dec i, c ≤ 0x7F := by
  have hnat : ∀ n : Nat, ∀ c ∈ nat_to_dec n, c ≤ 0x7F := by
    intro n c hc
    simp only [nat_to_dec, List.mem_map] at hc
    obtain ⟨ch, hch, rfl⟩ := hc
    exact toDigitsCore_ascii _ _ [] (fun _ h => absurd h (List.not_mem_nil _)) ch hch
  intro c hc
  unfold int_to_dec at hc
  split at hc
  · rcases List.mem_cons.1 hc with rfl | hc
    · decide
    · exact hnat _ c hc
  · exact hnat _ c hc

/-- On a table at rest whose String cells can be displayed, the printer returns the text of
    every live cell. -/
theorem itable_row_print_cell_returns (t : Table) (hwf : table_wf t) (htext : text_cells_ok t) :
    ∀ c ∈ t.columns, ∀ i, i < t.meta.row_count →
      fault_free (itable_row_print_cell c i) = true := by
  intro c hc i hi
  obtain ⟨_, hcap, hcols⟩ := hwf
  obtain ⟨hty, hlen, hslots⟩ := hcols c hc
  have hi2 : i < c.data.length := by omega
  have hmem : c.data[i] ∈ c.data.take t.meta.row_count := by
    rw [List.mem_take_iff_getElem]; exact ⟨i, by omega, rfl⟩
  have hslot := hslots _ hmem
  have htxt := htext c hc _ hmem
  have hrow : icolumn_row_get c i = Except.ok c.data[i] := by
    simp [icolumn_row_get, hty, List.getElem?_eq_getElem hi2, pure, Except.pure]
  unfold itable_row_print_cell
  rw [hrow]
  cases hct : c.meta.type with
  | BTYPE_INVALID => exact absurd hct hty
  | BTYPE_STRING =>
    rw [hct] at hslot
    cases hd : c.data[i] with
    | bits v => rw [hd] at hslot; simp [slot_ok] at hslot
    | uninit => rw [hd] at hslot; simp [slot_ok] at hslot
    | ptr str =>
      rw [hd] at htxt
      simp only [slot_text_ok, Bool.and_eq_true, decide_eq_true_eq] at htxt
      obtain ⟨k, hk⟩ := str_count_well_formed _ str (le_refl _) htxt.1
      have htake : str.take (BT_BUFF_SIZE - 1) = str :=
        List.take_of_length_le (by simp only [BT_BUFF_SIZE]; omega)
      simp [basetype_value_to_str, bind, Except.bind, pure, Except.pure, htake, hk, fault_free]
  | BTYPE_INT32 =>
    rw [hct] at hslot
    cases hd : c.data[i] with
    | ptr s => rw [hd] at hslot; simp [slot_ok] at hslot
    | uninit => rw [hd] at hslot; simp [slot_ok] at hslot
    | bits v =>
      simp [basetype_value_to_str, bind, Except.bind, pure, Except.pure,
        str_count_ascii _ (int_to_dec_ascii (as_int32 v)), fault_free]
  | BTYPE_INT64 =>
    rw [hct] at hslot
    cases hd : c.data[i] with
    | ptr s => rw [hd] at hslot; simp [slot_ok] at hslot
    | uninit => rw [hd] at hslot; simp [slot_ok] at hslot
    | bits v =>
      simp [basetype_value_to_str, bind, Except.bind, pure, Except.pure,
        str_count_ascii _ (int_to_dec_ascii (as_int64 v)), fault_free]

end Baza
